import Mathlib

/-!
# Market-making auto-trader (2024 sources): shallow embedding and verified properties

The C++ sources under `2024_src` are embedded as pure Lean functions with explicit
state passing.  Conventions used throughout:

* `long` values are `Int`.  Arithmetic between `long` operands is exact: signed overflow
  is undefined behaviour in C++, so the model describes the overflow-free executions.
* `unsigned long` values are `Nat`.  Counters, sums and products are exact (no total
  leaves the range of its type).  The two places where `unsigned long` arithmetic wraps
  for values of ordinary magnitude are modelled: a subtraction that would go below zero
  and the conversion of a negative `long`, both through `toULong` (reduction modulo
  `2 ^ 64`).  An update `x += u` / `x -= u` of a `long` by an `unsigned long` is evaluated
  by C++ modulo `2 ^ 64` and read back in two's complement; it is modelled as adding or
  subtracting `toLong u`, the two's complement reading of `u`.
* `double` values are rationals `ℚ`.  Outside `mids.h` the arithmetic is exact, which is
  faithful where the values are integers or multiples of 0.25 (times, prices, cash).
* In `mids.h` the fair-value estimate is computed as the code computes it: the volume
  totals of `std::accumulate` and the products of `std::inner_product` are reduced modulo
  `2 ^ 64`, and every `double` operation is rounded to the nearest `double`, ties to even
  (`Double.round`, IEEE 754 binary64).  Where C++ leaves the result undefined (overflow of
  the sum of the two `long` totals, conversion to `long` of a value outside its range) the
  model takes the result on x86-64; no theorem depends on it.
* `std::map` is a key-ordered association list, `std::deque`/`std::vector` are lists
  (front of the deque = head of the list).
* Objects reached through pointers (`Time`, `OrderIDGenerator`, `TradeMatcher`) are passed
  in and returned explicitly.  The `Logger` only writes files and is left out.
* The rate limiter reads `std::chrono::system_clock`.  The reading is an input of the
  model: an argument `clock` where a function consults the limiter once, a stream
  `clocks` where it may consult it several times (each consultation takes the next
  reading, and the stream of the readings not yet taken is returned).
* The calls that the trader makes to the exchange session of its base class
  (`SendInsertOrder`, `SendHedgeOrder`, `SendCancelOrder`) are recorded, in order, in the
  field `outbox`.
* A handler that does not return (a failed `assert`, `back()` on an empty queue) has
  result `none`.
-/

namespace AlgoMM

/-! ## Machine integers -/

/-- The modulus of `unsigned long` arithmetic, two to the power 64. -/
def two64 : Nat := 18446744073709551616

/-- The least value that is not a `long`, two to the power 63. -/
def two63 : Nat := 9223372036854775808

/-- Conversion of an integer value to `unsigned long` (reduction modulo `2 ^ 64`). -/
def toULong (x : Int) : Nat := (x % (two64 : Int)).toNat

/-- Conversion of an `unsigned long` value to `long` (two's complement reading). -/
def toLong (n : Nat) : Int :=
  if n % two64 < two63 then ((n % two64 : Nat) : Int) else ((n % two64 : Nat) : Int) - (two64 : Int)

/-- Predicate: the integer is representable as a `long`. -/
def IsLong (x : Int) : Prop := -(two63 : Int) ≤ x ∧ x < (two63 : Int)

instance (x : Int) : Decidable (IsLong x) := by unfold IsLong; infer_instance

/-! ## types.h -/

/-- The exchange library's `Side` enumeration. -/
inductive Side where
  | SELL
  | BUY
deriving DecidableEq, Repr

/-- The exchange library's `Instrument` enumeration. -/
inductive Instrument where
  | FUTURE
  | ETF
deriving DecidableEq, Repr

/-- The exchange library's `Lifespan` enumeration. -/
inductive Lifespan where
  | FILL_AND_KILL
  | GOOD_FOR_DAY
deriving DecidableEq, Repr

/-- The C++ `struct Order`.  `clientOrderID`, `size` and `price` are `unsigned long`, `time` is a
`double`. -/
structure Order where
  instrument : Instrument
  time : ℚ
  clientOrderID : Nat
  size : Nat
  price : Nat
  side : Side
deriving DecidableEq

/-- The six-argument constructor of `Order`: `sizeIn` and `priceIn` are `long` and are
converted to the `unsigned long` members. -/
def Order.new (clientOrderIDIn : Nat) (sizeIn priceIn : Int) (sideIn : Side) (timeIn : ℚ)
    (instrumentIn : Instrument) : Order :=
  { instrument := instrumentIn, time := timeIn, clientOrderID := clientOrderIDIn,
    size := toULong sizeIn, price := toULong priceIn, side := sideIn }

/-- The C++ `class Time`: the logical clock. -/
structure Time where
  time : ℚ := 0
deriving DecidableEq

/-- The function `Time::advanceTime`. -/
def Time.advanceTime (t : Time) (inc : ℚ) : Time := { time := t.time + inc }

/-! ## std::map as a key-ordered association list -/

namespace Map

variable {κ β : Type} [LinearOrder κ]

/-- Map operation `m.find(k)`: the value stored under `k`, if any. -/
def find : List (κ × β) → κ → Option β
  | [], _ => none
  | e :: rest, k => if e.1 = k then some e.2 else find rest k

/-- Map operation `m.erase(k)`. -/
def erase : List (κ × β) → κ → List (κ × β)
  | [], _ => []
  | e :: rest, k => if e.1 = k then erase rest k else e :: erase rest k

/-- Map operation `m[k] = v`: replaces the value under `k`, or inserts the entry at its place in key
order. -/
def assign : List (κ × β) → κ → β → List (κ × β)
  | [], k, v => [(k, v)]
  | e :: rest, k, v =>
    if e.1 = k then (k, v) :: rest
    else if k < e.1 then (k, v) :: e :: rest
    else e :: assign rest k v

/-- The representation invariant of `std::map`: keys strictly increasing. -/
def WF (m : List (κ × β)) : Prop := (m.map Prod.fst).Pairwise (· < ·)

end Map

/-- The C++ `typedef std::map<unsigned long, Order> OrderList`. -/
abbrev OrderList := List (Nat × Order)

/-- Sum of `size` over the orders of an `OrderList`. -/
def OrderList.totalSize (l : OrderList) : Int := (l.map (fun e => (e.2.size : Int))).sum

/-- The size of the order stored under a key, or 0 when the key is absent. -/
def OrderList.sizeAt (l : OrderList) (k : Nat) : Int :=
  match Map.find l k with
  | some o => (o.size : Int)
  | none => 0

/-! ## order_book.h -/

/-- The C++ `class OrderIDGenerator`. -/
structure OrderIDGenerator where
  currClientOrderID : Nat := 0
deriving DecidableEq

/-- The function `OrderIDGenerator::getNext`: the returned id and the advanced generator. -/
def OrderIDGenerator.getNext (g : OrderIDGenerator) : Nat × OrderIDGenerator :=
  (g.currClientOrderID + 1, { currClientOrderID := g.currClientOrderID + 1 })

/-- The function `OrderIDGenerator::getCurrent`. -/
def OrderIDGenerator.getCurrent (g : OrderIDGenerator) : Nat := g.currClientOrderID

/-- The C++ `class Book`: the data members (the pointers to the id generator, clock and logger are
passed to the member functions instead). -/
structure Book where
  exposure : Int := 0
  submittedBids : Int := 0
  submittedAsks : Int := 0
  dummyCash : ℚ := 0
  bids : OrderList := []
  asks : OrderList := []
  instrument : Instrument := Instrument.FUTURE
  ordersSent : Int := 0
  lotsFilled : Int := 0
  ordersCancelled : Int := 0
deriving DecidableEq

namespace Book

/-- The function `Book::findOrder`: looks in `bids` first, then in `asks`. -/
def findOrder (b : Book) (clientOrderID : Nat) : Option Order :=
  match Map.find b.bids clientOrderID with
  | some o => some o
  | none => Map.find b.asks clientOrderID

/-- The function `Book::orderFilled`, at clock reading `now`: the returned optional and the new book. -/
def orderFilled (b : Book) (now : ℚ) (clientOrderID : Nat) (price fillVolume : Int) :
    Option Order × Book :=
  match b.findOrder clientOrderID with
  | none => (none, b)
  | some found =>
    let order : Order := { found with size := toULong ((found.size : Int) - fillVolume) }
    let b1 : Book :=
      match found.side with
      | Side.BUY =>
        let stored := Map.assign b.bids clientOrderID order
        { b with
          bids := if order.size = 0 then Map.erase stored clientOrderID else stored
          exposure := b.exposure + fillVolume
          submittedBids := b.submittedBids - fillVolume
          dummyCash := b.dummyCash - ((fillVolume * price : Int) : ℚ) }
      | Side.SELL =>
        let stored := Map.assign b.asks clientOrderID order
        { b with
          asks := if order.size = 0 then Map.erase stored clientOrderID else stored
          exposure := b.exposure - fillVolume
          submittedAsks := b.submittedAsks - fillVolume
          dummyCash := b.dummyCash + ((fillVolume * price : Int) : ℚ) }
    let dummyOrder : Order :=
      { order with size := toULong fillVolume, price := toULong price, time := now }
    (some dummyOrder, { b1 with lotsFilled := b1.lotsFilled + fillVolume })

/-- The function `Book::orderClosed`. -/
def orderClosed (b : Book) (clientOrderID : Nat) : Option Order × Book :=
  match b.findOrder clientOrderID with
  | none => (none, b)
  | some order =>
    match order.side with
    | Side.BUY =>
      (some order, { b with
        submittedBids := b.submittedBids - toLong order.size
        bids := Map.erase b.bids clientOrderID })
    | Side.SELL =>
      (some order, { b with
        submittedAsks := b.submittedAsks - toLong order.size
        asks := Map.erase b.asks clientOrderID })

/-- The function `Book::sendOrder`, at clock reading `now` with id generator `g`; `id = 0` is the
default argument and asks the generator for the next id. -/
def sendOrder (b : Book) (g : OrderIDGenerator) (now : ℚ) (inst : Instrument) (side : Side)
    (size price : Int) (id : Nat) : Option Order × Book × OrderIDGenerator :=
  let alloc : Nat × OrderIDGenerator := if id = 0 then g.getNext else (id, g)
  let currClientOrderID := alloc.1
  let newOrder := Order.new currClientOrderID size price side now inst
  let b0 : Book := { b with ordersSent := b.ordersSent + 1 }
  match side with
  | Side.BUY =>
    (some newOrder,
      { b0 with
        submittedBids := b0.submittedBids + size
        bids := Map.assign b0.bids currClientOrderID newOrder },
      alloc.2)
  | Side.SELL =>
    (some newOrder,
      { b0 with
        submittedAsks := b0.submittedAsks + size
        asks := Map.assign b0.asks currClientOrderID newOrder },
      alloc.2)

/-- The function `Book::cancelOrder`. -/
def cancelOrder (b : Book) (clientOrderID : Nat) : Book :=
  match b.findOrder clientOrderID with
  | none => b
  | some _ => { b with ordersCancelled := b.ordersCancelled + 1 }

end Book

/-! ## realised_profit.h -/

/-- The C++ `class TradeMatcher`: the fill log and the two queues of unmatched fills (front
first).  The class has no other data member besides the clock and logger pointers. -/
structure TradeMatcher where
  filledOrders : List Order := []
  unmatchedBids : List Order := []
  unmatchedAsks : List Order := []
deriving DecidableEq

namespace TradeMatcher

/-- The value that one iteration of `settleFilledOrders` computes into its loop-local
variable `double realisedProfit`, for the two front orders.  The loop never reads the
variable again. -/
def realisedProfitOfMatch (bid ask : Order) : ℚ :=
  ((toLong (min bid.size ask.size) : Int) : ℚ) * ((ask.price : ℚ) - (bid.price : ℚ))

/-- The loop of `TradeMatcher::settleFilledOrders` on the two queues. -/
def settleQueues (bids asks : List Order) : List Order × List Order :=
  match bids, asks with
  | bid :: bs, ask :: as =>
    let filledLots := min bid.size ask.size
    let bid1 : Order := { bid with size := bid.size - filledLots }
    let ask1 : Order := { ask with size := ask.size - filledLots }
    settleQueues (if bid1.size ≠ 0 then bid1 :: bs else bs)
      (if ask1.size ≠ 0 then ask1 :: as else as)
  | [], _ => (bids, asks)
  | _, [] => (bids, asks)
termination_by bids.length + asks.length
decreasing_by
  simp only [ne_eq, ite_not]
  split <;> split <;> simp only [List.length_cons] <;> omega

/-- The number of iterations that the loop of `TradeMatcher::settleFilledOrders` makes on
the two queues. -/
def settleIterations (bids asks : List Order) : Nat :=
  match bids, asks with
  | bid :: bs, ask :: as =>
    let filledLots := min bid.size ask.size
    let bid1 : Order := { bid with size := bid.size - filledLots }
    let ask1 : Order := { ask with size := ask.size - filledLots }
    settleIterations (if bid1.size ≠ 0 then bid1 :: bs else bs)
      (if ask1.size ≠ 0 then ask1 :: as else as) + 1
  | [], _ => 0
  | _, [] => 0
termination_by bids.length + asks.length
decreasing_by
  simp only [ne_eq, ite_not]
  split <;> split <;> simp only [List.length_cons] <;> omega


/-- The function `TradeMatcher::settleFilledOrders`. -/
def settleFilledOrders (m : TradeMatcher) : TradeMatcher :=
  let q := settleQueues m.unmatchedBids m.unmatchedAsks
  { m with unmatchedBids := q.1, unmatchedAsks := q.2 }

/-- The function `TradeMatcher::push`. -/
def push (m : TradeMatcher) (order : Order) : TradeMatcher :=
  let m1 : TradeMatcher := { m with filledOrders := m.filledOrders ++ [order] }
  let m2 : TradeMatcher :=
    match order.side with
    | Side.BUY => { m1 with unmatchedBids := m1.unmatchedBids ++ [order] }
    | Side.SELL => { m1 with unmatchedAsks := m1.unmatchedAsks ++ [order] }
  settleFilledOrders m2

end TradeMatcher

/-! ## order_book.h: BooksContainer -/

/-- The C++ `class BooksContainer`: the named books and the aggregated values. -/
structure BooksContainer where
  books : List (String × Book) := []
  instrument : Instrument := Instrument.FUTURE
  submittedBids : Int := 0
  submittedAsks : Int := 0
  exposure : Int := 0
  dummyCash : ℚ := 0
deriving DecidableEq

namespace BooksContainer

/-- The constructor: one fresh `Book` per name. -/
def new (namesIn : List String) (inst : Instrument) : BooksContainer :=
  { books := namesIn.foldl (fun m name => Map.assign m name ({ instrument := inst } : Book)) []
    instrument := inst }

/-- The function `BooksContainer::sendOrder`. -/
def sendOrder (c : BooksContainer) (g : OrderIDGenerator) (now : ℚ) (name : String)
    (instrument : Instrument) (side : Side) (size price : Int) :
    BooksContainer × OrderIDGenerator :=
  match Map.find c.books name with
  | none => (c, g)
  | some book =>
    let r := book.sendOrder g now instrument side size price 0
    let c1 : BooksContainer := { c with books := Map.assign c.books name r.2.1 }
    match side with
    | Side.BUY => ({ c1 with submittedBids := c1.submittedBids + size }, r.2.2)
    | Side.SELL => ({ c1 with submittedAsks := c1.submittedAsks + size }, r.2.2)

/-- The function `BooksContainer::cancelOrder`. -/
def cancelOrder (c : BooksContainer) (clientOrderID : Nat) : BooksContainer :=
  { c with books := c.books.map (fun e => (e.1, e.2.cancelOrder clientOrderID)) }

/-- The aggregate update of `BooksContainer::orderFilled` for one returned fill. -/
def applyFill (c : BooksContainer) (order : Order) : BooksContainer :=
  match order.side with
  | Side.BUY =>
    { c with
      exposure := c.exposure + toLong order.size
      submittedBids := c.submittedBids - toLong order.size
      dummyCash := c.dummyCash - (order.size : ℚ) * (order.price : ℚ) }
  | Side.SELL =>
    { c with
      exposure := c.exposure - toLong order.size
      submittedAsks := c.submittedAsks - toLong order.size
      dummyCash := c.dummyCash + (order.size : ℚ) * (order.price : ℚ) }

/-- The loop of `BooksContainer::orderFilled` over the books still to visit: the
visited books, the container with its aggregates updated, and the matcher. -/
def orderFilledLoop (now : ℚ) (clientOrderID : Nat) (price fillVolume : Int) :
    List (String × Book) → BooksContainer → TradeMatcher →
      List (String × Book) × BooksContainer × TradeMatcher
  | [], c, m => ([], c, m)
  | e :: rest, c, m =>
    let r := e.2.orderFilled now clientOrderID price fillVolume
    match r.1 with
    | none =>
      let t := orderFilledLoop now clientOrderID price fillVolume rest c m
      ((e.1, r.2) :: t.1, t.2.1, t.2.2)
    | some order =>
      let t := orderFilledLoop now clientOrderID price fillVolume rest (applyFill c order)
        (m.push order)
      ((e.1, r.2) :: t.1, t.2.1, t.2.2)

/-- The function `BooksContainer::orderFilled`. -/
def orderFilled (c : BooksContainer) (m : TradeMatcher) (now : ℚ) (clientOrderID : Nat)
    (price fillVolume : Int) : BooksContainer × TradeMatcher :=
  let t := orderFilledLoop now clientOrderID price fillVolume c.books c m
  ({ t.2.1 with books := t.1 }, t.2.2)

/-- The aggregate update of `BooksContainer::orderClosed` for one returned order. -/
def applyClose (c : BooksContainer) (order : Order) : BooksContainer :=
  match order.side with
  | Side.BUY => { c with submittedBids := c.submittedBids - toLong order.size }
  | Side.SELL => { c with submittedAsks := c.submittedAsks - toLong order.size }

/-- The loop of `BooksContainer::orderClosed`. -/
def orderClosedLoop (clientOrderID : Nat) :
    List (String × Book) → BooksContainer → List (String × Book) × BooksContainer
  | [], c => ([], c)
  | e :: rest, c =>
    let r := e.2.orderClosed clientOrderID
    match r.1 with
    | none =>
      let t := orderClosedLoop clientOrderID rest c
      ((e.1, r.2) :: t.1, t.2)
    | some order =>
      let t := orderClosedLoop clientOrderID rest (applyClose c order)
      ((e.1, r.2) :: t.1, t.2)

/-- The function `BooksContainer::orderClosed`. -/
def orderClosed (c : BooksContainer) (clientOrderID : Nat) : BooksContainer :=
  let t := orderClosedLoop clientOrderID c.books c
  { t.2 with books := t.1 }

/-- The function `BooksContainer::getSubmittedBids`. -/
def getSubmittedBids (c : BooksContainer) : Int := c.submittedBids

/-- The function `BooksContainer::getSubmitedAsks`. -/
def getSubmitedAsks (c : BooksContainer) : Int := c.submittedAsks

/-- The function `BooksContainer::getExposure`. -/
def getExposure (c : BooksContainer) : Int := c.exposure

/-- The function `BooksContainer::getDummyCash`. -/
def getDummyCash (c : BooksContainer) : ℚ := c.dummyCash

/-- The function `BooksContainer::getBids`: the bids of all books merged into one map; `insert` keeps
the entry already present under a key. -/
def getBids (c : BooksContainer) : OrderList :=
  c.books.foldl (fun acc e =>
    e.2.bids.foldl (fun a o => if (Map.find a o.1).isSome then a else Map.assign a o.1 o.2) acc) []

/-- The function `BooksContainer::getAsks`. -/
def getAsks (c : BooksContainer) : OrderList :=
  c.books.foldl (fun acc e =>
    e.2.asks.foldl (fun a o => if (Map.find a o.1).isSome then a else Map.assign a o.1 o.2) acc) []

/-- The loop of `BooksContainer::findOrder`. -/
def findOrderIn (clientOrderID : Nat) : List (String × Book) → Option Order
  | [] => none
  | e :: rest =>
    match e.2.findOrder clientOrderID with
    | some o => some o
    | none => findOrderIn clientOrderID rest

/-- The function `BooksContainer::findOrder`. -/
def findOrder (c : BooksContainer) (clientOrderID : Nat) : Option Order :=
  findOrderIn clientOrderID c.books

/-- The function `BooksContainer::getBook`. -/
def getBook (c : BooksContainer) (name : String) : Option Book := Map.find c.books name

end BooksContainer

/-! ## rate_limiter.h -/

/-- State of `MessageFrequencyLimiter`: the deque `messageTimes` (front first) and the
capacity `messagesPerSecond`.  The clock reading
`(std::chrono::system_clock::now() - startTime).count()`, an integral tick count that the
code stores in a `double`, is an input of `sendMessage`. -/
structure MessageFrequencyLimiter where
  messageTimes : List ℚ := []
  messagesPerSecond : Int := 50
deriving DecidableEq

namespace MessageFrequencyLimiter

/-- The loop `while (messageTimes.size() > 0 && time - messageTimes.front() > 1) pop_front()`. -/
def popExpired (time : ℚ) : List ℚ → List ℚ
  | [] => []
  | s :: rest => if time - s > 1 then popExpired time rest else s :: rest

/-- The function `MessageFrequencyLimiter::sendMessage`, with the clock reading `time` passed in.
The comparison `messageTimes.size() < messagesPerSecond` is between a `size_t` and a
`long`, hence evaluated in `unsigned long`. -/
def sendMessage (l : MessageFrequencyLimiter) (time : ℚ) : Bool × MessageFrequencyLimiter :=
  let w := popExpired time l.messageTimes
  if toULong (w.length : Int) < toULong l.messagesPerSecond then
    (true, { l with messageTimes := w ++ [time] })
  else
    (false, { l with messageTimes := w })

/-- The function `MessageFrequencyLimiter::setSpeed`. -/
def setSpeed (l : MessageFrequencyLimiter) (speed : Int) : MessageFrequencyLimiter :=
  { l with messagesPerSecond := speed * 50 }

/-- Consecutive `sendMessage` calls at the given clock readings: the results in call
order and the final limiter. -/
def sendMessages (l : MessageFrequencyLimiter) : List ℚ → List Bool × MessageFrequencyLimiter
  | [] => ([], l)
  | t :: ts =>
    let r := sendMessage l t
    let rest := sendMessages r.2 ts
    (r.1 :: rest.1, rest.2)

/-- The clock readings of the calls that returned `true`. -/
def accepted : List ℚ → List Bool → List ℚ
  | t :: ts, r :: rs => if r then t :: accepted ts rs else accepted ts rs
  | _, _ => []

end MessageFrequencyLimiter

/-! ## data_handling.h -/

/-- The C++ `class MarketStream`: the vector `data`.  The derived vector `logData` of log-returns
is not part of the model. -/
structure MarketStream where
  data : List ℚ := []
deriving DecidableEq

namespace MarketStream

/-- The function `MarketStream::push` (the `data` vector). -/
def push (s : MarketStream) (value : ℚ) : MarketStream := { data := s.data ++ [value] }

/-- The function `MarketStream::getBack`. -/
def getBack (s : MarketStream) : Option ℚ := s.data.getLast?

/-- The function `MarketStream::getBackNth`, for the value `n` of its `int` argument.
The comparison `n > data.size() - 1` and the index `data.size() - 1 - n` are evaluated in
`unsigned long`.  The result is `some none` for the empty optional, and `none` when the
index lies outside the vector, where the element access has no defined result. -/
def getBackNth (s : MarketStream) (n : Int) : Option (Option ℚ) :=
  if toULong n > toULong ((s.data.length : Int) - 1) then some none
  else
    match s.data[toULong ((s.data.length : Int) - 1 - n)]? with
    | some value => some (some value)
    | none => none


end MarketStream

/-! ## mids.h -/

/-- Conversion `(long) x` of a `double`: truncation toward zero. -/
def truncToLong (x : ℚ) : Int := if 0 ≤ x then ⌊x⌋ else ⌈x⌉

/-! ### IEEE 754 binary64 arithmetic -/

namespace Double

/-- The power `2 ^ k` for an integer exponent `k`. -/
def pow2 (k : Int) : ℚ :=
  if 0 ≤ k then ((2 ^ k.toNat : Nat) : ℚ) else 1 / ((2 ^ (-k).toNat : Nat) : ℚ)

/-- The loop of `log2`: the number of times `n` can be halved before it drops below 2,
in at most `fuel` steps. -/
def log2Loop : Nat → Nat → Nat
  | 0, _ => 0
  | fuel + 1, n => if 2 ≤ n then log2Loop fuel (n / 2) + 1 else 0

/-- The position of the leading bit of `n`: the `k` with `2 ^ k ≤ n < 2 ^ (k + 1)`, for
`n ≠ 0`. -/
def log2 (n : Nat) : Nat := log2Loop n n

/-- The binary exponent of a nonzero value `x`: the `k` with `2 ^ k ≤ |x| < 2 ^ (k + 1)`. -/
def exponent (x : ℚ) : Int :=
  let e0 : Int := (log2 x.num.natAbs : Int) - (log2 x.den : Int)
  if pow2 e0 ≤ |x| then e0 else e0 - 1

/-- The integer nearest to `s`; the even one of the two nearest when `s` lies halfway
between them. -/
def roundHalfEven (s : ℚ) : Int :=
  if s - (⌊s⌋ : ℚ) < 1 / 2 then ⌊s⌋
  else if 1 / 2 < s - (⌊s⌋ : ℚ) then ⌊s⌋ + 1
  else if ⌊s⌋ % 2 = 0 then ⌊s⌋ else ⌊s⌋ + 1

/-- The `double` nearest to the value `x`, in the rounding mode of C++ arithmetic (to
nearest, ties to even).  A `double` is an integer of at most 53 bits times a power of
two: for `2 ^ k ≤ |x| < 2 ^ (k + 1)` the doubles around `x` are the multiples of
`2 ^ (k - 52)`.  The exponent range of the format is not modelled: for arrays of the
depth of an order book (anything below `2 ^ 32` levels) the values that
`calculateInverseVWAP` rounds are 0 or of a magnitude between `2 ^ (-200)` and `2 ^ 200`,
far from the subnormal numbers below `2 ^ (-1022)` and from the overflow threshold
`2 ^ 1024`. -/
def round (x : ℚ) : ℚ :=
  if x = 0 then 0
  else ((roundHalfEven (x / pow2 (exponent x - 52)) : Int) : ℚ) * pow2 (exponent x - 52)

/-- The sum `x + y` of two doubles. -/
def add (x y : ℚ) : ℚ := round (x + y)

/-- The product `x * y` of two doubles. -/
def mul (x y : ℚ) : ℚ := round (x * y)

/-- The quotient `x / y` of two doubles, for `y ≠ 0`. -/
def div (x y : ℚ) : ℚ := round (x / y)

/-- Conversion of a `long` value to `double`. -/
def ofLong (n : Int) : ℚ := round (n : ℚ)

/-- Conversion of an `unsigned long` value to `double`. -/
def ofULong (n : Nat) : ℚ := round (n : ℚ)

/-- Conversion `(long) x` of a `double`, where `none` stands for a `double` that is not
finite: truncation toward zero.  C++ leaves the conversion undefined when the truncated
value is not a `long` or `x` is not finite; the model takes what the conversion
instruction of x86-64 returns then, `-2 ^ 63`. -/
def toLong (x : Option ℚ) : Int :=
  match x with
  | some v => if IsLong (truncToLong v) then truncToLong v else -(two63 : Int)
  | none => -(two63 : Int)

/-- The value `x` is `y` up to `k` roundings: `(1 - 2 ^ (-53)) ^ k * y ≤ x` and
`x ≤ (1 + 2 ^ (-53)) ^ k * y`. -/
def Near (k : Nat) (x y : ℚ) : Prop :=
  (1 - 1 / 2 ^ 53) ^ k * y ≤ x ∧ x ≤ (1 + 1 / 2 ^ 53) ^ k * y

end Double

namespace InverseVWAP

/-- The constant `InverseVWAP::ticksForOutlier`. -/
def ticksForOutlier : Int := 1000

/-- The array `askVolumes` after the outlier loop, for arrays of `depth` levels
(`a[i]` is `a.getD i 0`).  The difference of the two `unsigned long` prices wraps. -/
def filteredAskVolumes (depth : Nat) (askPricesIn askVolumesIn : List Nat) : List Nat :=
  (List.range depth).map (fun i =>
    if toULong ((askPricesIn.getD i 0 : Int) - (askPricesIn.getD 0 0 : Int))
        > toULong ticksForOutlier
    then 0 else askVolumesIn.getD i 0)

/-- The array `bidVolumes` after the outlier loop. -/
def filteredBidVolumes (depth : Nat) (bidPricesIn bidVolumesIn : List Nat) : List Nat :=
  (List.range depth).map (fun i =>
    if toULong ((bidPricesIn.getD 0 0 : Int) - (bidPricesIn.getD i 0 : Int))
        > toULong ticksForOutlier
    then 0 else bidVolumesIn.getD i 0)

/-- The call `std::accumulate(volumes.begin(), volumes.end(), (long)0)`: the accumulator
is a `long`, and each step `init = init + *first` adds an `unsigned long` to it, so the
sum is formed in `unsigned long` (modulo `2 ^ 64`) and converted back to `long`. -/
def accumulate (volumes : List Nat) : Int :=
  volumes.foldl (fun (init : Int) (v : Nat) => toLong (toULong (init + (v : Int)))) 0

/-- The call `std::inner_product(prices, volumes, (double)0)` over `depth` levels: each
product is formed in `unsigned long`, converted to `double` and added to the `double`
accumulator. -/
def innerProduct (depth : Nat) (prices volumes : List Nat) : ℚ :=
  (List.range depth).foldl (fun (init : ℚ) (i : Nat) =>
    Double.add init (Double.ofULong ((prices.getD i 0 * volumes.getD i 0) % two64))) 0

/-- The function `InverseVWAP::calculateInverseVWAP` for arrays of `depth` levels.  The
averages and the price are computed in `double` arithmetic, every operation rounded.
The sum `totalBidVolume + totalAskVolume` of two `long` values wraps on overflow (C++
leaves the overflow undefined); when it is 0 the price is the result of a division by
zero, which is not finite (`none`).  The product `mid * tickSize` wraps likewise. -/
def calculateInverseVWAP (depth : Nat) (askPricesIn askVolumesIn bidPricesIn bidVolumesIn :
    List Nat) : Option ℚ :=
  let askVolumes := filteredAskVolumes depth askPricesIn askVolumesIn
  let bidVolumes := filteredBidVolumes depth bidPricesIn bidVolumesIn
  let totalBidVolume : Int := accumulate bidVolumes
  let totalAskVolume : Int := accumulate askVolumes
  if totalBidVolume = 0 ∨ totalAskVolume = 0 then none
  else
    let avgAsk : ℚ :=
      Double.div (innerProduct depth askPricesIn askVolumes) (Double.ofLong totalAskVolume)
    let avgBid : ℚ :=
      Double.div (innerProduct depth bidPricesIn bidVolumes) (Double.ofLong totalBidVolume)
    let totalVolume : Int := toLong (toULong (totalBidVolume + totalAskVolume))
    let price : Option ℚ :=
      if totalVolume = 0 then none
      else some (Double.div
        (Double.add (Double.mul avgBid (Double.ofLong totalAskVolume))
          (Double.mul avgAsk (Double.ofLong totalBidVolume)))
        (Double.ofLong totalVolume))
    let mid : Int := toLong (toULong (Double.toLong (price.map (fun p =>
      Double.div (Double.add p (Double.ofLong (Int.tdiv 100 2))) (Double.ofLong 100))) * 100))
    some (Double.ofLong mid)

/-- The function `InverseVWAP::calculateMid`: the returned optional and the `estimates` stream. -/
def calculateMid (estimates : MarketStream) (depth : Nat)
    (askPricesIn askVolumesIn bidPricesIn bidVolumesIn : List Nat) :
    Option Int × MarketStream :=
  match calculateInverseVWAP depth askPricesIn askVolumesIn bidPricesIn bidVolumesIn with
  | none => (none, estimates)
  | some mid => (some (truncToLong mid), estimates.push mid)

/-- The sum of price times volume over `depth` levels, in exact arithmetic. -/
def priceVolume (depth : Nat) (prices volumes : List Nat) : Nat :=
  ((List.range depth).map (fun i => prices.getD i 0 * volumes.getD i 0)).sum

/-- The price `P = (avgBid × A + avgAsk × B) / (A + B)` of a snapshot in exact arithmetic,
where `B` and `A` are the total filtered bid and ask volumes and `avgBid`, `avgAsk` the
filtered volume-weighted average prices. -/
def exactPrice (depth : Nat) (askPricesIn askVolumesIn bidPricesIn bidVolumesIn : List Nat) :
    ℚ :=
  let askVolumes := filteredAskVolumes depth askPricesIn askVolumesIn
  let bidVolumes := filteredBidVolumes depth bidPricesIn bidVolumesIn
  let totalBidVolume : ℚ := (bidVolumes.sum : Nat)
  let totalAskVolume : ℚ := (askVolumes.sum : Nat)
  let avgAsk : ℚ := (priceVolume depth askPricesIn askVolumes : Nat) / totalAskVolume
  let avgBid : ℚ := (priceVolume depth bidPricesIn bidVolumes : Nat) / totalBidVolume
  (avgBid * totalAskVolume + avgAsk * totalBidVolume) / (totalBidVolume + totalAskVolume)

/-- The value `p` rounded half-up to a multiple of the tick size 100. -/
def roundHalfUp (p : ℚ) : Int := ⌊(p + 50) / 100⌋ * 100

end InverseVWAP

/-! ## autotrader.h, autotrader.cc -/

/-- Constants that the sources use and do not define: `TradingParameters::positionLimit`
and the exchange library's `MINIMUM_BID`, `MAXIMUM_ASK` and `TOP_LEVEL_COUNT`. -/
structure Constants where
  positionLimit : Int
  MINIMUM_BID : Int
  MAXIMUM_ASK : Int
  TOP_LEVEL_COUNT : Nat
deriving DecidableEq

/-- Sample values for the constants: the exchange library's published price bounds and
depth, and a position limit of 100 lots. -/
def Constants.sample : Constants :=
  { positionLimit := 100, MINIMUM_BID := 1, MAXIMUM_ASK := 2147483647, TOP_LEVEL_COUNT := 5 }

/-- The C++ `struct ExchangeOrderBookData`. -/
structure ExchangeOrderBookData where
  askPrices : List Nat
  askVolumes : List Nat
  bidPrices : List Nat
  bidVolumes : List Nat
deriving DecidableEq

/-- A call to the exchange session made by the base class: `SendInsertOrder`,
`SendHedgeOrder` or `SendCancelOrder`, with its `unsigned long` arguments. -/
inductive ExchangeCall where
  | insertOrder (clientOrderId : Nat) (side : Side) (price volume : Nat) (lifespan : Lifespan)
  | hedgeOrder (clientOrderId : Nat) (side : Side) (price volume : Nat)
  | cancelOrder (clientOrderId : Nat)
deriving DecidableEq

/-- The C++ `class AutoTrader`: the data members, and the calls made to the exchange so far. -/
structure AutoTrader where
  etfPriceHistory : MarketStream := {}
  futuresPriceHistory : MarketStream := {}
  networthHistory : MarketStream := {}
  spreadHistory : MarketStream := {}
  bidPriceHistory : MarketStream := {}
  askPriceHistory : MarketStream := {}
  etfExchangeOrderBookData : List ExchangeOrderBookData := []
  futureExchangeOrderBookData : List ExchangeOrderBookData := []
  currSequenceNumber : Int := 0
  time : Time := {}
  idGen : OrderIDGenerator := {}
  matchingEngine : TradeMatcher := {}
  allEtfBooks : BooksContainer := BooksContainer.new ["ETF"] Instrument.ETF
  allFutureBooks : BooksContainer := BooksContainer.new ["Future"] Instrument.FUTURE
  frequencyLimiter : MessageFrequencyLimiter := {}
  outbox : List ExchangeCall := []
deriving DecidableEq

namespace AutoTrader

/-- The constructor `AutoTrader::AutoTrader`: default members, limiter speed 4. -/
def new : AutoTrader :=
  { frequencyLimiter := MessageFrequencyLimiter.setSpeed {} 4 }

/-- The container that `sendOrder` reads and updates for an instrument. -/
def container (a : AutoTrader) (instrument : Instrument) : BooksContainer :=
  if instrument = Instrument.ETF then a.allEtfBooks else a.allFutureBooks

/-- The size that `AutoTrader::sendOrder` computes from the requested size. -/
def clampedSize (k : Constants) (a : AutoTrader) (instrument : Instrument) (side : Side)
    (size : Int) : Int :=
  let marketExposure := (a.container instrument).getExposure
  let marketBids := (a.container instrument).getSubmittedBids
  let marketAsks := (a.container instrument).getSubmitedAsks
  match side with
  | Side.BUY => min size (k.positionLimit - marketExposure - marketBids)
  | Side.SELL => min size (marketExposure - marketAsks + k.positionLimit)

/-- The function `AutoTrader::sendOrder`, with the wall-clock reading `clock` that the frequency
limiter takes. -/
def sendOrder (k : Constants) (a : AutoTrader) (clock : ℚ) (name : String)
    (instrument : Instrument) (side : Side) (size price : Int) : Bool × AutoTrader :=
  let lim := a.frequencyLimiter.sendMessage clock
  let a1 : AutoTrader := { a with frequencyLimiter := lim.2 }
  if lim.1 = false then (false, a1)
  else if price > k.MAXIMUM_ASK ∨ price < k.MINIMUM_BID then (false, a1)
  else
    let size1 := clampedSize k a1 instrument side size
    if size1 ≤ 0 then (false, a1)
    else
      let price1 : Int := Int.tdiv (price + Int.tdiv 100 2) 100 * 100
      if instrument = Instrument.ETF then
        let r := a1.allEtfBooks.sendOrder a1.idGen a1.time.time name Instrument.ETF side
          size1 price1
        (true, { a1 with
          allEtfBooks := r.1
          idGen := r.2
          outbox := a1.outbox ++ [ExchangeCall.insertOrder r.2.getCurrent side
            (toULong price1) (toULong size1) Lifespan.GOOD_FOR_DAY] })
      else
        let r := a1.allFutureBooks.sendOrder a1.idGen a1.time.time name Instrument.FUTURE side
          size1 price1
        (true, { a1 with
          allFutureBooks := r.1
          idGen := r.2
          outbox := a1.outbox ++ [ExchangeCall.hedgeOrder r.2.getCurrent side
            (toULong price1) (toULong size1)] })

end AutoTrader

/-! ## signals.h -/

/-- The C++ `typedef std::string Signal`. -/
abbrev Signal := String

/-- The constant `up_trend`. -/
def up_trend : Signal := "UPWARDS_TREND"

/-- The constant `down_trend`. -/
def down_trend : Signal := "DOWNWARDS_TREND"

namespace RepeatedTradeMomentum

/-- The constant `timePeriod` of `getSignal`. -/
def timePeriod : ℚ := 1

/-- The constant `tradesForSignal` of `getSignal`. -/
def tradesForSignal : Int := 2

/-- The loop of `RepeatedTradeMomentum::getSignal` over the fills still to visit, most
recent first: the counters `(bids, asks)`.  The loop breaks at the first fill whose age
`now - order.time` exceeds `timePeriod`. -/
def countRecent (now : ℚ) : List Order → Int × Int
  | [] => (0, 0)
  | order :: older =>
    if now - order.time > timePeriod then (0, 0)
    else
      match order.side with
      | Side.BUY => ((countRecent now older).1 + 1, (countRecent now older).2)
      | Side.SELL => ((countRecent now older).1, (countRecent now older).2 + 1)

/-- The function `RepeatedTradeMomentum::getSignal`, given the matcher's fill log (oldest
first) and the reading `now` of the logical clock. -/
def getSignal (filledOrders : List Order) (now : ℚ) : Option Signal :=
  let c := countRecent now filledOrders.reverse
  if c.1 ≥ tradesForSignal ∧ c.2 ≥ tradesForSignal then none
  else if c.1 ≥ tradesForSignal then some down_trend
  else if c.2 ≥ tradesForSignal then some up_trend
  else none

end RepeatedTradeMomentum

/-! ## autotrader.h: Interval -/

/-- The C++ `struct Interval`: inclusive bounds held as `double`. -/
structure Interval where
  lower : ℚ
  upper : ℚ
deriving DecidableEq

/-- The function `Interval::getClosestToValue`. -/
def Interval.getClosestToValue (r : Interval) (val : ℚ) : ℚ :=
  if val < r.lower then r.lower
  else if val > r.upper then r.upper
  else val

/-! ## autotrader.cc: quoting, stale orders, hedging, message handlers -/

/-- The function `ExchangeOrderBookData::getMid`: an `unsigned long` division, returned
as a `double`. -/
def ExchangeOrderBookData.getMid (d : ExchangeOrderBookData) : ℚ :=
  (((d.bidPrices.getD 0 0 + d.askPrices.getD 0 0) / 2 : Nat) : ℚ)

namespace AutoTrader

/-- The tick rounding of `AutoTrader::sendOrder`:
`((long) ((price + tickSize / 2) / tickSize)) * tickSize` with `tickSize = 100`. -/
def roundToTick (price : Int) : Int := Int.tdiv (price + Int.tdiv 100 2) 100 * 100

/-- The constant `minSpread` of `getOrderPrices`. -/
def minSpread : Int := 150

/-- The constant `maxSpread` of `getOrderPrices`. -/
def maxSpread : Int := 500

/-- The constant `maxAskPriority` of `getOrderPrices`. -/
def maxAskPriority : Int := 100

/-- The constant `maxBidPriority` of `getOrderPrices`. -/
def maxBidPriority : Int := 100

/-- The constant `momentumSlippage` of `getOrderPrices`. -/
def momentumSlippage : Int := 300

/-- The local variables of the priority loop of `getOrderPrices`. -/
structure PriorityScan where
  priorityBid : Int := 0
  priorityAsk : Int := 0
  totalBids : Int := 0
  totalAsks : Int := 0
deriving DecidableEq

/-- One iteration, for level `i`, of the priority loop of `getOrderPrices`; the index
`std::max(0, i - 1)` is `i - 1` in natural numbers. -/
def scanLevel (askPrices askVolumes bidPrices bidVolumes : List Nat) (s : PriorityScan)
    (i : Nat) : PriorityScan :=
  let totalBids := s.totalBids + toLong (bidVolumes.getD i 0)
  let priorityBid :=
    if totalBids ≥ maxBidPriority ∧ s.priorityBid = 0 then toLong (bidPrices.getD (i - 1) 0)
    else s.priorityBid
  let totalAsks := s.totalAsks + toLong (askVolumes.getD i 0)
  let priorityAsk :=
    if totalAsks ≥ maxAskPriority ∧ s.priorityAsk = 0 then toLong (askPrices.getD (i - 1) 0)
    else s.priorityAsk
  { priorityBid := priorityBid, priorityAsk := priorityAsk, totalBids := totalBids,
    totalAsks := totalAsks }

/-- The priority loop of `getOrderPrices` over `depth` levels. -/
def scanLevels (depth : Nat) (askPrices askVolumes bidPrices bidVolumes : List Nat) :
    PriorityScan :=
  (List.range depth).foldl (scanLevel askPrices askVolumes bidPrices bidVolumes) {}

/-- Section 1 of `getOrderPrices`: the pair `(bidPrice, askPrice)` before the signal
adjustment. -/
def priorityPrices (depth : Nat) (mid : Int)
    (askPrices askVolumes bidPrices bidVolumes : List Nat) : Int × Int :=
  let bidRange : Interval := { lower := ((mid - maxSpread : Int) : ℚ),
                               upper := ((mid - minSpread : Int) : ℚ) }
  let askRange : Interval := { lower := ((mid + minSpread : Int) : ℚ),
                               upper := ((mid + maxSpread : Int) : ℚ) }
  let s := scanLevels depth askPrices askVolumes bidPrices bidVolumes
  let bidPrice : Int :=
    if s.priorityBid ≠ 0 then truncToLong (bidRange.getClosestToValue ((s.priorityBid : Int) : ℚ))
    else truncToLong bidRange.lower
  let askPrice : Int :=
    if s.priorityAsk ≠ 0 then truncToLong (askRange.getClosestToValue ((s.priorityAsk : Int) : ℚ))
    else truncToLong askRange.upper
  (bidPrice, askPrice)

/-- Section 2 of `getOrderPrices`: the adjustment of the pair `(bidPrice, askPrice)` for
the momentum signal. -/
def applySignal (signalOptional : Option Signal) (prices : Int × Int) : Int × Int :=
  match signalOptional with
  | none => prices
  | some signal =>
    if signal = up_trend then (prices.1 + 100, prices.2 + momentumSlippage)
    else if signal = down_trend then (prices.1 - momentumSlippage, prices.2 - 100)
    else prices

/-- The function `AutoTrader::getOrderPrices`: the returned pair `(bidPrice, askPrice)` and
the trader with the three history streams extended. -/
def getOrderPrices (k : Constants) (a : AutoTrader) (mid : Int)
    (askPrices askVolumes bidPrices bidVolumes : List Nat) : (Int × Int) × AutoTrader :=
  let signalOptional :=
    RepeatedTradeMomentum.getSignal a.matchingEngine.filledOrders a.time.time
  let prices := applySignal signalOptional
    (priorityPrices k.TOP_LEVEL_COUNT mid askPrices askVolumes bidPrices bidVolumes)
  (prices, { a with
    spreadHistory := a.spreadHistory.push ((prices.2 - prices.1 : Int) : ℚ)
    bidPriceHistory := a.bidPriceHistory.push ((prices.1 : Int) : ℚ)
    askPriceHistory := a.askPriceHistory.push ((prices.2 : Int) : ℚ) })

/-- The function `AutoTrader::cancelOrder`, with the wall-clock reading `clock` that the
frequency limiter takes. -/
def cancelOrder (a : AutoTrader) (clock : ℚ) (clientOrderID : Nat) : Bool × AutoTrader :=
  let lim := a.frequencyLimiter.sendMessage clock
  let a1 : AutoTrader := { a with frequencyLimiter := lim.2 }
  if lim.1 = false then (false, a1)
  else
    (true, { a1 with
      outbox := a1.outbox ++ [ExchangeCall.cancelOrder clientOrderID]
      allEtfBooks := a1.allEtfBooks.cancelOrder clientOrderID
      allFutureBooks := a1.allFutureBooks.cancelOrder clientOrderID })

/-- The constant `allowedUncompetitiveSlippage` of `detectStaleOrders`. -/
def allowedUncompetitiveSlippage : Int := 100

/-- The constant `minSpread` of `detectStaleOrders` (half sided). -/
def staleMinSpread : Int := 50

/-- The cancellation test of `detectStaleOrders` for a resting bid; `order.price` is an
`unsigned long`, so both differences are evaluated in `unsigned long`. -/
def staleBid (mid bidPrice : Int) (order : Order) : Bool :=
  decide (toULong ((order.price : Int) - bidPrice) > toULong allowedUncompetitiveSlippage) ||
  decide (toULong (mid - (order.price : Int)) < toULong staleMinSpread)

/-- The cancellation test of `detectStaleOrders` for a resting ask. -/
def staleAsk (mid askPrice : Int) (order : Order) : Bool :=
  decide (toULong (askPrice - (order.price : Int)) > toULong allowedUncompetitiveSlippage) ||
  decide (toULong ((order.price : Int) - mid) < toULong staleMinSpread)

/-- One loop of `detectStaleOrders` over the orders still to visit: the counter of
successful cancellations, the trader, and the wall-clock readings not yet taken.  Each
call of `cancelOrder` takes the next reading. -/
def cancelStale (isStale : Order → Bool) :
    List (Nat × Order) → AutoTrader → (Nat → ℚ) → Int → Int × AutoTrader × (Nat → ℚ)
  | [], a, clocks, cancelled => (cancelled, a, clocks)
  | e :: rest, a, clocks, cancelled =>
    if isStale e.2 then
      let r := cancelOrder a (clocks 0) e.2.clientOrderID
      cancelStale isStale rest r.2 (fun i => clocks (i + 1))
        (if r.1 then cancelled + 1 else cancelled)
    else cancelStale isStale rest a clocks cancelled

/-- The function `AutoTrader::detectStaleOrders`: the pair of cancellation counts, the
trader, and the wall-clock readings not yet taken. -/
def detectStaleOrders (a : AutoTrader) (clocks : Nat → ℚ) (mid bidPrice askPrice : Int) :
    (Int × Int) × AutoTrader × (Nat → ℚ) :=
  let rb : Int × AutoTrader × (Nat → ℚ) :=
    if bidPrice ≠ 0 then cancelStale (staleBid mid bidPrice) a.allEtfBooks.getBids a clocks 0
    else (0, a, clocks)
  let ra : Int × AutoTrader × (Nat → ℚ) :=
    if askPrice ≠ 0 then
      cancelStale (staleAsk mid askPrice) rb.2.1.allEtfBooks.getAsks rb.2.1 rb.2.2 0
    else (0, rb.2.1, rb.2.2)
  ((rb.1, ra.1), ra.2.1, ra.2.2)

/-- The constant `lotSize` of `makeMarket`. -/
def lotSize : Int := 50

/-- The constant `maxSubmittedOrders` of `makeMarket`. -/
def maxSubmittedOrders : Int := 50

/-- The function `AutoTrader::makeMarket`: the trader and the wall-clock readings not yet
taken.  Each of the two `sendOrder` calls takes the next reading. -/
def makeMarket (k : Constants) (a : AutoTrader) (clocks : Nat → ℚ) (mid : Int)
    (askPrices askVolumes bidPrices bidVolumes : List Nat) : AutoTrader × (Nat → ℚ) :=
  let prices := getOrderPrices k a mid askPrices askVolumes bidPrices bidVolumes
  let bidPrice := prices.1.1
  let askPrice := prices.1.2
  let canceledOrders := detectStaleOrders prices.2 clocks mid bidPrice askPrice
  let a1 := canceledOrders.2.1
  let clocks1 := canceledOrders.2.2
  let bidSize := min lotSize
    (maxSubmittedOrders + canceledOrders.1.1 - a1.allEtfBooks.getSubmittedBids)
  let askSize := min lotSize
    (maxSubmittedOrders + canceledOrders.1.2 - a1.allEtfBooks.getSubmitedAsks)
  let a2 := (sendOrder k a1 (clocks1 0) "ETF" Instrument.ETF Side.BUY bidSize bidPrice).2
  let a3 := (sendOrder k a2 (clocks1 1) "ETF" Instrument.ETF Side.SELL askSize askPrice).2
  (a3, fun i => clocks1 (i + 2))

/-- The constant `hedgeSpread` of `hedge`. -/
def hedgeSpread : Int := 100

/-- The function `AutoTrader::hedge`, with the wall-clock reading `clock` that its
`sendOrder` call takes. -/
def hedge (k : Constants) (a : AutoTrader) (clock : ℚ) : AutoTrader :=
  let totalExposure := a.allEtfBooks.getExposure + a.allFutureBooks.getExposure
  let side := if totalExposure > 0 then Side.SELL else Side.BUY
  match a.bidPriceHistory.getBack, a.askPriceHistory.getBack with
  | some lastBid, some lastAsk =>
    let hedgePrice : Int :=
      match side with
      | Side.BUY => truncToLong (lastBid + ((hedgeSpread : Int) : ℚ))
      | Side.SELL => truncToLong (lastAsk - ((hedgeSpread : Int) : ℚ))
    if a.time.time > 1 then
      (sendOrder k a clock "Future" Instrument.FUTURE side |totalExposure| hedgePrice).2
    else a
  | _, _ => a

/-- The function `AutoTrader::orderFilled`, with the wall-clock reading `clock` for the
hedge. -/
def orderFilled (k : Constants) (a : AutoTrader) (clock : ℚ) (clientOrderID : Nat)
    (price fillVolume : Int) : AutoTrader :=
  let etfOptional := a.allEtfBooks.findOrder clientOrderID
  let futuresOptional := a.allFutureBooks.findOrder clientOrderID
  let r1 := a.allEtfBooks.orderFilled a.matchingEngine a.time.time clientOrderID price fillVolume
  let r2 := a.allFutureBooks.orderFilled r1.2 a.time.time clientOrderID price fillVolume
  let a1 : AutoTrader :=
    { a with allEtfBooks := r1.1, allFutureBooks := r2.1, matchingEngine := r2.2 }
  match etfOptional, futuresOptional with
  | none, none => a1
  | some order, _ => if order.instrument = Instrument.FUTURE then a1 else hedge k a1 clock
  | none, some order => if order.instrument = Instrument.FUTURE then a1 else hedge k a1 clock

/-- The function `AutoTrader::orderClosed`. -/
def orderClosed (a : AutoTrader) (clientOrderID : Nat) : AutoTrader :=
  { a with
    allEtfBooks := a.allEtfBooks.orderClosed clientOrderID
    allFutureBooks := a.allFutureBooks.orderClosed clientOrderID }

/-- The function `AutoTrader::OrderBookMessageHandler`: the trader and the wall-clock
readings not yet taken.  The result is `none` when the handler does not return: the
assertion `instrument != Instrument::ETF` fails, or `back()` is called on the empty queue
of future snapshots.  The `networth` value is a `float` in the code; its rounding is not
modelled. -/
def OrderBookMessageHandler (k : Constants) (a : AutoTrader) (clocks : Nat → ℚ)
    (instrument : Instrument) (sequenceNumberIn : Nat)
    (askPrices askVolumes bidPrices bidVolumes : List Nat) :
    Option (AutoTrader × (Nat → ℚ)) :=
  let fresh : Bool := decide (sequenceNumberIn ≠ toULong a.currSequenceNumber)
  if fresh = true ∧ instrument = Instrument.ETF then none
  else
    let a1 : AutoTrader :=
      if fresh = true then
        { a with time := a.time.advanceTime (1 / 4), currSequenceNumber := toLong sequenceNumberIn }
      else a
    let exchangeBook : ExchangeOrderBookData :=
      { askPrices := askPrices, askVolumes := askVolumes, bidPrices := bidPrices,
        bidVolumes := bidVolumes }
    let a2 : AutoTrader :=
      if instrument = Instrument.ETF then
        { a1 with etfExchangeOrderBookData := a1.etfExchangeOrderBookData ++ [exchangeBook] }
      else
        { a1 with futureExchangeOrderBookData := a1.futureExchangeOrderBookData ++ [exchangeBook] }
    let r := InverseVWAP.calculateMid a2.etfPriceHistory k.TOP_LEVEL_COUNT askPrices askVolumes
      bidPrices bidVolumes
    let a3 : AutoTrader := { a2 with etfPriceHistory := r.2 }
    match r.1 with
    | none => some (a3, clocks)
    | some _ =>
      if instrument = Instrument.FUTURE then some (a3, clocks)
      else
        match a3.futureExchangeOrderBookData.getLast? with
        | none => none
        | some lastFuture =>
          let futureMid : Int := truncToLong lastFuture.getMid
          let m := makeMarket k a3 clocks futureMid askPrices askVolumes bidPrices bidVolumes
          let networth : ℚ :=
            m.1.allEtfBooks.getDummyCash + m.1.allFutureBooks.getDummyCash +
              ((futureMid * (m.1.allEtfBooks.getExposure + m.1.allFutureBooks.getExposure) : Int) : ℚ)
          some ({ m.1 with networthHistory := m.1.networthHistory.push networth }, m.2)

end AutoTrader


/-! ## Invariants and reachable states of the ledger -/

/-- Representation invariant of a `Book`, relative to the last id `n` issued by the
generator: both maps are well-formed `std::map`s, an order stored in `bids` is a BUY and
one stored in `asks` is a SELL, no stored id exceeds `n`, every stored size is an
`unsigned long`, and no id is stored on both sides. -/
def Book.Inv (b : Book) (n : Nat) : Prop :=
  Map.WF b.bids ∧ Map.WF b.asks ∧
  (∀ id o, Map.find b.bids id = some o → o.side = Side.BUY ∧ id ≤ n ∧ o.size < two64) ∧
  (∀ id o, Map.find b.asks id = some o → o.side = Side.SELL ∧ id ≤ n ∧ o.size < two64) ∧
  (∀ id o, Map.find b.bids id = some o → Map.find b.asks id = none)

/-- A fill volume `v` that an order of remaining size `size` can absorb: `v` is at most
the remaining size, and the size after the fill is still below `2 ^ 63` (this second
part only restricts negative volumes). -/
def FillOk (size : Nat) (v : Int) : Prop := v ≤ (size : Int) ∧ (size : Int) - v < (two63 : Int)

instance (size : Nat) (v : Int) : Decidable (FillOk size v) := by unfold FillOk; infer_instance

/-- The `Book` states reached from the empty book by `sendOrder` calls with a positive
size and an id issued by the generator, `orderFilled` calls whose volume the order can
absorb, `orderClosed` calls and `cancelOrder` calls.  The generator is shared with other
books, which may take ids in between. -/
inductive Book.Reachable : Book → OrderIDGenerator → Prop where
  | empty (inst : Instrument) (g : OrderIDGenerator) :
      Book.Reachable { instrument := inst } g
  | idsTaken (b : Book) (g g' : OrderIDGenerator) :
      Book.Reachable b g → g.currClientOrderID ≤ g'.currClientOrderID → Book.Reachable b g'
  | sendOrder (b : Book) (g : OrderIDGenerator) (now : ℚ) (inst : Instrument) (side : Side)
      (size price : Int) :
      Book.Reachable b g → 0 < size → size < (two63 : Int) →
      Book.Reachable (b.sendOrder g now inst side size price 0).2.1
        (b.sendOrder g now inst side size price 0).2.2
  | orderFilled (b : Book) (g : OrderIDGenerator) (now : ℚ) (id : Nat) (price v : Int) :
      Book.Reachable b g → (∀ o, b.findOrder id = some o → FillOk o.size v) →
      Book.Reachable (b.orderFilled now id price v).2 g
  | orderClosed (b : Book) (g : OrderIDGenerator) (id : Nat) :
      Book.Reachable b g → Book.Reachable (b.orderClosed id).2 g
  | cancelOrder (b : Book) (g : OrderIDGenerator) (id : Nat) :
      Book.Reachable b g → Book.Reachable (b.cancelOrder id) g

/-- The submitted volumes of a `Book` agree with its resting orders, whose sizes are
below `2 ^ 63`. -/
def Book.SumInv (b : Book) : Prop :=
  (∀ id o, Map.find b.bids id = some o → o.size < two63) ∧
  (∀ id o, Map.find b.asks id = some o → o.size < two63) ∧
  b.submittedBids = OrderList.totalSize b.bids ∧
  b.submittedAsks = OrderList.totalSize b.asks

/-- A sample book with one resting order: a BUY of 10 lots at price 100 under id 1. -/
def Book.sampleResting : Book :=
  (({ instrument := Instrument.ETF } : Book).sendOrder {} 0 Instrument.ETF Side.BUY 10 100 0).2.1

/-- A sample book: the resting order of `Book.sampleResting` after a fill of 4 lots. -/
def Book.sample : Book := (Book.sampleResting.orderFilled 0 1 100 4).2

/-- Two books cannot both know an id. -/
def Book.Apart (b1 b2 : Book) : Prop :=
  ∀ id, b1.findOrder id = none ∨ b2.findOrder id = none

/-- Representation invariant of a `BooksContainer`, relative to the last id `n` issued by
the generator: the books form a well-formed `std::map`, every book satisfies its own
invariant, and no id is known to two books. -/
def BooksContainer.Inv (c : BooksContainer) (n : Nat) : Prop :=
  Map.WF c.books ∧
  (∀ name b, Map.find c.books name = some b → b.Inv n) ∧
  (∀ name1 name2 b1 b2, name1 ≠ name2 → Map.find c.books name1 = some b1 →
    Map.find c.books name2 = some b2 → Book.Apart b1 b2)

/-- A ledger: one `BooksContainer` together with the id generator and the trade matcher
that it reaches through pointers. -/
structure Ledger where
  container : BooksContainer
  idGen : OrderIDGenerator
  matcher : TradeMatcher
deriving DecidableEq

/-- One call on a ledger.  `idsTaken` stands for ids that the shared generator issues to
the other container between two calls. -/
inductive LedgerOp where
  | sendOrder (now : ℚ) (name : String) (instrument : Instrument) (side : Side)
      (size price : Int)
  | orderFilled (now : ℚ) (clientOrderID : Nat) (price fillVolume : Int)
  | orderClosed (clientOrderID : Nat)
  | cancelOrder (clientOrderID : Nat)
  | idsTaken (count : Nat)
deriving DecidableEq

namespace Ledger

/-- A ledger that starts empty: a freshly constructed container. -/
def new (namesIn : List String) (inst : Instrument) (g : OrderIDGenerator) (m : TradeMatcher) :
    Ledger :=
  { container := BooksContainer.new namesIn inst, idGen := g, matcher := m }

/-- The effect of one call. -/
def step (s : Ledger) : LedgerOp → Ledger
  | LedgerOp.sendOrder now name instrument side size price =>
    let r := s.container.sendOrder s.idGen now name instrument side size price
    { s with container := r.1, idGen := r.2 }
  | LedgerOp.orderFilled now clientOrderID price fillVolume =>
    let r := s.container.orderFilled s.matcher now clientOrderID price fillVolume
    { s with container := r.1, matcher := r.2 }
  | LedgerOp.orderClosed clientOrderID =>
    { s with container := s.container.orderClosed clientOrderID }
  | LedgerOp.cancelOrder clientOrderID =>
    { s with container := s.container.cancelOrder clientOrderID }
  | LedgerOp.idsTaken count =>
    { s with idGen := { currClientOrderID := s.idGen.currClientOrderID + count } }

/-- The effect of a sequence of calls. -/
def run (s : Ledger) : List LedgerOp → Ledger
  | [] => s
  | op :: ops => run (s.step op) ops

end Ledger

/-- The signed volume of a fill: the volume for a fill of a known BUY order, minus the
volume for a known SELL order, nothing when the lookup found no order. -/
def signedFill (found : Option Order) (fillVolume : Int) : Int :=
  match found with
  | some o =>
    match o.side with
    | Side.BUY => fillVolume
    | Side.SELL => -fillVolume
  | none => 0

/-- Along a sequence of calls from state `s`: the sum of the fill volumes applied to buy
orders known to the ledger minus the sum of those applied to known sell orders. -/
def Ledger.netFilled (s : Ledger) : List LedgerOp → Int
  | [] => 0
  | LedgerOp.orderFilled now id price v :: ops =>
    signedFill (s.container.findOrder id) v +
      Ledger.netFilled (s.step (LedgerOp.orderFilled now id price v)) ops
  | op :: ops => Ledger.netFilled (s.step op) ops

/-- The same sum for the orders known to the book called `name`. -/
def Ledger.netFilledBook (name : String) (s : Ledger) : List LedgerOp → Int
  | [] => 0
  | LedgerOp.orderFilled now id price v :: ops =>
    signedFill ((s.container.getBook name).bind (fun b => b.findOrder id)) v +
      Ledger.netFilledBook name (s.step (LedgerOp.orderFilled now id price v)) ops
  | op :: ops => Ledger.netFilledBook name (s.step op) ops

/-- Every fill volume of the sequence is a `long`. -/
def LedgerOp.VolumesLong (ops : List LedgerOp) : Prop :=
  ∀ now id price v, LedgerOp.orderFilled now id price v ∈ ops → IsLong v

/-- Consecutive `Book::orderFilled` calls for one id; each fill gives the clock reading,
the price and the (natural-number) volume. -/
def Book.orderFilledAll (b : Book) (clientOrderID : Nat) : List (ℚ × Int × Nat) → Book
  | [] => b
  | f :: rest =>
    Book.orderFilledAll (b.orderFilled f.1 clientOrderID f.2.1 (f.2.2 : Int)).2 clientOrderID rest

/-- The total volume of a list of fills. -/
def fillVolumeSum (fills : List (ℚ × Int × Nat)) : Nat := (fills.map (fun f => f.2.2)).sum

/-- A sample buy fill: 10 lots at price 100. -/
def Order.sampleBuyFill : Order :=
  { instrument := Instrument.ETF, time := 0, clientOrderID := 1, size := 10, price := 100,
    side := Side.BUY }

/-- A sample sell fill: 10 lots at price 105. -/
def Order.sampleSellFill : Order :=
  { instrument := Instrument.ETF, time := 0, clientOrderID := 2, size := 10, price := 105,
    side := Side.SELL }

/-- A sample sell fill: 4 lots at price 105. -/
def Order.sampleSmallSellFill : Order :=
  { instrument := Instrument.ETF, time := 0, clientOrderID := 2, size := 4, price := 105,
    side := Side.SELL }

/-- A sample sequence of ledger calls: a BUY of 10 lots (id 1), a fill of 4 lots of it, a
SELL of 5 lots (id 2), a full fill of it, a fill for the unknown id 99, and a close and a
cancel of id 1. -/
def LedgerOp.sample : List LedgerOp :=
  [LedgerOp.sendOrder 0 "ETF" Instrument.ETF Side.BUY 10 100,
   LedgerOp.orderFilled 0 1 100 4,
   LedgerOp.sendOrder (1/4) "ETF" Instrument.ETF Side.SELL 5 110,
   LedgerOp.orderFilled (1/4) 2 110 5,
   LedgerOp.orderFilled (1/4) 99 110 7,
   LedgerOp.cancelOrder 1,
   LedgerOp.orderClosed 1]

/-- A sample container: the book "ETF" with one resting BUY of 50 lots at price 10000
under id 1. -/
def BooksContainer.sampleResting : BooksContainer :=
  ((BooksContainer.new ["ETF"] Instrument.ETF).sendOrder {} 0 "ETF" Instrument.ETF Side.BUY 50
    10000).1

/-- A sample trader in an up-trend: two ETF SELL orders of 10 lots at price 10500 were
sent and both were filled in full at logical time 0, so the fill log holds two recent
sell fills and no buy fill. -/
def AutoTrader.sampleUpTrend : AutoTrader :=
  let s1 := (AutoTrader.sendOrder Constants.sample AutoTrader.new 0 "ETF" Instrument.ETF
    Side.SELL 10 10500).2
  let s2 := (AutoTrader.sendOrder Constants.sample s1 0 "ETF" Instrument.ETF Side.SELL 10 10500).2
  let s3 := AutoTrader.orderFilled Constants.sample s2 0 1 10500 10
  AutoTrader.orderFilled Constants.sample s3 0 2 10500 10


/-- A sample futures snapshot: best bid 9900, best ask 10100, 500 lots at each of two
levels per side; `getMid` is 10000. -/
def ExchangeOrderBookData.sampleFuture : ExchangeOrderBookData :=
  { askPrices := [10100, 10200, 0, 0, 0], askVolumes := [500, 500, 0, 0, 0],
    bidPrices := [9900, 9800, 0, 0, 0], bidVolumes := [500, 500, 0, 0, 0] }

/-- A sample ETF snapshot with little volume: 60 lots in total on each side. -/
def ExchangeOrderBookData.sampleEtfThin : ExchangeOrderBookData :=
  { askPrices := [10050, 10200, 0, 0, 0], askVolumes := [10, 50, 0, 0, 0],
    bidPrices := [9950, 9800, 0, 0, 0], bidVolumes := [10, 50, 0, 0, 0] }

/-- A sample ETF snapshot with 100 lots at the best level of each side. -/
def ExchangeOrderBookData.sampleEtfDeep : ExchangeOrderBookData :=
  { askPrices := [10050, 10200, 0, 0, 0], askVolumes := [100, 500, 0, 0, 0],
    bidPrices := [9950, 9800, 0, 0, 0], bidVolumes := [100, 500, 0, 0, 0] }

/-- One tick of the exchange: the futures snapshot and then the ETF snapshot, both with
sequence number `seq`, handled by `OrderBookMessageHandler`. -/
def AutoTrader.tick (k : Constants) (future etf : ExchangeOrderBookData) (seq : Nat)
    (s : AutoTrader × (Nat → ℚ)) : Option (AutoTrader × (Nat → ℚ)) :=
  (AutoTrader.OrderBookMessageHandler k s.1 s.2 Instrument.FUTURE seq future.askPrices
    future.askVolumes future.bidPrices future.bidVolumes).bind (fun r =>
      AutoTrader.OrderBookMessageHandler k r.1 r.2 Instrument.ETF seq etf.askPrices
        etf.askVolumes etf.bidPrices etf.bidVolumes)

/-- A sample session, all wall-clock readings 0.  Tick 1 places the BUY with id 1 and the
SELL with id 2, 50 lots each; the BUY is filled in full at logical time 1/4, before the
warm-up ends, so no hedge is sent.  Tick 2 places a new BUY of 50 lots with id 3; ticks
3, 4 and 5 place nothing, and the logical time is 5/4.  Then 10 lots of order 3 are
filled: total exposure is 60 and `hedge` sells 60 future lots under id 4, which rest
unfilled. -/
def AutoTrader.sampleHedgedOnce : Option AutoTrader :=
  let sample := AutoTrader.tick Constants.sample ExchangeOrderBookData.sampleFuture
    ExchangeOrderBookData.sampleEtfThin
  ((sample 1 (AutoTrader.new, fun _ => 0)).bind (fun t1 =>
    (sample 2 (AutoTrader.orderFilled Constants.sample t1.1 0 1 9500 50, t1.2)).bind (fun t2 =>
    (sample 3 t2).bind (fun t3 => (sample 4 t3).bind (fun t4 => sample 5 t4))))).map
      (fun t5 => AutoTrader.orderFilled Constants.sample t5.1 0 3 9500 10)

/-- The state of `AutoTrader.sampleHedgedOnce`. -/
def AutoTrader.sampleHedgedState : AutoTrader := AutoTrader.sampleHedgedOnce.getD AutoTrader.new


/-- The fill log of the trader is in time order and no fill is later than the logical
clock. -/
def AutoTrader.LogSorted (a : AutoTrader) : Prop :=
  (a.matchingEngine.filledOrders.map (fun o => o.time)).Pairwise (· ≤ ·) ∧
  ∀ o ∈ a.matchingEngine.filledOrders, o.time ≤ a.time.time

/-- The traders that the member functions produce from the constructed one, for any
wall-clock readings. -/
inductive AutoTrader.Reachable (k : Constants) : AutoTrader → Prop where
  | new : AutoTrader.Reachable k AutoTrader.new
  | sendOrder (a : AutoTrader) (clock : ℚ) (name : String) (instrument : Instrument)
      (side : Side) (size price : Int) :
      AutoTrader.Reachable k a →
      AutoTrader.Reachable k (AutoTrader.sendOrder k a clock name instrument side size price).2
  | cancelOrder (a : AutoTrader) (clock : ℚ) (clientOrderID : Nat) :
      AutoTrader.Reachable k a →
      AutoTrader.Reachable k (AutoTrader.cancelOrder a clock clientOrderID).2
  | orderFilled (a : AutoTrader) (clock : ℚ) (clientOrderID : Nat) (price fillVolume : Int) :
      AutoTrader.Reachable k a →
      AutoTrader.Reachable k (AutoTrader.orderFilled k a clock clientOrderID price fillVolume)
  | orderClosed (a : AutoTrader) (clientOrderID : Nat) :
      AutoTrader.Reachable k a → AutoTrader.Reachable k (AutoTrader.orderClosed a clientOrderID)
  | hedge (a : AutoTrader) (clock : ℚ) :
      AutoTrader.Reachable k a → AutoTrader.Reachable k (AutoTrader.hedge k a clock)
  | orderBookMessage (a a1 : AutoTrader) (clocks clocks1 : Nat → ℚ) (instrument : Instrument)
      (sequenceNumberIn : Nat) (askPrices askVolumes bidPrices bidVolumes : List Nat) :
      AutoTrader.Reachable k a →
      AutoTrader.OrderBookMessageHandler k a clocks instrument sequenceNumberIn askPrices
        askVolumes bidPrices bidVolumes = some (a1, clocks1) →
      AutoTrader.Reachable k a1


/-- The cumulative volume of levels `0 .. i` of one side of a snapshot, as the `long`
accumulator of the priority loop of `getOrderPrices` holds it after iteration `i`. -/
def AutoTrader.cumulativeVolume (volumes : List Nat) (i : Nat) : Int :=
  ((List.range (i + 1)).map (fun j => toLong (volumes.getD j 0))).sum

/-- Level `i` is a priority level of a side: the cumulative volume has reached the
threshold 100 and the price of level `max(0, i - 1)` is not 0. -/
def AutoTrader.PriorityAt (prices volumes : List Nat) (i : Nat) : Prop :=
  AutoTrader.cumulativeVolume volumes i ≥ 100 ∧ toLong (prices.getD (i - 1) 0) ≠ 0

instance (prices volumes : List Nat) (i : Nat) :
    Decidable (AutoTrader.PriorityAt prices volumes i) := by
  unfold AutoTrader.PriorityAt; infer_instance

/-- The nearest point of the interval `[lo, hi]` to `v`, for integers. -/
def AutoTrader.clampTo (lo hi v : Int) : Int := if v < lo then lo else if v > hi then hi else v


/-- A sample trader whose limiter is saturated: 200 cancel messages, for the ids
1 to 200 that no book knows, were sent at wall-clock reading 0 from the freshly
constructed trader. -/
def AutoTrader.sampleSaturated : AutoTrader :=
  (List.range 200).foldl (fun s i => (AutoTrader.cancelOrder s 0 (i + 1)).2) AutoTrader.new

/-- A sample trader with one resting ETF bid: a BUY of 50 lots at price 10100 sent from
the freshly constructed trader. -/
def AutoTrader.sampleRestingBid : AutoTrader :=
  (AutoTrader.sendOrder Constants.sample AutoTrader.new 0 "ETF" Instrument.ETF Side.BUY 50
    10100).2


/-- A sample futures snapshot after a fall of the market: best bid 9800, best ask 9900;
`getMid` is 9850. -/
def ExchangeOrderBookData.sampleFutureLow : ExchangeOrderBookData :=
  { askPrices := [9900, 10000, 0, 0, 0], askVolumes := [500, 500, 0, 0, 0],
    bidPrices := [9800, 9700, 0, 0, 0], bidVolumes := [500, 500, 0, 0, 0] }

/-- A sample ETF snapshot after the fall: 100 lots at the best bid 9800 and at the best
ask 9900. -/
def ExchangeOrderBookData.sampleEtfLow : ExchangeOrderBookData :=
  { askPrices := [9900, 10000, 0, 0, 0], askVolumes := [100, 500, 0, 0, 0],
    bidPrices := [9800, 9700, 0, 0, 0], bidVolumes := [100, 500, 0, 0, 0] }

/-- A sample session, all wall-clock readings 0.  Tick 1 (futures mid 10000, ETF snapshot
`sampleEtfDeep`) places the BUY with id 1 at 9900 and the SELL with id 2 at 10200, 50
lots each; the SELL is then filled in two fills of 25 lots at logical time 1/4, which
gives the up-trend signal. -/
def AutoTrader.sampleBeforeFall : Option (AutoTrader × (Nat → ℚ)) :=
  (AutoTrader.tick Constants.sample ExchangeOrderBookData.sampleFuture
    ExchangeOrderBookData.sampleEtfDeep 1 (AutoTrader.new, fun _ => 0)).map (fun t1 =>
      (AutoTrader.orderFilled Constants.sample
        (AutoTrader.orderFilled Constants.sample t1.1 0 2 10200 25) 0 2 10200 25, t1.2))

/-- The session `AutoTrader.sampleBeforeFall` continued by tick 2, with the futures
snapshot `sampleFutureLow` (mid 9850) and the ETF snapshot `sampleEtfLow`. -/
def AutoTrader.sampleAfterFall : Option (AutoTrader × (Nat → ℚ)) :=
  AutoTrader.sampleBeforeFall.bind
    (AutoTrader.tick Constants.sample ExchangeOrderBookData.sampleFutureLow
      ExchangeOrderBookData.sampleEtfLow 2)


/-- An order-book message: the instrument, the sequence number and the snapshot. -/
abbrev OrderBookMessage := Instrument × Nat × ExchangeOrderBookData

/-- The messages handled one after the other by `OrderBookMessageHandler`; `none` when
one of the calls does not return. -/
def AutoTrader.handleMessages (k : Constants) :
    AutoTrader × (Nat → ℚ) → List OrderBookMessage → Option (AutoTrader × (Nat → ℚ))
  | s, [] => some s
  | s, m :: rest =>
    (AutoTrader.OrderBookMessageHandler k s.1 s.2 m.1 m.2.1 m.2.2.askPrices m.2.2.askVolumes
      m.2.2.bidPrices m.2.2.bidVolumes).bind (fun r => AutoTrader.handleMessages k r rest)

/-- The number of sequence numbers of the list that differ from the one before them,
the first being compared with `stored`. -/
def sequenceChanges (stored : Nat) : List Nat → Nat
  | [] => 0
  | s :: rest => (if s ≠ stored then 1 else 0) + sequenceChanges s rest

/-- Every message whose sequence number differs from the one before it (the first being
compared with `stored`) is a futures snapshot. -/
def changesAreFutures (stored : Nat) : List OrderBookMessage → Prop
  | [] => True
  | m :: rest => (m.2.1 ≠ stored → m.1 = Instrument.FUTURE) ∧ changesAreFutures m.2.1 rest


/-- No book of the container knows the id. -/
def BooksContainer.Unknown (c : BooksContainer) (id : Nat) : Prop :=
  ∀ e ∈ c.books, e.2.findOrder id = none

/-- Every order stored in the book carries the id it is stored under. -/
def Book.KeysMatch (b : Book) : Prop :=
  (∀ id o, Map.find b.bids id = some o → o.clientOrderID = id) ∧
  (∀ id o, Map.find b.asks id = some o → o.clientOrderID = id)

/-- Invariant of two containers that share the id generator, relative to the last id `n`
issued: each container satisfies its invariant, no id is known to a book of each
container, and every stored order carries its key. -/
def BooksContainer.PairInv (c1 c2 : BooksContainer) (n : Nat) : Prop :=
  c1.Inv n ∧ c2.Inv n ∧ (∀ id, c1.Unknown id ∨ c2.Unknown id) ∧
  (∀ e ∈ c1.books, e.2.KeysMatch) ∧ (∀ e ∈ c2.books, e.2.KeysMatch)

/-- Invariant of the two containers of the trader and the id generator they share. -/
def AutoTrader.LedgerInv (a : AutoTrader) : Prop :=
  BooksContainer.PairInv a.allEtfBooks a.allFutureBooks a.idGen.currClientOrderID

/-- The client order ids of the orders resting in a book, bids first. -/
def Book.restingIds (b : Book) : List Nat := (b.bids ++ b.asks).map (fun x => x.2.clientOrderID)

/-- The client order ids of all resting orders of the trader: the books of the ETF
container, then the books of the future container. -/
def AutoTrader.restingIds (a : AutoTrader) : List Nat :=
  (a.allEtfBooks.books ++ a.allFutureBooks.books).flatMap (fun e => e.2.restingIds)

/-- One operation of the ledger on one of the two containers of the trader: a send
(which takes the next id of the shared generator), a fill (which pushes to the shared
trade matcher), a close or a cancel, at clock reading `now`. -/
inductive AutoTrader.LedgerStep : AutoTrader → AutoTrader → Prop where
  | sendEtf (a : AutoTrader) (now : ℚ) (name : String) (instrument : Instrument) (side : Side)
      (size price : Int) :
      AutoTrader.LedgerStep a
        { a with
          allEtfBooks := (a.allEtfBooks.sendOrder a.idGen now name instrument side size price).1
          idGen := (a.allEtfBooks.sendOrder a.idGen now name instrument side size price).2 }
  | sendFuture (a : AutoTrader) (now : ℚ) (name : String) (instrument : Instrument)
      (side : Side) (size price : Int) :
      AutoTrader.LedgerStep a
        { a with
          allFutureBooks :=
            (a.allFutureBooks.sendOrder a.idGen now name instrument side size price).1
          idGen := (a.allFutureBooks.sendOrder a.idGen now name instrument side size price).2 }
  | filledEtf (a : AutoTrader) (now : ℚ) (id : Nat) (price v : Int) :
      AutoTrader.LedgerStep a
        { a with
          allEtfBooks := (a.allEtfBooks.orderFilled a.matchingEngine now id price v).1
          matchingEngine := (a.allEtfBooks.orderFilled a.matchingEngine now id price v).2 }
  | filledFuture (a : AutoTrader) (now : ℚ) (id : Nat) (price v : Int) :
      AutoTrader.LedgerStep a
        { a with
          allFutureBooks := (a.allFutureBooks.orderFilled a.matchingEngine now id price v).1
          matchingEngine := (a.allFutureBooks.orderFilled a.matchingEngine now id price v).2 }
  | closedEtf (a : AutoTrader) (id : Nat) :
      AutoTrader.LedgerStep a { a with allEtfBooks := a.allEtfBooks.orderClosed id }
  | closedFuture (a : AutoTrader) (id : Nat) :
      AutoTrader.LedgerStep a { a with allFutureBooks := a.allFutureBooks.orderClosed id }
  | cancelEtf (a : AutoTrader) (id : Nat) :
      AutoTrader.LedgerStep a { a with allEtfBooks := a.allEtfBooks.cancelOrder id }
  | cancelFuture (a : AutoTrader) (id : Nat) :
      AutoTrader.LedgerStep a { a with allFutureBooks := a.allFutureBooks.cancelOrder id }

/-- Any number of ledger operations, one after the other. -/
inductive AutoTrader.LedgerSteps : AutoTrader → AutoTrader → Prop where
  | refl (a : AutoTrader) : AutoTrader.LedgerSteps a a
  | step (a b c : AutoTrader) :
      AutoTrader.LedgerSteps a b → AutoTrader.LedgerStep b c → AutoTrader.LedgerSteps a c


/-- A sample state of the two containers: one send of a BUY of 50 lots at price 10000 to
the book "ETF" from the freshly constructed trader. -/
def AutoTrader.sampleLedgerSend : AutoTrader :=
  { AutoTrader.new with
    allEtfBooks := (AutoTrader.new.allEtfBooks.sendOrder AutoTrader.new.idGen 0 "ETF"
      Instrument.ETF Side.BUY 50 10000).1
    idGen := (AutoTrader.new.allEtfBooks.sendOrder AutoTrader.new.idGen 0 "ETF"
      Instrument.ETF Side.BUY 50 10000).2 }


/-- The sum of an integer field over the books of the container. -/
def BooksContainer.sumInt (c : BooksContainer) (f : Book → Int) : Int :=
  (c.books.map (fun e => f e.2)).sum

/-- The sum of a `double` field over the books of the container. -/
def BooksContainer.sumRat (c : BooksContainer) (f : Book → ℚ) : ℚ :=
  (c.books.map (fun e => f e.2)).sum

/-- The aggregated values of the container are the sums over its books. -/
def BooksContainer.AggInv (c : BooksContainer) : Prop :=
  c.exposure = c.sumInt (fun b => b.exposure) ∧
  c.submittedBids = c.sumInt (fun b => b.submittedBids) ∧
  c.submittedAsks = c.sumInt (fun b => b.submittedAsks) ∧
  c.dummyCash = c.sumRat (fun b => b.dummyCash)

/-- The containers reached from a constructed one by `sendOrder`, `orderFilled`,
`orderClosed` and `cancelOrder`, with the generator they share with other containers.
The price and the volume of a fill are nonnegative `long` values (they are `unsigned
long` in the exchange's messages). -/
inductive BooksContainer.Reachable : BooksContainer → OrderIDGenerator → Prop where
  | new (namesIn : List String) (inst : Instrument) (g : OrderIDGenerator) :
      BooksContainer.Reachable (BooksContainer.new namesIn inst) g
  | idsTaken (c : BooksContainer) (g g1 : OrderIDGenerator) :
      BooksContainer.Reachable c g → g.currClientOrderID ≤ g1.currClientOrderID →
      BooksContainer.Reachable c g1
  | sendOrder (c : BooksContainer) (g : OrderIDGenerator) (now : ℚ) (name : String)
      (instrument : Instrument) (side : Side) (size price : Int) :
      BooksContainer.Reachable c g →
      BooksContainer.Reachable (c.sendOrder g now name instrument side size price).1
        (c.sendOrder g now name instrument side size price).2
  | orderFilled (c : BooksContainer) (g : OrderIDGenerator) (m : TradeMatcher) (now : ℚ)
      (id : Nat) (price v : Int) :
      BooksContainer.Reachable c g → 0 ≤ v → v < (two63 : Int) → 0 ≤ price →
      price < (two63 : Int) →
      BooksContainer.Reachable (c.orderFilled m now id price v).1 g
  | orderClosed (c : BooksContainer) (g : OrderIDGenerator) (id : Nat) :
      BooksContainer.Reachable c g → BooksContainer.Reachable (c.orderClosed id) g
  | cancelOrder (c : BooksContainer) (g : OrderIDGenerator) (id : Nat) :
      BooksContainer.Reachable c g → BooksContainer.Reachable (c.cancelOrder id) g


/-- The first order stored under the id in the map `proj` of a book of the list. -/
def BooksContainer.firstStored (proj : Book → OrderList) (id : Nat) :
    List (String × Book) → Option Order
  | [] => none
  | e :: rest =>
    match Map.find (proj e.2) id with
    | some o => some o
    | none => BooksContainer.firstStored proj id rest


/-- A sample container with the books "A" and "B": a BUY of 50 lots at 10000 sent
through "A" (id 1), a SELL of 30 lots at 10100 sent through "B" (id 2), then a fill of
20 lots of id 1 at 10000. -/
def BooksContainer.sampleTwoBooks : BooksContainer :=
  ((((BooksContainer.new ["A", "B"] Instrument.ETF).sendOrder {} 0 "A" Instrument.ETF Side.BUY
    50 10000).1.sendOrder
      ((BooksContainer.new ["A", "B"] Instrument.ETF).sendOrder {} 0 "A" Instrument.ETF Side.BUY
        50 10000).2 0 "B" Instrument.ETF Side.SELL 30 10100).1.orderFilled {} 0 1 10000 20).1


/-- Two traders agree on the ledger: the two containers, the id generator and the trade
matcher. -/
def AutoTrader.SameLedger (a b : AutoTrader) : Prop :=
  a.allEtfBooks = b.allEtfBooks ∧ a.allFutureBooks = b.allFutureBooks ∧ a.idGen = b.idGen ∧
  a.matchingEngine = b.matchingEngine

/-- The invariant of the two containers together with the presence of the two books that
the trader sends through: "ETF" in the ETF container and "Future" in the future
container. -/
def AutoTrader.LedgerOk (a : AutoTrader) : Prop :=
  a.LedgerInv ∧ (Map.find a.allEtfBooks.books "ETF").isSome = true ∧
  (Map.find a.allFutureBooks.books "Future").isSome = true


/-- A sample session, all wall-clock readings 0: five ticks with the snapshots
`sampleFuture` and `sampleEtfThin` from the constructed trader.  Tick 1 places the BUY
with id 1 at 9500 and the SELL with id 2 at 10500, 50 lots each; the later ticks place
nothing, and the logical time is 5/4, past the warm-up. -/
def AutoTrader.sampleWarm : Option (AutoTrader × (Nat → ℚ)) :=
  let sample := AutoTrader.tick Constants.sample ExchangeOrderBookData.sampleFuture
    ExchangeOrderBookData.sampleEtfThin
  (sample 1 (AutoTrader.new, fun _ => 0)).bind (fun t1 =>
    (sample 2 t1).bind (fun t2 =>
    (sample 3 t2).bind (fun t3 => (sample 4 t3).bind (fun t4 => sample 5 t4))))

/-- The session `AutoTrader.sampleWarm` continued by a fill of 10 lots of the BUY with
id 1: the total exposure is 10 and `hedge` sells 10 future lots under id 3, which rest
unfilled. -/
def AutoTrader.sampleFirstHedge : Option AutoTrader :=
  AutoTrader.sampleWarm.map (fun t => AutoTrader.orderFilled Constants.sample t.1 0 1 9500 10)

/-- The state of `AutoTrader.sampleFirstHedge`. -/
def AutoTrader.sampleFirstHedgeState : AutoTrader :=
  AutoTrader.sampleFirstHedge.getD AutoTrader.new


/-- The sum of the sizes of a queue of unmatched fills. -/
def TradeMatcher.queueVolume (q : List Order) : Int := (q.map (fun o => (o.size : Int))).sum

/-- The net unmatched volume of the matcher: the sizes in the queue of unmatched bids
minus the sizes in the queue of unmatched asks. -/
def TradeMatcher.netUnmatched (m : TradeMatcher) : Int :=
  TradeMatcher.queueVolume m.unmatchedBids - TradeMatcher.queueVolume m.unmatchedAsks

/-- The record of a fill of `fillVolume` lots at `price` for the order `o`, at logical
time `now`. -/
def Order.fillRecord (o : Order) (now : ℚ) (price fillVolume : Int) : Order :=
  { o with size := toULong fillVolume, price := toULong price, time := now }

/-- The records that an applied fill adds to the fill log: one record when a book of the
trader knows the id (the order found, with the filled volume, the fill price and the
logical time), none when no book knows it. -/
def AutoTrader.fillRecords (a : AutoTrader) (id : Nat) (price fillVolume : Int) : List Order :=
  match a.allEtfBooks.findOrder id, a.allFutureBooks.findOrder id with
  | some o, _ => [o.fillRecord a.time.time price fillVolume]
  | none, some o => [o.fillRecord a.time.time price fillVolume]
  | none, none => []

/-- The sessions of the trader: the states that its member functions produce from the
constructed one, for any wall-clock readings, together with the list of the fills
applied so far.  A fill notification carries a price and a volume that are nonnegative
`long` values, and the volume is at most the remaining size of the order it names, in
every book that knows the id. -/
inductive AutoTrader.Session (k : Constants) : AutoTrader → List Order → Prop where
  | new : AutoTrader.Session k AutoTrader.new []
  | sendOrder (a : AutoTrader) (applied : List Order) (clock : ℚ) (name : String)
      (instrument : Instrument) (side : Side) (size price : Int) :
      AutoTrader.Session k a applied →
      AutoTrader.Session k (AutoTrader.sendOrder k a clock name instrument side size price).2
        applied
  | cancelOrder (a : AutoTrader) (applied : List Order) (clock : ℚ) (clientOrderID : Nat) :
      AutoTrader.Session k a applied →
      AutoTrader.Session k (AutoTrader.cancelOrder a clock clientOrderID).2 applied
  | orderFilled (a : AutoTrader) (applied : List Order) (clock : ℚ) (clientOrderID : Nat)
      (price fillVolume : Int) :
      AutoTrader.Session k a applied →
      0 ≤ fillVolume → fillVolume < (two63 : Int) → 0 ≤ price → price < (two63 : Int) →
      (∀ e ∈ a.allEtfBooks.books ++ a.allFutureBooks.books,
        ∀ o ∈ e.2.findOrder clientOrderID, fillVolume ≤ (o.size : Int)) →
      AutoTrader.Session k (AutoTrader.orderFilled k a clock clientOrderID price fillVolume)
        (applied ++ a.fillRecords clientOrderID price fillVolume)
  | orderClosed (a : AutoTrader) (applied : List Order) (clientOrderID : Nat) :
      AutoTrader.Session k a applied →
      AutoTrader.Session k (AutoTrader.orderClosed a clientOrderID) applied
  | hedge (a : AutoTrader) (applied : List Order) (clock : ℚ) :
      AutoTrader.Session k a applied → AutoTrader.Session k (AutoTrader.hedge k a clock) applied
  | orderBookMessage (a a1 : AutoTrader) (applied : List Order) (clocks clocks1 : Nat → ℚ)
      (instrument : Instrument) (sequenceNumberIn : Nat)
      (askPrices askVolumes bidPrices bidVolumes : List Nat) :
      AutoTrader.Session k a applied →
      AutoTrader.OrderBookMessageHandler k a clocks instrument sequenceNumberIn askPrices
        askVolumes bidPrices bidVolumes = some (a1, clocks1) →
      AutoTrader.Session k a1 applied

/-- A sample session: a BUY of 50 lots at 10100 sent from the constructed trader and
then filled for 10 lots at 10100, before the warm-up ends. -/
def AutoTrader.sampleFilledBid : AutoTrader :=
  AutoTrader.orderFilled Constants.sample AutoTrader.sampleRestingBid 0 1 10100 10

/-- The net unmatched volume of the trade matcher equals the total position of the two
containers. -/
def AutoTrader.NetMatched (a : AutoTrader) : Prop :=
  a.matchingEngine.netUnmatched = a.allEtfBooks.exposure + a.allFutureBooks.exposure


/-- The container is within the position limit `limit`: its exposure plus its submitted
bid volume is at most `limit`, and its submitted ask volume minus its exposure is at most
`limit`. -/
def BooksContainer.WithinLimit (c : BooksContainer) (limit : Int) : Prop :=
  c.exposure + c.submittedBids ≤ limit ∧ c.submittedAsks - c.exposure ≤ limit

/-- The aggregated values of the container are the sums over its books, and the submitted
volumes of every book agree with its resting orders. -/
def BooksContainer.Summed (c : BooksContainer) : Prop :=
  c.AggInv ∧ ∀ e ∈ c.books, e.2.SumInv

/-- The invariant of a session: the ledger invariant, both containers summed and both
within the position limit. -/
def AutoTrader.Limited (k : Constants) (a : AutoTrader) : Prop :=
  a.LedgerOk ∧ a.allEtfBooks.Summed ∧ a.allFutureBooks.Summed ∧
  a.allEtfBooks.WithinLimit k.positionLimit ∧ a.allFutureBooks.WithinLimit k.positionLimit


/-- A sample session, all wall-clock readings 0: the first tick, with the futures snapshot
`sampleFuture` (mid 10000) and the ETF snapshot `sampleEtfDeep`, from the constructed
trader.  `getOrderPrices` returns the targets 9850 and 10150, and `sendOrder` rounds them
to the tick: the BUY with id 1 rests at 9900 and the SELL with id 2 at 10200, 50 lots
each. -/
def AutoTrader.sampleFirstTick : Option (AutoTrader × (Nat → ℚ)) :=
  AutoTrader.tick Constants.sample ExchangeOrderBookData.sampleFuture
    ExchangeOrderBookData.sampleEtfDeep 1 (AutoTrader.new, fun _ => 0)


/-- The cumulative volume of levels `0 .. i` of one side of a snapshot. -/
def AutoTrader.volumeUpTo (volumes : List Nat) (i : Nat) : Nat :=
  ((List.range (i + 1)).map (fun j => volumes.getD j 0)).sum

/-- One side of a snapshot lists its levels best first, as the exchange delivers them:
the populated levels come first and the unused levels, with price 0 and volume 0, last.
Within the depth, a level that carries volume has a nonzero price, and so has every level
before it. -/
def AutoTrader.BestFirst (depth : Nat) (prices volumes : List Nat) : Prop :=
  ∀ i, i < depth → volumes.getD i 0 ≠ 0 → ∀ j, j ≤ i → prices.getD j 0 ≠ 0

instance (depth : Nat) (prices volumes : List Nat) :
    Decidable (AutoTrader.BestFirst depth prices volumes) := by
  unfold AutoTrader.BestFirst; infer_instance


/-! ## Theorems: machine integers -/

theorem toULong_of_range (x : Int) (h0 : 0 ≤ x) (h1 : x < (two64 : Int)) :
    ((toULong x : Nat) : Int) = x := by
  unfold toULong
  rw [Int.emod_eq_of_lt h0 h1]
  exact Int.toNat_of_nonneg h0

theorem toULong_natCast (n : Nat) (h : n < two64) : toULong (n : Int) = n := by
  have := toULong_of_range (n : Int) (by omega) (by exact_mod_cast h)
  exact_mod_cast this

/-! ## Theorems: association-list maps -/

namespace Map

variable {κ β : Type} [LinearOrder κ]

theorem find_assign (m : List (κ × β)) (k k' : κ) (v : β) :
    find (assign m k v) k' = if k' = k then some v else find m k' := by
  induction m with
  | nil =>
    by_cases h : k' = k
    · simp [assign, find, h]
    · have h' : ¬ k = k' := fun e => h e.symm
      simp [assign, find, h, h']
  | cons e rest ih =>
    unfold assign
    by_cases h1 : e.1 = k
    · rw [if_pos h1]
      by_cases h : k' = k
      · simp [find, h]
      · have h' : ¬ k = k' := fun e => h e.symm
        have h2 : ¬ e.1 = k' := fun e' => h (by rw [← e', h1])
        simp [find, h, h', h2]
    · rw [if_neg h1]
      by_cases h2 : k < e.1
      · rw [if_pos h2]
        by_cases h : k' = k
        · simp [find, h]
        · have h' : ¬ k = k' := fun e => h e.symm
          simp [find, h, h']
      · rw [if_neg h2]
        by_cases h : k' = k
        · subst h
          simp [find, h1, ih]
        · by_cases h3 : e.1 = k'
          · simp [find, h3, h]
          · simp [find, h3, ih, h]

theorem find_erase (m : List (κ × β)) (k k' : κ) :
    find (erase m k) k' = if k' = k then none else find m k' := by
  induction m with
  | nil => simp [erase, find]
  | cons e rest ih =>
    unfold erase
    by_cases h1 : e.1 = k
    · rw [if_pos h1, ih]
      by_cases h : k' = k
      · simp [h]
      · have h2 : ¬ e.1 = k' := fun e' => h (by rw [← e', h1])
        simp [find, h, h2]
    · rw [if_neg h1]
      by_cases h : k' = k
      · subst h
        simp [find, h1, ih]
      · by_cases h3 : e.1 = k'
        · simp [find, h3, h]
        · simp [find, h3, ih, h]

theorem mem_assign (m : List (κ × β)) (k : κ) (v : β) (x : κ × β) (hx : x ∈ assign m k v) :
    x = (k, v) ∨ x ∈ m := by
  induction m with
  | nil => simpa [assign] using hx
  | cons e rest ih =>
    unfold assign at hx
    split at hx
    · rcases List.mem_cons.mp hx with h | h
      · exact Or.inl h
      · exact Or.inr (List.mem_cons_of_mem _ h)
    · split at hx
      · rcases List.mem_cons.mp hx with h | h
        · exact Or.inl h
        · exact Or.inr h
      · rcases List.mem_cons.mp hx with h | h
        · exact Or.inr (h ▸ List.mem_cons_self _ _)
        · rcases ih h with h | h
          · exact Or.inl h
          · exact Or.inr (List.mem_cons_of_mem _ h)

theorem mem_erase (m : List (κ × β)) (k : κ) (x : κ × β) (hx : x ∈ erase m k) :
    x ∈ m ∧ x.1 ≠ k := by
  induction m with
  | nil => simp [erase] at hx
  | cons e rest ih =>
    unfold erase at hx
    split at hx
    · exact ⟨List.mem_cons_of_mem _ (ih hx).1, (ih hx).2⟩
    · rename_i hne
      rcases List.mem_cons.mp hx with h | h
      · exact ⟨h ▸ List.mem_cons_self _ _, h ▸ hne⟩
      · exact ⟨List.mem_cons_of_mem _ (ih h).1, (ih h).2⟩

theorem wf_cons (e : κ × β) (rest : List (κ × β)) :
    WF (e :: rest) ↔ (∀ x ∈ rest, e.1 < x.1) ∧ WF rest := by
  unfold WF
  rw [List.map_cons, List.pairwise_cons]
  constructor
  · rintro ⟨h1, h2⟩
    exact ⟨fun x hx => h1 x.1 (List.mem_map_of_mem _ hx), h2⟩
  · rintro ⟨h1, h2⟩
    refine ⟨fun a ha => ?_, h2⟩
    obtain ⟨x, hx, rfl⟩ := List.mem_map.mp ha
    exact h1 x hx

theorem wf_nil : WF ([] : List (κ × β)) := List.Pairwise.nil

theorem wf_erase (m : List (κ × β)) (k : κ) (h : WF m) : WF (erase m k) := by
  induction m with
  | nil => exact wf_nil
  | cons e rest ih =>
    rw [wf_cons] at h
    unfold erase
    split
    · exact ih h.2
    · rw [wf_cons]
      exact ⟨fun x hx => h.1 x (mem_erase rest k x hx).1, ih h.2⟩

theorem wf_assign (m : List (κ × β)) (k : κ) (v : β) (h : WF m) : WF (assign m k v) := by
  induction m with
  | nil => simp [assign, WF]
  | cons e rest ih =>
    rw [wf_cons] at h
    unfold assign
    split
    · rename_i heq
      rw [wf_cons]
      exact ⟨fun x hx => heq ▸ h.1 x hx, h.2⟩
    · split
      · rename_i hlt
        rw [wf_cons, wf_cons]
        refine ⟨fun x hx => ?_, h⟩
        rcases List.mem_cons.mp hx with hx | hx
        · rw [hx]; exact hlt
        · exact lt_trans hlt (h.1 x hx)
      · rename_i hne hnlt
        rw [wf_cons]
        refine ⟨fun x hx => ?_, ih h.2⟩
        rcases mem_assign rest k v x hx with hx | hx
        · rw [hx]
          exact lt_of_le_of_ne (not_lt.mp hnlt) hne
        · exact h.1 x hx

theorem find_eq_none_of_forall_ne (m : List (κ × β)) (k : κ) (h : ∀ x ∈ m, x.1 ≠ k) :
    find m k = none := by
  induction m with
  | nil => rfl
  | cons e rest ih =>
    have h1 : ¬ e.1 = k := h e (List.mem_cons_self _ _)
    simp only [find, if_neg h1]
    exact ih (fun x hx => h x (List.mem_cons_of_mem _ hx))

theorem erase_eq_self_of_forall_ne (m : List (κ × β)) (k : κ) (h : ∀ x ∈ m, x.1 ≠ k) :
    erase m k = m := by
  induction m with
  | nil => rfl
  | cons e rest ih =>
    have h1 : ¬ e.1 = k := h e (List.mem_cons_self _ _)
    simp only [erase, if_neg h1]
    rw [ih (fun x hx => h x (List.mem_cons_of_mem _ hx))]

theorem mem_of_find (m : List (κ × β)) (k : κ) (v : β) (h : find m k = some v) :
    (k, v) ∈ m := by
  induction m with
  | nil => simp [find] at h
  | cons e rest ih =>
    unfold find at h
    split at h
    · rename_i heq
      cases h
      rw [← heq]
      exact List.mem_cons_self _ _
    · exact List.mem_cons_of_mem _ (ih h)

end Map

theorem OrderList.totalSize_cons (e : Nat × Order) (l : OrderList) :
    OrderList.totalSize (e :: l) = (e.2.size : Int) + OrderList.totalSize l := by
  simp [OrderList.totalSize]

theorem OrderList.totalSize_erase (l : OrderList) (k : Nat) (h : Map.WF l) :
    OrderList.totalSize (Map.erase l k) = OrderList.totalSize l - OrderList.sizeAt l k := by
  induction l with
  | nil => simp [Map.erase, OrderList.totalSize, OrderList.sizeAt, Map.find]
  | cons e rest ih =>
    rw [Map.wf_cons] at h
    by_cases h1 : e.1 = k
    · have hne : ∀ x ∈ rest, x.1 ≠ k := fun x hx => by
        have := h.1 x hx
        rw [h1] at this
        exact ne_of_gt this
      simp only [Map.erase, if_pos h1, OrderList.sizeAt, Map.find,
        Map.erase_eq_self_of_forall_ne rest k hne, OrderList.totalSize_cons]
      omega
    · simp only [Map.erase, if_neg h1, OrderList.sizeAt, Map.find, OrderList.totalSize_cons,
        ih h.2]
      omega

theorem OrderList.totalSize_assign (l : OrderList) (k : Nat) (o : Order) (h : Map.WF l) :
    OrderList.totalSize (Map.assign l k o) =
      OrderList.totalSize l - OrderList.sizeAt l k + (o.size : Int) := by
  induction l with
  | nil => simp [Map.assign, OrderList.totalSize, OrderList.sizeAt, Map.find]
  | cons e rest ih =>
    rw [Map.wf_cons] at h
    by_cases h1 : e.1 = k
    · simp only [Map.assign, if_pos h1, OrderList.sizeAt, Map.find, OrderList.totalSize_cons]
      omega
    · by_cases h2 : k < e.1
      · have hne : ∀ x ∈ rest, x.1 ≠ k := fun x hx => by
          have := h.1 x hx
          omega
        simp only [Map.assign, if_neg h1, if_pos h2, OrderList.sizeAt, Map.find,
          OrderList.totalSize_cons, Map.find_eq_none_of_forall_ne rest k hne]
        omega
      · simp only [Map.assign, if_neg h1, if_neg h2, OrderList.sizeAt, Map.find,
          OrderList.totalSize_cons, ih h.2]
        omega

/-! ## Theorems: Book -/

theorem toULong_lt (x : Int) : toULong x < two64 := by
  unfold toULong two64
  omega

theorem toLong_of_lt (n : Nat) (h : n < two63) : toLong n = (n : Int) := by
  unfold toLong
  unfold two63 at h
  have h2 : n % two64 = n := Nat.mod_eq_of_lt (by unfold two64; omega)
  rw [h2, if_pos (by unfold two63; omega)]

theorem toLong_toULong (v : Int) (h : IsLong v) : toLong (toULong v) = v := by
  unfold IsLong two63 at h
  unfold toLong toULong two64 two63
  split <;> omega

namespace Map

variable {κ β : Type} [LinearOrder κ]

theorem forall_ne_of_find_eq_none (m : List (κ × β)) (k : κ) (h : find m k = none) :
    ∀ x ∈ m, x.1 ≠ k := by
  induction m with
  | nil => intro x hx; cases hx
  | cons e rest ih =>
    unfold find at h
    split at h
    · cases h
    · rename_i hne
      intro x hx
      rcases List.mem_cons.mp hx with hx | hx
      · rw [hx]; exact hne
      · exact ih h x hx

theorem find_map_snd (m : List (κ × β)) (f : β → β) (k : κ) :
    find (m.map (fun e => (e.1, f e.2))) k = (find m k).map f := by
  induction m with
  | nil => rfl
  | cons e rest ih =>
    by_cases h : e.1 = k
    · simp [find, h]
    · simp [find, h, ih]

end Map

theorem OrderList.sizeAt_of_find (l : OrderList) (k : Nat) (o : Order)
    (h : Map.find l k = some o) : OrderList.sizeAt l k = (o.size : Int) := by
  simp [OrderList.sizeAt, h]

theorem OrderList.sizeAt_of_none (l : OrderList) (k : Nat)
    (h : Map.find l k = none) : OrderList.sizeAt l k = 0 := by
  simp [OrderList.sizeAt, h]

namespace Book

theorem findOrder_of_bid (b : Book) (id : Nat) (o : Order) (h : Map.find b.bids id = some o) :
    b.findOrder id = some o := by
  simp [findOrder, h]

theorem findOrder_of_not_bid (b : Book) (id : Nat) (h : Map.find b.bids id = none) :
    b.findOrder id = Map.find b.asks id := by
  simp [findOrder, h]

/-- The three ways `findOrder` can come out in a book that satisfies the invariant. -/
theorem findOrder_cases (b : Book) (n : Nat) (hinv : b.Inv n) (id : Nat) :
    (∃ o, Map.find b.bids id = some o ∧ Map.find b.asks id = none ∧ b.findOrder id = some o ∧
      o.side = Side.BUY) ∨
    (∃ o, Map.find b.bids id = none ∧ Map.find b.asks id = some o ∧ b.findOrder id = some o ∧
      o.side = Side.SELL) ∨
    (Map.find b.bids id = none ∧ Map.find b.asks id = none ∧ b.findOrder id = none) := by
  obtain ⟨_, _, hb, ha, hd⟩ := hinv
  cases hbid : Map.find b.bids id with
  | some o =>
    exact Or.inl ⟨o, rfl, hd id o hbid, findOrder_of_bid b id o hbid, (hb id o hbid).1⟩
  | none =>
    cases hask : Map.find b.asks id with
    | some o =>
      refine Or.inr (Or.inl ⟨o, rfl, rfl, ?_, (ha id o hask).1⟩)
      rw [findOrder_of_not_bid b id hbid, hask]
    | none =>
      refine Or.inr (Or.inr ⟨rfl, rfl, ?_⟩)
      rw [findOrder_of_not_bid b id hbid, hask]

theorem orderFilled_unknown (b : Book) (now : ℚ) (id : Nat) (price v : Int)
    (h : b.findOrder id = none) : b.orderFilled now id price v = (none, b) := by
  simp [orderFilled, h]

theorem orderFilled_bid (b : Book) (now : ℚ) (id : Nat) (price v : Int) (o : Order)
    (h : b.findOrder id = some o) (hs : o.side = Side.BUY) :
    b.orderFilled now id price v =
      (some { o with size := toULong v, price := toULong price, time := now },
        { b with
          bids :=
            if toULong ((o.size : Int) - v) = 0 then
              Map.erase (Map.assign b.bids id { o with size := toULong ((o.size : Int) - v) }) id
            else Map.assign b.bids id { o with size := toULong ((o.size : Int) - v) }
          exposure := b.exposure + v
          submittedBids := b.submittedBids - v
          dummyCash := b.dummyCash - ((v * price : Int) : ℚ)
          lotsFilled := b.lotsFilled + v }) := by
  simp [orderFilled, h, hs]

theorem orderFilled_ask (b : Book) (now : ℚ) (id : Nat) (price v : Int) (o : Order)
    (h : b.findOrder id = some o) (hs : o.side = Side.SELL) :
    b.orderFilled now id price v =
      (some { o with size := toULong v, price := toULong price, time := now },
        { b with
          asks :=
            if toULong ((o.size : Int) - v) = 0 then
              Map.erase (Map.assign b.asks id { o with size := toULong ((o.size : Int) - v) }) id
            else Map.assign b.asks id { o with size := toULong ((o.size : Int) - v) }
          exposure := b.exposure - v
          submittedAsks := b.submittedAsks - v
          dummyCash := b.dummyCash + ((v * price : Int) : ℚ)
          lotsFilled := b.lotsFilled + v }) := by
  simp [orderFilled, h, hs]

theorem inv_mono (b : Book) (n n' : Nat) (h : b.Inv n) (hn : n ≤ n') : b.Inv n' := by
  obtain ⟨h1, h2, h3, h4, h5⟩ := h
  refine ⟨h1, h2, fun id o ho => ?_, fun id o ho => ?_, h5⟩
  · obtain ⟨a, b', c⟩ := h3 id o ho
    exact ⟨a, le_trans b' hn, c⟩
  · obtain ⟨a, b', c⟩ := h4 id o ho
    exact ⟨a, le_trans b' hn, c⟩

theorem inv_empty (inst : Instrument) (n : Nat) : Book.Inv { instrument := inst } n := by
  refine ⟨Map.wf_nil, Map.wf_nil, ?_, ?_, ?_⟩ <;> intro id o ho <;> simp [Map.find] at ho

/-- Looking up a key in the map that `orderFilled` stores back. -/
theorem find_after_fill (m : OrderList) (id id' : Nat) (o' : Order) :
    Map.find (if o'.size = 0 then Map.erase (Map.assign m id o') id else Map.assign m id o') id' =
      if id' = id then (if o'.size = 0 then none else some o') else Map.find m id' := by
  by_cases hz : o'.size = 0 <;> by_cases hid : id' = id <;>
    simp [hz, hid, Map.find_erase, Map.find_assign]

theorem wf_after_fill (m : OrderList) (id : Nat) (o' : Order) (h : Map.WF m) :
    Map.WF (if o'.size = 0 then Map.erase (Map.assign m id o') id else Map.assign m id o') := by
  split
  · exact Map.wf_erase _ _ (Map.wf_assign _ _ _ h)
  · exact Map.wf_assign _ _ _ h

theorem inv_orderFilled (b : Book) (n : Nat) (now : ℚ) (id : Nat) (price v : Int)
    (h : b.Inv n) : (b.orderFilled now id price v).2.Inv n := by
  have hinv := h
  obtain ⟨h1, h2, h3, h4, h5⟩ := h
  rcases findOrder_cases b n hinv id with ⟨o, hb, ha, hf, hs⟩ | ⟨o, hb, ha, hf, hs⟩ | ⟨_, _, hf⟩
  · rw [orderFilled_bid b now id price v o hf hs]
    refine ⟨wf_after_fill _ _ { o with size := toULong ((o.size : Int) - v) } h1, h2, ?_, h4, ?_⟩
    · intro id' x hx
      have hx' := find_after_fill b.bids id id' { o with size := toULong ((o.size : Int) - v) }
      simp only [] at hx hx'
      rw [hx'] at hx
      by_cases hid : id' = id
      · rw [if_pos hid] at hx
        split at hx
        · cases hx
        · cases hx
          exact ⟨hs, hid ▸ (h3 id o hb).2.1, toULong_lt _⟩
      · rw [if_neg hid] at hx
        exact h3 id' x hx
    · intro id' x hx
      have hx' := find_after_fill b.bids id id' { o with size := toULong ((o.size : Int) - v) }
      simp only [] at hx hx'
      rw [hx'] at hx
      by_cases hid : id' = id
      · rw [hid]; exact ha
      · rw [if_neg hid] at hx
        exact h5 id' x hx
  · rw [orderFilled_ask b now id price v o hf hs]
    refine ⟨h1, wf_after_fill _ _ { o with size := toULong ((o.size : Int) - v) } h2, h3, ?_, ?_⟩
    · intro id' x hx
      have hx' := find_after_fill b.asks id id' { o with size := toULong ((o.size : Int) - v) }
      simp only [] at hx hx'
      rw [hx'] at hx
      by_cases hid : id' = id
      · rw [if_pos hid] at hx
        split at hx
        · cases hx
        · cases hx
          exact ⟨hs, hid ▸ (h4 id o ha).2.1, toULong_lt _⟩
      · rw [if_neg hid] at hx
        exact h4 id' x hx
    · intro id' x hx
      have hx' := find_after_fill b.asks id id' { o with size := toULong ((o.size : Int) - v) }
      simp only [] at hx'
      show Map.find (if _ then _ else _) id' = none
      rw [hx']
      by_cases hid : id' = id
      · rw [hid, hb] at hx; cases hx
      · rw [if_neg hid]
        exact h5 id' x hx
  · rw [orderFilled_unknown b now id price v hf]
    exact hinv

theorem orderClosed_unknown (b : Book) (id : Nat) (h : b.findOrder id = none) :
    b.orderClosed id = (none, b) := by
  simp [orderClosed, h]

theorem orderClosed_bid (b : Book) (id : Nat) (o : Order) (h : b.findOrder id = some o)
    (hs : o.side = Side.BUY) :
    b.orderClosed id = (some o, { b with
      submittedBids := b.submittedBids - toLong o.size
      bids := Map.erase b.bids id }) := by
  simp [orderClosed, h, hs]

theorem orderClosed_ask (b : Book) (id : Nat) (o : Order) (h : b.findOrder id = some o)
    (hs : o.side = Side.SELL) :
    b.orderClosed id = (some o, { b with
      submittedAsks := b.submittedAsks - toLong o.size
      asks := Map.erase b.asks id }) := by
  simp [orderClosed, h, hs]

theorem inv_orderClosed (b : Book) (n : Nat) (id : Nat) (h : b.Inv n) :
    (b.orderClosed id).2.Inv n := by
  have hinv := h
  obtain ⟨h1, h2, h3, h4, h5⟩ := h
  rcases findOrder_cases b n hinv id with ⟨o, hb, ha, hf, hs⟩ | ⟨o, hb, ha, hf, hs⟩ | ⟨_, _, hf⟩
  · rw [orderClosed_bid b id o hf hs]
    refine ⟨Map.wf_erase _ _ h1, h2, ?_, h4, ?_⟩
    · intro id' x hx
      simp only [Map.find_erase] at hx
      split at hx
      · cases hx
      · exact h3 id' x hx
    · intro id' x hx
      simp only [Map.find_erase] at hx
      split at hx
      · cases hx
      · exact h5 id' x hx
  · rw [orderClosed_ask b id o hf hs]
    refine ⟨h1, Map.wf_erase _ _ h2, h3, ?_, ?_⟩
    · intro id' x hx
      simp only [Map.find_erase] at hx
      split at hx
      · cases hx
      · exact h4 id' x hx
    · intro id' x hx
      simp only [Map.find_erase]
      split
      · rfl
      · exact h5 id' x hx
  · rw [orderClosed_unknown b id hf]
    exact hinv

theorem cancelOrder_maps (b : Book) (id : Nat) :
    (b.cancelOrder id).bids = b.bids ∧ (b.cancelOrder id).asks = b.asks ∧
    (b.cancelOrder id).submittedBids = b.submittedBids ∧
    (b.cancelOrder id).submittedAsks = b.submittedAsks ∧
    (b.cancelOrder id).exposure = b.exposure := by
  unfold cancelOrder
  split <;> simp

theorem inv_cancelOrder (b : Book) (n : Nat) (id : Nat) (h : b.Inv n) :
    (b.cancelOrder id).Inv n := by
  obtain ⟨e1, e2, _, _, _⟩ := cancelOrder_maps b id
  unfold Inv
  rw [e1, e2]
  exact h

theorem sendOrder_gen (b : Book) (g : OrderIDGenerator) (now : ℚ) (inst : Instrument)
    (side : Side) (size price : Int) :
    (b.sendOrder g now inst side size price 0).2.2.currClientOrderID =
      g.currClientOrderID + 1 := by
  cases side <;> simp [sendOrder, OrderIDGenerator.getNext]

theorem sendOrder_buy (b : Book) (g : OrderIDGenerator) (now : ℚ) (inst : Instrument)
    (size price : Int) :
    (b.sendOrder g now inst Side.BUY size price 0).2.1 =
      { b with
        ordersSent := b.ordersSent + 1
        submittedBids := b.submittedBids + size
        bids := Map.assign b.bids (g.currClientOrderID + 1)
          (Order.new (g.currClientOrderID + 1) size price Side.BUY now inst) } := by
  simp [sendOrder, OrderIDGenerator.getNext]

theorem sendOrder_sell (b : Book) (g : OrderIDGenerator) (now : ℚ) (inst : Instrument)
    (size price : Int) :
    (b.sendOrder g now inst Side.SELL size price 0).2.1 =
      { b with
        ordersSent := b.ordersSent + 1
        submittedAsks := b.submittedAsks + size
        asks := Map.assign b.asks (g.currClientOrderID + 1)
          (Order.new (g.currClientOrderID + 1) size price Side.SELL now inst) } := by
  simp [sendOrder, OrderIDGenerator.getNext]

/-- An id above every issued id is stored on neither side. -/
theorem find_fresh (b : Book) (n : Nat) (h : b.Inv n) (id : Nat) (hid : n < id) :
    Map.find b.bids id = none ∧ Map.find b.asks id = none := by
  obtain ⟨_, _, h3, h4, _⟩ := h
  constructor
  · cases hf : Map.find b.bids id with
    | none => rfl
    | some o => have := (h3 id o hf).2.1; omega
  · cases hf : Map.find b.asks id with
    | none => rfl
    | some o => have := (h4 id o hf).2.1; omega

theorem inv_sendOrder (b : Book) (g : OrderIDGenerator) (now : ℚ) (inst : Instrument)
    (side : Side) (size price : Int) (h : b.Inv g.currClientOrderID) :
    (b.sendOrder g now inst side size price 0).2.1.Inv (g.currClientOrderID + 1) := by
  obtain ⟨hfb, hfa⟩ := find_fresh b _ h (g.currClientOrderID + 1) (Nat.lt_succ_self _)
  have hinv := inv_mono b _ (g.currClientOrderID + 1) h (Nat.le_succ _)
  obtain ⟨h1, h2, h3, h4, h5⟩ := hinv
  cases side
  · rw [sendOrder_sell]
    refine ⟨h1, Map.wf_assign _ _ _ h2, h3, ?_, ?_⟩
    · intro id' x hx
      simp only [Map.find_assign] at hx
      split at hx
      · rename_i hid
        cases hx
        exact ⟨rfl, le_of_eq hid, toULong_lt _⟩
      · exact h4 id' x hx
    · intro id' x hx
      simp only [Map.find_assign]
      split
      · rename_i hid
        rw [hid, hfb] at hx; cases hx
      · exact h5 id' x hx
  · rw [sendOrder_buy]
    refine ⟨Map.wf_assign _ _ _ h1, h2, ?_, h4, ?_⟩
    · intro id' x hx
      simp only [Map.find_assign] at hx
      split at hx
      · rename_i hid
        cases hx
        exact ⟨rfl, le_of_eq hid, toULong_lt _⟩
      · exact h3 id' x hx
    · intro id' x hx
      simp only [Map.find_assign] at hx
      split at hx
      · rename_i hid
        rw [hid]; exact hfa
      · exact h5 id' x hx

/-- Total size of the map that `orderFilled` stores back, when the order's size was
`size` and the new size is `size - v`. -/
theorem totalSize_after_fill (m : OrderList) (id : Nat) (o o' : Order) (h : Map.WF m)
    (hf : Map.find m id = some o) :
    OrderList.totalSize
        (if o'.size = 0 then Map.erase (Map.assign m id o') id else Map.assign m id o') =
      OrderList.totalSize m - (o.size : Int) + (o'.size : Int) := by
  have ha := OrderList.totalSize_assign m id o' h
  rw [OrderList.sizeAt_of_find m id o hf] at ha
  split
  · rename_i hz
    rw [OrderList.totalSize_erase _ _ (Map.wf_assign _ _ _ h), ha,
      OrderList.sizeAt_of_find _ id o' (by simp [Map.find_assign])]
    omega
  · exact ha

theorem toULong_sub_of_fillOk (size : Nat) (v : Int) (h : FillOk size v) :
    ((toULong ((size : Int) - v) : Nat) : Int) = (size : Int) - v ∧
      toULong ((size : Int) - v) < two63 := by
  unfold FillOk two63 at h
  unfold toULong two64 two63
  omega

theorem sumInv_orderFilled (b : Book) (n : Nat) (now : ℚ) (id : Nat) (price v : Int)
    (hinv : b.Inv n) (hsum : b.SumInv) (hok : ∀ o, b.findOrder id = some o → FillOk o.size v) :
    (b.orderFilled now id price v).2.SumInv := by
  obtain ⟨s1, s2, s3, s4⟩ := hsum
  rcases findOrder_cases b n hinv id with ⟨o, hb, ha, hf, hs⟩ | ⟨o, hb, ha, hf, hs⟩ | ⟨_, _, hf⟩
  · obtain ⟨hsz, hlt⟩ := toULong_sub_of_fillOk o.size v (hok o hf)
    rw [orderFilled_bid b now id price v o hf hs]
    refine ⟨?_, s2, ?_, s4⟩
    · intro id' x hx
      have hx' := find_after_fill b.bids id id' { o with size := toULong ((o.size : Int) - v) }
      simp only [] at hx hx'
      rw [hx'] at hx
      by_cases hid : id' = id
      · rw [if_pos hid] at hx
        split at hx
        · cases hx
        · cases hx; exact hlt
      · rw [if_neg hid] at hx
        exact s1 id' x hx
    · have ht := totalSize_after_fill b.bids id o
        { o with size := toULong ((o.size : Int) - v) } hinv.1 hb
      simp only [] at ht ⊢
      rw [ht, s3, hsz]
      omega
  · obtain ⟨hsz, hlt⟩ := toULong_sub_of_fillOk o.size v (hok o hf)
    rw [orderFilled_ask b now id price v o hf hs]
    refine ⟨s1, ?_, s3, ?_⟩
    · intro id' x hx
      have hx' := find_after_fill b.asks id id' { o with size := toULong ((o.size : Int) - v) }
      simp only [] at hx hx'
      rw [hx'] at hx
      by_cases hid : id' = id
      · rw [if_pos hid] at hx
        split at hx
        · cases hx
        · cases hx; exact hlt
      · rw [if_neg hid] at hx
        exact s2 id' x hx
    · have ht := totalSize_after_fill b.asks id o
        { o with size := toULong ((o.size : Int) - v) } hinv.2.1 ha
      simp only [] at ht ⊢
      rw [ht, s4, hsz]
      omega
  · rw [orderFilled_unknown b now id price v hf]
    exact ⟨s1, s2, s3, s4⟩

theorem sumInv_orderClosed (b : Book) (n : Nat) (id : Nat) (hinv : b.Inv n)
    (hsum : b.SumInv) : (b.orderClosed id).2.SumInv := by
  obtain ⟨s1, s2, s3, s4⟩ := hsum
  rcases findOrder_cases b n hinv id with ⟨o, hb, ha, hf, hs⟩ | ⟨o, hb, ha, hf, hs⟩ | ⟨_, _, hf⟩
  · rw [orderClosed_bid b id o hf hs]
    refine ⟨?_, s2, ?_, s4⟩
    · intro id' x hx
      simp only [Map.find_erase] at hx
      split at hx
      · cases hx
      · exact s1 id' x hx
    · simp only []
      rw [OrderList.totalSize_erase _ _ hinv.1, OrderList.sizeAt_of_find _ _ _ hb,
        toLong_of_lt _ (s1 id o hb), s3]
  · rw [orderClosed_ask b id o hf hs]
    refine ⟨s1, ?_, s3, ?_⟩
    · intro id' x hx
      simp only [Map.find_erase] at hx
      split at hx
      · cases hx
      · exact s2 id' x hx
    · simp only []
      rw [OrderList.totalSize_erase _ _ hinv.2.1, OrderList.sizeAt_of_find _ _ _ ha,
        toLong_of_lt _ (s2 id o ha), s4]
  · rw [orderClosed_unknown b id hf]
    exact ⟨s1, s2, s3, s4⟩

theorem sumInv_cancelOrder (b : Book) (id : Nat) (hsum : b.SumInv) :
    (b.cancelOrder id).SumInv := by
  obtain ⟨e1, e2, e3, e4, _⟩ := cancelOrder_maps b id
  unfold SumInv
  rw [e1, e2, e3, e4]
  exact hsum

theorem toULong_of_pos_long (size : Int) (h0 : 0 < size) (h1 : size < (two63 : Int)) :
    ((toULong size : Nat) : Int) = size ∧ toULong size < two63 := by
  unfold two63 at h1
  unfold toULong two64 two63
  omega

theorem sumInv_sendOrder (b : Book) (g : OrderIDGenerator) (now : ℚ) (inst : Instrument)
    (side : Side) (size price : Int) (hinv : b.Inv g.currClientOrderID) (hsum : b.SumInv)
    (h0 : 0 < size) (h1 : size < (two63 : Int)) :
    (b.sendOrder g now inst side size price 0).2.1.SumInv := by
  obtain ⟨s1, s2, s3, s4⟩ := hsum
  obtain ⟨hfb, hfa⟩ := find_fresh b _ hinv (g.currClientOrderID + 1) (Nat.lt_succ_self _)
  obtain ⟨hsz, hlt⟩ := toULong_of_pos_long size h0 h1
  cases side
  · rw [sendOrder_sell]
    refine ⟨s1, ?_, s3, ?_⟩
    · intro id' x hx
      simp only [Map.find_assign] at hx
      split at hx
      · cases hx; exact hlt
      · exact s2 id' x hx
    · simp only []
      rw [OrderList.totalSize_assign _ _ _ hinv.2.1, OrderList.sizeAt_of_none _ _ hfa, s4]
      simp only [Order.new, hsz]
      omega
  · rw [sendOrder_buy]
    refine ⟨?_, s2, ?_, s4⟩
    · intro id' x hx
      simp only [Map.find_assign] at hx
      split at hx
      · cases hx; exact hlt
      · exact s1 id' x hx
    · simp only []
      rw [OrderList.totalSize_assign _ _ _ hinv.1, OrderList.sizeAt_of_none _ _ hfb, s3]
      simp only [Order.new, hsz]
      omega

/-- Every reachable book satisfies the representation invariant and has submitted
volumes that agree with its resting orders. -/
theorem reachable_inv (b : Book) (g : OrderIDGenerator) (h : Book.Reachable b g) :
    b.Inv g.currClientOrderID ∧ b.SumInv := by
  induction h with
  | empty inst g =>
    refine ⟨inv_empty inst _, ?_, ?_, rfl, rfl⟩ <;> intro id o ho <;> simp [Map.find] at ho
  | idsTaken b g g' _ hle ih => exact ⟨inv_mono b _ _ ih.1 hle, ih.2⟩
  | sendOrder b g now inst side size price _ h0 h1 ih =>
    rw [sendOrder_gen]
    exact ⟨inv_sendOrder b g now inst side size price ih.1,
      sumInv_sendOrder b g now inst side size price ih.1 ih.2 h0 h1⟩
  | orderFilled b g now id price v _ hok ih =>
    exact ⟨inv_orderFilled b _ now id price v ih.1,
      sumInv_orderFilled b _ now id price v ih.1 ih.2 hok⟩
  | orderClosed b g id _ ih =>
    exact ⟨inv_orderClosed b _ id ih.1, sumInv_orderClosed b _ id ih.1 ih.2⟩
  | cancelOrder b g id _ ih =>
    exact ⟨inv_cancelOrder b _ id ih.1, sumInv_cancelOrder b id ih.2⟩

/-- C2: in every `Book` state reached from the empty book by `sendOrder` calls (positive
size, id issued by the generator), `orderFilled` calls (fill volume at most the order's
remaining size), `orderClosed` calls and `cancelOrder` calls, `submittedBids` is the sum
of `size` over the orders in `bids` and `submittedAsks` is the sum of `size` over the
orders in `asks`. -/
theorem submitted_eq_totalSize (b : Book) (g : OrderIDGenerator) (h : Book.Reachable b g) :
    b.submittedBids = OrderList.totalSize b.bids ∧
    b.submittedAsks = OrderList.totalSize b.asks :=
  ⟨(reachable_inv b g h).2.2.2.1, (reachable_inv b g h).2.2.2.2⟩

/-- Witness for C2: the sample book (a BUY of 10 lots sent under id 1, then filled by 4
lots) is reachable. -/
theorem submitted_eq_totalSize_witness :
    Book.sample.submittedBids = OrderList.totalSize Book.sample.bids ∧
    Book.sample.submittedAsks = OrderList.totalSize Book.sample.asks :=
  submitted_eq_totalSize Book.sample
    (({ instrument := Instrument.ETF } : Book).sendOrder {} 0 Instrument.ETF Side.BUY 10 100
      0).2.2
    (Book.Reachable.orderFilled Book.sampleResting _ 0 1 100 4
      (Book.Reachable.sendOrder _ _ 0 Instrument.ETF Side.BUY 10 100
        (Book.Reachable.empty Instrument.ETF {}) (by decide) (by decide))
      (fun o ho => by
        have hfound : Book.sampleResting.findOrder 1 =
            some (Order.new 1 10 100 Side.BUY 0 Instrument.ETF) := by decide!
        rw [hfound] at ho
        cases ho
        decide))

/-- What `findOrder` returns for an id right after a fill of that id's order. -/
theorem findOrder_after_fill (b : Book) (n : Nat) (now : ℚ) (id : Nat) (price v : Int)
    (o : Order) (hinv : b.Inv n) (hf : b.findOrder id = some o) :
    (b.orderFilled now id price v).2.findOrder id =
      if toULong ((o.size : Int) - v) = 0 then none
      else some { o with size := toULong ((o.size : Int) - v) } := by
  rcases findOrder_cases b n hinv id with ⟨o', hb, ha, hf', hs⟩ | ⟨o', hb, ha, hf', hs⟩ |
    ⟨_, _, hf'⟩
  · rw [hf] at hf'; cases hf'
    rw [orderFilled_bid b now id price v o hf hs]
    have hx := find_after_fill b.bids id id { o with size := toULong ((o.size : Int) - v) }
    simp only [if_true] at hx
    simp only [findOrder, hx, ha]
    split <;> simp_all
  · rw [hf] at hf'; cases hf'
    rw [orderFilled_ask b now id price v o hf hs]
    have hx := find_after_fill b.asks id id { o with size := toULong ((o.size : Int) - v) }
    simp only [if_true] at hx
    simp only [findOrder, hx, hb]
  · rw [hf] at hf'; cases hf'

theorem orderFilledAll_unknown (id : Nat) (fills : List (ℚ × Int × Nat)) :
    ∀ b : Book, b.findOrder id = none → b.orderFilledAll id fills = b := by
  induction fills with
  | nil => intro b _; rfl
  | cons f rest ih =>
    intro b hb
    simp only [orderFilledAll, orderFilled_unknown b _ id _ _ hb]
    exact ih b hb

theorem toULong_sub_nat (size v : Nat) (hs : size < two64) (hv : v ≤ size) :
    toULong ((size : Int) - (v : Int)) = size - v := by
  unfold two64 at hs
  unfold toULong two64
  omega

/-- While the fills so far sum to less than the order's size, the order rests with the
difference as its remaining size. -/
theorem orderFilledAll_partial (n id : Nat) (fills : List (ℚ × Int × Nat)) :
    ∀ (b : Book) (o : Order), b.Inv n → b.findOrder id = some o →
      fillVolumeSum fills < o.size →
      ∃ o', (b.orderFilledAll id fills).findOrder id = some o' ∧
        o'.size = o.size - fillVolumeSum fills := by
  induction fills with
  | nil => intro b o _ hf _; exact ⟨o, hf, by simp [fillVolumeSum]⟩
  | cons f rest ih =>
    intro b o hinv hf hlt
    simp only [fillVolumeSum, List.map_cons, List.sum_cons] at hlt
    have hsz : o.size < two64 := by
      rcases findOrder_cases b n hinv id with ⟨o', hb, _, hf', _⟩ | ⟨o', _, ha, hf', _⟩ |
        ⟨_, _, hf'⟩
      · rw [hf] at hf'; cases hf'; exact (hinv.2.2.1 id o hb).2.2
      · rw [hf] at hf'; cases hf'; exact (hinv.2.2.2.1 id o ha).2.2
      · rw [hf] at hf'; cases hf'
    have hstep := findOrder_after_fill b n f.1 id f.2.1 (f.2.2 : Int) o hinv hf
    rw [toULong_sub_nat o.size f.2.2 hsz (by omega)] at hstep
    rw [if_neg (by omega)] at hstep
    obtain ⟨o', ho', hsize⟩ := ih _ _ (inv_orderFilled b n f.1 id f.2.1 (f.2.2 : Int) hinv) hstep
      (by simp only [fillVolumeSum]; omega)
    refine ⟨o', ho', ?_⟩
    simp only [fillVolumeSum, List.map_cons, List.sum_cons] at hsize ⊢
    omega

/-- Once the fills sum to the order's size, the order is gone. -/
theorem orderFilledAll_complete (n id : Nat) (fills : List (ℚ × Int × Nat)) :
    ∀ (b : Book) (o : Order), b.Inv n → b.findOrder id = some o →
      fillVolumeSum fills = o.size → fills ≠ [] →
      (b.orderFilledAll id fills).findOrder id = none := by
  induction fills with
  | nil => intro b o _ _ _ hne; exact absurd rfl hne
  | cons f rest ih =>
    intro b o hinv hf hsum _
    simp only [fillVolumeSum, List.map_cons, List.sum_cons] at hsum
    have hsz : o.size < two64 := by
      rcases findOrder_cases b n hinv id with ⟨o', hb, _, hf', _⟩ | ⟨o', _, ha, hf', _⟩ |
        ⟨_, _, hf'⟩
      · rw [hf] at hf'; cases hf'; exact (hinv.2.2.1 id o hb).2.2
      · rw [hf] at hf'; cases hf'; exact (hinv.2.2.2.1 id o ha).2.2
      · rw [hf] at hf'; cases hf'
    have hstep := findOrder_after_fill b n f.1 id f.2.1 (f.2.2 : Int) o hinv hf
    rw [toULong_sub_nat o.size f.2.2 hsz (by omega)] at hstep
    simp only [orderFilledAll]
    by_cases hz : o.size - f.2.2 = 0
    · rw [if_pos hz] at hstep
      rw [orderFilledAll_unknown id rest _ hstep]
      exact hstep
    · rw [if_neg hz] at hstep
      have hrest : rest ≠ [] := by
        intro hnil
        rw [hnil] at hsum
        simp at hsum
        omega
      exact ih _ _ (inv_orderFilled b n f.1 id f.2.1 (f.2.2 : Int) hinv) hstep
        (by simp only [fillVolumeSum]; omega) hrest

/-- C4: let an order of size `n` rest in a book under `id`, and let fills with
natural-number volumes summing to `n` be applied to `id` through `orderFilled`.  As long
as the fills applied so far sum to less than `n` the order rests with the difference as
its remaining size; after the last fill the remaining size has reached 0 and `findOrder`
returns the empty result: the id is in neither `bids` nor `asks`. -/
theorem fills_summing_to_size_remove_order (b : Book) (n id : Nat) (o : Order)
    (fills : List (ℚ × Int × Nat)) (hinv : b.Inv n) (hf : b.findOrder id = some o)
    (hsum : fillVolumeSum fills = o.size) (hne : fills ≠ []) :
    (b.orderFilledAll id fills).findOrder id = none ∧
    Map.find (b.orderFilledAll id fills).bids id = none ∧
    Map.find (b.orderFilledAll id fills).asks id = none ∧
    (∀ pre post, fills = pre ++ post → fillVolumeSum pre < o.size →
      ∃ o', (b.orderFilledAll id pre).findOrder id = some o' ∧
        o'.size = o.size - fillVolumeSum pre) := by
  have hnone := orderFilledAll_complete n id fills b o hinv hf hsum hne
  refine ⟨hnone, ?_, ?_, ?_⟩
  · cases hb : Map.find (b.orderFilledAll id fills).bids id with
    | none => rfl
    | some x => rw [findOrder_of_bid _ id x hb] at hnone; cases hnone
  · cases hb : Map.find (b.orderFilledAll id fills).bids id with
    | none => rw [findOrder_of_not_bid _ id hb] at hnone; exact hnone
    | some x => rw [findOrder_of_bid _ id x hb] at hnone; cases hnone
  · intro pre post _ hlt
    exact orderFilledAll_partial n id pre b o hinv hf hlt

/-- Witness for C4: the resting BUY of 10 lots of the sample book, filled by 4 and then
6 lots. -/
theorem fills_summing_to_size_remove_order_witness :
    (Book.sampleResting.orderFilledAll 1 [(0, 100, 4), (1/4, 100, 6)]).findOrder 1 = none :=
  (fills_summing_to_size_remove_order Book.sampleResting 1 1
    (Order.new 1 10 100 Side.BUY 0 Instrument.ETF) [(0, 100, 4), (1/4, 100, 6)]
    (inv_sendOrder _ {} 0 Instrument.ETF Side.BUY 10 100 (inv_empty Instrument.ETF 0))
    (by decide!) (by decide) (by simp)).1

end Book

/-! ## Theorems: exposure of books and containers -/

namespace BooksContainer

theorem sendOrder_fields (c : BooksContainer) (g : OrderIDGenerator) (now : ℚ) (name : String)
    (instrument : Instrument) (side : Side) (size price : Int) :
    (c.sendOrder g now name instrument side size price).1.exposure = c.exposure ∧
    (c.sendOrder g now name instrument side size price).1.submittedBids =
      (if (Map.find c.books name).isSome ∧ side = Side.BUY then c.submittedBids + size
       else c.submittedBids) ∧
    (c.sendOrder g now name instrument side size price).1.submittedAsks =
      (if (Map.find c.books name).isSome ∧ side = Side.SELL then c.submittedAsks + size
       else c.submittedAsks) := by
  unfold sendOrder
  cases hfind : Map.find c.books name with
  | none => simp
  | some book => cases side <;> simp

end BooksContainer

namespace Book

theorem orderFilled_fst (b : Book) (now : ℚ) (id : Nat) (price v : Int) :
    (b.orderFilled now id price v).1 =
      (b.findOrder id).map
        (fun o => { o with size := toULong v, price := toULong price, time := now }) := by
  unfold orderFilled
  cases b.findOrder id with
  | none => rfl
  | some o => rfl

theorem orderFilled_exposure (b : Book) (now : ℚ) (id : Nat) (price v : Int) :
    (b.orderFilled now id price v).2.exposure = b.exposure + signedFill (b.findOrder id) v := by
  unfold orderFilled signedFill
  cases b.findOrder id with
  | none => simp
  | some o => cases hs : o.side <;> simp [hs]; omega

theorem orderClosed_exposure (b : Book) (id : Nat) :
    (b.orderClosed id).2.exposure = b.exposure := by
  unfold orderClosed
  cases b.findOrder id with
  | none => rfl
  | some o => cases hs : o.side <;> simp [hs]

theorem sendOrder_exposure (b : Book) (g : OrderIDGenerator) (now : ℚ) (inst : Instrument)
    (side : Side) (size price : Int) (id : Nat) :
    (b.sendOrder g now inst side size price id).2.1.exposure = b.exposure := by
  cases side <;> simp [sendOrder]

theorem findOrder_orderFilled_none (b : Book) (n : Nat) (now : ℚ) (id id' : Nat)
    (price v : Int) (hinv : b.Inv n) (h : b.findOrder id' = none) :
    (b.orderFilled now id price v).2.findOrder id' = none := by
  by_cases hid : id' = id
  · subst hid
    rw [orderFilled_unknown b now id' price v h]
    exact h
  · obtain ⟨hb', ha'⟩ : Map.find b.bids id' = none ∧ Map.find b.asks id' = none := by
      rcases findOrder_cases b n hinv id' with ⟨o, _, _, hf, _⟩ | ⟨o, _, _, hf, _⟩ | ⟨hb, ha, _⟩
      · rw [h] at hf; cases hf
      · rw [h] at hf; cases hf
      · exact ⟨hb, ha⟩
    rcases findOrder_cases b n hinv id with ⟨o, hb, ha, hf, hs⟩ | ⟨o, hb, ha, hf, hs⟩ |
      ⟨_, _, hf⟩
    · rw [orderFilled_bid b now id price v o hf hs]
      have hx := find_after_fill b.bids id id' { o with size := toULong ((o.size : Int) - v) }
      simp only [if_neg hid] at hx
      simp only [findOrder, hx, hb', ha']
    · rw [orderFilled_ask b now id price v o hf hs]
      have hx := find_after_fill b.asks id id' { o with size := toULong ((o.size : Int) - v) }
      simp only [if_neg hid] at hx
      simp only [findOrder, hx, hb', ha']
    · rw [orderFilled_unknown b now id price v hf]
      exact h

theorem findOrder_orderClosed_none (b : Book) (n : Nat) (id id' : Nat)
    (hinv : b.Inv n) (h : b.findOrder id' = none) :
    (b.orderClosed id).2.findOrder id' = none := by
  obtain ⟨hb', ha'⟩ : Map.find b.bids id' = none ∧ Map.find b.asks id' = none := by
    rcases findOrder_cases b n hinv id' with ⟨o, _, _, hf, _⟩ | ⟨o, _, _, hf, _⟩ | ⟨hb, ha, _⟩
    · rw [h] at hf; cases hf
    · rw [h] at hf; cases hf
    · exact ⟨hb, ha⟩
  rcases findOrder_cases b n hinv id with ⟨o, hb, ha, hf, hs⟩ | ⟨o, hb, ha, hf, hs⟩ |
    ⟨_, _, hf⟩
  · rw [orderClosed_bid b id o hf hs]
    simp only [findOrder, Map.find_erase, hb', ha', ite_self]
  · rw [orderClosed_ask b id o hf hs]
    simp only [findOrder, Map.find_erase, hb', ha', ite_self]
  · rw [orderClosed_unknown b id hf]
    exact h

theorem findOrder_cancelOrder (b : Book) (id id' : Nat) :
    (b.cancelOrder id).findOrder id' = b.findOrder id' := by
  obtain ⟨e1, e2, _, _, _⟩ := cancelOrder_maps b id
  simp only [findOrder, e1, e2]

theorem findOrder_sendOrder (b : Book) (g : OrderIDGenerator) (now : ℚ) (inst : Instrument)
    (side : Side) (size price : Int) (id' : Nat) (hinv : b.Inv g.currClientOrderID) :
    (b.sendOrder g now inst side size price 0).2.1.findOrder id' =
      if id' = g.currClientOrderID + 1 then
        some (Order.new (g.currClientOrderID + 1) size price side now inst)
      else b.findOrder id' := by
  obtain ⟨hfb, hfa⟩ := find_fresh b _ hinv (g.currClientOrderID + 1) (Nat.lt_succ_self _)
  cases side
  · rw [sendOrder_sell]
    simp only [findOrder, Map.find_assign]
    by_cases hid : id' = g.currClientOrderID + 1
    · rw [hid, hfb]
    · simp only [if_neg hid]
  · rw [sendOrder_buy]
    simp only [findOrder, Map.find_assign]
    by_cases hid : id' = g.currClientOrderID + 1
    · simp [hid]
    · simp [hid]

theorem Apart.symm {b1 b2 : Book} (h : Book.Apart b1 b2) : Book.Apart b2 b1 :=
  fun id => (h id).symm

end Book

namespace Map

variable {κ β : Type} [LinearOrder κ]

theorem find_of_mem (m : List (κ × β)) (h : WF m) (x : κ × β) (hx : x ∈ m) :
    find m x.1 = some x.2 := by
  induction m with
  | nil => cases hx
  | cons e rest ih =>
    rw [wf_cons] at h
    rcases List.mem_cons.mp hx with hx | hx
    · rw [hx]; simp [find]
    · have hlt := h.1 x hx
      have hne : ¬ e.1 = x.1 := ne_of_lt hlt
      simp only [find, if_neg hne]
      exact ih h.2 hx

theorem pairwise_of_wf (m : List (κ × β)) (h : WF m) (R : κ × β → κ × β → Prop)
    (hR : ∀ x ∈ m, ∀ y ∈ m, x.1 ≠ y.1 → R x y) : m.Pairwise R := by
  have hp : m.Pairwise (fun x y => x.1 < y.1) := List.pairwise_map.mp h
  exact hp.imp_of_mem (fun hx hy hlt => hR _ hx _ hy (ne_of_lt hlt))

end Map

namespace BooksContainer

theorem orderFilledLoop_books (now : ℚ) (id : Nat) (price v : Int) :
    ∀ (bs : List (String × Book)) (c : BooksContainer) (m : TradeMatcher),
      (orderFilledLoop now id price v bs c m).1 =
        bs.map (fun e => (e.1, (e.2.orderFilled now id price v).2)) := by
  intro bs
  induction bs with
  | nil => intro c m; rfl
  | cons e rest ih =>
    intro c m
    simp only [orderFilledLoop, List.map_cons]
    split <;> simp [ih]

theorem orderFilledLoop_unknown (now : ℚ) (id : Nat) (price v : Int) :
    ∀ (bs : List (String × Book)) (c : BooksContainer) (m : TradeMatcher),
      (∀ e ∈ bs, e.2.findOrder id = none) →
      (orderFilledLoop now id price v bs c m).2 = (c, m) := by
  intro bs
  induction bs with
  | nil => intro c m _; rfl
  | cons e rest ih =>
    intro c m h
    have he := h e (List.mem_cons_self _ _)
    unfold orderFilledLoop
    rw [Book.orderFilled_unknown e.2 now id price v he]
    simp only []
    exact ih c m (fun x hx => h x (List.mem_cons_of_mem _ hx))

theorem applyFill_exposure (c : BooksContainer) (o : Order) (now : ℚ) (price v : Int)
    (hv : IsLong v) :
    (applyFill c { o with size := toULong v, price := toULong price, time := now }).exposure =
      c.exposure + signedFill (some o) v := by
  unfold applyFill signedFill
  cases hs : o.side <;> simp [hs, toLong_toULong v hv]; omega

theorem orderFilledLoop_exposure (now : ℚ) (id : Nat) (price v : Int) (hv : IsLong v) :
    ∀ (bs : List (String × Book)) (c : BooksContainer) (m : TradeMatcher),
      bs.Pairwise (fun x y => Book.Apart x.2 y.2) →
      (orderFilledLoop now id price v bs c m).2.1.exposure =
        c.exposure + signedFill (findOrderIn id bs) v := by
  intro bs
  induction bs with
  | nil => intro c m _; simp [orderFilledLoop, findOrderIn, signedFill]
  | cons e rest ih =>
    intro c m hp
    rw [List.pairwise_cons] at hp
    cases hf : e.2.findOrder id with
    | none =>
      unfold orderFilledLoop
      rw [Book.orderFilled_unknown e.2 now id price v hf]
      simp only [findOrderIn, hf]
      exact ih c m hp.2
    | some o =>
      have hrest : ∀ x ∈ rest, x.2.findOrder id = none := by
        intro x hx
        rcases hp.1 x hx id with h | h
        · rw [hf] at h; cases h
        · exact h
      have hfst := Book.orderFilled_fst e.2 now id price v
      rw [hf] at hfst
      unfold orderFilledLoop
      simp only [hfst, Option.map_some', findOrderIn, hf]
      rw [orderFilledLoop_unknown now id price v rest _ _ hrest]
      exact applyFill_exposure c o now price v hv

theorem orderClosedLoop_books (id : Nat) :
    ∀ (bs : List (String × Book)) (c : BooksContainer),
      (orderClosedLoop id bs c).1 = bs.map (fun e => (e.1, (e.2.orderClosed id).2)) := by
  intro bs
  induction bs with
  | nil => intro c; rfl
  | cons e rest ih =>
    intro c
    simp only [orderClosedLoop, List.map_cons]
    split <;> simp [ih]

theorem applyClose_exposure (c : BooksContainer) (o : Order) :
    (applyClose c o).exposure = c.exposure := by
  unfold applyClose
  cases o.side <;> rfl

theorem orderClosedLoop_exposure (id : Nat) :
    ∀ (bs : List (String × Book)) (c : BooksContainer),
      (orderClosedLoop id bs c).2.exposure = c.exposure := by
  intro bs
  induction bs with
  | nil => intro c; rfl
  | cons e rest ih =>
    intro c
    simp only [orderClosedLoop]
    split <;> simp [ih, applyClose_exposure]

theorem pairwise_apart (c : BooksContainer) (n : Nat) (h : c.Inv n) :
    c.books.Pairwise (fun x y => Book.Apart x.2 y.2) :=
  Map.pairwise_of_wf c.books h.1 _ (fun x hx y hy hne =>
    h.2.2 x.1 y.1 x.2 y.2 hne (Map.find_of_mem _ h.1 x hx) (Map.find_of_mem _ h.1 y hy))

/-- A fill changes the container's exposure by the signed volume of the order that the
container's `findOrder` returns for the id. -/
theorem container_orderFilled_exposure (c : BooksContainer) (n : Nat) (m : TradeMatcher) (now : ℚ)
    (id : Nat) (price v : Int) (hinv : c.Inv n) (hv : IsLong v) :
    (c.orderFilled m now id price v).1.exposure =
      c.exposure + signedFill (c.findOrder id) v := by
  unfold orderFilled findOrder
  exact orderFilledLoop_exposure now id price v hv c.books c m (pairwise_apart c n hinv)

theorem container_orderFilled_books (c : BooksContainer) (m : TradeMatcher) (now : ℚ)
    (id : Nat) (price v : Int) :
    (c.orderFilled m now id price v).1.books =
      c.books.map (fun e => (e.1, (e.2.orderFilled now id price v).2)) := by
  unfold orderFilled
  exact orderFilledLoop_books now id price v c.books c m

theorem container_orderClosed_books (c : BooksContainer) (id : Nat) :
    (c.orderClosed id).books = c.books.map (fun e => (e.1, (e.2.orderClosed id).2)) := by
  unfold orderClosed
  exact orderClosedLoop_books id c.books c

theorem container_orderClosed_exposure (c : BooksContainer) (id : Nat) :
    (c.orderClosed id).exposure = c.exposure := by
  unfold orderClosed
  exact orderClosedLoop_exposure id c.books c

end BooksContainer

namespace Map

variable {κ β : Type} [LinearOrder κ]

theorem wf_map_snd (m : List (κ × β)) (f : β → β) (h : WF m) :
    WF (m.map (fun e => (e.1, f e.2))) := by
  unfold WF at h ⊢
  rw [List.map_map]
  exact h

end Map

namespace BooksContainer

theorem new_books (namesIn : List String) (inst : Instrument) :
    Map.WF (new namesIn inst).books ∧
    ∀ name b, Map.find (new namesIn inst).books name = some b → b = { instrument := inst } := by
  have key : ∀ (names : List String) (m : List (String × Book)),
      (Map.WF m ∧ ∀ name b, Map.find m name = some b → b = { instrument := inst }) →
      (Map.WF (names.foldl (fun m name => Map.assign m name ({ instrument := inst } : Book)) m) ∧
        ∀ name b, Map.find (names.foldl
          (fun m name => Map.assign m name ({ instrument := inst } : Book)) m) name = some b →
          b = { instrument := inst }) := by
    intro names
    induction names with
    | nil => intro m h; exact h
    | cons nm rest ih =>
      intro m h
      simp only [List.foldl_cons]
      apply ih
      refine ⟨Map.wf_assign _ _ _ h.1, ?_⟩
      intro name b hb
      rw [Map.find_assign] at hb
      split at hb
      · cases hb; rfl
      · exact h.2 name b hb
  exact key namesIn [] ⟨Map.wf_nil, fun name b hb => by simp [Map.find] at hb⟩

theorem container_inv_new (namesIn : List String) (inst : Instrument) (n : Nat) :
    (new namesIn inst).Inv n := by
  obtain ⟨hwf, hall⟩ := new_books namesIn inst
  refine ⟨hwf, ?_, ?_⟩
  · intro name b hb
    rw [hall name b hb]
    exact Book.inv_empty inst n
  · intro name1 name2 b1 b2 _ h1 _ id
    left
    rw [hall name1 b1 h1]
    rfl

theorem container_inv_mono (c : BooksContainer) (n n' : Nat) (h : c.Inv n) (hn : n ≤ n') : c.Inv n' :=
  ⟨h.1, fun name b hb => Book.inv_mono b n n' (h.2.1 name b hb) hn, h.2.2⟩

theorem sendOrder_unknown (c : BooksContainer) (g : OrderIDGenerator) (now : ℚ) (name : String)
    (instrument : Instrument) (side : Side) (size price : Int)
    (h : Map.find c.books name = none) :
    c.sendOrder g now name instrument side size price = (c, g) := by
  simp [sendOrder, h]

theorem sendOrder_known (c : BooksContainer) (g : OrderIDGenerator) (now : ℚ) (name : String)
    (instrument : Instrument) (side : Side) (size price : Int) (book : Book)
    (h : Map.find c.books name = some book) :
    (c.sendOrder g now name instrument side size price).1.books =
      Map.assign c.books name (book.sendOrder g now instrument side size price 0).2.1 ∧
    (c.sendOrder g now name instrument side size price).2.currClientOrderID =
      g.currClientOrderID + 1 := by
  unfold sendOrder
  rw [h]
  cases side <;> simp [Book.sendOrder, OrderIDGenerator.getNext]

theorem container_inv_sendOrder (c : BooksContainer) (g : OrderIDGenerator) (now : ℚ) (name : String)
    (instrument : Instrument) (side : Side) (size price : Int)
    (h : c.Inv g.currClientOrderID) :
    (c.sendOrder g now name instrument side size price).1.Inv
      (c.sendOrder g now name instrument side size price).2.currClientOrderID := by
  cases hfind : Map.find c.books name with
  | none =>
    rw [sendOrder_unknown c g now name instrument side size price hfind]
    exact h
  | some book =>
    obtain ⟨hbooks, hgen⟩ := sendOrder_known c g now name instrument side size price book hfind
    have hbinv := h.2.1 name book hfind
    have hnew := Book.inv_sendOrder book g now instrument side size price hbinv
    have hfo := fun id' => Book.findOrder_sendOrder book g now instrument side size price id' hbinv
    have hfresh : ∀ nm b, Map.find c.books nm = some b →
        b.findOrder (g.currClientOrderID + 1) = none := by
      intro nm b hb
      obtain ⟨h1, h2⟩ := Book.find_fresh b _ (h.2.1 nm b hb) (g.currClientOrderID + 1)
        (Nat.lt_succ_self _)
      rw [Book.findOrder_of_not_bid b _ h1, h2]
    rw [hgen]
    unfold Inv
    rw [hbooks]
    refine ⟨Map.wf_assign _ _ _ h.1, ?_, ?_⟩
    · intro nm b hb
      rw [Map.find_assign] at hb
      split at hb
      · cases hb; exact hnew
      · exact Book.inv_mono b _ _ (h.2.1 nm b hb) (Nat.le_succ _)
    · intro name1 name2 b1 b2 hne h1 h2 id
      rw [Map.find_assign] at h1 h2
      by_cases hn1 : name1 = name
      · rw [if_pos hn1] at h1
        rw [if_neg (fun e => hne (hn1.trans e.symm))] at h2
        cases h1
        by_cases hid : id = g.currClientOrderID + 1
        · right; rw [hid]; exact hfresh name2 b2 h2
        · rw [hfo id, if_neg hid]
          exact h.2.2 name name2 book b2 (fun e => hne (hn1.trans e)) hfind h2 id
      · rw [if_neg hn1] at h1
        by_cases hn2 : name2 = name
        · rw [if_pos hn2] at h2
          cases h2
          by_cases hid : id = g.currClientOrderID + 1
          · left; rw [hid]; exact hfresh name1 b1 h1
          · rw [hfo id, if_neg hid]
            exact h.2.2 name1 name b1 book hn1 h1 hfind id
        · rw [if_neg hn2] at h2
          exact h.2.2 name1 name2 b1 b2 hne h1 h2 id

/-- Invariant preservation for an update that maps every book through `f`, when `f`
keeps the book invariant and never makes a book learn an id. -/
theorem inv_map_books (c c' : BooksContainer) (n : Nat) (f : Book → Book)
    (hbooks : c'.books = c.books.map (fun e => (e.1, f e.2)))
    (hf : ∀ b, b.Inv n → (f b).Inv n)
    (hnone : ∀ b id, b.Inv n → b.findOrder id = none → (f b).findOrder id = none)
    (h : c.Inv n) : c'.Inv n := by
  unfold Inv
  rw [hbooks]
  refine ⟨Map.wf_map_snd _ _ h.1, ?_, ?_⟩
  · intro name b hb
    rw [Map.find_map_snd] at hb
    cases hfind : Map.find c.books name with
    | none => rw [hfind] at hb; cases hb
    | some b0 =>
      rw [hfind] at hb
      cases hb
      exact hf b0 (h.2.1 name b0 hfind)
  · intro name1 name2 b1 b2 hne h1 h2 id
    rw [Map.find_map_snd] at h1 h2
    cases hf1 : Map.find c.books name1 with
    | none => rw [hf1] at h1; cases h1
    | some a1 =>
      cases hf2 : Map.find c.books name2 with
      | none => rw [hf2] at h2; cases h2
      | some a2 =>
        rw [hf1] at h1
        rw [hf2] at h2
        cases h1
        cases h2
        rcases h.2.2 name1 name2 a1 a2 hne hf1 hf2 id with hx | hx
        · exact Or.inl (hnone a1 id (h.2.1 name1 a1 hf1) hx)
        · exact Or.inr (hnone a2 id (h.2.1 name2 a2 hf2) hx)

theorem container_inv_orderFilled (c : BooksContainer) (n : Nat) (m : TradeMatcher) (now : ℚ)
    (id : Nat) (price v : Int) (h : c.Inv n) :
    (c.orderFilled m now id price v).1.Inv n :=
  inv_map_books c _ n (fun b => (b.orderFilled now id price v).2)
    (container_orderFilled_books c m now id price v)
    (fun b hb => Book.inv_orderFilled b n now id price v hb)
    (fun b id' hb hn => Book.findOrder_orderFilled_none b n now id id' price v hb hn) h

theorem container_inv_orderClosed (c : BooksContainer) (n : Nat) (id : Nat) (h : c.Inv n) :
    (c.orderClosed id).Inv n :=
  inv_map_books c _ n (fun b => (b.orderClosed id).2)
    (container_orderClosed_books c id)
    (fun b hb => Book.inv_orderClosed b n id hb)
    (fun b id' hb hn => Book.findOrder_orderClosed_none b n id id' hb hn) h

theorem container_inv_cancelOrder (c : BooksContainer) (n : Nat) (id : Nat) (h : c.Inv n) :
    (c.cancelOrder id).Inv n :=
  inv_map_books c _ n (fun b => b.cancelOrder id) rfl
    (fun b hb => Book.inv_cancelOrder b n id hb)
    (fun b id' _ hn => by rw [Book.findOrder_cancelOrder]; exact hn) h

end BooksContainer

namespace Ledger

theorem step_inv (s : Ledger) (op : LedgerOp)
    (h : s.container.Inv s.idGen.currClientOrderID) :
    (s.step op).container.Inv (s.step op).idGen.currClientOrderID := by
  cases op with
  | sendOrder now name instrument side size price =>
    exact BooksContainer.container_inv_sendOrder _ _ now name instrument side size price h
  | orderFilled now id price v =>
    exact BooksContainer.container_inv_orderFilled _ _ _ now id price v h
  | orderClosed id => exact BooksContainer.container_inv_orderClosed _ _ id h
  | cancelOrder id => exact BooksContainer.container_inv_cancelOrder _ _ id h
  | idsTaken count =>
    exact BooksContainer.container_inv_mono _ _ _ h (Nat.le_add_right _ _)

/-- The container's exposure moves only in `orderFilled`, by the signed volume. -/
theorem run_exposure (ops : List LedgerOp) :
    ∀ s : Ledger, s.container.Inv s.idGen.currClientOrderID → LedgerOp.VolumesLong ops →
      (s.run ops).container.exposure = s.container.exposure + s.netFilled ops := by
  induction ops with
  | nil => intro s _ _; simp [run, netFilled]
  | cons op rest ih =>
    intro s hinv hv
    have hrest : LedgerOp.VolumesLong rest :=
      fun now id price v hmem => hv now id price v (List.mem_cons_of_mem _ hmem)
    have hnext := ih (s.step op) (step_inv s op hinv) hrest
    simp only [run]
    rw [hnext]
    cases op with
    | sendOrder now name instrument side size price =>
      simp only [netFilled, step,
        (BooksContainer.sendOrder_fields s.container s.idGen now name instrument side size
          price).1]
    | orderFilled now id price v =>
      have hlong := hv now id price v (List.mem_cons_self _ _)
      simp only [netFilled]
      simp only [step,
        BooksContainer.container_orderFilled_exposure s.container _ s.matcher now id price v
          hinv hlong]
      omega
    | orderClosed id =>
      simp only [netFilled, step, BooksContainer.container_orderClosed_exposure]
    | cancelOrder id => simp only [netFilled, step, BooksContainer.cancelOrder]
    | idsTaken count => simp only [netFilled, step]

/-- How one call changes the exposure of the book called `name`. -/
theorem step_book_exposure (name : String) (s : Ledger) (op : LedgerOp) (b' : Book)
    (h : (s.step op).container.getBook name = some b') :
    ∃ b, s.container.getBook name = some b ∧
      b'.exposure = b.exposure + s.netFilledBook name [op] := by
  unfold BooksContainer.getBook at h ⊢
  cases op with
  | sendOrder now nm instrument side size price =>
    simp only [netFilledBook, step, add_zero] at h ⊢
    cases hfind : Map.find s.container.books nm with
    | none =>
      rw [BooksContainer.sendOrder_unknown _ _ now nm instrument side size price hfind] at h
      exact ⟨b', h, rfl⟩
    | some book =>
      rw [(BooksContainer.sendOrder_known _ _ now nm instrument side size price book hfind).1,
        Map.find_assign] at h
      split at h
      · rename_i heq
        cases h
        exact ⟨book, heq ▸ hfind, Book.sendOrder_exposure _ _ _ _ _ _ _ _⟩
      · exact ⟨b', h, rfl⟩
  | orderFilled now id price v =>
    simp only [netFilledBook, step, add_zero, BooksContainer.getBook] at h ⊢
    rw [BooksContainer.container_orderFilled_books,
      Map.find_map_snd s.container.books (fun b : Book => (b.orderFilled now id price v).2) name] at h
    cases hfind : Map.find s.container.books name with
    | none => rw [hfind] at h; cases h
    | some b =>
      rw [hfind] at h
      cases h
      exact ⟨b, rfl, Book.orderFilled_exposure b now id price v⟩
  | orderClosed id =>
    simp only [netFilledBook, step, add_zero] at h ⊢
    rw [BooksContainer.container_orderClosed_books,
      Map.find_map_snd s.container.books (fun b : Book => (b.orderClosed id).2) name] at h
    cases hfind : Map.find s.container.books name with
    | none => rw [hfind] at h; cases h
    | some b =>
      rw [hfind] at h
      cases h
      exact ⟨b, rfl, Book.orderClosed_exposure b id⟩
  | cancelOrder id =>
    simp only [netFilledBook, step, add_zero, BooksContainer.cancelOrder] at h ⊢
    rw [Map.find_map_snd s.container.books (fun b : Book => b.cancelOrder id) name] at h
    cases hfind : Map.find s.container.books name with
    | none => rw [hfind] at h; cases h
    | some b =>
      rw [hfind] at h
      cases h
      exact ⟨b, rfl, (Book.cancelOrder_maps b id).2.2.2.2⟩
  | idsTaken count =>
    simp only [netFilledBook, step, add_zero] at h ⊢
    exact ⟨b', h, rfl⟩

theorem netFilledBook_cons (name : String) (s : Ledger) (op : LedgerOp)
    (rest : List LedgerOp) :
    s.netFilledBook name (op :: rest) =
      s.netFilledBook name [op] + (s.step op).netFilledBook name rest := by
  cases op <;> simp [netFilledBook]

theorem run_book_exposure (name : String) (ops : List LedgerOp) :
    ∀ (s : Ledger) (b' : Book), (s.run ops).container.getBook name = some b' →
      ∃ b, s.container.getBook name = some b ∧
        b'.exposure = b.exposure + s.netFilledBook name ops := by
  induction ops with
  | nil => intro s b' h; exact ⟨b', h, by simp [netFilledBook]⟩
  | cons op rest ih =>
    intro s b' h
    simp only [run] at h
    obtain ⟨b1, hb1, he1⟩ := ih (s.step op) b' h
    obtain ⟨b, hb, he⟩ := step_book_exposure name s op b1 hb1
    refine ⟨b, hb, ?_⟩
    rw [netFilledBook_cons, he1, he]
    omega

/-- C3: after any sequence of send, fill, close and cancel calls on a ledger that starts
empty, the exposure of the container, and of each of its books, equals the sum of the fill
volumes applied to known buy orders minus the sum of the fill volumes applied to known
sell orders; fills for unknown ids, closes and cancels contribute nothing. -/
theorem exposure_eq_netFilled (namesIn : List String) (inst : Instrument)
    (g : OrderIDGenerator) (m : TradeMatcher) (ops : List LedgerOp)
    (hv : LedgerOp.VolumesLong ops) :
    ((Ledger.new namesIn inst g m).run ops).container.exposure =
      (Ledger.new namesIn inst g m).netFilled ops ∧
    ∀ name b, ((Ledger.new namesIn inst g m).run ops).container.getBook name = some b →
      b.exposure = (Ledger.new namesIn inst g m).netFilledBook name ops := by
  constructor
  · have h := run_exposure ops (Ledger.new namesIn inst g m)
      (BooksContainer.container_inv_new namesIn inst _) hv
    rw [h]
    simp [Ledger.new, BooksContainer.new]
  · intro name b hb
    obtain ⟨b0, hb0, he⟩ := run_book_exposure name ops _ b hb
    have hempty := (BooksContainer.new_books namesIn inst).2 name b0 hb0
    rw [he, hempty]
    simp

/-- Witness for C3: the sample sequence of calls on a ledger with the single book "ETF". -/
theorem exposure_eq_netFilled_witness :
    ((Ledger.new ["ETF"] Instrument.ETF {} {}).run LedgerOp.sample).container.exposure =
      (Ledger.new ["ETF"] Instrument.ETF {} {}).netFilled LedgerOp.sample :=
  (exposure_eq_netFilled ["ETF"] Instrument.ETF {} {} LedgerOp.sample (by
    intro now id price v h
    simp only [LedgerOp.sample, List.mem_cons, List.mem_singleton, List.not_mem_nil,
      or_false] at h
    rcases h with h | h | h | h | h | h | h <;> cases h <;> decide)).1

end Ledger

/-! ## Theorems: trade matcher -/

namespace TradeMatcher

theorem settleQueues_nil_left (asks : List Order) : settleQueues [] asks = ([], asks) := by
  rw [settleQueues]

theorem settleQueues_nil_right (bids : List Order) : settleQueues bids [] = (bids, []) := by
  cases bids with
  | nil => rw [settleQueues]
  | cons b bs => rw [settleQueues]; simp

theorem settleQueues_cons (bid ask : Order) (bs as : List Order) :
    settleQueues (bid :: bs) (ask :: as) =
      settleQueues
        (if bid.size - min bid.size ask.size ≠ 0 then
          { bid with size := bid.size - min bid.size ask.size } :: bs else bs)
        (if ask.size - min bid.size ask.size ≠ 0 then
          { ask with size := ask.size - min bid.size ask.size } :: as else as) := by
  rw [settleQueues]

/-- C5 (what the code does): pushing a buy fill and then a sell fill of the same size
into an empty matcher leaves the matcher with the two fills in its log and both
unmatched queues empty.  This is the whole state of the matcher: the value
`size × (ask.price − bid.price)` that the matching iteration computes into its local
variable is not stored in it. -/
theorem push_buy_then_equal_sell (bid ask : Order) (hb : bid.side = Side.BUY)
    (ha : ask.side = Side.SELL) (hsize : ask.size = bid.size) (hlong : bid.size < two63) :
    push (push {} bid) ask =
      { filledOrders := [bid, ask], unmatchedBids := [], unmatchedAsks := [] } ∧
    realisedProfitOfMatch bid ask = (bid.size : ℚ) * ((ask.price : ℚ) - (bid.price : ℚ)) := by
  constructor
  · simp [push, settleFilledOrders, hb, ha, settleQueues_nil_right, settleQueues_cons, hsize,
      settleQueues_nil_left]
  · simp only [realisedProfitOfMatch, hsize, min_self, toLong_of_lt _ hlong, Int.cast_natCast]

/-- C6 (queue part): when the front unmatched fill on one side is larger than an
incoming fill of the opposite side, and nothing waits on the incoming side, the push
matches the incoming fill against that front fill, removes the incoming fill, and leaves
the front fill, reduced by the matched lots, at the front of its queue ahead of every
later fill of its side.  Stated for a front bid met by a sell fill and for a front ask
met by a buy fill. -/
theorem push_partially_matches_front (m : TradeMatcher) (front incoming : Order)
    (later : List Order) (hlt : incoming.size < front.size) :
    (m.unmatchedBids = front :: later → m.unmatchedAsks = [] → incoming.side = Side.SELL →
      (push m incoming).unmatchedBids =
          { front with size := front.size - incoming.size } :: later ∧
        (push m incoming).unmatchedAsks = [] ∧
        (push m incoming).filledOrders = m.filledOrders ++ [incoming]) ∧
    (m.unmatchedAsks = front :: later → m.unmatchedBids = [] → incoming.side = Side.BUY →
      (push m incoming).unmatchedAsks =
          { front with size := front.size - incoming.size } :: later ∧
        (push m incoming).unmatchedBids = [] ∧
        (push m incoming).filledOrders = m.filledOrders ++ [incoming]) := by
  have h1 : front.size - incoming.size ≠ 0 := by omega
  constructor
  · intro hbids hasks hs
    have hmin : min front.size incoming.size = incoming.size := Nat.min_eq_right (le_of_lt hlt)
    simp [push, settleFilledOrders, hs, hbids, hasks, settleQueues_cons, hmin, h1,
      settleQueues_nil_right]
  · intro hasks hbids hs
    have hmin : min incoming.size front.size = incoming.size := Nat.min_eq_left (le_of_lt hlt)
    simp [push, settleFilledOrders, hs, hbids, hasks, settleQueues_cons, hmin, h1,
      settleQueues_nil_left]

/-- Witness for C5: the sample buy fill (10 lots at 100) and sell fill (10 lots at 105);
the value computed and dropped is 10 × (105 − 100). -/
theorem push_buy_then_equal_sell_witness :
    push (push {} Order.sampleBuyFill) Order.sampleSellFill =
      { filledOrders := [Order.sampleBuyFill, Order.sampleSellFill], unmatchedBids := [],
        unmatchedAsks := [] } ∧
    realisedProfitOfMatch Order.sampleBuyFill Order.sampleSellFill =
      ((10 : Nat) : ℚ) * (((105 : Nat) : ℚ) - ((100 : Nat) : ℚ)) :=
  push_buy_then_equal_sell Order.sampleBuyFill Order.sampleSellFill rfl rfl rfl (by decide)

/-- Witness for C6: after the sample buy fill of 10 lots, a sell fill of 4 lots leaves
the buy fill with 6 lots at the front of the bid queue and no unmatched ask. -/
theorem push_partially_matches_front_witness :
    (push (push {} Order.sampleBuyFill) Order.sampleSmallSellFill).unmatchedBids =
      [{ Order.sampleBuyFill with size := 6 }] ∧
    (push (push {} Order.sampleBuyFill) Order.sampleSmallSellFill).unmatchedAsks = [] ∧
    (push (push {} Order.sampleBuyFill) Order.sampleSmallSellFill).filledOrders =
      (push {} Order.sampleBuyFill).filledOrders ++ [Order.sampleSmallSellFill] :=
  (push_partially_matches_front (push {} Order.sampleBuyFill) Order.sampleBuyFill
    Order.sampleSmallSellFill [] (by decide)).1 (by decide!) (by decide!) rfl

end TradeMatcher

/-! ## Theorems: momentum signal -/

namespace RepeatedTradeMomentum

/-- The number of fills of one side in a log whose age at `now` is within the lookback
window. -/
theorem countRecent_eq_filter (now : ℚ) :
    ∀ l : List Order, (l.map (fun o => o.time)).Pairwise (· ≥ ·) →
      (countRecent now l).1 =
        ((l.filter (fun o => decide (now - o.time ≤ timePeriod) && decide (o.side = Side.BUY))).length
          : Int) ∧
      (countRecent now l).2 =
        ((l.filter (fun o => decide (now - o.time ≤ timePeriod) && decide (o.side = Side.SELL))).length
          : Int) := by
  intro l
  induction l with
  | nil => intro _; simp [countRecent]
  | cons o rest ih =>
    intro hp
    rw [List.map_cons, List.pairwise_cons] at hp
    obtain ⟨ih1, ih2⟩ := ih hp.2
    by_cases hold : now - o.time > timePeriod
    · have hall : ∀ x ∈ o :: rest, ¬ (now - x.time ≤ timePeriod) := by
        intro x hx
        rcases List.mem_cons.mp hx with hx | hx
        · rw [hx]; exact not_le.mpr hold
        · have := hp.1 x.time (List.mem_map_of_mem _ hx)
          intro hle
          have h2 : now - o.time ≤ now - x.time := by linarith
          exact absurd (lt_of_lt_of_le hold (le_trans h2 hle)) (lt_irrefl _)
      have hf : ∀ (p : Order → Bool),
          (o :: rest).filter (fun x => decide (now - x.time ≤ timePeriod) && p x) = [] := by
        intro p
        rw [List.filter_eq_nil_iff]
        intro x hx
        simp [hall x hx]
      simp only [countRecent, if_pos hold]
      rw [hf (fun x => decide (x.side = Side.BUY)), hf (fun x => decide (x.side = Side.SELL))]
      simp
    · have hin : now - o.time ≤ timePeriod := not_lt.mp hold
      simp only [countRecent, if_neg hold]
      have hin2 : now ≤ timePeriod + o.time := by linarith
      cases hs : o.side <;>
        simp [List.filter_cons, hin2, hs, ih1, ih2]

/-- C20: for a fill log in time order (fills are appended with the reading of the logical
clock, which never decreases), let `nb` and `ns` be the numbers of buy-side and sell-side
fills whose age `now - time` is at most the lookback window 1.  `getSignal` returns no
signal if `nb ≥ 2` and `ns ≥ 2`, the down-trend signal if `nb ≥ 2` and `ns < 2`, the
up-trend signal if `ns ≥ 2` and `nb < 2`, and no signal otherwise. -/
theorem getSignal_by_recent_counts (filledOrders : List Order) (now : ℚ)
    (hsorted : (filledOrders.map (fun o => o.time)).Pairwise (· ≤ ·)) :
    getSignal filledOrders now =
      (if 2 ≤ (filledOrders.filter
            (fun o => decide (now - o.time ≤ 1) && decide (o.side = Side.BUY))).length ∧
          2 ≤ (filledOrders.filter
            (fun o => decide (now - o.time ≤ 1) && decide (o.side = Side.SELL))).length
       then none
       else if 2 ≤ (filledOrders.filter
            (fun o => decide (now - o.time ≤ 1) && decide (o.side = Side.BUY))).length
       then some down_trend
       else if 2 ≤ (filledOrders.filter
            (fun o => decide (now - o.time ≤ 1) && decide (o.side = Side.SELL))).length
       then some up_trend
       else none) := by
  have hrev : (filledOrders.reverse.map (fun o => o.time)).Pairwise (· ≥ ·) := by
    rw [List.map_reverse, List.pairwise_reverse]
    exact hsorted
  obtain ⟨h1, h2⟩ := countRecent_eq_filter now filledOrders.reverse hrev
  simp only [List.filter_reverse, List.length_reverse, timePeriod] at h1 h2
  simp only [getSignal, h1, h2, tradesForSignal]
  norm_cast

end RepeatedTradeMomentum


/-! ## Theorems: quoting -/

theorem truncToLong_intCast (n : Int) : truncToLong ((n : Int) : ℚ) = n := by
  unfold truncToLong
  split <;> simp

theorem getClosestToValue_intCast (lo hi v : Int) :
    Interval.getClosestToValue { lower := ((lo : Int) : ℚ), upper := ((hi : Int) : ℚ) }
        ((v : Int) : ℚ) =
      (((if v < lo then lo else if v > hi then hi else v) : Int) : ℚ) := by
  unfold Interval.getClosestToValue
  simp only [Int.cast_lt, gt_iff_lt]
  split
  · rfl
  · split <;> rfl

namespace AutoTrader

/-- Section 1 of `getOrderPrices` quotes the bid inside `[mid - 500, mid - 150]` and the
ask inside `[mid + 150, mid + 500]`. -/
theorem priorityPrices_bounds (depth : Nat) (mid : Int)
    (askPrices askVolumes bidPrices bidVolumes : List Nat) :
    mid - maxSpread ≤ (priorityPrices depth mid askPrices askVolumes bidPrices bidVolumes).1 ∧
    (priorityPrices depth mid askPrices askVolumes bidPrices bidVolumes).1 ≤ mid - minSpread ∧
    mid + minSpread ≤ (priorityPrices depth mid askPrices askVolumes bidPrices bidVolumes).2 ∧
    (priorityPrices depth mid askPrices askVolumes bidPrices bidVolumes).2 ≤ mid + maxSpread := by
  simp only [priorityPrices, getClosestToValue_intCast, truncToLong_intCast, maxSpread,
    minSpread]
  refine ⟨?_, ?_, ?_, ?_⟩ <;> split <;> (try split) <;> (try split) <;> omega

theorem applySignal_cases (signalOptional : Option Signal) (prices : Int × Int) :
    applySignal signalOptional prices = prices ∨
    applySignal signalOptional prices = (prices.1 + 100, prices.2 + 300) ∨
    applySignal signalOptional prices = (prices.1 - 300, prices.2 - 100) := by
  unfold applySignal momentumSlippage
  cases signalOptional with
  | none => exact Or.inl rfl
  | some s =>
    simp only []
    split
    · exact Or.inr (Or.inl rfl)
    · split
      · exact Or.inr (Or.inr rfl)
      · exact Or.inl rfl

end AutoTrader


/-! ## Theorems: order of checks in AutoTrader::sendOrder, sends through the ledger -/

namespace AutoTrader

/-- A rejected `AutoTrader::sendOrder` changes nothing but the frequency limiter. -/
theorem sendOrder_rejected (k : Constants) (a : AutoTrader) (clock : ℚ)
    (name : String) (instrument : Instrument) (side : Side) (size price : Int)
    (hrej : (sendOrder k a clock name instrument side size price).1 = false) :
    (sendOrder k a clock name instrument side size price).2 =
      { a with frequencyLimiter := (a.frequencyLimiter.sendMessage clock).2 } := by
  by_cases h1 : (a.frequencyLimiter.sendMessage clock).1 = false
  · simp only [sendOrder, if_pos h1]
  by_cases h2 : price > k.MAXIMUM_ASK ∨ price < k.MINIMUM_BID
  · simp only [sendOrder, if_neg h1, if_pos h2]
  by_cases h3 : clampedSize k
      { a with frequencyLimiter := (a.frequencyLimiter.sendMessage clock).2 }
      instrument side size ≤ 0
  · simp only [sendOrder, if_neg h1, if_neg h2, if_pos h3]
  · exfalso
    simp only [sendOrder, if_neg h1, if_neg h2, if_neg h3] at hrej
    split at hrej <;> cases hrej

theorem sendOrder_limiter (k : Constants) (a : AutoTrader) (clock : ℚ)
    (name : String) (instrument : Instrument) (side : Side) (size price : Int) :
    (sendOrder k a clock name instrument side size price).2.frequencyLimiter =
      (a.frequencyLimiter.sendMessage clock).2 := by
  by_cases h1 : (a.frequencyLimiter.sendMessage clock).1 = false
  · simp only [sendOrder, if_pos h1]
  by_cases h2 : price > k.MAXIMUM_ASK ∨ price < k.MINIMUM_BID
  · simp only [sendOrder, if_neg h1, if_pos h2]
  by_cases h3 : clampedSize k
      { a with frequencyLimiter := (a.frequencyLimiter.sendMessage clock).2 }
      instrument side size ≤ 0
  · simp only [sendOrder, if_neg h1, if_neg h2, if_pos h3]
  · simp only [sendOrder, if_neg h1, if_neg h2, if_neg h3]
    split <;> rfl

theorem sendOrder_invalid (k : Constants) (a : AutoTrader) (clock : ℚ)
    (name : String) (instrument : Instrument) (side : Side) (size price : Int)
    (hinvalid : price > k.MAXIMUM_ASK ∨ price < k.MINIMUM_BID ∨
      clampedSize k a instrument side size ≤ 0) :
    (sendOrder k a clock name instrument side size price).1 = false := by
  by_cases h1 : (a.frequencyLimiter.sendMessage clock).1 = false
  · simp only [sendOrder, if_pos h1]
  by_cases h2 : price > k.MAXIMUM_ASK ∨ price < k.MINIMUM_BID
  · simp only [sendOrder, if_neg h1, if_pos h2]
  have h3 : clampedSize k
      { a with frequencyLimiter := (a.frequencyLimiter.sendMessage clock).2 }
      instrument side size ≤ 0 := by
    rcases hinvalid with h | h | h
    · exact absurd (Or.inl h) h2
    · exact absurd (Or.inr h) h2
    · exact h
  simp only [sendOrder, if_neg h1, if_neg h2, if_pos h3]

/-- C15 (amended): `AutoTrader::sendOrder` consults the rate limiter first, before it
validates the order.  After every call the limiter is in the state that `sendMessage`
produced.  A call with a price outside the exchange's range or a clamped size `≤ 0` is
rejected and changes nothing else; when the limiter allowed the call, its clock reading
has been recorded at the back of the window, so the rejected send has consumed one unit
of the outbound-rate budget. -/
theorem sendOrder_consults_limiter_first (k : Constants) (a : AutoTrader) (clock : ℚ)
    (name : String) (instrument : Instrument) (side : Side) (size price : Int) :
    (sendOrder k a clock name instrument side size price).2.frequencyLimiter =
      (a.frequencyLimiter.sendMessage clock).2 ∧
    (price > k.MAXIMUM_ASK ∨ price < k.MINIMUM_BID ∨
        clampedSize k a instrument side size ≤ 0 →
      sendOrder k a clock name instrument side size price =
        (false, { a with frequencyLimiter := (a.frequencyLimiter.sendMessage clock).2 }) ∧
      ((a.frequencyLimiter.sendMessage clock).1 = true →
        (sendOrder k a clock name instrument side size price).2.frequencyLimiter.messageTimes =
          MessageFrequencyLimiter.popExpired clock a.frequencyLimiter.messageTimes ++ [clock])) := by
  refine ⟨sendOrder_limiter k a clock name instrument side size price, ?_⟩
  intro hinvalid
  have hfalse := sendOrder_invalid k a clock name instrument side size price hinvalid
  have hstate := sendOrder_rejected k a clock name instrument side size price hfalse
  refine ⟨Prod.ext hfalse hstate, ?_⟩
  intro hallowed
  rw [hstate]
  simp only [MessageFrequencyLimiter.sendMessage] at hallowed ⊢
  split at hallowed
  · rename_i hlt
    simp only [if_pos hlt]
  · cases hallowed

/-- C15 (counterexample): on the freshly constructed trader a BUY of 50 lots at price 0,
below `MINIMUM_BID = 1`, is rejected, and yet the limiter's window, empty before the
call, holds the call's clock reading afterwards. -/
theorem sendOrder_rejected_consumes_budget :
    (sendOrder Constants.sample AutoTrader.new 0 "ETF" Instrument.ETF Side.BUY 50 0).1 = false ∧
    AutoTrader.new.frequencyLimiter.messageTimes = [] ∧
    (sendOrder Constants.sample AutoTrader.new 0 "ETF" Instrument.ETF Side.BUY 50
      0).2.frequencyLimiter.messageTimes = [0] := by
  decide!

/-- C16 (amended): a send with size `≤ 0` is rejected by `AutoTrader::sendOrder`: it
returns `false` and leaves both containers, the id generator and the calls made to the
exchange unchanged, so no id is allocated, no order is inserted and the submitted volumes
and sent counters keep their values.  The ledger's own `BooksContainer::sendOrder` has no
size check: for a known book name it allocates the next id and stores the book returned
by `Book::sendOrder`, whatever the size. -/
theorem nonpositive_size_rejected_by_trader (k : Constants) (a : AutoTrader) (clock : ℚ)
    (name : String) (instrument : Instrument) (side : Side) (size price : Int)
    (hsize : size ≤ 0) :
    ((sendOrder k a clock name instrument side size price).1 = false ∧
      (sendOrder k a clock name instrument side size price).2.allEtfBooks = a.allEtfBooks ∧
      (sendOrder k a clock name instrument side size price).2.allFutureBooks = a.allFutureBooks ∧
      (sendOrder k a clock name instrument side size price).2.idGen = a.idGen ∧
      (sendOrder k a clock name instrument side size price).2.outbox = a.outbox) ∧
    ∀ (c : BooksContainer) (g : OrderIDGenerator) (now : ℚ) (book : Book),
      Map.find c.books name = some book →
      (c.sendOrder g now name instrument side size price).2.currClientOrderID =
        g.currClientOrderID + 1 ∧
      (c.sendOrder g now name instrument side size price).1.books =
        Map.assign c.books name (book.sendOrder g now instrument side size price 0).2.1 ∧
      (book.sendOrder g now instrument side size price 0).2.1.ordersSent = book.ordersSent + 1 := by
  constructor
  · have hclamp : clampedSize k a instrument side size ≤ 0 := by
      unfold clampedSize
      cases side <;> simp only [] <;> omega
    have hfalse := sendOrder_invalid k a clock name instrument side size price
      (Or.inr (Or.inr hclamp))
    have hstate := sendOrder_rejected k a clock name instrument side size price hfalse
    rw [hstate]
    exact ⟨hfalse, rfl, rfl, rfl, rfl⟩
  · intro c g now book hfind
    obtain ⟨hbooks, hgen⟩ :=
      BooksContainer.sendOrder_known c g now name instrument side size price book hfind
    refine ⟨hgen, hbooks, ?_⟩
    cases side
    · rw [Book.sendOrder_sell]
    · rw [Book.sendOrder_buy]

/-- Witness for C16: a BUY of 0 lots on the freshly constructed trader. -/
theorem nonpositive_size_rejected_by_trader_witness :
    (sendOrder Constants.sample AutoTrader.new 0 "ETF" Instrument.ETF Side.BUY 0 1000).1 = false ∧
    (sendOrder Constants.sample AutoTrader.new 0 "ETF" Instrument.ETF Side.BUY 0
      1000).2.idGen = AutoTrader.new.idGen :=
  ⟨(nonpositive_size_rejected_by_trader Constants.sample AutoTrader.new 0 "ETF" Instrument.ETF
      Side.BUY 0 1000 (by decide)).1.1,
   (nonpositive_size_rejected_by_trader Constants.sample AutoTrader.new 0 "ETF" Instrument.ETF
      Side.BUY 0 1000 (by decide)).1.2.2.2.1⟩

end AutoTrader

namespace BooksContainer

/-- C16 (counterexample): on a freshly constructed container with the book "ETF", a BUY
with size 0 is not a no-op: the generator issues id 1, an order with that id is stored
in the book, and the book's `ordersSent` becomes 1. -/
theorem container_sendOrder_zero_size_not_noop :
    ((BooksContainer.new ["ETF"] Instrument.ETF).sendOrder {} 0 "ETF" Instrument.ETF Side.BUY 0
      1000).2.currClientOrderID = 1 ∧
    (((BooksContainer.new ["ETF"] Instrument.ETF).sendOrder {} 0 "ETF" Instrument.ETF Side.BUY 0
      1000).1.findOrder 1).isSome = true ∧
    (((BooksContainer.new ["ETF"] Instrument.ETF).sendOrder {} 0 "ETF" Instrument.ETF Side.BUY 0
      1000).1.getBook "ETF").map (fun b => b.ordersSent) = some 1 ∧
    ((BooksContainer.new ["ETF"] Instrument.ETF).findOrder 1).isSome = false := by
  decide!

end BooksContainer


/-! ## Theorems: sends, closes and unknown ids in the ledger -/

namespace Book

theorem orderClosed_fst (b : Book) (id : Nat) : (b.orderClosed id).1 = b.findOrder id := by
  unfold orderClosed
  cases hf : b.findOrder id with
  | none => rfl
  | some o => cases hs : o.side <;> simp [hs]

theorem cancelOrder_unknown (b : Book) (id : Nat) (h : b.findOrder id = none) :
    b.cancelOrder id = b := by
  simp [cancelOrder, h]

end Book

namespace BooksContainer

theorem orderClosedLoop_unknown (id : Nat) :
    ∀ (bs : List (String × Book)) (c : BooksContainer),
      (∀ e ∈ bs, e.2.findOrder id = none) → (orderClosedLoop id bs c).2 = c := by
  intro bs
  induction bs with
  | nil => intro c _; rfl
  | cons e rest ih =>
    intro c h
    have he := h e (List.mem_cons_self _ _)
    unfold orderClosedLoop
    rw [Book.orderClosed_unknown e.2 id he]
    simp only []
    exact ih c (fun x hx => h x (List.mem_cons_of_mem _ hx))

theorem orderClosedLoop_known (id : Nat) (name : String) (book : Book) (o : Order)
    (hrest : book.findOrder id = some o) :
    ∀ (bs : List (String × Book)) (c : BooksContainer),
      bs.Pairwise (fun x y => Book.Apart x.2 y.2) → (name, book) ∈ bs →
      (orderClosedLoop id bs c).2 = applyClose c o := by
  intro bs
  induction bs with
  | nil => intro c _ hmem; cases hmem
  | cons e rest ih =>
    intro c hp hmem
    rw [List.pairwise_cons] at hp
    rcases List.mem_cons.1 hmem with heq | hin
    · subst heq
      have hothers : ∀ x ∈ rest, x.2.findOrder id = none := by
        intro x hx
        rcases hp.1 x hx id with h | h
        · simp only [] at h; rw [hrest] at h; cases h
        · exact h
      have hfst := Book.orderClosed_fst book id
      rw [hrest] at hfst
      unfold orderClosedLoop
      simp only [hfst]
      exact orderClosedLoop_unknown id rest _ hothers
    · have he : e.2.findOrder id = none := by
        rcases hp.1 (name, book) hin id with h | h
        · exact h
        · simp only [] at h; rw [hrest] at h; cases h
      unfold orderClosedLoop
      rw [Book.orderClosed_unknown e.2 id he]
      simp only []
      exact ih c hp.2 hin

theorem map_books_unchanged (bs : List (String × Book)) (f : Book → Book)
    (h : ∀ e ∈ bs, f e.2 = e.2) : bs.map (fun e => (e.1, f e.2)) = bs := by
  induction bs with
  | nil => rfl
  | cons e rest ih =>
    rw [List.map_cons, h e (List.mem_cons_self _ _),
      ih (fun x hx => h x (List.mem_cons_of_mem _ hx))]

theorem findOrderIn_unknown (id : Nat) :
    ∀ bs : List (String × Book), (∀ e ∈ bs, e.2.findOrder id = none) →
      findOrderIn id bs = none := by
  intro bs
  induction bs with
  | nil => intro _; rfl
  | cons e rest ih =>
    intro h
    simp only [findOrderIn, h e (List.mem_cons_self _ _)]
    exact ih (fun x hx => h x (List.mem_cons_of_mem _ hx))

theorem container_orderFilled_unknown (c : BooksContainer) (m : TradeMatcher) (now : ℚ)
    (id : Nat) (price v : Int) (h : ∀ e ∈ c.books, e.2.findOrder id = none) :
    c.orderFilled m now id price v = (c, m) := by
  unfold orderFilled
  simp only [orderFilledLoop_books, orderFilledLoop_unknown now id price v c.books c m h]
  rw [map_books_unchanged c.books (fun b => (b.orderFilled now id price v).2)
    (fun e he => by simp only [Book.orderFilled_unknown e.2 now id price v (h e he)])]

theorem container_orderClosed_unknown (c : BooksContainer) (id : Nat)
    (h : ∀ e ∈ c.books, e.2.findOrder id = none) : c.orderClosed id = c := by
  unfold orderClosed
  simp only [orderClosedLoop_books, orderClosedLoop_unknown id c.books c h]
  rw [map_books_unchanged c.books (fun b => (b.orderClosed id).2)
    (fun e he => by simp only [Book.orderClosed_unknown e.2 id (h e he)])]

theorem container_cancelOrder_unknown (c : BooksContainer) (id : Nat)
    (h : ∀ e ∈ c.books, e.2.findOrder id = none) : c.cancelOrder id = c := by
  unfold cancelOrder
  rw [map_books_unchanged c.books (fun b => b.cancelOrder id)
    (fun e he => Book.cancelOrder_unknown e.2 id (h e he))]

end BooksContainer


namespace BooksContainer

/-- C17: in a container that satisfies its invariant, a send to a known book with
`0 < size < 2 ^ 63` takes the generator's next id `g + 1`, which no book side held
before, and stores the order `{id, side, size, price, current time}` under that id in
the named book's same-side map.  The new container is the old one with that book
replaced and the same side's aggregate submitted volume raised by `size`; the new book
is the old one with `ordersSent + 1`, the same side's submitted volume raised by `size`
and the one new entry.  So exposure, cash, the opposite side, the other counters, the
other books and every other resting order are unchanged. -/
theorem container_sendOrder_inserts_one_order (c : BooksContainer) (g : OrderIDGenerator)
    (now : ℚ) (name : String) (instrument : Instrument) (side : Side) (size price : Int)
    (book : Book) (hinv : c.Inv g.currClientOrderID)
    (hfind : Map.find c.books name = some book) (hpos : 0 < size)
    (hlong : size < (two63 : Int)) :
    g.getNext.1 = g.currClientOrderID + 1 ∧
    (c.sendOrder g now name instrument side size price).2 = g.getNext.2 ∧
    (Map.find book.bids (g.currClientOrderID + 1) = none ∧
      Map.find book.asks (g.currClientOrderID + 1) = none) ∧
    ((Order.new (g.currClientOrderID + 1) size price side now instrument).clientOrderID =
        g.currClientOrderID + 1 ∧
      (Order.new (g.currClientOrderID + 1) size price side now instrument).side = side ∧
      (((Order.new (g.currClientOrderID + 1) size price side now instrument).size : Nat) : Int) =
        size ∧
      (Order.new (g.currClientOrderID + 1) size price side now instrument).time = now ∧
      (0 ≤ price → price < (two64 : Int) →
        (((Order.new (g.currClientOrderID + 1) size price side now instrument).price : Nat) :
          Int) = price)) ∧
    (side = Side.BUY →
      (c.sendOrder g now name instrument side size price).1 =
        { c with
          books := Map.assign c.books name
            { book with
              ordersSent := book.ordersSent + 1
              submittedBids := book.submittedBids + size
              bids := Map.assign book.bids (g.currClientOrderID + 1)
                (Order.new (g.currClientOrderID + 1) size price side now instrument) }
          submittedBids := c.submittedBids + size }) ∧
    (side = Side.SELL →
      (c.sendOrder g now name instrument side size price).1 =
        { c with
          books := Map.assign c.books name
            { book with
              ordersSent := book.ordersSent + 1
              submittedAsks := book.submittedAsks + size
              asks := Map.assign book.asks (g.currClientOrderID + 1)
                (Order.new (g.currClientOrderID + 1) size price side now instrument) }
          submittedAsks := c.submittedAsks + size }) ∧
    (∀ name', Map.find (c.sendOrder g now name instrument side size price).1.books name' =
      if name' = name then some (book.sendOrder g now instrument side size price 0).2.1
      else Map.find c.books name') ∧
    (∀ id', (book.sendOrder g now instrument side size price 0).2.1.findOrder id' =
      if id' = g.currClientOrderID + 1 then
        some (Order.new (g.currClientOrderID + 1) size price side now instrument)
      else book.findOrder id') := by
  have hbinv := hinv.2.1 name book hfind
  obtain ⟨hbooks, _⟩ := sendOrder_known c g now name instrument side size price book hfind
  refine ⟨rfl, ?_, Book.find_fresh book _ hbinv _ (Nat.lt_succ_self _),
    ⟨rfl, rfl, (Book.toULong_of_pos_long size hpos hlong).1, rfl, ?_⟩, ?_, ?_, ?_, ?_⟩
  · unfold sendOrder
    rw [hfind]
    cases side <;> simp [Book.sendOrder]
  · intro h0 h1
    simp only [Order.new]
    exact toULong_of_range price h0 h1
  · intro hs
    subst hs
    simp only [sendOrder, hfind, Book.sendOrder_buy]
  · intro hs
    subst hs
    simp only [sendOrder, hfind, Book.sendOrder_sell]
  · intro name'
    rw [hbooks, Map.find_assign]
    by_cases h : name' = name <;> simp [h]
  · intro id'
    exact Book.findOrder_sendOrder book g now instrument side size price id' hbinv

/-- Witness for C17: a BUY of 50 lots at price 10000 sent to the book "ETF" of a freshly
constructed container. -/
theorem container_sendOrder_inserts_one_order_witness :
    ((BooksContainer.new ["ETF"] Instrument.ETF).sendOrder {} 0 "ETF" Instrument.ETF Side.BUY 50
      10000).2 = (OrderIDGenerator.getNext {}).2 :=
  (container_sendOrder_inserts_one_order (BooksContainer.new ["ETF"] Instrument.ETF) {} 0 "ETF"
    Instrument.ETF Side.BUY 50 10000 { instrument := Instrument.ETF }
    (container_inv_new ["ETF"] Instrument.ETF 0) (by decide!) (by decide) (by decide)).2.1

end BooksContainer


namespace AutoTrader

/-- C18: when no book of either container knows the client order id, `orderFilled`,
`orderClosed` and `cancelOrder` are ignored.  Every book returns the empty optional and
itself; each container and the trade matcher come back unchanged; the trader's
`orderFilled` and `orderClosed` return the trader unchanged, and the trader's
`cancelOrder` leaves both containers and the matcher unchanged.  All of these are total
functions: no error is raised. -/
theorem unknown_id_is_ignored (k : Constants) (a : AutoTrader) (m : TradeMatcher)
    (clock now : ℚ) (id : Nat) (price v : Int)
    (hetf : ∀ e ∈ a.allEtfBooks.books, e.2.findOrder id = none)
    (hfut : ∀ e ∈ a.allFutureBooks.books, e.2.findOrder id = none) :
    (∀ e ∈ a.allEtfBooks.books ++ a.allFutureBooks.books,
      e.2.orderFilled now id price v = (none, e.2) ∧ e.2.orderClosed id = (none, e.2) ∧
      e.2.cancelOrder id = e.2) ∧
    (a.allEtfBooks.orderFilled m now id price v = (a.allEtfBooks, m) ∧
      a.allEtfBooks.orderClosed id = a.allEtfBooks ∧
      a.allEtfBooks.cancelOrder id = a.allEtfBooks) ∧
    (a.allFutureBooks.orderFilled m now id price v = (a.allFutureBooks, m) ∧
      a.allFutureBooks.orderClosed id = a.allFutureBooks ∧
      a.allFutureBooks.cancelOrder id = a.allFutureBooks) ∧
    orderFilled k a clock id price v = a ∧
    orderClosed a id = a ∧
    (cancelOrder a clock id).2.allEtfBooks = a.allEtfBooks ∧
    (cancelOrder a clock id).2.allFutureBooks = a.allFutureBooks ∧
    (cancelOrder a clock id).2.matchingEngine = a.matchingEngine := by
  have hE1 := BooksContainer.container_orderFilled_unknown a.allEtfBooks
  have hF1 := BooksContainer.container_orderFilled_unknown a.allFutureBooks
  have hE2 := BooksContainer.container_orderClosed_unknown a.allEtfBooks id hetf
  have hF2 := BooksContainer.container_orderClosed_unknown a.allFutureBooks id hfut
  have hE3 := BooksContainer.container_cancelOrder_unknown a.allEtfBooks id hetf
  have hF3 := BooksContainer.container_cancelOrder_unknown a.allFutureBooks id hfut
  refine ⟨?_, ⟨hE1 m now id price v hetf, hE2, hE3⟩, ⟨hF1 m now id price v hfut, hF2, hF3⟩,
    ?_, ?_, ?_, ?_, ?_⟩
  · intro e he
    have hnone : e.2.findOrder id = none := by
      rcases List.mem_append.1 he with h | h
      · exact hetf e h
      · exact hfut e h
    exact ⟨Book.orderFilled_unknown e.2 now id price v hnone,
      Book.orderClosed_unknown e.2 id hnone, Book.cancelOrder_unknown e.2 id hnone⟩
  · unfold orderFilled
    simp only [BooksContainer.findOrder, BooksContainer.findOrderIn_unknown id _ hetf,
      BooksContainer.findOrderIn_unknown id _ hfut, hE1 _ _ id price v hetf,
      hF1 _ _ id price v hfut]
  · unfold orderClosed
    rw [hE2, hF2]
  · simp only [cancelOrder]
    split
    · rfl
    · simp only [hE3]
  · simp only [cancelOrder]
    split
    · rfl
    · simp only [hF3]
  · simp only [cancelOrder]
    split <;> rfl

/-- Witness for C18: id 7 on the freshly constructed trader, whose books are empty. -/
theorem unknown_id_is_ignored_witness :
    orderFilled Constants.sample AutoTrader.new 0 7 10000 10 = AutoTrader.new ∧
    orderClosed AutoTrader.new 7 = AutoTrader.new :=
  ⟨(unknown_id_is_ignored Constants.sample AutoTrader.new {} 0 0 7 10000 10
      (by decide!) (by decide!)).2.2.2.1,
   (unknown_id_is_ignored Constants.sample AutoTrader.new {} 0 0 7 10000 10
      (by decide!) (by decide!)).2.2.2.2.1⟩

end AutoTrader


namespace BooksContainer

/-- C19: in a container that satisfies its invariant, closing an id that rests in the
book `name` as order `o` (remaining size below `2 ^ 63`) erases exactly that entry from
the map of the order's own side and lowers that side's submitted volume, in the book
and in the aggregate, by `o.size`.  The book's other fields, every other id of the book,
every other book, the opposite side's submitted volumes, exposure and cash are
unchanged, and the trader's `orderClosed` does not touch the trade matcher. -/
theorem container_orderClosed_removes_resting_order (c : BooksContainer) (n : Nat)
    (name : String) (book : Book) (id : Nat) (o : Order) (hinv : c.Inv n)
    (hfind : Map.find c.books name = some book) (hrest : book.findOrder id = some o)
    (hlong : o.size < two63) :
    (o.side = Side.BUY →
      book.orderClosed id = (some o, { book with
        submittedBids := book.submittedBids - (o.size : Int)
        bids := Map.erase book.bids id })) ∧
    (o.side = Side.SELL →
      book.orderClosed id = (some o, { book with
        submittedAsks := book.submittedAsks - (o.size : Int)
        asks := Map.erase book.asks id })) ∧
    (book.orderClosed id).2.findOrder id = none ∧
    (∀ id', id' ≠ id → (book.orderClosed id).2.findOrder id' = book.findOrder id') ∧
    (∀ name', Map.find (c.orderClosed id).books name' =
      if name' = name then some (book.orderClosed id).2 else Map.find c.books name') ∧
    (o.side = Side.BUY →
      (c.orderClosed id).submittedBids = c.submittedBids - (o.size : Int) ∧
      (c.orderClosed id).submittedAsks = c.submittedAsks) ∧
    (o.side = Side.SELL →
      (c.orderClosed id).submittedAsks = c.submittedAsks - (o.size : Int) ∧
      (c.orderClosed id).submittedBids = c.submittedBids) ∧
    (c.orderClosed id).exposure = c.exposure ∧
    (c.orderClosed id).dummyCash = c.dummyCash ∧
    (∀ a : AutoTrader, (AutoTrader.orderClosed a id).matchingEngine = a.matchingEngine) := by
  have hbinv := hinv.2.1 name book hfind
  have hsize := toLong_of_lt o.size hlong
  have hagg : (c.orderClosed id).submittedBids = (applyClose c o).submittedBids ∧
      (c.orderClosed id).submittedAsks = (applyClose c o).submittedAsks ∧
      (c.orderClosed id).exposure = (applyClose c o).exposure ∧
      (c.orderClosed id).dummyCash = (applyClose c o).dummyCash := by
    have hloop := orderClosedLoop_known id name book o hrest c.books c
      (pairwise_apart c n hinv) (Map.mem_of_find _ _ _ hfind)
    simp only [orderClosed, hloop, and_self]
  have hbuy : o.side = Side.BUY →
      book.orderClosed id = (some o, { book with
        submittedBids := book.submittedBids - (o.size : Int)
        bids := Map.erase book.bids id }) := by
    intro hs
    rw [Book.orderClosed_bid book id o hrest hs, hsize]
  have hsell : o.side = Side.SELL →
      book.orderClosed id = (some o, { book with
        submittedAsks := book.submittedAsks - (o.size : Int)
        asks := Map.erase book.asks id }) := by
    intro hs
    rw [Book.orderClosed_ask book id o hrest hs, hsize]
  refine ⟨hbuy, hsell, ?_, ?_, ?_, ?_, ?_, ?_, ?_, fun a => rfl⟩
  · rcases Book.findOrder_cases book n hbinv id with ⟨o', hb, ha, hf, hs⟩ | ⟨o', hb, ha, hf, hs⟩ |
      ⟨_, _, hf⟩
    · rw [hrest] at hf; cases hf
      rw [hbuy hs]
      simp only [Book.findOrder, Map.find_erase, if_pos, ha]
    · rw [hrest] at hf; cases hf
      rw [hsell hs]
      simp only [Book.findOrder, Map.find_erase, if_pos, hb]
    · rw [hrest] at hf; cases hf
  · intro id' hne
    cases hs : o.side with
    | BUY =>
      rw [hbuy hs]
      simp only [Book.findOrder, Map.find_erase, if_neg hne]
    | SELL =>
      rw [hsell hs]
      simp only [Book.findOrder, Map.find_erase, if_neg hne]
  · intro name'
    have hbooks : (c.orderClosed id).books =
        c.books.map (fun e => (e.1, (e.2.orderClosed id).2)) := by
      simp only [orderClosed, orderClosedLoop_books]
    rw [hbooks, Map.find_map_snd c.books (fun b : Book => (b.orderClosed id).2) name']
    by_cases hn : name' = name
    · subst hn
      rw [hfind, if_pos rfl]
      rfl
    · rw [if_neg hn]
      cases hother : Map.find c.books name' with
      | none => rfl
      | some b' =>
        have hnone : b'.findOrder id = none := by
          rcases hinv.2.2 name' name b' book hn hother hfind id with h | h
          · exact h
          · rw [hrest] at h; cases h
        simp only [Option.map_some', Book.orderClosed_unknown b' id hnone]
  · intro hs
    rw [hagg.1, hagg.2.1]
    simp only [applyClose, hs, hsize, and_self]
  · intro hs
    rw [hagg.1, hagg.2.1]
    simp only [applyClose, hs, hsize, and_self]
  · rw [hagg.2.2.1, applyClose_exposure]
  · rw [hagg.2.2.2]
    unfold applyClose
    cases o.side <;> rfl

end BooksContainer


namespace BooksContainer

/-- Witness for C19: closing the resting order of `BooksContainer.sampleResting`. -/
theorem container_orderClosed_removes_resting_order_witness :
    (BooksContainer.sampleResting.orderClosed 1).submittedBids =
      BooksContainer.sampleResting.submittedBids - 50 ∧
    (BooksContainer.sampleResting.orderClosed 1).exposure =
      BooksContainer.sampleResting.exposure :=
  ⟨((container_orderClosed_removes_resting_order BooksContainer.sampleResting
      ((BooksContainer.new ["ETF"] Instrument.ETF).sendOrder {} 0 "ETF" Instrument.ETF Side.BUY 50
        10000).2.currClientOrderID "ETF"
      (({ instrument := Instrument.ETF } : Book).sendOrder {} 0 Instrument.ETF Side.BUY 50
        10000 0).2.1 1
      (Order.new 1 50 10000 Side.BUY 0 Instrument.ETF)
      (container_inv_sendOrder (BooksContainer.new ["ETF"] Instrument.ETF) {} 0 "ETF"
        Instrument.ETF Side.BUY 50 10000 (container_inv_new ["ETF"] Instrument.ETF 0))
      (by decide!) (by decide!) (by decide!)).2.2.2.2.2.1 rfl).1,
   (container_orderClosed_removes_resting_order BooksContainer.sampleResting
      ((BooksContainer.new ["ETF"] Instrument.ETF).sendOrder {} 0 "ETF" Instrument.ETF Side.BUY 50
        10000).2.currClientOrderID "ETF"
      (({ instrument := Instrument.ETF } : Book).sendOrder {} 0 Instrument.ETF Side.BUY 50
        10000 0).2.1 1
      (Order.new 1 50 10000 Side.BUY 0 Instrument.ETF)
      (container_inv_sendOrder (BooksContainer.new ["ETF"] Instrument.ETF) {} 0 "ETF"
        Instrument.ETF Side.BUY 50 10000 (container_inv_new ["ETF"] Instrument.ETF 0))
      (by decide!) (by decide!) (by decide!)).2.2.2.2.2.2.2.1⟩

end BooksContainer

namespace AutoTrader

end AutoTrader

namespace RepeatedTradeMomentum

/-- Witness for C20: the fill log of `AutoTrader.sampleUpTrend`, two sell fills at time 0
read at time 0. -/
theorem getSignal_by_recent_counts_witness :
    getSignal AutoTrader.sampleUpTrend.matchingEngine.filledOrders 0 = some up_trend := by
  have h := getSignal_by_recent_counts AutoTrader.sampleUpTrend.matchingEngine.filledOrders 0
    (by decide!)
  rw [h]
  decide!

end RepeatedTradeMomentum


/-! ## Theorems: hedging -/

namespace AutoTrader

/-- The calls made to the exchange by a send to the book "Future" that the limiter
allows: one `SendHedgeOrder` with the next id, the tick-rounded price and the clamped
size when the price is in the exchange's range and the clamped size is positive, and
no call otherwise. -/
theorem sendOrder_future_outbox (k : Constants) (a : AutoTrader) (clock : ℚ) (side : Side)
    (size price : Int) (book : Book)
    (hlim : (a.frequencyLimiter.sendMessage clock).1 = true)
    (hbook : Map.find a.allFutureBooks.books "Future" = some book) :
    (sendOrder k a clock "Future" Instrument.FUTURE side size price).2.outbox =
      if k.MINIMUM_BID ≤ price ∧ price ≤ k.MAXIMUM_ASK ∧
          0 < clampedSize k a Instrument.FUTURE side size then
        a.outbox ++ [ExchangeCall.hedgeOrder (a.idGen.currClientOrderID + 1) side
          (toULong (roundToTick price)) (toULong (clampedSize k a Instrument.FUTURE side size))]
      else a.outbox := by
  have h1 : ¬ (a.frequencyLimiter.sendMessage clock).1 = false := by simp [hlim]
  by_cases h2 : price > k.MAXIMUM_ASK ∨ price < k.MINIMUM_BID
  · have hc : ¬ (k.MINIMUM_BID ≤ price ∧ price ≤ k.MAXIMUM_ASK ∧
        0 < clampedSize k a Instrument.FUTURE side size) := by omega
    simp only [sendOrder, if_neg h1, if_pos h2, if_neg hc]
  by_cases h3 : clampedSize k
      { a with frequencyLimiter := (a.frequencyLimiter.sendMessage clock).2 }
      Instrument.FUTURE side size ≤ 0
  · have hc : ¬ (k.MINIMUM_BID ≤ price ∧ price ≤ k.MAXIMUM_ASK ∧
        0 < clampedSize k a Instrument.FUTURE side size) := by
      have h3' : clampedSize k a Instrument.FUTURE side size ≤ 0 := h3
      omega
    simp only [sendOrder, if_neg h1, if_neg h2, if_pos h3, if_neg hc]
  · have hc : k.MINIMUM_BID ≤ price ∧ price ≤ k.MAXIMUM_ASK ∧
        0 < clampedSize k a Instrument.FUTURE side size := by
      have h3' : ¬ clampedSize k a Instrument.FUTURE side size ≤ 0 := h3
      omega
    have hne : ¬ Instrument.FUTURE = Instrument.ETF := by decide
    have hgen := (BooksContainer.sendOrder_known a.allFutureBooks a.idGen a.time.time "Future"
      Instrument.FUTURE side
      (clampedSize k a Instrument.FUTURE side size) (roundToTick price) book hbook).2
    simp only [sendOrder, if_neg h1, if_neg h2, if_neg h3, if_pos hc, if_neg hne]
    simp only [OrderIDGenerator.getCurrent]
    rw [← hgen]
    rfl

end AutoTrader


namespace AutoTrader

/-- C14 (amended): when `hedge()` runs after the warm-up (`time > 1`) with quote history
present, the limiter permitting, on a trader whose future container has the book
"Future", its `sendOrder` clamps the requested size `|E|` to the free capacity of the
future container and checks the hedge price against the exchange's range.  For `E > 0`
it makes exactly one `SendHedgeOrder` call, a SELL of `min E (exposure - submittedAsks +
positionLimit)` lots at the tick-rounded price `lastAsk - 100`, when that size is
positive and the price is in range, and no call otherwise; for `E < 0` likewise a BUY of
`min (-E) (positionLimit - exposure - submittedBids)` lots at `lastBid + 100`; for
`E = 0` it makes no call.  The size is exactly `|E|` when the free capacity is at least
`|E|`. -/
theorem hedge_dispatches_clamped_exposure (k : Constants) (a : AutoTrader) (clock : ℚ)
    (lastBid lastAsk : ℚ) (book : Book)
    (htime : a.time.time > 1)
    (hbid : a.bidPriceHistory.getBack = some lastBid)
    (hask : a.askPriceHistory.getBack = some lastAsk)
    (hlim : (a.frequencyLimiter.sendMessage clock).1 = true)
    (hbook : Map.find a.allFutureBooks.books "Future" = some book) :
    (0 < a.allEtfBooks.getExposure + a.allFutureBooks.getExposure →
      (hedge k a clock).outbox =
        if k.MINIMUM_BID ≤ truncToLong (lastAsk - 100) ∧
            truncToLong (lastAsk - 100) ≤ k.MAXIMUM_ASK ∧
            0 < min (a.allEtfBooks.getExposure + a.allFutureBooks.getExposure)
              (a.allFutureBooks.exposure - a.allFutureBooks.submittedAsks + k.positionLimit) then
          a.outbox ++ [ExchangeCall.hedgeOrder (a.idGen.currClientOrderID + 1) Side.SELL
            (toULong (roundToTick (truncToLong (lastAsk - 100))))
            (toULong (min (a.allEtfBooks.getExposure + a.allFutureBooks.getExposure)
              (a.allFutureBooks.exposure - a.allFutureBooks.submittedAsks + k.positionLimit)))]
        else a.outbox) ∧
    (a.allEtfBooks.getExposure + a.allFutureBooks.getExposure < 0 →
      (hedge k a clock).outbox =
        if k.MINIMUM_BID ≤ truncToLong (lastBid + 100) ∧
            truncToLong (lastBid + 100) ≤ k.MAXIMUM_ASK ∧
            0 < min (-(a.allEtfBooks.getExposure + a.allFutureBooks.getExposure))
              (k.positionLimit - a.allFutureBooks.exposure - a.allFutureBooks.submittedBids) then
          a.outbox ++ [ExchangeCall.hedgeOrder (a.idGen.currClientOrderID + 1) Side.BUY
            (toULong (roundToTick (truncToLong (lastBid + 100))))
            (toULong (min (-(a.allEtfBooks.getExposure + a.allFutureBooks.getExposure))
              (k.positionLimit - a.allFutureBooks.exposure - a.allFutureBooks.submittedBids)))]
        else a.outbox) ∧
    (a.allEtfBooks.getExposure + a.allFutureBooks.getExposure = 0 →
      (hedge k a clock).outbox = a.outbox) ∧
    (hedge k a clock).allEtfBooks = a.allEtfBooks ∧
    (hedge k a clock).allFutureBooks.exposure = a.allFutureBooks.exposure := by
  have hne : ¬ Instrument.FUTURE = Instrument.ETF := by decide
  have hstep : ∀ side : Side,
      (if a.allEtfBooks.getExposure + a.allFutureBooks.getExposure > 0 then Side.SELL
        else Side.BUY) = side →
      hedge k a clock = (sendOrder k a clock "Future" Instrument.FUTURE side
        |a.allEtfBooks.getExposure + a.allFutureBooks.getExposure|
        (match side with
          | Side.BUY => truncToLong (lastBid + ((hedgeSpread : Int) : ℚ))
          | Side.SELL => truncToLong (lastAsk - ((hedgeSpread : Int) : ℚ)))).2 := by
    intro side hside
    simp only [hedge, hbid, hask, if_pos htime, hside]
  have hspread : ((hedgeSpread : Int) : ℚ) = 100 := by simp [hedgeSpread]
  refine ⟨?_, ?_, ?_, ?_, ?_⟩
  · intro hpos
    rw [hstep Side.SELL (if_pos hpos),
      sendOrder_future_outbox k a clock Side.SELL _ _ book hlim hbook]
    simp only [BooksContainer.getExposure] at hpos
    simp only [hspread, clampedSize, container, if_neg hne,
      BooksContainer.getExposure, BooksContainer.getSubmitedAsks, abs_of_pos hpos]
  · intro hneg
    rw [hstep Side.BUY (if_neg (by omega)),
      sendOrder_future_outbox k a clock Side.BUY _ _ book hlim hbook]
    simp only [BooksContainer.getExposure] at hneg
    simp only [hspread, clampedSize, container, if_neg hne,
      BooksContainer.getExposure, BooksContainer.getSubmittedBids, abs_of_neg hneg]
  · intro hzero
    rw [hstep Side.BUY (if_neg (by omega)),
      sendOrder_future_outbox k a clock Side.BUY _ _ book hlim hbook]
    have hc : ¬ (0 < clampedSize k a Instrument.FUTURE Side.BUY
        |a.allEtfBooks.getExposure + a.allFutureBooks.getExposure|) := by
      rw [hzero]
      simp only [clampedSize, abs_zero]
      omega
    rw [if_neg (fun h => hc h.2.2)]
  · cases hs : (if a.allEtfBooks.getExposure + a.allFutureBooks.getExposure > 0 then Side.SELL
        else Side.BUY) with
    | BUY =>
      rw [hstep Side.BUY hs]
      simp only [sendOrder, if_neg hne]
      split_ifs <;> rfl
    | SELL =>
      rw [hstep Side.SELL hs]
      simp only [sendOrder, if_neg hne]
      split_ifs <;> rfl
  · cases hs : (if a.allEtfBooks.getExposure + a.allFutureBooks.getExposure > 0 then Side.SELL
        else Side.BUY) with
    | BUY =>
      rw [hstep Side.BUY hs]
      simp only [sendOrder, if_neg hne]
      split_ifs
      · rfl
      · rfl
      · rfl
      · exact (BooksContainer.sendOrder_fields _ _ _ _ _ _ _ _).1
    | SELL =>
      rw [hstep Side.SELL hs]
      simp only [sendOrder, if_neg hne]
      split_ifs
      · rfl
      · rfl
      · rfl
      · exact (BooksContainer.sendOrder_fields _ _ _ _ _ _ _ _).1

end AutoTrader


namespace AutoTrader

/-- C14 (counterexample): in the session `AutoTrader.sampleHedgedOnce` the warm-up is
over, quote history is present and the limiter has free capacity.  A further fill of 10
lots of the BUY order 3 raises the total exposure to 70, and the `hedge()` that this
`orderFilled` runs dispatches one SELL in the future instrument for 40 lots, not 70:
the 60 lots of the earlier hedge still rest, which leaves a free capacity of
`0 - 60 + 100 = 40`. -/
theorem hedge_size_below_total_exposure :
    AutoTrader.sampleHedgedOnce.map (fun s =>
      (decide (s.time.time > 1), s.askPriceHistory.getBack,
        (s.frequencyLimiter.sendMessage 0).1,
        (orderFilled Constants.sample s 0 3 9500 10).allEtfBooks.getExposure +
          (orderFilled Constants.sample s 0 3 9500 10).allFutureBooks.getExposure,
        (orderFilled Constants.sample s 0 3 9500 10).outbox.drop s.outbox.length)) =
      some (true, some 10500, true, 70, [ExchangeCall.hedgeOrder 5 Side.SELL 10400 40]) := by
  decide!

/-- Witness for C14: `hedge` on `AutoTrader.sampleHedgedState`, where the total exposure
is 60 and 60 future lots rest on the ask side. -/
theorem hedge_dispatches_clamped_exposure_witness :
    (hedge Constants.sample AutoTrader.sampleHedgedState 0).outbox =
      AutoTrader.sampleHedgedState.outbox ++ [ExchangeCall.hedgeOrder 5 Side.SELL 10400 40] := by
  have h := (hedge_dispatches_clamped_exposure Constants.sample AutoTrader.sampleHedgedState 0
    9500 10500
    ((Map.find AutoTrader.sampleHedgedState.allFutureBooks.books "Future").getD {})
    (by decide!) (by decide!) (by decide!) (by decide!) (by decide!)).1 (by decide!)
  rw [h]
  decide!

end AutoTrader


/-! ## Theorems: the first quotes of a session -/

namespace MessageFrequencyLimiter

theorem popExpired_length_le (time : ℚ) :
    ∀ w : List ℚ, (popExpired time w).length ≤ w.length := by
  intro w
  induction w with
  | nil => simp [popExpired]
  | cons s rest ih =>
    simp only [popExpired]
    split
    · simp only [List.length_cons]; omega
    · exact le_refl _

/-- A limiter whose window holds fewer readings than its capacity allows the message. -/
theorem sendMessage_allowed (l : MessageFrequencyLimiter) (time : ℚ)
    (hcap : l.messagesPerSecond < (two63 : Int))
    (hroom : (l.messageTimes.length : Int) < l.messagesPerSecond) :
    l.sendMessage time =
      (true, { l with messageTimes := popExpired time l.messageTimes ++ [time] }) := by
  have hlen := popExpired_length_le time l.messageTimes
  have h : toULong ((popExpired time l.messageTimes).length : Int) <
      toULong l.messagesPerSecond := by
    unfold two63 at hcap
    unfold toULong two64
    omega
  simp only [sendMessage, if_pos h]

end MessageFrequencyLimiter

namespace AutoTrader

theorem getSignal_empty_log (now : ℚ) : RepeatedTradeMomentum.getSignal [] now = none := by
  simp [RepeatedTradeMomentum.getSignal, RepeatedTradeMomentum.countRecent,
    RepeatedTradeMomentum.tradesForSignal]

/-- With no resting ETF order `detectStaleOrders` cancels nothing and takes no clock
reading. -/
theorem detectStaleOrders_no_orders (a : AutoTrader) (clocks : Nat → ℚ)
    (mid bidPrice askPrice : Int) (hbids : a.allEtfBooks.getBids = [])
    (hasks : a.allEtfBooks.getAsks = []) :
    detectStaleOrders a clocks mid bidPrice askPrice = ((0, 0), a, clocks) := by
  unfold detectStaleOrders
  by_cases hb : bidPrice ≠ 0 <;> by_cases ha : askPrice ≠ 0 <;>
    simp [hb, ha, hbids, hasks, cancelStale]

/-- The state after a send to the book "ETF" that passes every check. -/
theorem sendOrder_etf_accepted_state (k : Constants) (a : AutoTrader) (clock : ℚ) (side : Side)
    (size price : Int)
    (hlim : (a.frequencyLimiter.sendMessage clock).1 = true)
    (hrange : k.MINIMUM_BID ≤ price ∧ price ≤ k.MAXIMUM_ASK)
    (hclamp : 0 < clampedSize k a Instrument.ETF side size) :
    (sendOrder k a clock "ETF" Instrument.ETF side size price).2 =
      { a with
        frequencyLimiter := (a.frequencyLimiter.sendMessage clock).2
        allEtfBooks := (a.allEtfBooks.sendOrder a.idGen a.time.time "ETF" Instrument.ETF side
          (clampedSize k a Instrument.ETF side size) (roundToTick price)).1
        idGen := (a.allEtfBooks.sendOrder a.idGen a.time.time "ETF" Instrument.ETF side
          (clampedSize k a Instrument.ETF side size) (roundToTick price)).2
        outbox := a.outbox ++ [ExchangeCall.insertOrder
          (a.allEtfBooks.sendOrder a.idGen a.time.time "ETF" Instrument.ETF side
            (clampedSize k a Instrument.ETF side size) (roundToTick price)).2.getCurrent side
          (toULong (roundToTick price))
          (toULong (clampedSize k a Instrument.ETF side size)) Lifespan.GOOD_FOR_DAY] } := by
  have h1 : ¬ (a.frequencyLimiter.sendMessage clock).1 = false := by simp [hlim]
  have h2 : ¬ (price > k.MAXIMUM_ASK ∨ price < k.MINIMUM_BID) := by omega
  have h3 : ¬ clampedSize k
      { a with frequencyLimiter := (a.frequencyLimiter.sendMessage clock).2 }
      Instrument.ETF side size ≤ 0 := by
    have h3' : 0 < clampedSize k
      { a with frequencyLimiter := (a.frequencyLimiter.sendMessage clock).2 }
      Instrument.ETF side size := hclamp
    omega
  simp only [sendOrder, if_neg h1, if_neg h2, if_neg h3, if_true]
  rfl

end AutoTrader


namespace AutoTrader

/-- One accepted send to the book "ETF": the call made to the exchange and the parts of
the state that the next send reads. -/
theorem sendOrder_etf_step (k : Constants) (a : AutoTrader) (clock : ℚ) (side : Side)
    (size price size1 : Int) (book : Book)
    (hcap : a.frequencyLimiter.messagesPerSecond < (two63 : Int))
    (hroom : (a.frequencyLimiter.messageTimes.length : Int) < a.frequencyLimiter.messagesPerSecond)
    (hbook : Map.find a.allEtfBooks.books "ETF" = some book)
    (hrange : k.MINIMUM_BID ≤ price ∧ price ≤ k.MAXIMUM_ASK)
    (hclamp : clampedSize k a Instrument.ETF side size = size1) (hpos : 0 < size1) :
    (sendOrder k a clock "ETF" Instrument.ETF side size price).2.outbox =
      a.outbox ++ [ExchangeCall.insertOrder (a.idGen.currClientOrderID + 1) side
        (toULong (roundToTick price)) (toULong size1) Lifespan.GOOD_FOR_DAY] ∧
    (sendOrder k a clock "ETF" Instrument.ETF side size price).2.idGen.currClientOrderID =
      a.idGen.currClientOrderID + 1 ∧
    (sendOrder k a clock "ETF" Instrument.ETF side size price).2.frequencyLimiter.messagesPerSecond =
      a.frequencyLimiter.messagesPerSecond ∧
    (sendOrder k a clock "ETF" Instrument.ETF side size
      price).2.frequencyLimiter.messageTimes.length ≤ a.frequencyLimiter.messageTimes.length + 1 ∧
    (sendOrder k a clock "ETF" Instrument.ETF side size price).2.allEtfBooks.exposure =
      a.allEtfBooks.exposure ∧
    (side = Side.BUY →
      (sendOrder k a clock "ETF" Instrument.ETF side size price).2.allEtfBooks.submittedAsks =
        a.allEtfBooks.submittedAsks) ∧
    (∃ book1, Map.find (sendOrder k a clock "ETF" Instrument.ETF side size
      price).2.allEtfBooks.books "ETF" = some book1) := by
  subst hclamp
  have hlim := MessageFrequencyLimiter.sendMessage_allowed a.frequencyLimiter clock hcap hroom
  have hlim1 : (a.frequencyLimiter.sendMessage clock).1 = true := by rw [hlim]
  rw [sendOrder_etf_accepted_state k a clock side size price hlim1 hrange hpos]
  obtain ⟨hbooks, hgen⟩ := BooksContainer.sendOrder_known a.allEtfBooks a.idGen a.time.time "ETF"
    Instrument.ETF side (clampedSize k a Instrument.ETF side size) (roundToTick price) book hbook
  obtain ⟨hexp, _, hsa⟩ := BooksContainer.sendOrder_fields a.allEtfBooks a.idGen a.time.time "ETF"
    Instrument.ETF side (clampedSize k a Instrument.ETF side size) (roundToTick price)
  refine ⟨?_, hgen, ?_, ?_, hexp, ?_, ?_⟩
  · simp only [OrderIDGenerator.getCurrent, hgen]
  · simp only [hlim]
  · simp only [hlim, List.length_append, List.length_singleton]
    have := MessageFrequencyLimiter.popExpired_length_le clock a.frequencyLimiter.messageTimes
    omega
  · intro hs
    subst hs
    simp only [hsa]
    simp
  · refine ⟨(book.sendOrder a.idGen a.time.time Instrument.ETF side
      (clampedSize k a Instrument.ETF side size) (roundToTick price) 0).2.1, ?_⟩
    simp only [hbooks]
    rw [Map.find_assign, if_pos rfl]

end AutoTrader


namespace AutoTrader

/-- The quotes of `makeMarket` on a trader without fills and without resting ETF orders:
one BUY and one SELL of `lotSize` lots at the tick-rounded prices of section 1 of
`getOrderPrices`. -/
theorem makeMarket_first_quotes (k : Constants) (a : AutoTrader) (clocks : Nat → ℚ) (mid : Int)
    (askPrices askVolumes bidPrices bidVolumes : List Nat) (book : Book)
    (hlog : a.matchingEngine.filledOrders = [])
    (hbids : a.allEtfBooks.getBids = []) (hasks : a.allEtfBooks.getAsks = [])
    (hexp : a.allEtfBooks.exposure = 0) (hsb : a.allEtfBooks.submittedBids = 0)
    (hsa : a.allEtfBooks.submittedAsks = 0)
    (hbook : Map.find a.allEtfBooks.books "ETF" = some book)
    (hcap : a.frequencyLimiter.messagesPerSecond < (two63 : Int))
    (hroom : (a.frequencyLimiter.messageTimes.length : Int) + 1 <
      a.frequencyLimiter.messagesPerSecond)
    (hlimit : lotSize ≤ k.positionLimit)
    (hmin : k.MINIMUM_BID ≤
      (priorityPrices k.TOP_LEVEL_COUNT mid askPrices askVolumes bidPrices bidVolumes).1)
    (hmax : (priorityPrices k.TOP_LEVEL_COUNT mid askPrices askVolumes bidPrices bidVolumes).2 ≤
      k.MAXIMUM_ASK) :
    (makeMarket k a clocks mid askPrices askVolumes bidPrices bidVolumes).1.outbox =
      a.outbox ++
        [ExchangeCall.insertOrder (a.idGen.currClientOrderID + 1) Side.BUY
          (toULong (roundToTick
            (priorityPrices k.TOP_LEVEL_COUNT mid askPrices askVolumes bidPrices bidVolumes).1))
          (toULong lotSize) Lifespan.GOOD_FOR_DAY,
         ExchangeCall.insertOrder (a.idGen.currClientOrderID + 2) Side.SELL
          (toULong (roundToTick
            (priorityPrices k.TOP_LEVEL_COUNT mid askPrices askVolumes bidPrices bidVolumes).2))
          (toULong lotSize) Lifespan.GOOD_FOR_DAY] := by
  obtain ⟨hb1, hb2, hb3, hb4⟩ :=
    priorityPrices_bounds k.TOP_LEVEL_COUNT mid askPrices askVolumes bidPrices bidVolumes
  simp only [minSpread, maxSpread] at hb1 hb2 hb3 hb4
  have hprices : (getOrderPrices k a mid askPrices askVolumes bidPrices bidVolumes).1 =
      priorityPrices k.TOP_LEVEL_COUNT mid askPrices askVolumes bidPrices bidVolumes := by
    simp only [getOrderPrices, hlog, getSignal_empty_log, applySignal]
  have hstale := detectStaleOrders_no_orders
    (getOrderPrices k a mid askPrices askVolumes bidPrices bidVolumes).2 clocks mid
    (getOrderPrices k a mid askPrices askVolumes bidPrices bidVolumes).1.1
    (getOrderPrices k a mid askPrices askVolumes bidPrices bidVolumes).1.2 hbids hasks
  have hsize1 : min lotSize (maxSubmittedOrders + (0 : Int) -
      (getOrderPrices k a mid askPrices askVolumes bidPrices bidVolumes).2.allEtfBooks.getSubmittedBids)
        = lotSize := by
    have : (getOrderPrices k a mid askPrices askVolumes bidPrices
        bidVolumes).2.allEtfBooks.getSubmittedBids = 0 := hsb
    rw [this]; decide
  have hsize2 : min lotSize (maxSubmittedOrders + (0 : Int) -
      (getOrderPrices k a mid askPrices askVolumes bidPrices bidVolumes).2.allEtfBooks.getSubmitedAsks)
        = lotSize := by
    have : (getOrderPrices k a mid askPrices askVolumes bidPrices
        bidVolumes).2.allEtfBooks.getSubmitedAsks = 0 := hsa
    rw [this]; decide
  rw [hprices] at hstale
  simp only [makeMarket, hprices, hstale, hsize1, hsize2]
  have hlot : (0 : Int) < lotSize := by decide
  have hclamp1 : clampedSize k (getOrderPrices k a mid askPrices askVolumes bidPrices bidVolumes).2
      Instrument.ETF Side.BUY lotSize = lotSize := by
    have e1 : (getOrderPrices k a mid askPrices askVolumes bidPrices
        bidVolumes).2.allEtfBooks.exposure = 0 := hexp
    have e2 : (getOrderPrices k a mid askPrices askVolumes bidPrices
        bidVolumes).2.allEtfBooks.submittedBids = 0 := hsb
    simp only [clampedSize, container, if_true, BooksContainer.getExposure,
      BooksContainer.getSubmittedBids, e1, e2]
    omega
  obtain ⟨o1, g1, m1, l1, x1, s1, ⟨book1, hbook1⟩⟩ := sendOrder_etf_step k
    (getOrderPrices k a mid askPrices askVolumes bidPrices bidVolumes).2 (clocks 0) Side.BUY
    lotSize (priorityPrices k.TOP_LEVEL_COUNT mid askPrices askVolumes bidPrices bidVolumes).1
    lotSize book hcap (by
      have : (getOrderPrices k a mid askPrices askVolumes bidPrices
        bidVolumes).2.frequencyLimiter = a.frequencyLimiter := rfl
      rw [this]; omega) hbook ⟨hmin, by omega⟩ hclamp1 hlot
  have s1' := s1 rfl
  have hclamp2 : clampedSize k
      (sendOrder k (getOrderPrices k a mid askPrices askVolumes bidPrices bidVolumes).2 (clocks 0)
        "ETF" Instrument.ETF Side.BUY lotSize
        (priorityPrices k.TOP_LEVEL_COUNT mid askPrices askVolumes bidPrices bidVolumes).1).2
      Instrument.ETF Side.SELL lotSize = lotSize := by
    have e1 : (getOrderPrices k a mid askPrices askVolumes bidPrices
        bidVolumes).2.allEtfBooks.exposure = 0 := hexp
    have e2 : (getOrderPrices k a mid askPrices askVolumes bidPrices
        bidVolumes).2.allEtfBooks.submittedAsks = 0 := hsa
    simp only [clampedSize, container, if_true, BooksContainer.getExposure,
      BooksContainer.getSubmitedAsks, x1, s1', e1, e2]
    omega
  have m0 : (getOrderPrices k a mid askPrices askVolumes bidPrices
      bidVolumes).2.frequencyLimiter = a.frequencyLimiter := rfl
  have i0 : (getOrderPrices k a mid askPrices askVolumes bidPrices bidVolumes).2.idGen = a.idGen :=
    rfl
  have b0 : (getOrderPrices k a mid askPrices askVolumes bidPrices bidVolumes).2.outbox =
    a.outbox := rfl
  rw [m0] at m1 l1
  rw [i0] at g1 o1
  rw [b0] at o1
  obtain ⟨o2, _⟩ := sendOrder_etf_step k
    (sendOrder k (getOrderPrices k a mid askPrices askVolumes bidPrices bidVolumes).2 (clocks 0)
      "ETF" Instrument.ETF Side.BUY lotSize
      (priorityPrices k.TOP_LEVEL_COUNT mid askPrices askVolumes bidPrices bidVolumes).1).2
    (clocks 1) Side.SELL lotSize
    (priorityPrices k.TOP_LEVEL_COUNT mid askPrices askVolumes bidPrices bidVolumes).2
    lotSize book1 (by rw [m1]; exact hcap) (by rw [m1]; omega) hbook1 ⟨by omega, hmax⟩ hclamp2 hlot
  rw [o2, o1, g1, List.append_assoc]
  rfl

end AutoTrader


theorem toULong_toLong (n : Nat) (h : n < two64) : toULong (toLong n) = n := by
  unfold two64 at h
  unfold toULong toLong two64 two63
  split <;> omega

namespace AutoTrader

/-- The handler always returns for a futures snapshot; it stores the snapshot and the
sequence number and leaves the ledgers, the fill log, the limiter and the calls made to
the exchange unchanged. -/
theorem handler_future (k : Constants) (a : AutoTrader) (clocks : Nat → ℚ) (seq : Nat)
    (askPrices askVolumes bidPrices bidVolumes : List Nat) (hseq : seq < two64) :
    ∃ aF, OrderBookMessageHandler k a clocks Instrument.FUTURE seq askPrices askVolumes
        bidPrices bidVolumes = some (aF, clocks) ∧
      toULong aF.currSequenceNumber = seq ∧
      aF.futureExchangeOrderBookData = a.futureExchangeOrderBookData ++
        [{ askPrices := askPrices, askVolumes := askVolumes, bidPrices := bidPrices,
           bidVolumes := bidVolumes }] ∧
      aF.matchingEngine = a.matchingEngine ∧ aF.allEtfBooks = a.allEtfBooks ∧
      aF.allFutureBooks = a.allFutureBooks ∧
      aF.idGen = a.idGen ∧ aF.frequencyLimiter = a.frequencyLimiter ∧ aF.outbox = a.outbox := by
  have hne : ¬ Instrument.FUTURE = Instrument.ETF := by decide
  by_cases hfresh : seq ≠ toULong a.currSequenceNumber
  · refine ⟨{ a with
        time := a.time.advanceTime (1 / 4)
        currSequenceNumber := toLong seq
        futureExchangeOrderBookData := a.futureExchangeOrderBookData ++
          [{ askPrices := askPrices, askVolumes := askVolumes, bidPrices := bidPrices,
             bidVolumes := bidVolumes }]
        etfPriceHistory := (InverseVWAP.calculateMid a.etfPriceHistory k.TOP_LEVEL_COUNT
          askPrices askVolumes bidPrices bidVolumes).2 }, ?_, toULong_toLong seq hseq,
      rfl, rfl, rfl, rfl, rfl, rfl, rfl⟩
    simp only [OrderBookMessageHandler, hfresh, ne_eq, not_false_eq_true, decide_True, true_and,
      if_neg hne, if_true]
    split <;> rfl
  · have hold : seq = toULong a.currSequenceNumber := by
      by_contra h
      exact hfresh h
    refine ⟨{ a with
        futureExchangeOrderBookData := a.futureExchangeOrderBookData ++
          [{ askPrices := askPrices, askVolumes := askVolumes, bidPrices := bidPrices,
             bidVolumes := bidVolumes }]
        etfPriceHistory := (InverseVWAP.calculateMid a.etfPriceHistory k.TOP_LEVEL_COUNT
          askPrices askVolumes bidPrices bidVolumes).2 }, ?_, hold.symm,
      rfl, rfl, rfl, rfl, rfl, rfl, rfl⟩
    simp only [OrderBookMessageHandler, ← hold, ne_eq, not_true_eq_false, decide_False,
      Bool.false_eq_true, false_and, if_false, if_true]
    split <;> rfl

/-- For an ETF snapshot with a fair value and the sequence number of the last futures
snapshot, the handler returns after `makeMarket` at the mid of that futures snapshot. -/
theorem handler_etf (k : Constants) (a : AutoTrader) (clocks : Nat → ℚ) (seq : Nat)
    (askPrices askVolumes bidPrices bidVolumes : List Nat) (v : ℚ)
    (lastFuture : ExchangeOrderBookData)
    (hseq : toULong a.currSequenceNumber = seq)
    (hfuture : a.futureExchangeOrderBookData.getLast? = some lastFuture)
    (hfair : InverseVWAP.calculateInverseVWAP k.TOP_LEVEL_COUNT askPrices askVolumes bidPrices
      bidVolumes = some v) :
    (OrderBookMessageHandler k a clocks Instrument.ETF seq askPrices askVolumes bidPrices
      bidVolumes).map (fun r => r.1.outbox) =
    some (makeMarket k
      { a with
        etfExchangeOrderBookData := a.etfExchangeOrderBookData ++
          [{ askPrices := askPrices, askVolumes := askVolumes, bidPrices := bidPrices,
             bidVolumes := bidVolumes }]
        etfPriceHistory := a.etfPriceHistory.push v }
      clocks (truncToLong lastFuture.getMid) askPrices askVolumes bidPrices bidVolumes).1.outbox := by
  have hne : ¬ Instrument.ETF = Instrument.FUTURE := by decide
  simp only [OrderBookMessageHandler, hseq, InverseVWAP.calculateMid, hfair, hfuture, ne_eq,
    not_true_eq_false, decide_False, Bool.false_eq_true, false_and, if_false, if_true, if_neg hne,
    Option.map_some']

end AutoTrader


namespace AutoTrader

theorem scanLevels_prefix (askPrices askVolumes bidPrices bidVolumes : List Nat) :
    ∀ n : Nat,
      ((List.range n).map (fun i => bidVolumes.getD i 0)).sum < 100 →
      ((List.range n).map (fun i => askVolumes.getD i 0)).sum < 100 →
      (scanLevels n askPrices askVolumes bidPrices bidVolumes).priorityBid = 0 ∧
      (scanLevels n askPrices askVolumes bidPrices bidVolumes).priorityAsk = 0 ∧
      (scanLevels n askPrices askVolumes bidPrices bidVolumes).totalBids =
        (((List.range n).map (fun i => bidVolumes.getD i 0)).sum : Nat) ∧
      (scanLevels n askPrices askVolumes bidPrices bidVolumes).totalAsks =
        (((List.range n).map (fun i => askVolumes.getD i 0)).sum : Nat) := by
  intro n
  induction n with
  | zero => intro _ _; simp [scanLevels]
  | succ n ih =>
    intro hb ha
    rw [List.range_succ, List.map_append, List.sum_append] at hb ha
    simp only [List.map_cons, List.map_nil, List.sum_cons, List.sum_nil, add_zero] at hb ha
    obtain ⟨h1, h2, h3, h4⟩ := ih (by omega) (by omega)
    have hvb : toLong (bidVolumes.getD n 0) = (bidVolumes.getD n 0 : Int) :=
      toLong_of_lt _ (by unfold two63; omega)
    have hva : toLong (askVolumes.getD n 0) = (askVolumes.getD n 0 : Int) :=
      toLong_of_lt _ (by unfold two63; omega)
    have hstep : scanLevels (n + 1) askPrices askVolumes bidPrices bidVolumes =
        scanLevel askPrices askVolumes bidPrices bidVolumes
          (scanLevels n askPrices askVolumes bidPrices bidVolumes) n := by
      simp only [scanLevels, List.range_succ, List.foldl_append, List.foldl_cons, List.foldl_nil]
    rw [hstep]
    simp only [scanLevel, h1, h2, h3, h4, hvb, hva, maxBidPriority, maxAskPriority,
      List.range_succ, List.map_append, List.sum_append, List.map_cons, List.map_nil,
      List.sum_cons, List.sum_nil, add_zero, Nat.cast_add]
    refine ⟨?_, ?_, trivial, trivial⟩
    · rw [if_neg]
      omega
    · rw [if_neg]
      omega

/-- When neither side of the snapshot holds 100 lots within the scanned levels, the
priority loop finds no price and section 1 of `getOrderPrices` returns the outer edges
`mid - maxSpread` and `mid + maxSpread`. -/
theorem priorityPrices_thin_book (depth : Nat) (mid : Int)
    (askPrices askVolumes bidPrices bidVolumes : List Nat)
    (hb : ((List.range depth).map (fun i => bidVolumes.getD i 0)).sum < 100)
    (ha : ((List.range depth).map (fun i => askVolumes.getD i 0)).sum < 100) :
    priorityPrices depth mid askPrices askVolumes bidPrices bidVolumes =
      (mid - maxSpread, mid + maxSpread) := by
  obtain ⟨h1, h2, _, _⟩ := scanLevels_prefix askPrices askVolumes bidPrices bidVolumes depth hb ha
  simp only [priorityPrices, h1, h2, ne_eq, not_true_eq_false, if_false, truncToLong_intCast]

end AutoTrader


namespace AutoTrader

/-- C13 (amended): on a trader with no fills, no resting ETF order, zero ETF exposure
and submitted volumes, room for two messages in the limiter and `positionLimit` at
least the lot size, one tick (the futures snapshot, then an ETF snapshot with a fair
value and the same sequence number) whose edges `mid - maxSpread` and `mid + maxSpread`
are in the exchange's range adds exactly two calls to the exchange: a BUY and a SELL of
50 lots, under the next two ids, at the tick-rounded prices of section 1 of
`getOrderPrices` for `mid`, the mid of the futures snapshot.  The BUY price lies in
`[mid - 500, mid - 150]` and the SELL price in `[mid + 150, mid + 500]` before rounding;
they are the outer edges `mid - maxSpread` and `mid + maxSpread` when neither side of the
ETF snapshot holds 100 lots within the scanned levels. -/
theorem first_quotes_of_session (k : Constants) (a : AutoTrader) (clocks : Nat → ℚ) (seq : Nat)
    (future etf : ExchangeOrderBookData) (book : Book)
    (hlog : a.matchingEngine.filledOrders = [])
    (hbids : a.allEtfBooks.getBids = []) (hasks : a.allEtfBooks.getAsks = [])
    (hexp : a.allEtfBooks.exposure = 0) (hsb : a.allEtfBooks.submittedBids = 0)
    (hsa : a.allEtfBooks.submittedAsks = 0)
    (hbook : Map.find a.allEtfBooks.books "ETF" = some book)
    (hcap : a.frequencyLimiter.messagesPerSecond < (two63 : Int))
    (hroom : (a.frequencyLimiter.messageTimes.length : Int) + 1 <
      a.frequencyLimiter.messagesPerSecond)
    (hlimit : lotSize ≤ k.positionLimit) (hseq : seq < two64)
    (hfair : (InverseVWAP.calculateInverseVWAP k.TOP_LEVEL_COUNT etf.askPrices etf.askVolumes
      etf.bidPrices etf.bidVolumes).isSome = true)
    (hmin : k.MINIMUM_BID ≤ truncToLong future.getMid - maxSpread)
    (hmax : truncToLong future.getMid + maxSpread ≤ k.MAXIMUM_ASK) :
    (tick k future etf seq (a, clocks)).map (fun r => r.1.outbox) =
      some (a.outbox ++
        [ExchangeCall.insertOrder (a.idGen.currClientOrderID + 1) Side.BUY
          (toULong (roundToTick (priorityPrices k.TOP_LEVEL_COUNT (truncToLong future.getMid)
            etf.askPrices etf.askVolumes etf.bidPrices etf.bidVolumes).1))
          50 Lifespan.GOOD_FOR_DAY,
         ExchangeCall.insertOrder (a.idGen.currClientOrderID + 2) Side.SELL
          (toULong (roundToTick (priorityPrices k.TOP_LEVEL_COUNT (truncToLong future.getMid)
            etf.askPrices etf.askVolumes etf.bidPrices etf.bidVolumes).2))
          50 Lifespan.GOOD_FOR_DAY]) ∧
    (truncToLong future.getMid - 500 ≤
        (priorityPrices k.TOP_LEVEL_COUNT (truncToLong future.getMid)
          etf.askPrices etf.askVolumes etf.bidPrices etf.bidVolumes).1 ∧
      (priorityPrices k.TOP_LEVEL_COUNT (truncToLong future.getMid)
          etf.askPrices etf.askVolumes etf.bidPrices etf.bidVolumes).1 ≤
        truncToLong future.getMid - 150 ∧
      truncToLong future.getMid + 150 ≤
        (priorityPrices k.TOP_LEVEL_COUNT (truncToLong future.getMid)
          etf.askPrices etf.askVolumes etf.bidPrices etf.bidVolumes).2 ∧
      (priorityPrices k.TOP_LEVEL_COUNT (truncToLong future.getMid)
          etf.askPrices etf.askVolumes etf.bidPrices etf.bidVolumes).2 ≤
        truncToLong future.getMid + 500) ∧
    (((List.range k.TOP_LEVEL_COUNT).map (fun i => etf.bidVolumes.getD i 0)).sum < 100 →
      ((List.range k.TOP_LEVEL_COUNT).map (fun i => etf.askVolumes.getD i 0)).sum < 100 →
      priorityPrices k.TOP_LEVEL_COUNT (truncToLong future.getMid)
          etf.askPrices etf.askVolumes etf.bidPrices etf.bidVolumes =
        (truncToLong future.getMid - maxSpread, truncToLong future.getMid + maxSpread)) := by
  have hbounds := priorityPrices_bounds k.TOP_LEVEL_COUNT (truncToLong future.getMid)
    etf.askPrices etf.askVolumes etf.bidPrices etf.bidVolumes
  refine ⟨?_, by simpa only [minSpread, maxSpread] using hbounds,
    priorityPrices_thin_book k.TOP_LEVEL_COUNT (truncToLong future.getMid)
      etf.askPrices etf.askVolumes etf.bidPrices etf.bidVolumes⟩
  obtain ⟨v, hv⟩ := Option.isSome_iff_exists.1 hfair
  obtain ⟨aF, hF, hFseq, hFdata, hFlog, hFetf, _, hFgen, hFlim, hFout⟩ :=
    handler_future k a clocks seq future.askPrices future.askVolumes future.bidPrices
      future.bidVolumes hseq
  have hlast : aF.futureExchangeOrderBookData.getLast? = some future := by
    rw [hFdata, List.getLast?_append]
    rfl
  have hE := handler_etf k aF clocks seq etf.askPrices etf.askVolumes etf.bidPrices
    etf.bidVolumes v future hFseq hlast hv
  have hM := makeMarket_first_quotes k
    { aF with
      etfExchangeOrderBookData := aF.etfExchangeOrderBookData ++
        [{ askPrices := etf.askPrices, askVolumes := etf.askVolumes, bidPrices := etf.bidPrices,
           bidVolumes := etf.bidVolumes }]
      etfPriceHistory := aF.etfPriceHistory.push v }
    clocks (truncToLong future.getMid) etf.askPrices etf.askVolumes etf.bidPrices etf.bidVolumes
    book (by rw [← hlog, ← hFlog]) (by rw [← hbids, ← hFetf]) (by rw [← hasks, ← hFetf])
    (by rw [← hexp, ← hFetf]) (by rw [← hsb, ← hFetf]) (by rw [← hsa, ← hFetf])
    (by rw [← hbook, ← hFetf]) (by simpa only [hFlim] using hcap)
    (by simpa only [hFlim] using hroom) hlimit
    (by have := hbounds.1; omega) (by have := hbounds.2.2.2; omega)
  have hlot : toULong lotSize = 50 := by decide
  simp only [tick, hF, Option.some_bind, hE]
  rw [hM]
  simp only [hFout, hFgen, hlot]

/-- C13 (counterexample): from the freshly constructed trader, the tick with the futures
snapshot `sampleFuture` (mid 10000) and the ETF snapshot `sampleEtfDeep`, which has a
fair value and 100 lots at the best level of each side, places the BUY at 9900 and the
SELL at 10200, not at the outer edges 9500 and 10500. -/
theorem first_quotes_inside_outer_edges :
    truncToLong ExchangeOrderBookData.sampleFuture.getMid = 10000 ∧
    (InverseVWAP.calculateInverseVWAP Constants.sample.TOP_LEVEL_COUNT
      ExchangeOrderBookData.sampleEtfDeep.askPrices ExchangeOrderBookData.sampleEtfDeep.askVolumes
      ExchangeOrderBookData.sampleEtfDeep.bidPrices
      ExchangeOrderBookData.sampleEtfDeep.bidVolumes).isSome = true ∧
    (tick Constants.sample ExchangeOrderBookData.sampleFuture ExchangeOrderBookData.sampleEtfDeep 1
      (AutoTrader.new, fun _ => 0)).map (fun r => r.1.outbox) =
      some [ExchangeCall.insertOrder 1 Side.BUY 9900 50 Lifespan.GOOD_FOR_DAY,
        ExchangeCall.insertOrder 2 Side.SELL 10200 50 Lifespan.GOOD_FOR_DAY] ∧
    roundToTick (10000 - maxSpread) = 9500 ∧ roundToTick (10000 + maxSpread) = 10500 := by
  decide!

/-- Witness for C13: the first tick of a session with the ETF snapshot `sampleEtfThin`. -/
theorem first_quotes_of_session_witness :
    (tick Constants.sample ExchangeOrderBookData.sampleFuture ExchangeOrderBookData.sampleEtfThin 1
      (AutoTrader.new, fun _ => 0)).map (fun r => r.1.outbox) =
      some [ExchangeCall.insertOrder 1 Side.BUY 9500 50 Lifespan.GOOD_FOR_DAY,
        ExchangeCall.insertOrder 2 Side.SELL 10500 50 Lifespan.GOOD_FOR_DAY] := by
  have h := (first_quotes_of_session Constants.sample AutoTrader.new (fun _ => 0) 1
    ExchangeOrderBookData.sampleFuture ExchangeOrderBookData.sampleEtfThin
    { instrument := Instrument.ETF }
    (by decide!) (by decide!) (by decide!) (by decide!) (by decide!) (by decide!) (by decide!)
    (by decide!) (by decide!) (by decide!) (by decide!) (by decide!) (by decide!) (by decide!)).1
  rw [h]
  decide!

end AutoTrader


/-! ## Theorems: the fill log is in time order -/

namespace TradeMatcher

theorem push_filledOrders (m : TradeMatcher) (order : Order) :
    (m.push order).filledOrders = m.filledOrders ++ [order] := by
  unfold push settleFilledOrders
  cases order.side <;> rfl

end TradeMatcher

namespace BooksContainer

theorem orderFilledLoop_log (now : ℚ) (id : Nat) (price v : Int) :
    ∀ (bs : List (String × Book)) (c : BooksContainer) (m : TradeMatcher),
      ∃ L : List Order,
        (orderFilledLoop now id price v bs c m).2.2.filledOrders = m.filledOrders ++ L ∧
        ∀ o ∈ L, o.time = now := by
  intro bs
  induction bs with
  | nil => intro c m; exact ⟨[], by simp [orderFilledLoop], by simp⟩
  | cons e rest ih =>
    intro c m
    cases hr : (e.2.orderFilled now id price v).1 with
    | none =>
      obtain ⟨L, hL, hall⟩ := ih c m
      refine ⟨L, ?_, hall⟩
      simp only [orderFilledLoop, hr]
      exact hL
    | some order =>
      obtain ⟨L, hL, hall⟩ := ih (applyFill c order) (m.push order)
      have htime : order.time = now := by
        have hfst := Book.orderFilled_fst e.2 now id price v
        rw [hr] at hfst
        cases hf : e.2.findOrder id with
        | none => rw [hf] at hfst; cases hfst
        | some o =>
          rw [hf] at hfst
          simp only [Option.map_some', Option.some.injEq] at hfst
          rw [hfst]
      refine ⟨order :: L, ?_, ?_⟩
      · simp only [orderFilledLoop, hr]
        rw [hL, TradeMatcher.push_filledOrders, List.append_assoc]
        rfl
      · intro o ho
        rcases List.mem_cons.1 ho with h | h
        · rw [h]; exact htime
        · exact hall o h

theorem container_orderFilled_log (c : BooksContainer) (m : TradeMatcher) (now : ℚ) (id : Nat)
    (price v : Int) :
    ∃ L : List Order, (c.orderFilled m now id price v).2.filledOrders = m.filledOrders ++ L ∧
      ∀ o ∈ L, o.time = now :=
  orderFilledLoop_log now id price v c.books c m

end BooksContainer

namespace AutoTrader

theorem sorted_append_now (l L : List Order) (now : ℚ)
    (hs : (l.map (fun o => o.time)).Pairwise (· ≤ ·)) (hle : ∀ o ∈ l, o.time ≤ now)
    (hL : ∀ o ∈ L, o.time = now) :
    ((l ++ L).map (fun o => o.time)).Pairwise (· ≤ ·) ∧ ∀ o ∈ l ++ L, o.time ≤ now := by
  have hconst : (L.map (fun o => o.time)).Pairwise (· ≤ ·) := by
    induction L with
    | nil => exact List.Pairwise.nil
    | cons x xs ih =>
      rw [List.map_cons, List.pairwise_cons]
      refine ⟨?_, ih (fun o ho => hL o (List.mem_cons_of_mem _ ho))⟩
      intro t ht
      obtain ⟨o, ho, rfl⟩ := List.mem_map.1 ht
      rw [hL x (List.mem_cons_self _ _), hL o (List.mem_cons_of_mem _ ho)]
  constructor
  · rw [List.map_append, List.pairwise_append]
    refine ⟨hs, hconst, ?_⟩
    intro s hs' t ht
    obtain ⟨o, ho, rfl⟩ := List.mem_map.1 hs'
    obtain ⟨o', ho', rfl⟩ := List.mem_map.1 ht
    rw [hL o' ho']
    exact hle o ho
  · intro o ho
    rcases List.mem_append.1 ho with h | h
    · exact hle o h
    · exact le_of_eq (hL o h)

theorem sendOrder_log (k : Constants) (a : AutoTrader) (clock : ℚ) (name : String)
    (instrument : Instrument) (side : Side) (size price : Int) :
    (sendOrder k a clock name instrument side size price).2.matchingEngine = a.matchingEngine ∧
    (sendOrder k a clock name instrument side size price).2.time = a.time := by
  simp only [sendOrder]
  split_ifs <;> exact ⟨rfl, rfl⟩

theorem cancelOrder_log (a : AutoTrader) (clock : ℚ) (id : Nat) :
    (cancelOrder a clock id).2.matchingEngine = a.matchingEngine ∧
    (cancelOrder a clock id).2.time = a.time := by
  simp only [cancelOrder]
  split_ifs <;> exact ⟨rfl, rfl⟩

theorem hedge_log (k : Constants) (a : AutoTrader) (clock : ℚ) :
    (hedge k a clock).matchingEngine = a.matchingEngine ∧ (hedge k a clock).time = a.time := by
  unfold hedge
  simp only []
  split
  · split
    · exact sendOrder_log k a clock _ _ _ _ _
    · exact ⟨rfl, rfl⟩
  · exact ⟨rfl, rfl⟩

theorem cancelStale_log (isStale : Order → Bool) :
    ∀ (l : List (Nat × Order)) (a : AutoTrader) (clocks : Nat → ℚ) (n : Int),
      (cancelStale isStale l a clocks n).2.1.matchingEngine = a.matchingEngine ∧
      (cancelStale isStale l a clocks n).2.1.time = a.time := by
  intro l
  induction l with
  | nil => intro a clocks n; exact ⟨rfl, rfl⟩
  | cons e rest ih =>
    intro a clocks n
    simp only [cancelStale]
    split
    · obtain ⟨h1, h2⟩ := ih (cancelOrder a (clocks 0) e.2.clientOrderID).2
        (fun i => clocks (i + 1))
        (if (cancelOrder a (clocks 0) e.2.clientOrderID).1 then n + 1 else n)
      obtain ⟨h3, h4⟩ := cancelOrder_log a (clocks 0) e.2.clientOrderID
      exact ⟨h1.trans h3, h2.trans h4⟩
    · exact ih a clocks n

theorem detectStaleOrders_log (a : AutoTrader) (clocks : Nat → ℚ) (mid bidPrice askPrice : Int) :
    (detectStaleOrders a clocks mid bidPrice askPrice).2.1.matchingEngine = a.matchingEngine ∧
    (detectStaleOrders a clocks mid bidPrice askPrice).2.1.time = a.time := by
  simp only [detectStaleOrders]
  by_cases hb : bidPrice ≠ 0 <;> by_cases ha : askPrice ≠ 0
  · simp only [if_pos hb, if_pos ha]
    obtain ⟨h1, h2⟩ := cancelStale_log (staleBid mid bidPrice) a.allEtfBooks.getBids a clocks 0
    obtain ⟨h3, h4⟩ := cancelStale_log (staleAsk mid askPrice)
      (cancelStale (staleBid mid bidPrice) a.allEtfBooks.getBids a clocks 0).2.1.allEtfBooks.getAsks
      (cancelStale (staleBid mid bidPrice) a.allEtfBooks.getBids a clocks 0).2.1
      (cancelStale (staleBid mid bidPrice) a.allEtfBooks.getBids a clocks 0).2.2 0
    exact ⟨h3.trans h1, h4.trans h2⟩
  · simp only [if_pos hb, if_neg ha]
    exact cancelStale_log (staleBid mid bidPrice) a.allEtfBooks.getBids a clocks 0
  · simp only [if_neg hb, if_pos ha]
    exact cancelStale_log (staleAsk mid askPrice) a.allEtfBooks.getAsks a clocks 0
  · simp only [if_neg hb, if_neg ha, and_self]

theorem makeMarket_log (k : Constants) (a : AutoTrader) (clocks : Nat → ℚ) (mid : Int)
    (askPrices askVolumes bidPrices bidVolumes : List Nat) :
    (makeMarket k a clocks mid askPrices askVolumes bidPrices bidVolumes).1.matchingEngine =
      a.matchingEngine ∧
    (makeMarket k a clocks mid askPrices askVolumes bidPrices bidVolumes).1.time = a.time := by
  simp only [makeMarket]
  obtain ⟨h1, h2⟩ := detectStaleOrders_log
    (getOrderPrices k a mid askPrices askVolumes bidPrices bidVolumes).2 clocks mid
    (getOrderPrices k a mid askPrices askVolumes bidPrices bidVolumes).1.1
    (getOrderPrices k a mid askPrices askVolumes bidPrices bidVolumes).1.2
  refine ⟨?_, ?_⟩
  · rw [(sendOrder_log k _ _ _ _ _ _ _).1, (sendOrder_log k _ _ _ _ _ _ _).1, h1]
    rfl
  · rw [(sendOrder_log k _ _ _ _ _ _ _).2, (sendOrder_log k _ _ _ _ _ _ _).2, h2]
    rfl

end AutoTrader


namespace AutoTrader

theorem orderFilled_log (k : Constants) (a : AutoTrader) (clock : ℚ) (id : Nat)
    (price v : Int) :
    ∃ L : List Order,
      (orderFilled k a clock id price v).matchingEngine.filledOrders =
        a.matchingEngine.filledOrders ++ L ∧
      (∀ o ∈ L, o.time = a.time.time) ∧ (orderFilled k a clock id price v).time = a.time := by
  obtain ⟨L1, hL1, hall1⟩ := BooksContainer.container_orderFilled_log a.allEtfBooks
    a.matchingEngine a.time.time id price v
  obtain ⟨L2, hL2, hall2⟩ := BooksContainer.container_orderFilled_log a.allFutureBooks
    (a.allEtfBooks.orderFilled a.matchingEngine a.time.time id price v).2 a.time.time id price v
  refine ⟨L1 ++ L2, ?_, ?_, ?_⟩
  · rw [← List.append_assoc, ← hL1, ← hL2]
    simp only [orderFilled]
    split
    · rfl
    · split
      · rfl
      · rw [(hedge_log k _ clock).1]
    · split
      · rfl
      · rw [(hedge_log k _ clock).1]
  · intro o ho
    rcases List.mem_append.1 ho with h | h
    · exact hall1 o h
    · exact hall2 o h
  · simp only [orderFilled]
    split
    · rfl
    · split
      · rfl
      · rw [(hedge_log k _ clock).2]
    · split
      · rfl
      · rw [(hedge_log k _ clock).2]

theorem handler_log (k : Constants) (a a1 : AutoTrader) (clocks clocks1 : Nat → ℚ)
    (instrument : Instrument) (seq : Nat) (askPrices askVolumes bidPrices bidVolumes : List Nat)
    (h : OrderBookMessageHandler k a clocks instrument seq askPrices askVolumes bidPrices
      bidVolumes = some (a1, clocks1)) :
    a1.matchingEngine = a.matchingEngine ∧ a.time.time ≤ a1.time.time := by
  have hadv : a.time.time ≤ (a.time.advanceTime (1 / 4)).time := by
    simp only [Time.advanceTime]
    linarith
  simp only [OrderBookMessageHandler] at h
  split at h
  · cases h
  · split at h
    · simp only [Option.some.injEq, Prod.mk.injEq] at h
      rw [← h.1]
      split <;> split <;> first | exact ⟨rfl, hadv⟩ | exact ⟨rfl, le_refl _⟩
    · split at h
      · simp only [Option.some.injEq, Prod.mk.injEq] at h
        rw [← h.1]
        split <;> split <;> first | exact ⟨rfl, hadv⟩ | exact ⟨rfl, le_refl _⟩
      · split at h
        · cases h
        · simp only [Option.some.injEq, Prod.mk.injEq] at h
          rw [← h.1]
          simp only []
          rw [(makeMarket_log k _ _ _ _ _ _ _).1, (makeMarket_log k _ _ _ _ _ _ _).2]
          split <;> split <;> first | exact ⟨rfl, hadv⟩ | exact ⟨rfl, le_refl _⟩

/-- In every reachable trader the fill log is in time order and no fill is later than
the logical clock: the hypothesis under which `getSignal` is characterised holds
whenever the program calls it. -/
theorem reachable_logSorted (k : Constants) (a : AutoTrader) (h : AutoTrader.Reachable k a) :
    a.LogSorted := by
  induction h with
  | new => exact ⟨List.Pairwise.nil, fun o ho => by cases ho⟩
  | sendOrder a clock name instrument side size price _ ih =>
    obtain ⟨h1, h2⟩ := sendOrder_log k a clock name instrument side size price
    unfold LogSorted
    rw [h1, h2]
    exact ih
  | cancelOrder a clock id _ ih =>
    obtain ⟨h1, h2⟩ := cancelOrder_log a clock id
    unfold LogSorted
    rw [h1, h2]
    exact ih
  | orderFilled a clock id price v _ ih =>
    obtain ⟨L, hL, hall, ht⟩ := orderFilled_log k a clock id price v
    unfold LogSorted
    rw [hL, ht]
    exact sorted_append_now _ L _ ih.1 ih.2 hall
  | orderClosed a id _ ih => exact ih
  | hedge a clock _ ih =>
    obtain ⟨h1, h2⟩ := hedge_log k a clock
    unfold LogSorted
    rw [h1, h2]
    exact ih
  | orderBookMessage a a1 clocks clocks1 instrument seq ap av bp bv _ hstep ih =>
    obtain ⟨h1, h2⟩ := handler_log k a a1 clocks clocks1 instrument seq ap av bp bv hstep
    unfold LogSorted
    rw [h1]
    exact ⟨ih.1, fun o ho => le_trans (ih.2 o ho) h2⟩

end AutoTrader


/-! ## Theorems: the two stages of getOrderPrices -/

namespace AutoTrader

theorem getSignal_values (filledOrders : List Order) (now : ℚ) :
    RepeatedTradeMomentum.getSignal filledOrders now = none ∨
    RepeatedTradeMomentum.getSignal filledOrders now = some up_trend ∨
    RepeatedTradeMomentum.getSignal filledOrders now = some down_trend := by
  simp only [RepeatedTradeMomentum.getSignal]
  split_ifs
  · exact Or.inl rfl
  · exact Or.inr (Or.inr rfl)
  · exact Or.inr (Or.inl rfl)
  · exact Or.inl rfl

/-- C30: section 2 of `getOrderPrices` returns the section-1 pair `(bid, ask)` shifted to
`(bid + 100, ask + 300)` when the signal is the up-trend, to `(bid - 300, ask - 100)` when
it is the down-trend, and unchanged when there is no signal; `getSignal` has no other
value.  In both shifts the two quotes move in the direction of the signal and the side
being chased moves by the larger offset `momentumSlippage = 300`. -/
theorem getOrderPrices_signal_skew (k : Constants) (a : AutoTrader) (mid : Int)
    (askPrices askVolumes bidPrices bidVolumes : List Nat) :
    (RepeatedTradeMomentum.getSignal a.matchingEngine.filledOrders a.time.time = some up_trend →
      (getOrderPrices k a mid askPrices askVolumes bidPrices bidVolumes).1 =
        ((priorityPrices k.TOP_LEVEL_COUNT mid askPrices askVolumes bidPrices bidVolumes).1 + 100,
         (priorityPrices k.TOP_LEVEL_COUNT mid askPrices askVolumes bidPrices bidVolumes).2 + 300)) ∧
    (RepeatedTradeMomentum.getSignal a.matchingEngine.filledOrders a.time.time = some down_trend →
      (getOrderPrices k a mid askPrices askVolumes bidPrices bidVolumes).1 =
        ((priorityPrices k.TOP_LEVEL_COUNT mid askPrices askVolumes bidPrices bidVolumes).1 - 300,
         (priorityPrices k.TOP_LEVEL_COUNT mid askPrices askVolumes bidPrices bidVolumes).2 - 100)) ∧
    (RepeatedTradeMomentum.getSignal a.matchingEngine.filledOrders a.time.time = none →
      (getOrderPrices k a mid askPrices askVolumes bidPrices bidVolumes).1 =
        priorityPrices k.TOP_LEVEL_COUNT mid askPrices askVolumes bidPrices bidVolumes) ∧
    (RepeatedTradeMomentum.getSignal a.matchingEngine.filledOrders a.time.time = none ∨
      RepeatedTradeMomentum.getSignal a.matchingEngine.filledOrders a.time.time = some up_trend ∨
      RepeatedTradeMomentum.getSignal a.matchingEngine.filledOrders a.time.time =
        some down_trend) := by
  have hne : ¬ down_trend = up_trend := by decide
  refine ⟨?_, ?_, ?_, getSignal_values _ _⟩
  · intro h
    simp only [getOrderPrices, h, applySignal, if_true, momentumSlippage]
  · intro h
    simp only [getOrderPrices, h, applySignal, if_neg hne, if_true, momentumSlippage]
  · intro h
    simp only [getOrderPrices, h, applySignal]

end AutoTrader


namespace AutoTrader

theorem cumulativeVolume_succ (volumes : List Nat) (i : Nat) :
    cumulativeVolume volumes (i + 1) =
      cumulativeVolume volumes i + toLong (volumes.getD (i + 1) 0) := by
  simp only [cumulativeVolume, List.range_succ (i + 1), List.map_append, List.sum_append,
    List.map_cons, List.map_nil, List.sum_cons, List.sum_nil, add_zero]

theorem scanLevels_succ (n : Nat) (askPrices askVolumes bidPrices bidVolumes : List Nat) :
    scanLevels (n + 1) askPrices askVolumes bidPrices bidVolumes =
      scanLevel askPrices askVolumes bidPrices bidVolumes
        (scanLevels n askPrices askVolumes bidPrices bidVolumes) n := by
  simp only [scanLevels, List.range_succ, List.foldl_append, List.foldl_cons, List.foldl_nil]

/-- The bid side of the priority loop after `n` iterations: the accumulator is the
cumulative volume, and `priorityBid` is the price before the first priority level, or 0
when there was none. -/
theorem scanLevels_bid (askPrices askVolumes bidPrices bidVolumes : List Nat) :
    ∀ n : Nat,
      (scanLevels n askPrices askVolumes bidPrices bidVolumes).totalBids =
        (if n = 0 then 0 else cumulativeVolume bidVolumes (n - 1)) ∧
      (((scanLevels n askPrices askVolumes bidPrices bidVolumes).priorityBid = 0 ∧
          ∀ j, j < n → ¬ PriorityAt bidPrices bidVolumes j) ∨
        ∃ i, i < n ∧ PriorityAt bidPrices bidVolumes i ∧
          (∀ j, j < i → ¬ PriorityAt bidPrices bidVolumes j) ∧
          (scanLevels n askPrices askVolumes bidPrices bidVolumes).priorityBid =
            toLong (bidPrices.getD (i - 1) 0)) := by
  intro n
  induction n with
  | zero =>
    refine ⟨by simp [scanLevels], Or.inl ⟨by simp [scanLevels], fun j hj => by omega⟩⟩
  | succ n ih =>
    obtain ⟨htot, hpri⟩ := ih
    have htot1 : (scanLevels n askPrices askVolumes bidPrices bidVolumes).totalBids +
        toLong (bidVolumes.getD n 0) = cumulativeVolume bidVolumes n := by
      rw [htot]
      cases n with
      | zero => simp [cumulativeVolume, scanLevels, List.range_succ]
      | succ m => simp only [Nat.succ_ne_zero, if_false, Nat.add_sub_cancel,
          cumulativeVolume_succ]
    rw [scanLevels_succ]
    refine ⟨by simp only [scanLevel, htot1, Nat.succ_ne_zero, if_false, Nat.add_sub_cancel], ?_⟩
    simp only [scanLevel, htot1, maxBidPriority]
    rcases hpri with ⟨h0, hnone⟩ | ⟨i, hi, hat, hfirst, hval⟩
    · by_cases hcum : cumulativeVolume bidVolumes n ≥ 100
      · rw [if_pos ⟨hcum, h0⟩]
        by_cases hp : toLong (bidPrices.getD (n - 1) 0) = 0
        · left
          refine ⟨hp, ?_⟩
          intro j hj hat
          rcases Nat.lt_succ_iff_lt_or_eq.1 hj with h | h
          · exact hnone j h hat
          · subst h; exact hat.2 hp
        · right
          exact ⟨n, Nat.lt_succ_self n, ⟨hcum, hp⟩, hnone, rfl⟩
      · rw [if_neg (fun h => hcum h.1)]
        left
        refine ⟨h0, ?_⟩
        intro j hj hat
        rcases Nat.lt_succ_iff_lt_or_eq.1 hj with h | h
        · exact hnone j h hat
        · subst h; exact hcum hat.1
    · right
      have hne : (scanLevels n askPrices askVolumes bidPrices bidVolumes).priorityBid ≠ 0 := by
        rw [hval]; exact hat.2
      rw [if_neg (fun h => hne h.2)]
      exact ⟨i, Nat.lt_succ_of_lt hi, hat, hfirst, hval⟩

/-- The ask side of the priority loop after `n` iterations. -/
theorem scanLevels_ask (askPrices askVolumes bidPrices bidVolumes : List Nat) :
    ∀ n : Nat,
      (scanLevels n askPrices askVolumes bidPrices bidVolumes).totalAsks =
        (if n = 0 then 0 else cumulativeVolume askVolumes (n - 1)) ∧
      (((scanLevels n askPrices askVolumes bidPrices bidVolumes).priorityAsk = 0 ∧
          ∀ j, j < n → ¬ PriorityAt askPrices askVolumes j) ∨
        ∃ i, i < n ∧ PriorityAt askPrices askVolumes i ∧
          (∀ j, j < i → ¬ PriorityAt askPrices askVolumes j) ∧
          (scanLevels n askPrices askVolumes bidPrices bidVolumes).priorityAsk =
            toLong (askPrices.getD (i - 1) 0)) := by
  intro n
  induction n with
  | zero =>
    refine ⟨by simp [scanLevels], Or.inl ⟨by simp [scanLevels], fun j hj => by omega⟩⟩
  | succ n ih =>
    obtain ⟨htot, hpri⟩ := ih
    have htot1 : (scanLevels n askPrices askVolumes bidPrices bidVolumes).totalAsks +
        toLong (askVolumes.getD n 0) = cumulativeVolume askVolumes n := by
      rw [htot]
      cases n with
      | zero => simp [cumulativeVolume, scanLevels, List.range_succ]
      | succ m => simp only [Nat.succ_ne_zero, if_false, Nat.add_sub_cancel,
          cumulativeVolume_succ]
    rw [scanLevels_succ]
    refine ⟨by simp only [scanLevel, htot1, Nat.succ_ne_zero, if_false, Nat.add_sub_cancel], ?_⟩
    simp only [scanLevel, htot1, maxAskPriority]
    rcases hpri with ⟨h0, hnone⟩ | ⟨i, hi, hat, hfirst, hval⟩
    · by_cases hcum : cumulativeVolume askVolumes n ≥ 100
      · rw [if_pos ⟨hcum, h0⟩]
        by_cases hp : toLong (askPrices.getD (n - 1) 0) = 0
        · left
          refine ⟨hp, ?_⟩
          intro j hj hat
          rcases Nat.lt_succ_iff_lt_or_eq.1 hj with h | h
          · exact hnone j h hat
          · subst h; exact hat.2 hp
        · right
          exact ⟨n, Nat.lt_succ_self n, ⟨hcum, hp⟩, hnone, rfl⟩
      · rw [if_neg (fun h => hcum h.1)]
        left
        refine ⟨h0, ?_⟩
        intro j hj hat
        rcases Nat.lt_succ_iff_lt_or_eq.1 hj with h | h
        · exact hnone j h hat
        · subst h; exact hcum hat.1
    · right
      have hne : (scanLevels n askPrices askVolumes bidPrices bidVolumes).priorityAsk ≠ 0 := by
        rw [hval]; exact hat.2
      rw [if_neg (fun h => hne h.2)]
      exact ⟨i, Nat.lt_succ_of_lt hi, hat, hfirst, hval⟩

end AutoTrader


namespace AutoTrader

/-- Section 1 of `getOrderPrices` for every snapshot, in terms of the loop's own test.
On each side, let `i` be the first level below the depth at which the cumulative volume
has reached the threshold 100 and the price of level `max(0, i - 1)` is not 0: the quote
is that price clamped to the nearest point of the side's interval,
`[mid - 500, mid - 150]` for the bid and `[mid + 150, mid + 500]` for the ask.  If there
is no such level the bid is `mid - 500` and the ask is `mid + 500`. -/
theorem priorityPrices_by_first_priority_level (depth : Nat) (mid : Int)
    (askPrices askVolumes bidPrices bidVolumes : List Nat) :
    (∀ i, i < depth → PriorityAt bidPrices bidVolumes i →
      (∀ j, j < i → ¬ PriorityAt bidPrices bidVolumes j) →
      (priorityPrices depth mid askPrices askVolumes bidPrices bidVolumes).1 =
        clampTo (mid - 500) (mid - 150) (toLong (bidPrices.getD (i - 1) 0))) ∧
    ((∀ j, j < depth → ¬ PriorityAt bidPrices bidVolumes j) →
      (priorityPrices depth mid askPrices askVolumes bidPrices bidVolumes).1 = mid - 500) ∧
    (∀ i, i < depth → PriorityAt askPrices askVolumes i →
      (∀ j, j < i → ¬ PriorityAt askPrices askVolumes j) →
      (priorityPrices depth mid askPrices askVolumes bidPrices bidVolumes).2 =
        clampTo (mid + 150) (mid + 500) (toLong (askPrices.getD (i - 1) 0))) ∧
    ((∀ j, j < depth → ¬ PriorityAt askPrices askVolumes j) →
      (priorityPrices depth mid askPrices askVolumes bidPrices bidVolumes).2 = mid + 500) := by
  obtain ⟨_, hbid⟩ := scanLevels_bid askPrices askVolumes bidPrices bidVolumes depth
  obtain ⟨_, hask⟩ := scanLevels_ask askPrices askVolumes bidPrices bidVolumes depth
  refine ⟨?_, ?_, ?_, ?_⟩
  · intro i hi hat hfirst
    rcases hbid with ⟨_, hnone⟩ | ⟨i', hi', hat', hfirst', hval⟩
    · exact absurd hat (hnone i hi)
    · have hii : i' = i := by
        rcases Nat.lt_trichotomy i' i with h | h | h
        · exact absurd hat' (hfirst i' h)
        · exact h
        · exact absurd hat (hfirst' i h)
      subst hii
      have hne : (scanLevels depth askPrices askVolumes bidPrices bidVolumes).priorityBid ≠ 0 := by
        rw [hval]; exact hat.2
      rw [hval] at hne
      simp only [priorityPrices, hval, if_pos hne, getClosestToValue_intCast,
        truncToLong_intCast, clampTo, maxSpread, minSpread]
  · intro hnone
    rcases hbid with ⟨h0, _⟩ | ⟨i', hi', hat', _, _⟩
    · simp only [priorityPrices, h0, ne_eq, not_true_eq_false, if_false, truncToLong_intCast,
        maxSpread]
    · exact absurd hat' (hnone i' hi')
  · intro i hi hat hfirst
    rcases hask with ⟨_, hnone⟩ | ⟨i', hi', hat', hfirst', hval⟩
    · exact absurd hat (hnone i hi)
    · have hii : i' = i := by
        rcases Nat.lt_trichotomy i' i with h | h | h
        · exact absurd hat' (hfirst i' h)
        · exact h
        · exact absurd hat (hfirst' i h)
      subst hii
      have hne : (scanLevels depth askPrices askVolumes bidPrices bidVolumes).priorityAsk ≠ 0 := by
        rw [hval]; exact hat.2
      rw [hval] at hne
      simp only [priorityPrices, hval, if_pos hne, getClosestToValue_intCast,
        truncToLong_intCast, clampTo, maxSpread, minSpread]
  · intro hnone
    rcases hask with ⟨h0, _⟩ | ⟨i', hi', hat', _, _⟩
    · simp only [priorityPrices, h0, ne_eq, not_true_eq_false, if_false, truncToLong_intCast,
        maxSpread]
    · exact absurd hat' (hnone i' hi')

/-- A snapshot that is not best first, with an empty level in front of the best bid: bids
`[0, 9900, 9800, 0, 0]` with volumes `[0, 100, 50, 0, 0]` at mid 10000.  Level 1 is the
first level at which the cumulative volume reaches 100, and the price of level
`max(0, 1 - 1) = 0` is 0, which the loop reads as "not found"; section 1 returns the bid
9850, the clamped price 9900 of level 1, taken at level 2. -/
theorem priorityPrices_skips_zero_price :
    cumulativeVolume [0, 100, 50, 0, 0] 0 = 0 ∧ cumulativeVolume [0, 100, 50, 0, 0] 1 = 100 ∧
    clampTo (10000 - 500) (10000 - 150) (((([0, 9900, 9800, 0, 0] : List Nat).getD (1 - 1) 0 : Nat) :
      Int)) = 9500 ∧
    (priorityPrices 5 10000 [10100, 10200, 0, 0, 0] [10, 50, 0, 0, 0] [0, 9900, 9800, 0, 0]
      [0, 100, 50, 0, 0]).1 = 9850 := by
  decide!

/-- The ETF snapshot `sampleEtfDeep` at mid 10000: level 0 is the first priority level on
both sides. -/
theorem priorityPrices_by_first_priority_level_witness :
    priorityPrices 5 10000 ExchangeOrderBookData.sampleEtfDeep.askPrices
      ExchangeOrderBookData.sampleEtfDeep.askVolumes ExchangeOrderBookData.sampleEtfDeep.bidPrices
      ExchangeOrderBookData.sampleEtfDeep.bidVolumes =
    (clampTo (10000 - 500) (10000 - 150) 9950, clampTo (10000 + 150) (10000 + 500) 10050) :=
  Prod.ext
    ((priorityPrices_by_first_priority_level 5 10000 ExchangeOrderBookData.sampleEtfDeep.askPrices
      ExchangeOrderBookData.sampleEtfDeep.askVolumes ExchangeOrderBookData.sampleEtfDeep.bidPrices
      ExchangeOrderBookData.sampleEtfDeep.bidVolumes).1 0 (by decide) (by decide!)
      (fun j hj => by omega))
    ((priorityPrices_by_first_priority_level 5 10000 ExchangeOrderBookData.sampleEtfDeep.askPrices
      ExchangeOrderBookData.sampleEtfDeep.askVolumes ExchangeOrderBookData.sampleEtfDeep.bidPrices
      ExchangeOrderBookData.sampleEtfDeep.bidVolumes).2.2.1 0 (by decide) (by decide!)
      (fun j hj => by omega))

end AutoTrader


/-! ## Theorems: messages denied by the limiter -/

namespace AutoTrader

/-- C24: when the rate limiter denies, `sendOrder` and `cancelOrder` return `false` and
the trader is unchanged except for its limiter, which has dropped the expired readings
and recorded nothing: the containers (orders, exposure, submitted volumes, counters),
the id generator, the trade matcher and the calls made to the exchange are those of
before, and the state holds no pending action. -/
theorem limiter_denial_drops_action (k : Constants) (a : AutoTrader) (clock : ℚ)
    (name : String) (instrument : Instrument) (side : Side) (size price : Int)
    (clientOrderID : Nat)
    (hdeny : (a.frequencyLimiter.sendMessage clock).1 = false) :
    sendOrder k a clock name instrument side size price =
      (false, { a with frequencyLimiter :=
        { a.frequencyLimiter with
          messageTimes :=
            MessageFrequencyLimiter.popExpired clock a.frequencyLimiter.messageTimes } }) ∧
    cancelOrder a clock clientOrderID =
      (false, { a with frequencyLimiter :=
        { a.frequencyLimiter with
          messageTimes :=
            MessageFrequencyLimiter.popExpired clock a.frequencyLimiter.messageTimes } }) := by
  have hstate : (a.frequencyLimiter.sendMessage clock).2 =
      { a.frequencyLimiter with
        messageTimes :=
          MessageFrequencyLimiter.popExpired clock a.frequencyLimiter.messageTimes } := by
    simp only [MessageFrequencyLimiter.sendMessage] at hdeny ⊢
    split
    · rename_i h
      rw [if_pos h] at hdeny
      cases hdeny
    · rfl
  constructor
  · simp only [sendOrder, if_pos hdeny, hstate]
  · simp only [cancelOrder, if_pos hdeny, hstate]

/-- Witness for C24: `AutoTrader.sampleSaturated`, whose window holds 200 readings, at
wall-clock reading 0. -/
theorem limiter_denial_drops_action_witness :
    (sendOrder Constants.sample AutoTrader.sampleSaturated 0 "ETF" Instrument.ETF Side.BUY 50
      10000).1 = false ∧
    (cancelOrder AutoTrader.sampleSaturated 0 1).1 = false :=
  ⟨congrArg Prod.fst (limiter_denial_drops_action Constants.sample AutoTrader.sampleSaturated 0
      "ETF" Instrument.ETF Side.BUY 50 10000 1 (by decide!)).1,
   congrArg Prod.fst (limiter_denial_drops_action Constants.sample AutoTrader.sampleSaturated 0
      "ETF" Instrument.ETF Side.BUY 50 10000 1 (by decide!)).2⟩

end AutoTrader


/-! ## Theorems: stale orders and replacement sizes -/

namespace AutoTrader

/-- The effect of a successful or denied `cancelOrder` on what the later code reads. -/
theorem cancelOrder_effect (a : AutoTrader) (clock : ℚ) (id : Nat) :
    (cancelOrder a clock id).2.outbox =
      a.outbox ++ (if (cancelOrder a clock id).1 then [ExchangeCall.cancelOrder id] else []) ∧
    (cancelOrder a clock id).2.allEtfBooks.submittedBids = a.allEtfBooks.submittedBids ∧
    (cancelOrder a clock id).2.allEtfBooks.submittedAsks = a.allEtfBooks.submittedAsks := by
  simp only [cancelOrder]
  split
  · simp
  · simp [BooksContainer.cancelOrder]

/-- One loop of `detectStaleOrders`: the counter grows by the number of cancel messages
sent, each for an order of the list that the test marks stale, and the submitted
volumes of the ETF container are unchanged. -/
theorem cancelStale_effect (isStale : Order → Bool) :
    ∀ (l : List (Nat × Order)) (a : AutoTrader) (clocks : Nat → ℚ) (n : Int),
      ∃ ids : List Nat,
        (cancelStale isStale l a clocks n).2.1.outbox =
          a.outbox ++ ids.map ExchangeCall.cancelOrder ∧
        (cancelStale isStale l a clocks n).1 = n + (ids.length : Int) ∧
        (∀ id ∈ ids, ∃ e ∈ l, isStale e.2 = true ∧ e.2.clientOrderID = id) ∧
        (cancelStale isStale l a clocks n).2.1.allEtfBooks.submittedBids =
          a.allEtfBooks.submittedBids ∧
        (cancelStale isStale l a clocks n).2.1.allEtfBooks.submittedAsks =
          a.allEtfBooks.submittedAsks := by
  intro l
  induction l with
  | nil =>
    intro a clocks n
    exact ⟨[], by simp [cancelStale], by simp [cancelStale], by simp, rfl, rfl⟩
  | cons e rest ih =>
    intro a clocks n
    by_cases hs : isStale e.2 = true
    · obtain ⟨hout, hb, ha⟩ := cancelOrder_effect a (clocks 0) e.2.clientOrderID
      obtain ⟨ids, h1, h2, h3, h4, h5⟩ := ih (cancelOrder a (clocks 0) e.2.clientOrderID).2
        (fun i => clocks (i + 1))
        (if (cancelOrder a (clocks 0) e.2.clientOrderID).1 then n + 1 else n)
      simp only [cancelStale, if_pos hs]
      by_cases hc : (cancelOrder a (clocks 0) e.2.clientOrderID).1 = true
      · refine ⟨e.2.clientOrderID :: ids, ?_, ?_, ?_, h4.trans hb, h5.trans ha⟩
        · rw [h1, hout, if_pos hc, List.append_assoc]
          rfl
        · rw [h2, if_pos hc, List.length_cons]
          push_cast
          ring
        · intro id hid
          rcases List.mem_cons.1 hid with h | h
          · exact ⟨e, List.mem_cons_self _ _, hs, h.symm⟩
          · obtain ⟨e', he', hst, hid'⟩ := h3 id h
            exact ⟨e', List.mem_cons_of_mem _ he', hst, hid'⟩
      · refine ⟨ids, ?_, ?_, ?_, h4.trans hb, h5.trans ha⟩
        · rw [h1, hout, if_neg hc, List.append_nil]
        · rw [h2, if_neg hc]
        · intro id hid
          obtain ⟨e', he', hst, hid'⟩ := h3 id hid
          exact ⟨e', List.mem_cons_of_mem _ he', hst, hid'⟩
    · obtain ⟨ids, h1, h2, h3, h4, h5⟩ := ih a clocks n
      simp only [cancelStale, if_neg hs]
      refine ⟨ids, h1, h2, ?_, h4, h5⟩
      intro id hid
      obtain ⟨e', he', hst, hid'⟩ := h3 id hid
      exact ⟨e', List.mem_cons_of_mem _ he', hst, hid'⟩

/-- The function `detectStaleOrders` returns, per side, the number of cancel messages it
sent, and leaves the submitted volumes of the ETF container unchanged. -/
theorem detectStaleOrders_effect (a : AutoTrader) (clocks : Nat → ℚ)
    (mid bidPrice askPrice : Int) :
    ∃ bidIds askIds : List Nat,
      (detectStaleOrders a clocks mid bidPrice askPrice).2.1.outbox =
        a.outbox ++ bidIds.map ExchangeCall.cancelOrder ++ askIds.map ExchangeCall.cancelOrder ∧
      (detectStaleOrders a clocks mid bidPrice askPrice).1 =
        ((bidIds.length : Int), (askIds.length : Int)) ∧
      (detectStaleOrders a clocks mid bidPrice askPrice).2.1.allEtfBooks.submittedBids =
        a.allEtfBooks.submittedBids ∧
      (detectStaleOrders a clocks mid bidPrice askPrice).2.1.allEtfBooks.submittedAsks =
        a.allEtfBooks.submittedAsks := by
  have hb : ∃ bidIds : List Nat, ∀ rb : Int × AutoTrader × (Nat → ℚ),
      rb = (if bidPrice ≠ 0 then
        cancelStale (staleBid mid bidPrice) a.allEtfBooks.getBids a clocks 0
        else (0, a, clocks)) →
      rb.2.1.outbox = a.outbox ++ bidIds.map ExchangeCall.cancelOrder ∧
      rb.1 = (bidIds.length : Int) ∧
      rb.2.1.allEtfBooks.submittedBids = a.allEtfBooks.submittedBids ∧
      rb.2.1.allEtfBooks.submittedAsks = a.allEtfBooks.submittedAsks := by
    by_cases h : bidPrice ≠ 0
    · obtain ⟨ids, h1, h2, _, h4, h5⟩ :=
        cancelStale_effect (staleBid mid bidPrice) a.allEtfBooks.getBids a clocks 0
      refine ⟨ids, ?_⟩
      intro rb hrb
      rw [if_pos h] at hrb
      subst hrb
      exact ⟨h1, by rw [h2]; ring, h4, h5⟩
    · refine ⟨[], ?_⟩
      intro rb hrb
      rw [if_neg h] at hrb
      subst hrb
      simp
  obtain ⟨bidIds, hbid⟩ := hb
  obtain ⟨o1, c1, sb1, sa1⟩ := hbid _ rfl
  have ha : ∃ askIds : List Nat, ∀ (s : AutoTrader) (cl : Nat → ℚ)
      (ra : Int × AutoTrader × (Nat → ℚ)),
      ra = (if askPrice ≠ 0 then
        cancelStale (staleAsk mid askPrice) s.allEtfBooks.getAsks s cl 0
        else (0, s, cl)) →
      s = (if bidPrice ≠ 0 then
        cancelStale (staleBid mid bidPrice) a.allEtfBooks.getBids a clocks 0
        else (0, a, clocks)).2.1 →
      cl = (if bidPrice ≠ 0 then
        cancelStale (staleBid mid bidPrice) a.allEtfBooks.getBids a clocks 0
        else (0, a, clocks)).2.2 →
      ra.2.1.outbox = s.outbox ++ askIds.map ExchangeCall.cancelOrder ∧
      ra.1 = (askIds.length : Int) ∧
      ra.2.1.allEtfBooks.submittedBids = s.allEtfBooks.submittedBids ∧
      ra.2.1.allEtfBooks.submittedAsks = s.allEtfBooks.submittedAsks := by
    by_cases h : askPrice ≠ 0
    · obtain ⟨ids, h1, h2, _, h4, h5⟩ :=
        cancelStale_effect (staleAsk mid askPrice)
          (if bidPrice ≠ 0 then
            cancelStale (staleBid mid bidPrice) a.allEtfBooks.getBids a clocks 0
            else (0, a, clocks)).2.1.allEtfBooks.getAsks
          (if bidPrice ≠ 0 then
            cancelStale (staleBid mid bidPrice) a.allEtfBooks.getBids a clocks 0
            else (0, a, clocks)).2.1
          (if bidPrice ≠ 0 then
            cancelStale (staleBid mid bidPrice) a.allEtfBooks.getBids a clocks 0
            else (0, a, clocks)).2.2 0
      refine ⟨ids, ?_⟩
      intro s cl ra hra hs hcl
      rw [if_pos h] at hra
      subst hs hcl hra
      exact ⟨h1, by rw [h2]; ring, h4, h5⟩
    · refine ⟨[], ?_⟩
      intro s cl ra hra hs hcl
      rw [if_neg h] at hra
      subst hra
      simp
  obtain ⟨askIds, hask⟩ := ha
  obtain ⟨o2, c2, sb2, sa2⟩ := hask _ _ _ rfl rfl rfl
  refine ⟨bidIds, askIds, ?_, ?_, ?_, ?_⟩
  · simp only [detectStaleOrders]
    rw [o2, o1]
  · simp only [detectStaleOrders]
    rw [c1, c2]
  · simp only [detectStaleOrders]
    rw [sb2, sb1]
  · simp only [detectStaleOrders]
    rw [sa2, sa1]

end AutoTrader


namespace AutoTrader

/-- C22: in `makeMarket` the size requested for the replacement order of a side is
`min(lotSize, maxSubmittedOrders + c - s)` with `lotSize = maxSubmittedOrders = 50`, where
`c` is the number of cancel messages that `detectStaleOrders` sent for that side in this
call and `s` is the ETF container's submitted volume of that side, which the
cancellations have not changed.  The BUY is requested first, then the SELL, each
through `sendOrder` at the price of `getOrderPrices`; a request with a non-positive size
is rejected by `sendOrder` and changes nothing but the limiter. -/
theorem makeMarket_replacement_sizes (k : Constants) (a : AutoTrader) (clocks : Nat → ℚ)
    (mid : Int) (askPrices askVolumes bidPrices bidVolumes : List Nat) :
    let prices := getOrderPrices k a mid askPrices askVolumes bidPrices bidVolumes
    let stale := detectStaleOrders prices.2 clocks mid prices.1.1 prices.1.2
    ∃ bidIds askIds : List Nat,
      stale.2.1.outbox = a.outbox ++ bidIds.map ExchangeCall.cancelOrder ++
        askIds.map ExchangeCall.cancelOrder ∧
      stale.1 = ((bidIds.length : Int), (askIds.length : Int)) ∧
      stale.2.1.allEtfBooks.getSubmittedBids = a.allEtfBooks.submittedBids ∧
      stale.2.1.allEtfBooks.getSubmitedAsks = a.allEtfBooks.submittedAsks ∧
      (makeMarket k a clocks mid askPrices askVolumes bidPrices bidVolumes).1 =
        (sendOrder k
          (sendOrder k stale.2.1 (stale.2.2 0) "ETF" Instrument.ETF Side.BUY
            (min 50 (50 + (bidIds.length : Int) - a.allEtfBooks.submittedBids)) prices.1.1).2
          (stale.2.2 1) "ETF" Instrument.ETF Side.SELL
          (min 50 (50 + (askIds.length : Int) - a.allEtfBooks.submittedAsks)) prices.1.2).2 ∧
      (∀ (s : AutoTrader) (clock : ℚ) (side : Side) (size price : Int), size ≤ 0 →
        sendOrder k s clock "ETF" Instrument.ETF side size price =
          (false, { s with frequencyLimiter := (s.frequencyLimiter.sendMessage clock).2 })) := by
  intro prices stale
  obtain ⟨bidIds, askIds, hout, hcount, hsb, hsa⟩ :=
    detectStaleOrders_effect prices.2 clocks mid prices.1.1 prices.1.2
  have hsb' : stale.2.1.allEtfBooks.getSubmittedBids = a.allEtfBooks.submittedBids := hsb
  have hsa' : stale.2.1.allEtfBooks.getSubmitedAsks = a.allEtfBooks.submittedAsks := hsa
  have hc1 : stale.1.1 = (bidIds.length : Int) := by
    show (detectStaleOrders prices.2 clocks mid prices.1.1 prices.1.2).1.1 = _
    rw [hcount]
  have hc2 : stale.1.2 = (askIds.length : Int) := by
    show (detectStaleOrders prices.2 clocks mid prices.1.1 prices.1.2).1.2 = _
    rw [hcount]
  refine ⟨bidIds, askIds, hout, hcount, hsb', hsa', ?_, ?_⟩
  · show (makeMarket k a clocks mid askPrices askVolumes bidPrices bidVolumes).1 = _
    rw [← hc1, ← hc2, ← hsb', ← hsa']
    rfl
  · intro s clock side size price hsize
    have hclamp : clampedSize k s Instrument.ETF side size ≤ 0 := by
      unfold clampedSize
      cases side <;> simp only [] <;> omega
    have hfalse := sendOrder_invalid k s clock "ETF" Instrument.ETF side size price
      (Or.inr (Or.inr hclamp))
    exact Prod.ext hfalse (sendOrder_rejected k s clock "ETF" Instrument.ETF side size price hfalse)

end AutoTrader


namespace AutoTrader

/-- C21: evaluation of `detectStaleOrders` on a bid priced above mid.  In the session
`AutoTrader.sampleBeforeFall` the BUY with id 1 rests at 9900 and the limiter has free
capacity.  For mid 9850, bidPrice 9800 and askPrice 10300 the signed difference
`mid - price = -50` is below 50, and yet `detectStaleOrders` cancels nothing: the test
evaluates `mid - order.price` in `unsigned long`, where it is `2 ^ 64 - 50`, and
`price - bidPrice = 100` is not above 100.  These are the arguments of the call in tick 2
of `AutoTrader.sampleAfterFall` (futures mid 9850, up-trend), after which no cancel has
been sent and the bid still rests at 9900, above mid. -/
theorem detectStaleOrders_keeps_bid_above_mid :
    AutoTrader.sampleBeforeFall.map (fun s =>
      (s.1.allEtfBooks.getBids.map (fun e => (e.1, e.2.price)),
        (s.1.frequencyLimiter.sendMessage 0).1,
        s.1.allEtfBooks.getBids.map (fun e => staleBid 9850 9800 e.2))) =
      some ([(1, 9900)], true, [false]) ∧
    AutoTrader.sampleBeforeFall.map (fun s =>
      ((detectStaleOrders s.1 s.2 9850 9800 10300).1,
        (detectStaleOrders s.1 s.2 9850 9800 10300).2.1.outbox.drop s.1.outbox.length)) =
      some ((0, 0), []) ∧
    ((9850 : Int) - 9900 < 50 ∧ toULong ((9850 : Int) - 9900) = two64 - 50) ∧
    truncToLong ExchangeOrderBookData.sampleFutureLow.getMid = 9850 ∧
    AutoTrader.sampleAfterFall.map (fun s =>
      (s.1.outbox, s.1.bidPriceHistory.getBack,
        s.1.allEtfBooks.getBids.map (fun e => (e.1, e.2.price)))) =
      some ([ExchangeCall.insertOrder 1 Side.BUY 9900 50 Lifespan.GOOD_FOR_DAY,
        ExchangeCall.insertOrder 2 Side.SELL 10200 50 Lifespan.GOOD_FOR_DAY,
        ExchangeCall.insertOrder 3 Side.SELL 10300 50 Lifespan.GOOD_FOR_DAY],
        some 9800, [(1, 9900)]) := by
  decide!

end AutoTrader


/-! ## Theorems: the clock of the rate limiter -/

namespace MessageFrequencyLimiter

theorem popExpired_shift (time δ : ℚ) :
    ∀ w : List ℚ, popExpired (time + δ) (w.map (fun s => s + δ)) =
      (popExpired time w).map (fun s => s + δ) := by
  intro w
  induction w with
  | nil => rfl
  | cons s rest ih =>
    simp only [List.map_cons, popExpired, add_sub_add_right_eq_sub]
    split
    · exact ih
    · rfl

theorem sendMessage_shift (l : MessageFrequencyLimiter) (time δ : ℚ) :
    sendMessage { l with messageTimes := l.messageTimes.map (fun s => s + δ) } (time + δ) =
      ((sendMessage l time).1,
        { (sendMessage l time).2 with
          messageTimes := (sendMessage l time).2.messageTimes.map (fun s => s + δ) }) := by
  simp only [sendMessage, popExpired_shift, List.length_map]
  split
  · simp
  · rfl

theorem sendMessages_shift (δ : ℚ) :
    ∀ (ts : List ℚ) (l : MessageFrequencyLimiter),
      sendMessages { l with messageTimes := l.messageTimes.map (fun s => s + δ) }
          (ts.map (fun t => t + δ)) =
        ((sendMessages l ts).1,
          { (sendMessages l ts).2 with
            messageTimes := (sendMessages l ts).2.messageTimes.map (fun s => s + δ) }) := by
  intro ts
  induction ts with
  | nil => intro l; rfl
  | cons t rest ih =>
    intro l
    simp only [List.map_cons, sendMessages, sendMessage_shift]
    have h := ih (sendMessage l t).2
    simp only [] at h
    rw [h]

end MessageFrequencyLimiter

namespace AutoTrader

/-- C28 (amended): the limiter's allow/deny decisions depend only on its own state and on
the wall-clock readings that `sendMessage` takes from `std::chrono::system_clock`; the
logical clock is not consulted.  Two traders with the same limiter state, whatever their
logical times and ledgers, get the same result and the same new limiter state from a
`cancelOrder` at the same reading, and the same new limiter state from a `sendOrder`;
and the results of a sequence of `sendMessage` calls are unchanged when all readings,
recorded and new, are shifted by the same amount, so only elapsed wall-clock time
matters. -/
theorem limiter_depends_on_wall_clock_only (k : Constants) :
    (∀ (a1 a2 : AutoTrader) (clock : ℚ) (id1 id2 : Nat),
      a1.frequencyLimiter = a2.frequencyLimiter →
      (cancelOrder a1 clock id1).1 = (cancelOrder a2 clock id2).1 ∧
      (cancelOrder a1 clock id1).1 = (a1.frequencyLimiter.sendMessage clock).1 ∧
      (cancelOrder a1 clock id1).2.frequencyLimiter =
        (cancelOrder a2 clock id2).2.frequencyLimiter) ∧
    (∀ (a1 a2 : AutoTrader) (clock : ℚ) (name1 name2 : String) (i1 i2 : Instrument)
      (side1 side2 : Side) (size1 size2 price1 price2 : Int),
      a1.frequencyLimiter = a2.frequencyLimiter →
      (sendOrder k a1 clock name1 i1 side1 size1 price1).2.frequencyLimiter =
        (sendOrder k a2 clock name2 i2 side2 size2 price2).2.frequencyLimiter) ∧
    (∀ (l : MessageFrequencyLimiter) (ts : List ℚ) (δ : ℚ),
      (MessageFrequencyLimiter.sendMessages
        { l with messageTimes := l.messageTimes.map (fun s => s + δ) }
        (ts.map (fun t => t + δ))).1 = (MessageFrequencyLimiter.sendMessages l ts).1) := by
  have hcancel : ∀ (a : AutoTrader) (clock : ℚ) (id : Nat),
      (cancelOrder a clock id).1 = (a.frequencyLimiter.sendMessage clock).1 ∧
      (cancelOrder a clock id).2.frequencyLimiter = (a.frequencyLimiter.sendMessage clock).2 := by
    intro a clock id
    simp only [cancelOrder]
    split
    · rename_i h
      exact ⟨h.symm, rfl⟩
    · rename_i h
      simp only [Bool.not_eq_false] at h
      exact ⟨h.symm, rfl⟩
  refine ⟨?_, ?_, ?_⟩
  · intro a1 a2 clock id1 id2 h
    obtain ⟨h1, h2⟩ := hcancel a1 clock id1
    obtain ⟨h3, h4⟩ := hcancel a2 clock id2
    exact ⟨by rw [h1, h3, h], h1, by rw [h2, h4, h]⟩
  · intro a1 a2 clock name1 name2 i1 i2 side1 side2 size1 size2 price1 price2 h
    rw [sendOrder_limiter, sendOrder_limiter, h]
  · intro l ts δ
    rw [MessageFrequencyLimiter.sendMessages_shift]

/-- C28 (counterexample): on `AutoTrader.sampleSaturated`, whose logical time is 0, the
same `cancelOrder` call is denied at wall-clock reading 0 and allowed at wall-clock
reading 2: two runs with the same calls at the same logical times get different
results. -/
theorem limiter_result_varies_with_wall_clock :
    AutoTrader.sampleSaturated.time.time = 0 ∧
    (cancelOrder AutoTrader.sampleSaturated 0 1).1 = false ∧
    (cancelOrder AutoTrader.sampleSaturated 0 1).2.time.time = 0 ∧
    (cancelOrder AutoTrader.sampleSaturated 2 1).1 = true ∧
    (cancelOrder AutoTrader.sampleSaturated 2 1).2.time.time = 0 := by
  decide!

end AutoTrader


/-! ## Theorems: the logical clock -/

namespace AutoTrader

theorem sendOrder_frame (k : Constants) (a : AutoTrader) (clock : ℚ) (name : String)
    (instrument : Instrument) (side : Side) (size price : Int) :
    (sendOrder k a clock name instrument side size price).2.currSequenceNumber =
      a.currSequenceNumber ∧
    (sendOrder k a clock name instrument side size price).2.futureExchangeOrderBookData =
      a.futureExchangeOrderBookData := by
  simp only [sendOrder]
  split_ifs <;> exact ⟨rfl, rfl⟩

theorem cancelOrder_frame (a : AutoTrader) (clock : ℚ) (id : Nat) :
    (cancelOrder a clock id).2.currSequenceNumber = a.currSequenceNumber ∧
    (cancelOrder a clock id).2.futureExchangeOrderBookData = a.futureExchangeOrderBookData := by
  simp only [cancelOrder]
  split_ifs <;> exact ⟨rfl, rfl⟩

theorem cancelStale_frame (isStale : Order → Bool) :
    ∀ (l : List (Nat × Order)) (a : AutoTrader) (clocks : Nat → ℚ) (n : Int),
      (cancelStale isStale l a clocks n).2.1.currSequenceNumber = a.currSequenceNumber ∧
      (cancelStale isStale l a clocks n).2.1.futureExchangeOrderBookData =
        a.futureExchangeOrderBookData := by
  intro l
  induction l with
  | nil => intro a clocks n; exact ⟨rfl, rfl⟩
  | cons e rest ih =>
    intro a clocks n
    simp only [cancelStale]
    split
    · obtain ⟨h1, h2⟩ := ih (cancelOrder a (clocks 0) e.2.clientOrderID).2
        (fun i => clocks (i + 1))
        (if (cancelOrder a (clocks 0) e.2.clientOrderID).1 then n + 1 else n)
      obtain ⟨h3, h4⟩ := cancelOrder_frame a (clocks 0) e.2.clientOrderID
      exact ⟨h1.trans h3, h2.trans h4⟩
    · exact ih a clocks n

theorem detectStaleOrders_frame (a : AutoTrader) (clocks : Nat → ℚ)
    (mid bidPrice askPrice : Int) :
    (detectStaleOrders a clocks mid bidPrice askPrice).2.1.currSequenceNumber =
      a.currSequenceNumber ∧
    (detectStaleOrders a clocks mid bidPrice askPrice).2.1.futureExchangeOrderBookData =
      a.futureExchangeOrderBookData := by
  simp only [detectStaleOrders]
  by_cases hb : bidPrice ≠ 0 <;> by_cases ha : askPrice ≠ 0
  · simp only [if_pos hb, if_pos ha]
    obtain ⟨h1, h2⟩ := cancelStale_frame (staleBid mid bidPrice) a.allEtfBooks.getBids a clocks 0
    obtain ⟨h3, h4⟩ := cancelStale_frame (staleAsk mid askPrice)
      (cancelStale (staleBid mid bidPrice) a.allEtfBooks.getBids a clocks 0).2.1.allEtfBooks.getAsks
      (cancelStale (staleBid mid bidPrice) a.allEtfBooks.getBids a clocks 0).2.1
      (cancelStale (staleBid mid bidPrice) a.allEtfBooks.getBids a clocks 0).2.2 0
    exact ⟨h3.trans h1, h4.trans h2⟩
  · simp only [if_pos hb, if_neg ha]
    exact cancelStale_frame (staleBid mid bidPrice) a.allEtfBooks.getBids a clocks 0
  · simp only [if_neg hb, if_pos ha]
    exact cancelStale_frame (staleAsk mid askPrice) a.allEtfBooks.getAsks a clocks 0
  · simp only [if_neg hb, if_neg ha, and_self]

theorem makeMarket_frame (k : Constants) (a : AutoTrader) (clocks : Nat → ℚ) (mid : Int)
    (askPrices askVolumes bidPrices bidVolumes : List Nat) :
    (makeMarket k a clocks mid askPrices askVolumes bidPrices bidVolumes).1.currSequenceNumber =
      a.currSequenceNumber ∧
    (makeMarket k a clocks mid askPrices askVolumes bidPrices
      bidVolumes).1.futureExchangeOrderBookData = a.futureExchangeOrderBookData := by
  simp only [makeMarket]
  obtain ⟨h1, h2⟩ := detectStaleOrders_frame
    (getOrderPrices k a mid askPrices askVolumes bidPrices bidVolumes).2 clocks mid
    (getOrderPrices k a mid askPrices askVolumes bidPrices bidVolumes).1.1
    (getOrderPrices k a mid askPrices askVolumes bidPrices bidVolumes).1.2
  refine ⟨?_, ?_⟩
  · rw [(sendOrder_frame k _ _ _ _ _ _ _).1, (sendOrder_frame k _ _ _ _ _ _ _).1, h1]
    rfl
  · rw [(sendOrder_frame k _ _ _ _ _ _ _).2, (sendOrder_frame k _ _ _ _ _ _ _).2, h2]
    rfl

theorem handler_future_eq (k : Constants) (a : AutoTrader) (clocks : Nat → ℚ) (seq : Nat)
    (askPrices askVolumes bidPrices bidVolumes : List Nat) :
    OrderBookMessageHandler k a clocks Instrument.FUTURE seq askPrices askVolumes bidPrices
        bidVolumes =
      some ({ (if decide (seq ≠ toULong a.currSequenceNumber) = true then
                { a with time := a.time.advanceTime (1 / 4), currSequenceNumber := toLong seq }
              else a) with
          futureExchangeOrderBookData :=
            (if decide (seq ≠ toULong a.currSequenceNumber) = true then
                { a with time := a.time.advanceTime (1 / 4), currSequenceNumber := toLong seq }
              else a).futureExchangeOrderBookData ++
            [{ askPrices := askPrices, askVolumes := askVolumes, bidPrices := bidPrices,
               bidVolumes := bidVolumes }]
          etfPriceHistory := (InverseVWAP.calculateMid
            (if decide (seq ≠ toULong a.currSequenceNumber) = true then
                { a with time := a.time.advanceTime (1 / 4), currSequenceNumber := toLong seq }
              else a).etfPriceHistory k.TOP_LEVEL_COUNT
            askPrices askVolumes bidPrices bidVolumes).2 }, clocks) := by
  have hne : ¬ Instrument.FUTURE = Instrument.ETF := by decide
  simp only [OrderBookMessageHandler, hne, and_false, if_false, if_true]
  split <;> rfl

/-- One returning call of the handler: the stored sequence number is the message's, the
logical clock has advanced by 1/4 exactly when the number differs from the stored one,
in which case the message is a futures snapshot, and the queue of futures snapshots has
grown by the snapshot of a futures message and is otherwise unchanged. -/
theorem handler_step (k : Constants) (a a1 : AutoTrader) (clocks clocks1 : Nat → ℚ)
    (instrument : Instrument) (seq : Nat) (askPrices askVolumes bidPrices bidVolumes : List Nat)
    (hseq : seq < two64)
    (h : OrderBookMessageHandler k a clocks instrument seq askPrices askVolumes bidPrices
      bidVolumes = some (a1, clocks1)) :
    toULong a1.currSequenceNumber = seq ∧
    a1.time.time = a.time.time + (if seq ≠ toULong a.currSequenceNumber then 1 / 4 else 0) ∧
    (seq ≠ toULong a.currSequenceNumber → instrument = Instrument.FUTURE) ∧
    a1.futureExchangeOrderBookData =
      (if instrument = Instrument.ETF then a.futureExchangeOrderBookData
       else a.futureExchangeOrderBookData ++
        [{ askPrices := askPrices, askVolumes := askVolumes, bidPrices := bidPrices,
           bidVolumes := bidVolumes }]) := by
  by_cases hfresh : seq ≠ toULong a.currSequenceNumber
  · have hinst : instrument = Instrument.FUTURE := by
      cases instrument
      · rfl
      · simp [OrderBookMessageHandler, hfresh] at h
    subst hinst
    obtain ⟨aF, hF, hs, hd, _⟩ := handler_future k a clocks seq askPrices askVolumes bidPrices
      bidVolumes hseq
    rw [hF] at h
    simp only [Option.some.injEq, Prod.mk.injEq] at h
    rw [← h.1]
    have ht : aF.time.time = a.time.time + 1 / 4 := by
      have hF' := hF
      rw [handler_future_eq] at hF'
      simp only [Option.some.injEq, Prod.mk.injEq] at hF'
      rw [← hF'.1]
      have hd' : decide (seq ≠ toULong a.currSequenceNumber) = true := by simpa using hfresh
      simp only [hd', if_true, Time.advanceTime]
    refine ⟨hs, ?_, fun _ => rfl, ?_⟩
    · rw [ht, if_pos hfresh]
    · rw [hd]
      rfl
  · have hold : seq = toULong a.currSequenceNumber := by
      by_contra hne
      exact hfresh hne
    rw [if_neg hfresh, add_zero]
    simp only [OrderBookMessageHandler, ← hold, ne_eq, not_true_eq_false, decide_False,
      Bool.false_eq_true, false_and, if_false] at h
    split at h
    · simp only [Option.some.injEq, Prod.mk.injEq] at h
      rw [← h.1]
      refine ⟨?_, ?_, fun hne => absurd hold hne, ?_⟩
      · split <;> exact hold.symm
      · split <;> rfl
      · split <;> rfl
    · split at h
      · simp only [Option.some.injEq, Prod.mk.injEq] at h
        rw [← h.1]
        refine ⟨?_, ?_, fun hne => absurd hold hne, ?_⟩
        · split <;> exact hold.symm
        · split <;> rfl
        · split <;> rfl
      · split at h
        · cases h
        · simp only [Option.some.injEq, Prod.mk.injEq] at h
          rw [← h.1]
          simp only []
          rw [(makeMarket_frame k _ _ _ _ _ _ _).1, (makeMarket_frame k _ _ _ _ _ _ _).2,
            (makeMarket_log k _ _ _ _ _ _ _).2]
          refine ⟨?_, ?_, fun hne => absurd hold hne, ?_⟩
          · split <;> exact hold.symm
          · split <;> rfl
          · split <;> rfl

end AutoTrader


namespace AutoTrader

theorem handler_etf_returns (k : Constants) (a : AutoTrader) (clocks : Nat → ℚ) (seq : Nat)
    (askPrices askVolumes bidPrices bidVolumes : List Nat)
    (hseq : seq = toULong a.currSequenceNumber) (hfut : a.futureExchangeOrderBookData ≠ []) :
    (OrderBookMessageHandler k a clocks Instrument.ETF seq askPrices askVolumes bidPrices
      bidVolumes).isSome = true := by
  have hne : ¬ Instrument.ETF = Instrument.FUTURE := by decide
  simp only [OrderBookMessageHandler, ← hseq, ne_eq, not_true_eq_false, decide_False,
    Bool.false_eq_true, false_and, if_false, if_true, if_neg hne]
  split
  · rfl
  · cases hl : a.futureExchangeOrderBookData.getLast? with
    | none => exact absurd (List.getLast?_eq_none_iff.1 hl) hfut
    | some lastFuture => simp only [Option.isSome_some]

/-- The handler does not return for a message that changes the sequence number and is
an ETF snapshot: the assertion fails. -/
theorem handler_assertion (k : Constants) (a : AutoTrader) (clocks : Nat → ℚ) (seq : Nat)
    (askPrices askVolumes bidPrices bidVolumes : List Nat)
    (hfresh : seq ≠ toULong a.currSequenceNumber) :
    OrderBookMessageHandler k a clocks Instrument.ETF seq askPrices askVolumes bidPrices
      bidVolumes = none := by
  simp [OrderBookMessageHandler, hfresh]

theorem handleMessages_time (k : Constants) :
    ∀ (msgs : List OrderBookMessage) (a : AutoTrader) (clocks : Nat → ℚ)
      (r : AutoTrader × (Nat → ℚ)),
      (∀ m ∈ msgs, m.2.1 < two64) →
      handleMessages k (a, clocks) msgs = some r →
      r.1.time.time = a.time.time + 1 / 4 *
        (sequenceChanges (toULong a.currSequenceNumber) (msgs.map (fun m => m.2.1)) : ℚ) ∧
      changesAreFutures (toULong a.currSequenceNumber) msgs := by
  intro msgs
  induction msgs with
  | nil =>
    intro a clocks r _ h
    simp only [handleMessages, Option.some.injEq] at h
    rw [← h]
    simp [sequenceChanges, changesAreFutures]
  | cons m rest ih =>
    intro a clocks r hseq h
    simp only [handleMessages] at h
    cases hstep : OrderBookMessageHandler k a clocks m.1 m.2.1 m.2.2.askPrices m.2.2.askVolumes
        m.2.2.bidPrices m.2.2.bidVolumes with
    | none => rw [hstep] at h; cases h
    | some r1 =>
      rw [hstep] at h
      simp only [Option.some_bind] at h
      obtain ⟨h1, h2, h3, _⟩ := handler_step k a r1.1 clocks r1.2 m.1 m.2.1 m.2.2.askPrices
        m.2.2.askVolumes m.2.2.bidPrices m.2.2.bidVolumes (hseq m (List.mem_cons_self _ _)) hstep
      obtain ⟨h4, h5⟩ := ih r1.1 r1.2 r (fun x hx => hseq x (List.mem_cons_of_mem _ hx)) h
      rw [h1] at h4 h5
      refine ⟨?_, ⟨h3, h5⟩⟩
      rw [h4, h2]
      simp only [List.map_cons, sequenceChanges]
      split <;> push_cast <;> ring

theorem handleMessages_returns (k : Constants) :
    ∀ (msgs : List OrderBookMessage) (a : AutoTrader) (clocks : Nat → ℚ),
      (∀ m ∈ msgs, m.2.1 < two64) →
      changesAreFutures (toULong a.currSequenceNumber) msgs →
      (a.futureExchangeOrderBookData ≠ [] ∨ msgs = [] ∨
        ∃ m rest, msgs = m :: rest ∧ m.1 = Instrument.FUTURE) →
      (handleMessages k (a, clocks) msgs).isSome = true := by
  intro msgs
  induction msgs with
  | nil => intro a clocks _ _ _; rfl
  | cons m rest ih =>
    intro a clocks hseq hch hfut
    have hsome : (OrderBookMessageHandler k a clocks m.1 m.2.1 m.2.2.askPrices m.2.2.askVolumes
        m.2.2.bidPrices m.2.2.bidVolumes).isSome = true := by
      cases hi : m.1 with
      | FUTURE =>
        obtain ⟨aF, hF, _⟩ := handler_future k a clocks m.2.1 m.2.2.askPrices m.2.2.askVolumes
          m.2.2.bidPrices m.2.2.bidVolumes (hseq m (List.mem_cons_self _ _))
        rw [hF]
        rfl
      | ETF =>
        have hold : m.2.1 = toULong a.currSequenceNumber := by
          by_contra hne
          have := hch.1 hne
          rw [hi] at this
          cases this
        have hf : a.futureExchangeOrderBookData ≠ [] := by
          rcases hfut with h | h | ⟨m', rest', h, hm'⟩
          · exact h
          · cases h
          · simp only [List.cons.injEq] at h
            rw [← h.1, hi] at hm'
            cases hm'
        exact handler_etf_returns k a clocks m.2.1 m.2.2.askPrices m.2.2.askVolumes
          m.2.2.bidPrices m.2.2.bidVolumes hold hf
    obtain ⟨r1, hr1⟩ := Option.isSome_iff_exists.1 hsome
    obtain ⟨h1, _, _, h4⟩ := handler_step k a r1.1 clocks r1.2 m.1 m.2.1 m.2.2.askPrices
      m.2.2.askVolumes m.2.2.bidPrices m.2.2.bidVolumes (hseq m (List.mem_cons_self _ _)) hr1
    simp only [handleMessages, hr1, Option.some_bind]
    apply ih r1.1 r1.2 (fun x hx => hseq x (List.mem_cons_of_mem _ hx))
    · rw [h1]; exact hch.2
    · left
      rw [h4]
      split
      · rename_i hetf
        rcases hfut with h | h | ⟨m', rest', h, hm'⟩
        · exact h
        · cases h
        · simp only [List.cons.injEq] at h
          rw [← h.1, hetf] at hm'
          cases hm'
      · simp

/-- C27: for every sequence of order-book messages (sequence numbers are `unsigned
long`) handled from a trader `a`: if the handlers return, the logical time afterwards is
the time of `a` plus 0.25 times the number of messages whose sequence number differs
from the previously stored one, so a second snapshot with the same sequence number does
not advance the clock and the time never decreases, and every message that changed the
sequence number was a futures snapshot.  The handler asserts this: it does not return
for an ETF snapshot that changes the sequence number.  The handlers do return when
every change of the sequence number comes with a futures snapshot and a futures
snapshot is stored before the first ETF snapshot. -/
theorem time_advances_once_per_sequence_number (k : Constants) (msgs : List OrderBookMessage)
    (a : AutoTrader) (clocks : Nat → ℚ) (hseq : ∀ m ∈ msgs, m.2.1 < two64) :
    (∀ r, handleMessages k (a, clocks) msgs = some r →
      r.1.time.time = a.time.time + 1 / 4 *
        (sequenceChanges (toULong a.currSequenceNumber) (msgs.map (fun m => m.2.1)) : ℚ) ∧
      a.time.time ≤ r.1.time.time ∧
      changesAreFutures (toULong a.currSequenceNumber) msgs) ∧
    (∀ (seq : Nat) (askPrices askVolumes bidPrices bidVolumes : List Nat),
      seq ≠ toULong a.currSequenceNumber →
      OrderBookMessageHandler k a clocks Instrument.ETF seq askPrices askVolumes bidPrices
        bidVolumes = none) ∧
    (changesAreFutures (toULong a.currSequenceNumber) msgs →
      (a.futureExchangeOrderBookData ≠ [] ∨ msgs = [] ∨
        ∃ m rest, msgs = m :: rest ∧ m.1 = Instrument.FUTURE) →
      (handleMessages k (a, clocks) msgs).isSome = true) := by
  refine ⟨?_, ?_, handleMessages_returns k msgs a clocks hseq⟩
  · intro r hr
    obtain ⟨h1, h2⟩ := handleMessages_time k msgs a clocks r hseq hr
    refine ⟨h1, ?_, h2⟩
    rw [h1]
    have : (0 : ℚ) ≤ (sequenceChanges (toULong a.currSequenceNumber)
        (msgs.map (fun m => m.2.1)) : ℚ) := Nat.cast_nonneg _
    linarith
  · intro seq askPrices askVolumes bidPrices bidVolumes hfresh
    exact handler_assertion k a clocks seq askPrices askVolumes bidPrices bidVolumes hfresh

/-- Witness for C27: two ticks from the freshly constructed trader, each a futures and
an ETF snapshot with one sequence number; the four messages advance the clock twice. -/
theorem time_advances_once_per_sequence_number_witness :
    (handleMessages Constants.sample (AutoTrader.new, fun _ => 0)
      [(Instrument.FUTURE, 1, ExchangeOrderBookData.sampleFuture),
       (Instrument.ETF, 1, ExchangeOrderBookData.sampleEtfThin),
       (Instrument.FUTURE, 2, ExchangeOrderBookData.sampleFuture),
       (Instrument.ETF, 2, ExchangeOrderBookData.sampleEtfThin)]).map
      (fun r => r.1.time.time) = some (1 / 2) := by
  have h := time_advances_once_per_sequence_number Constants.sample
    [(Instrument.FUTURE, 1, ExchangeOrderBookData.sampleFuture),
     (Instrument.ETF, 1, ExchangeOrderBookData.sampleEtfThin),
     (Instrument.FUTURE, 2, ExchangeOrderBookData.sampleFuture),
     (Instrument.ETF, 2, ExchangeOrderBookData.sampleEtfThin)]
    AutoTrader.new (fun _ => 0) (by decide!)
  obtain ⟨r, hr⟩ := Option.isSome_iff_exists.1
    (h.2.2 ⟨fun _ => rfl, fun hne => absurd rfl hne, fun _ => rfl, fun hne => absurd rfl hne,
      trivial⟩ (Or.inr (Or.inr ⟨_, _, rfl, rfl⟩)))
  rw [hr, Option.map_some', (h.1 r hr).1]
  decide!

end AutoTrader


/-! ## Theorems: client order ids -/

namespace Book

theorem keysMatch_sendOrder (b : Book) (g : OrderIDGenerator) (now : ℚ) (inst : Instrument)
    (side : Side) (size price : Int) (h : b.KeysMatch) :
    (b.sendOrder g now inst side size price 0).2.1.KeysMatch := by
  cases side
  · rw [sendOrder_sell]
    refine ⟨h.1, ?_⟩
    intro id o ho
    simp only [Map.find_assign] at ho
    split at ho
    · rename_i hid
      cases ho
      exact hid.symm
    · exact h.2 id o ho
  · rw [sendOrder_buy]
    refine ⟨?_, h.2⟩
    intro id o ho
    simp only [Map.find_assign] at ho
    split at ho
    · rename_i hid
      cases ho
      exact hid.symm
    · exact h.1 id o ho

theorem keysMatch_orderFilled (b : Book) (n : Nat) (now : ℚ) (id : Nat) (price v : Int)
    (hinv : b.Inv n) (h : b.KeysMatch) : (b.orderFilled now id price v).2.KeysMatch := by
  rcases findOrder_cases b n hinv id with ⟨o, hb, ha, hf, hs⟩ | ⟨o, hb, ha, hf, hs⟩ | ⟨_, _, hf⟩
  · rw [orderFilled_bid b now id price v o hf hs]
    refine ⟨?_, h.2⟩
    intro id' o' ho'
    have hx := find_after_fill b.bids id id' { o with size := toULong ((o.size : Int) - v) }
    simp only [] at ho'
    rw [hx] at ho'
    split at ho'
    · rename_i hid
      split at ho'
      · cases ho'
      · cases ho'
        rw [hid]
        exact h.1 id o hb
    · exact h.1 id' o' ho'
  · rw [orderFilled_ask b now id price v o hf hs]
    refine ⟨h.1, ?_⟩
    intro id' o' ho'
    have hx := find_after_fill b.asks id id' { o with size := toULong ((o.size : Int) - v) }
    simp only [] at ho'
    rw [hx] at ho'
    split at ho'
    · rename_i hid
      split at ho'
      · cases ho'
      · cases ho'
        rw [hid]
        exact h.2 id o ha
    · exact h.2 id' o' ho'
  · rw [orderFilled_unknown b now id price v hf]
    exact h

theorem keysMatch_orderClosed (b : Book) (n : Nat) (id : Nat) (hinv : b.Inv n)
    (h : b.KeysMatch) : (b.orderClosed id).2.KeysMatch := by
  rcases findOrder_cases b n hinv id with ⟨o, hb, ha, hf, hs⟩ | ⟨o, hb, ha, hf, hs⟩ | ⟨_, _, hf⟩
  · rw [orderClosed_bid b id o hf hs]
    refine ⟨?_, h.2⟩
    intro id' o' ho'
    simp only [Map.find_erase] at ho'
    split at ho'
    · cases ho'
    · exact h.1 id' o' ho'
  · rw [orderClosed_ask b id o hf hs]
    refine ⟨h.1, ?_⟩
    intro id' o' ho'
    simp only [Map.find_erase] at ho'
    split at ho'
    · cases ho'
    · exact h.2 id' o' ho'
  · rw [orderClosed_unknown b id hf]
    exact h

theorem keysMatch_cancelOrder (b : Book) (id : Nat) (h : b.KeysMatch) :
    (b.cancelOrder id).KeysMatch := by
  obtain ⟨e1, e2, _⟩ := cancelOrder_maps b id
  unfold KeysMatch
  rw [e1, e2]
  exact h

end Book


namespace BooksContainer

theorem book_inv_of_mem (c : BooksContainer) (n : Nat) (h : c.Inv n) (e : String × Book)
    (he : e ∈ c.books) : e.2.Inv n :=
  h.2.1 e.1 e.2 (Map.find_of_mem _ h.1 e he)

theorem unknown_of_fresh (c : BooksContainer) (n : Nat) (h : c.Inv n) (id : Nat) (hid : n < id) :
    c.Unknown id := by
  intro e he
  obtain ⟨hb, ha⟩ := Book.find_fresh e.2 n (book_inv_of_mem c n h e he) id hid
  simp only [Book.findOrder, hb, ha]

theorem unknown_sendOrder (c : BooksContainer) (g : OrderIDGenerator) (now : ℚ) (name : String)
    (instrument : Instrument) (side : Side) (size price : Int) (h : c.Inv g.currClientOrderID)
    (id : Nat) (hne : id ≠ g.currClientOrderID + 1) (hu : c.Unknown id) :
    (c.sendOrder g now name instrument side size price).1.Unknown id := by
  cases hfind : Map.find c.books name with
  | none =>
    rw [sendOrder_unknown c g now name instrument side size price hfind]
    exact hu
  | some book =>
    obtain ⟨hbooks, _⟩ := sendOrder_known c g now name instrument side size price book hfind
    intro e he
    rw [hbooks] at he
    rcases Map.mem_assign _ _ _ _ he with h1 | h1
    · rw [h1]
      simp only []
      rw [Book.findOrder_sendOrder book g now instrument side size price id
        (h.2.1 name book hfind), if_neg hne]
      exact hu (name, book) (Map.mem_of_find _ _ _ hfind)
    · exact hu e h1

theorem unknown_map (c c' : BooksContainer) (n : Nat) (f : Book → Book) (id : Nat)
    (hbooks : c'.books = c.books.map (fun e => (e.1, f e.2)))
    (hnone : ∀ b, b.Inv n → b.findOrder id = none → (f b).findOrder id = none)
    (h : c.Inv n) (hu : c.Unknown id) : c'.Unknown id := by
  intro e he
  rw [hbooks] at he
  obtain ⟨e0, he0, rfl⟩ := List.mem_map.1 he
  exact hnone e0.2 (book_inv_of_mem c n h e0 he0) (hu e0 he0)

theorem container_keysMatch_sendOrder (c : BooksContainer) (g : OrderIDGenerator) (now : ℚ)
    (name : String) (instrument : Instrument) (side : Side) (size price : Int)
    (hk : ∀ e ∈ c.books, e.2.KeysMatch) :
    ∀ e ∈ (c.sendOrder g now name instrument side size price).1.books, e.2.KeysMatch := by
  cases hfind : Map.find c.books name with
  | none =>
    rw [sendOrder_unknown c g now name instrument side size price hfind]
    exact hk
  | some book =>
    obtain ⟨hbooks, _⟩ := sendOrder_known c g now name instrument side size price book hfind
    intro e he
    rw [hbooks] at he
    rcases Map.mem_assign _ _ _ _ he with h1 | h1
    · rw [h1]
      exact Book.keysMatch_sendOrder book g now instrument side size price
        (hk (name, book) (Map.mem_of_find _ _ _ hfind))
    · exact hk e h1

theorem keysMatch_map (c c' : BooksContainer) (n : Nat) (f : Book → Book)
    (hbooks : c'.books = c.books.map (fun e => (e.1, f e.2)))
    (hf : ∀ b, b.Inv n → b.KeysMatch → (f b).KeysMatch)
    (h : c.Inv n) (hk : ∀ e ∈ c.books, e.2.KeysMatch) : ∀ e ∈ c'.books, e.2.KeysMatch := by
  intro e he
  rw [hbooks] at he
  obtain ⟨e0, he0, rfl⟩ := List.mem_map.1 he
  exact hf e0.2 (book_inv_of_mem c n h e0 he0) (hk e0 he0)

theorem pairInv_symm (c1 c2 : BooksContainer) (n : Nat) (h : PairInv c1 c2 n) :
    PairInv c2 c1 n :=
  ⟨h.2.1, h.1, fun id => (h.2.2.1 id).symm, h.2.2.2.2, h.2.2.2.1⟩

theorem sendOrder_gen_le (c : BooksContainer) (g : OrderIDGenerator) (now : ℚ) (name : String)
    (instrument : Instrument) (side : Side) (size price : Int) :
    g.currClientOrderID ≤
      (c.sendOrder g now name instrument side size price).2.currClientOrderID := by
  cases hfind : Map.find c.books name with
  | none => rw [sendOrder_unknown c g now name instrument side size price hfind]
  | some book =>
    rw [(sendOrder_known c g now name instrument side size price book hfind).2]
    exact Nat.le_succ _

/-- A send to the first container keeps the invariant of the pair. -/
theorem pairInv_sendOrder (c1 c2 : BooksContainer) (g : OrderIDGenerator) (now : ℚ)
    (name : String) (instrument : Instrument) (side : Side) (size price : Int)
    (h : PairInv c1 c2 g.currClientOrderID) :
    PairInv (c1.sendOrder g now name instrument side size price).1 c2
      (c1.sendOrder g now name instrument side size price).2.currClientOrderID := by
  obtain ⟨h1, h2, hx, hk1, hk2⟩ := h
  refine ⟨container_inv_sendOrder c1 g now name instrument side size price h1,
    container_inv_mono c2 _ _ h2 (sendOrder_gen_le c1 g now name instrument side size price),
    ?_, container_keysMatch_sendOrder c1 g now name instrument side size price hk1, hk2⟩
  intro id
  by_cases hid : id = g.currClientOrderID + 1
  · right
    rw [hid]
    exact unknown_of_fresh c2 _ h2 _ (Nat.lt_succ_self _)
  · rcases hx id with hu | hu
    · left
      exact unknown_sendOrder c1 g now name instrument side size price h1 id hid hu
    · right
      exact hu

/-- A fill, close or cancel in the first container keeps the invariant of the pair. -/
theorem pairInv_map (c1 c1' c2 : BooksContainer) (n : Nat) (f : Book → Book)
    (hbooks : c1'.books = c1.books.map (fun e => (e.1, f e.2)))
    (hinv : c1.Inv n → c1'.Inv n)
    (hnone : ∀ b id, b.Inv n → b.findOrder id = none → (f b).findOrder id = none)
    (hkeys : ∀ b, b.Inv n → b.KeysMatch → (f b).KeysMatch)
    (h : PairInv c1 c2 n) : PairInv c1' c2 n := by
  obtain ⟨h1, h2, hx, hk1, hk2⟩ := h
  refine ⟨hinv h1, h2, ?_, keysMatch_map c1 c1' n f hbooks hkeys h1 hk1, hk2⟩
  intro id
  rcases hx id with hu | hu
  · left
    exact unknown_map c1 c1' n f id hbooks (fun b hb hn => hnone b id hb hn) h1 hu
  · right
    exact hu

theorem pairInv_orderFilled (c1 c2 : BooksContainer) (n : Nat) (m : TradeMatcher) (now : ℚ)
    (id : Nat) (price v : Int) (h : PairInv c1 c2 n) :
    PairInv (c1.orderFilled m now id price v).1 c2 n :=
  pairInv_map c1 _ c2 n (fun b => (b.orderFilled now id price v).2)
    (container_orderFilled_books c1 m now id price v)
    (container_inv_orderFilled c1 n m now id price v)
    (fun b id' hb hn => Book.findOrder_orderFilled_none b n now id id' price v hb hn)
    (fun b hb hk => Book.keysMatch_orderFilled b n now id price v hb hk) h

theorem pairInv_orderClosed (c1 c2 : BooksContainer) (n : Nat) (id : Nat)
    (h : PairInv c1 c2 n) : PairInv (c1.orderClosed id) c2 n :=
  pairInv_map c1 _ c2 n (fun b => (b.orderClosed id).2)
    (container_orderClosed_books c1 id)
    (container_inv_orderClosed c1 n id)
    (fun b id' hb hn => Book.findOrder_orderClosed_none b n id id' hb hn)
    (fun b hb hk => Book.keysMatch_orderClosed b n id hb hk) h

theorem pairInv_cancelOrder (c1 c2 : BooksContainer) (n : Nat) (id : Nat)
    (h : PairInv c1 c2 n) : PairInv (c1.cancelOrder id) c2 n :=
  pairInv_map c1 _ c2 n (fun b => b.cancelOrder id) rfl
    (container_inv_cancelOrder c1 n id)
    (fun b id' _ hn => by rw [Book.findOrder_cancelOrder]; exact hn)
    (fun b _ hk => Book.keysMatch_cancelOrder b id hk) h

theorem pairInv_new (names1 names2 : List String) (i1 i2 : Instrument) (n : Nat) :
    PairInv (BooksContainer.new names1 i1) (BooksContainer.new names2 i2) n := by
  have hempty : ∀ (names : List String) (i : Instrument) (e : String × Book),
      e ∈ (BooksContainer.new names i).books → e.2 = { instrument := i } := by
    intro names i e he
    obtain ⟨hwf, hall⟩ := new_books names i
    exact hall e.1 e.2 (Map.find_of_mem _ hwf e he)
  refine ⟨container_inv_new names1 i1 n, container_inv_new names2 i2 n, ?_, ?_, ?_⟩
  · intro id
    left
    intro e he
    rw [hempty names1 i1 e he]
    rfl
  · intro e he
    rw [hempty names1 i1 e he]
    exact ⟨fun id o ho => by simp [Map.find] at ho, fun id o ho => by simp [Map.find] at ho⟩
  · intro e he
    rw [hempty names2 i2 e he]
    exact ⟨fun id o ho => by simp [Map.find] at ho, fun id o ho => by simp [Map.find] at ho⟩

end BooksContainer


namespace AutoTrader

theorem ledgerInv_new : AutoTrader.new.LedgerInv :=
  BooksContainer.pairInv_new ["ETF"] ["Future"] Instrument.ETF Instrument.FUTURE 0

/-- One ledger operation keeps the invariant and does not lower the generator. -/
theorem ledgerStep_inv (a b : AutoTrader) (hstep : AutoTrader.LedgerStep a b)
    (h : a.LedgerInv) :
    b.LedgerInv ∧ a.idGen.currClientOrderID ≤ b.idGen.currClientOrderID := by
  cases hstep with
  | sendEtf now name instrument side size price =>
    exact ⟨BooksContainer.pairInv_sendOrder a.allEtfBooks a.allFutureBooks a.idGen now name
      instrument side size price h,
      BooksContainer.sendOrder_gen_le a.allEtfBooks a.idGen now name instrument side size price⟩
  | sendFuture now name instrument side size price =>
    exact ⟨BooksContainer.pairInv_symm _ _ _
      (BooksContainer.pairInv_sendOrder a.allFutureBooks a.allEtfBooks a.idGen now name
        instrument side size price (BooksContainer.pairInv_symm _ _ _ h)),
      BooksContainer.sendOrder_gen_le a.allFutureBooks a.idGen now name instrument side size
        price⟩
  | filledEtf now id price v =>
    exact ⟨BooksContainer.pairInv_orderFilled a.allEtfBooks a.allFutureBooks _ a.matchingEngine
      now id price v h, le_refl _⟩
  | filledFuture now id price v =>
    exact ⟨BooksContainer.pairInv_symm _ _ _
      (BooksContainer.pairInv_orderFilled a.allFutureBooks a.allEtfBooks _ a.matchingEngine
        now id price v (BooksContainer.pairInv_symm _ _ _ h)), le_refl _⟩
  | closedEtf id =>
    exact ⟨BooksContainer.pairInv_orderClosed a.allEtfBooks a.allFutureBooks _ id h, le_refl _⟩
  | closedFuture id =>
    exact ⟨BooksContainer.pairInv_symm _ _ _
      (BooksContainer.pairInv_orderClosed a.allFutureBooks a.allEtfBooks _ id
        (BooksContainer.pairInv_symm _ _ _ h)), le_refl _⟩
  | cancelEtf id =>
    exact ⟨BooksContainer.pairInv_cancelOrder a.allEtfBooks a.allFutureBooks _ id h, le_refl _⟩
  | cancelFuture id =>
    exact ⟨BooksContainer.pairInv_symm _ _ _
      (BooksContainer.pairInv_cancelOrder a.allFutureBooks a.allEtfBooks _ id
        (BooksContainer.pairInv_symm _ _ _ h)), le_refl _⟩

theorem ledgerSteps_inv (a b : AutoTrader) (hsteps : AutoTrader.LedgerSteps a b)
    (h : a.LedgerInv) :
    b.LedgerInv ∧ a.idGen.currClientOrderID ≤ b.idGen.currClientOrderID := by
  induction hsteps with
  | refl => exact ⟨h, le_refl _⟩
  | step b c _ hstep ih =>
    obtain ⟨h1, h2⟩ := ih
    obtain ⟨h3, h4⟩ := ledgerStep_inv b c hstep h1
    exact ⟨h3, le_trans h2 h4⟩

end AutoTrader

namespace Book

/-- In a book that satisfies its invariants the resting ids are the keys of the two
maps: an id of the list is known to the book and at most `n`. -/
theorem mem_restingIds (b : Book) (n : Nat) (hinv : b.Inv n) (hk : b.KeysMatch) (id : Nat)
    (hid : id ∈ b.restingIds) : (∃ o, b.findOrder id = some o) ∧ id ≤ n := by
  obtain ⟨h1, h2, h3, h4, h5⟩ := hinv
  simp only [restingIds, List.map_append, List.mem_append, List.mem_map] at hid
  rcases hid with ⟨x, hx, rfl⟩ | ⟨x, hx, rfl⟩
  · have hf := Map.find_of_mem b.bids h1 x hx
    have hkey := hk.1 x.1 x.2 hf
    rw [hkey]
    exact ⟨⟨x.2, findOrder_of_bid b x.1 x.2 hf⟩, (h3 x.1 x.2 hf).2.1⟩
  · have hf := Map.find_of_mem b.asks h2 x hx
    have hkey := hk.2 x.1 x.2 hf
    rw [hkey]
    refine ⟨⟨x.2, ?_⟩, (h4 x.1 x.2 hf).2.1⟩
    cases hb : Map.find b.bids x.1 with
    | none => rw [findOrder_of_not_bid b x.1 hb, hf]
    | some o =>
      have := h5 x.1 o hb
      rw [hf] at this
      cases this

theorem restingIds_eq_keys (b : Book) (n : Nat) (hinv : b.Inv n) (hk : b.KeysMatch) :
    b.restingIds = b.bids.map Prod.fst ++ b.asks.map Prod.fst := by
  obtain ⟨h1, h2, _⟩ := hinv
  simp only [restingIds, List.map_append]
  congr 1
  · apply List.map_congr_left
    intro x hx
    exact hk.1 x.1 x.2 (Map.find_of_mem b.bids h1 x hx)
  · apply List.map_congr_left
    intro x hx
    exact hk.2 x.1 x.2 (Map.find_of_mem b.asks h2 x hx)

/-- No two resting orders of a book share a client order id. -/
theorem restingIds_nodup (b : Book) (n : Nat) (hinv : b.Inv n) (hk : b.KeysMatch) :
    b.restingIds.Nodup := by
  rw [restingIds_eq_keys b n hinv hk]
  obtain ⟨h1, h2, _, _, h5⟩ := hinv
  rw [List.nodup_append]
  refine ⟨h1.imp (fun h => ne_of_lt h), h2.imp (fun h => ne_of_lt h), ?_⟩
  intro id hb ha
  obtain ⟨x, hx, rfl⟩ := List.mem_map.1 hb
  obtain ⟨y, hy, hxy⟩ := List.mem_map.1 ha
  have hfb := Map.find_of_mem b.bids h1 x hx
  have hfa := Map.find_of_mem b.asks h2 y hy
  rw [hxy] at hfa
  rw [h5 x.1 x.2 hfb] at hfa
  cases hfa

end Book


namespace AutoTrader

theorem disjoint_restingIds_of_apart (b1 b2 : Book) (n : Nat) (h1 : b1.Inv n) (h2 : b2.Inv n)
    (k1 : b1.KeysMatch) (k2 : b2.KeysMatch) (hap : Book.Apart b1 b2) :
    List.Disjoint b1.restingIds b2.restingIds := by
  intro id hi1 hi2
  obtain ⟨⟨o1, ho1⟩, _⟩ := Book.mem_restingIds b1 n h1 k1 id hi1
  obtain ⟨⟨o2, ho2⟩, _⟩ := Book.mem_restingIds b2 n h2 k2 id hi2
  rcases hap id with h | h
  · rw [ho1] at h; cases h
  · rw [ho2] at h; cases h

/-- Under the invariant of the two containers no two resting orders, of any books of
either container, share a client order id, and every resting id has been issued. -/
theorem restingIds_nodup_of_inv (a : AutoTrader) (h : a.LedgerInv) :
    a.restingIds.Nodup ∧ ∀ id ∈ a.restingIds, id ≤ a.idGen.currClientOrderID := by
  obtain ⟨h1, h2, hx, hk1, hk2⟩ := h
  have hbinv : ∀ e ∈ a.allEtfBooks.books ++ a.allFutureBooks.books,
      e.2.Inv a.idGen.currClientOrderID ∧ e.2.KeysMatch := by
    intro e he
    rcases List.mem_append.1 he with h | h
    · exact ⟨BooksContainer.book_inv_of_mem _ _ h1 e h, hk1 e h⟩
    · exact ⟨BooksContainer.book_inv_of_mem _ _ h2 e h, hk2 e h⟩
  constructor
  · unfold restingIds
    rw [List.nodup_flatMap]
    refine ⟨fun e he => Book.restingIds_nodup e.2 _ (hbinv e he).1 (hbinv e he).2, ?_⟩
    rw [List.pairwise_append]
    refine ⟨?_, ?_, ?_⟩
    · exact (BooksContainer.pairwise_apart _ _ h1).imp_of_mem (fun {x y} hxm hym hap =>
        disjoint_restingIds_of_apart x.2 y.2 _
          (BooksContainer.book_inv_of_mem _ _ h1 x hxm)
          (BooksContainer.book_inv_of_mem _ _ h1 y hym) (hk1 x hxm) (hk1 y hym) hap)
    · exact (BooksContainer.pairwise_apart _ _ h2).imp_of_mem (fun {x y} hxm hym hap =>
        disjoint_restingIds_of_apart x.2 y.2 _
          (BooksContainer.book_inv_of_mem _ _ h2 x hxm)
          (BooksContainer.book_inv_of_mem _ _ h2 y hym) (hk2 x hxm) (hk2 y hym) hap)
    · intro x hxm y hym
      apply disjoint_restingIds_of_apart x.2 y.2 _
        (BooksContainer.book_inv_of_mem _ _ h1 x hxm)
        (BooksContainer.book_inv_of_mem _ _ h2 y hym) (hk1 x hxm) (hk2 y hym)
      intro id
      rcases hx id with hu | hu
      · exact Or.inl (hu x hxm)
      · exact Or.inr (hu y hym)
  · intro id hid
    unfold restingIds at hid
    obtain ⟨e, he, hie⟩ := List.mem_flatMap.1 hid
    exact (Book.mem_restingIds e.2 _ (hbinv e he).1 (hbinv e he).2 id hie).2

/-- C25: `OrderIDGenerator::getNext` returns the stored id plus one and stores it, so the
ids it returns are strictly increasing (1, 2, 3, ... from the initial 0).  In every state
`a1` reached from a state `a`, itself reached from the constructed trader, by sends,
fills, closes and cancels of the two containers: no two resting orders of any books of
either container share a `clientOrderID`, each id is known to the books of at most one
container and, within a container, to at most one book, and every resting id is at most
the last id issued.  The generator never goes back, so the next id issued in `a1` is
above every id that had been issued in `a`, whether its order still rests or was
removed by a fill or a close. -/
theorem ids_unique_and_never_reused (a a1 : AutoTrader)
    (h0 : AutoTrader.LedgerSteps AutoTrader.new a) (h1 : AutoTrader.LedgerSteps a a1) :
    (∀ g : OrderIDGenerator, g.getNext.1 = g.currClientOrderID + 1 ∧
      g.getNext.2.getCurrent = g.getNext.1 ∧ g.getCurrent < g.getNext.1) ∧
    a1.restingIds.Nodup ∧
    (∀ id ∈ a1.restingIds, id ≤ a1.idGen.currClientOrderID) ∧
    (∀ id, a1.allEtfBooks.Unknown id ∨ a1.allFutureBooks.Unknown id) ∧
    a1.allEtfBooks.books.Pairwise (fun x y => Book.Apart x.2 y.2) ∧
    a1.allFutureBooks.books.Pairwise (fun x y => Book.Apart x.2 y.2) ∧
    a.idGen.currClientOrderID ≤ a1.idGen.currClientOrderID ∧
    (∀ id, id ≤ a.idGen.currClientOrderID → a1.idGen.getNext.1 ≠ id) ∧
    (∀ id ∈ a.restingIds, a1.idGen.getNext.1 ≠ id) := by
  obtain ⟨ha, _⟩ := ledgerSteps_inv AutoTrader.new a h0 ledgerInv_new
  obtain ⟨ha1, hle⟩ := ledgerSteps_inv a a1 h1 ha
  obtain ⟨hnd, hbound⟩ := restingIds_nodup_of_inv a1 ha1
  obtain ⟨_, hbound0⟩ := restingIds_nodup_of_inv a ha
  refine ⟨fun g => ⟨rfl, rfl, Nat.lt_succ_self _⟩, hnd, hbound, ha1.2.2.1,
    BooksContainer.pairwise_apart _ _ ha1.1, BooksContainer.pairwise_apart _ _ ha1.2.1, hle,
    ?_, ?_⟩
  · intro id hid hnext
    simp only [OrderIDGenerator.getNext] at hnext
    omega
  · intro id hid hnext
    have := hbound0 id hid
    simp only [OrderIDGenerator.getNext] at hnext
    omega

end AutoTrader


namespace AutoTrader

/-- Witness for C25: the state `AutoTrader.sampleLedgerSend`, one send after the
construction. -/
theorem ids_unique_and_never_reused_witness :
    AutoTrader.sampleLedgerSend.restingIds.Nodup ∧
    AutoTrader.new.idGen.currClientOrderID ≤
      AutoTrader.sampleLedgerSend.idGen.currClientOrderID :=
  ⟨(ids_unique_and_never_reused AutoTrader.new AutoTrader.sampleLedgerSend
      (AutoTrader.LedgerSteps.refl AutoTrader.new)
      (AutoTrader.LedgerSteps.step AutoTrader.new AutoTrader.new AutoTrader.sampleLedgerSend
        (AutoTrader.LedgerSteps.refl AutoTrader.new)
        (AutoTrader.LedgerStep.sendEtf AutoTrader.new 0 "ETF" Instrument.ETF Side.BUY 50
          10000))).2.1,
   (ids_unique_and_never_reused AutoTrader.new AutoTrader.sampleLedgerSend
      (AutoTrader.LedgerSteps.refl AutoTrader.new)
      (AutoTrader.LedgerSteps.step AutoTrader.new AutoTrader.new AutoTrader.sampleLedgerSend
        (AutoTrader.LedgerSteps.refl AutoTrader.new)
        (AutoTrader.LedgerStep.sendEtf AutoTrader.new 0 "ETF" Instrument.ETF Side.BUY 50
          10000))).2.2.2.2.2.2.1⟩

end AutoTrader


/-! ## Theorems: the aggregated values of a container -/

namespace Map

variable {κ β : Type} [LinearOrder κ]

/-- Replacing the value under a key that is present changes a sum over the map by the
difference of the two summands. -/
theorem sum_assign {G : Type} [AddCommGroup G] (f : β → G) (m : List (κ × β)) (k : κ)
    (b b1 : β) (hwf : WF m) (hfind : find m k = some b) :
    ((assign m k b1).map (fun e => f e.2)).sum + f b = (m.map (fun e => f e.2)).sum + f b1 := by
  induction m with
  | nil => simp [find] at hfind
  | cons e rest ih =>
    by_cases h1 : e.1 = k
    · simp only [find, if_pos h1, Option.some.injEq] at hfind
      simp only [assign, if_pos h1, List.map_cons, List.sum_cons, hfind]
      abel
    · simp only [find, if_neg h1] at hfind
      have hlt : ¬ k < e.1 := by
        intro hlt
        have hmem := mem_of_find rest k b hfind
        unfold WF at hwf
        rw [List.map_cons, List.pairwise_cons] at hwf
        have := hwf.1 k (List.mem_map.2 ⟨(k, b), hmem, rfl⟩)
        exact absurd hlt (not_lt_of_gt this)
      have hrest : WF rest := by
        unfold WF at hwf ⊢
        rw [List.map_cons, List.pairwise_cons] at hwf
        exact hwf.2
      simp only [assign, if_neg h1, if_neg hlt, List.map_cons, List.sum_cons]
      have := ih hrest hfind
      rw [add_assoc, this]
      abel

end Map

namespace BooksContainer

theorem orderFilled_none_unchanged (b : Book) (now : ℚ) (id : Nat) (price v : Int)
    (h : (b.orderFilled now id price v).1 = none) : (b.orderFilled now id price v).2 = b := by
  cases hf : b.findOrder id with
  | none => rw [Book.orderFilled_unknown b now id price v hf]
  | some o =>
    rw [Book.orderFilled_fst, hf] at h
    cases h

/-- The aggregate update of `BooksContainer::orderFilled` for a returned fill equals the
change of the book that returned it. -/
theorem applyFill_matches_book (c : BooksContainer) (b : Book) (now : ℚ) (id : Nat)
    (price v : Int) (order : Order) (hr : (b.orderFilled now id price v).1 = some order)
    (hv0 : 0 ≤ v) (hv1 : v < (two63 : Int)) (hp0 : 0 ≤ price) (hp1 : price < (two63 : Int)) :
    (applyFill c order).books = c.books ∧
    (applyFill c order).exposure + b.exposure =
      c.exposure + (b.orderFilled now id price v).2.exposure ∧
    (applyFill c order).submittedBids + b.submittedBids =
      c.submittedBids + (b.orderFilled now id price v).2.submittedBids ∧
    (applyFill c order).submittedAsks + b.submittedAsks =
      c.submittedAsks + (b.orderFilled now id price v).2.submittedAsks ∧
    (applyFill c order).dummyCash + b.dummyCash =
      c.dummyCash + (b.orderFilled now id price v).2.dummyCash := by
  have hlong : toLong (toULong v) = v := toLong_toULong v ⟨by unfold two63 at *; omega, hv1⟩
  have hvq : ((toULong v : Nat) : ℚ) = (v : ℚ) := by
    have := toULong_of_range v hv0 (by unfold two63 at hv1; unfold two64; omega)
    exact_mod_cast this
  have hpq : ((toULong price : Nat) : ℚ) = (price : ℚ) := by
    have := toULong_of_range price hp0 (by unfold two63 at hp1; unfold two64; omega)
    exact_mod_cast this
  cases hf : b.findOrder id with
  | none =>
    rw [Book.orderFilled_unknown b now id price v hf] at hr
    cases hr
  | some o =>
    cases hs : o.side with
    | BUY =>
      rw [Book.orderFilled_bid b now id price v o hf hs] at hr ⊢
      simp only [Option.some.injEq] at hr
      subst hr
      simp only [applyFill, hs, hlong, hvq, hpq]
      simp only [true_and]
      refine ⟨by ring, by ring, ?_⟩
      push_cast
      ring
    | SELL =>
      rw [Book.orderFilled_ask b now id price v o hf hs] at hr ⊢
      simp only [Option.some.injEq] at hr
      subst hr
      simp only [applyFill, hs, hlong, hvq, hpq]
      simp only [true_and]
      refine ⟨by ring, by ring, ?_⟩
      push_cast
      ring

end BooksContainer


namespace BooksContainer

theorem orderFilledLoop_sums (now : ℚ) (id : Nat) (price v : Int)
    (hv0 : 0 ≤ v) (hv1 : v < (two63 : Int)) (hp0 : 0 ≤ price) (hp1 : price < (two63 : Int)) :
    ∀ (bs : List (String × Book)) (c : BooksContainer) (m : TradeMatcher),
      (orderFilledLoop now id price v bs c m).2.1.exposure +
          (bs.map (fun e => e.2.exposure)).sum =
        c.exposure +
          ((orderFilledLoop now id price v bs c m).1.map (fun e => e.2.exposure)).sum ∧
      (orderFilledLoop now id price v bs c m).2.1.submittedBids +
          (bs.map (fun e => e.2.submittedBids)).sum =
        c.submittedBids +
          ((orderFilledLoop now id price v bs c m).1.map (fun e => e.2.submittedBids)).sum ∧
      (orderFilledLoop now id price v bs c m).2.1.submittedAsks +
          (bs.map (fun e => e.2.submittedAsks)).sum =
        c.submittedAsks +
          ((orderFilledLoop now id price v bs c m).1.map (fun e => e.2.submittedAsks)).sum ∧
      (orderFilledLoop now id price v bs c m).2.1.dummyCash +
          (bs.map (fun e => e.2.dummyCash)).sum =
        c.dummyCash +
          ((orderFilledLoop now id price v bs c m).1.map (fun e => e.2.dummyCash)).sum := by
  intro bs
  induction bs with
  | nil => intro c m; simp [orderFilledLoop]
  | cons e rest ih =>
    intro c m
    cases hr : (e.2.orderFilled now id price v).1 with
    | none =>
      obtain ⟨h1, h2, h3, h4⟩ := ih c m
      have hsame := orderFilled_none_unchanged e.2 now id price v hr
      simp only [orderFilledLoop, hr, List.map_cons, List.sum_cons, hsame]
      refine ⟨by linarith, by linarith, by linarith, by linarith⟩
    | some order =>
      obtain ⟨h1, h2, h3, h4⟩ := ih (applyFill c order) (m.push order)
      obtain ⟨_, g1, g2, g3, g4⟩ :=
        applyFill_matches_book c e.2 now id price v order hr hv0 hv1 hp0 hp1
      simp only [orderFilledLoop, hr, List.map_cons, List.sum_cons]
      refine ⟨by linarith, by linarith, by linarith, by linarith⟩

theorem applyClose_matches_book (c : BooksContainer) (b : Book) (id : Nat) (order : Order)
    (hr : (b.orderClosed id).1 = some order) :
    (applyClose c order).exposure + b.exposure = c.exposure + (b.orderClosed id).2.exposure ∧
    (applyClose c order).submittedBids + b.submittedBids =
      c.submittedBids + (b.orderClosed id).2.submittedBids ∧
    (applyClose c order).submittedAsks + b.submittedAsks =
      c.submittedAsks + (b.orderClosed id).2.submittedAsks ∧
    (applyClose c order).dummyCash + b.dummyCash =
      c.dummyCash + (b.orderClosed id).2.dummyCash := by
  rw [Book.orderClosed_fst] at hr
  cases hs : order.side with
  | BUY =>
    rw [Book.orderClosed_bid b id order hr hs]
    simp only [applyClose, hs]
    refine ⟨trivial, by ring, trivial, trivial⟩
  | SELL =>
    rw [Book.orderClosed_ask b id order hr hs]
    simp only [applyClose, hs]
    refine ⟨trivial, trivial, by ring, trivial⟩

theorem orderClosedLoop_sums (id : Nat) :
    ∀ (bs : List (String × Book)) (c : BooksContainer),
      (orderClosedLoop id bs c).2.exposure + (bs.map (fun e => e.2.exposure)).sum =
        c.exposure + ((orderClosedLoop id bs c).1.map (fun e => e.2.exposure)).sum ∧
      (orderClosedLoop id bs c).2.submittedBids + (bs.map (fun e => e.2.submittedBids)).sum =
        c.submittedBids + ((orderClosedLoop id bs c).1.map (fun e => e.2.submittedBids)).sum ∧
      (orderClosedLoop id bs c).2.submittedAsks + (bs.map (fun e => e.2.submittedAsks)).sum =
        c.submittedAsks + ((orderClosedLoop id bs c).1.map (fun e => e.2.submittedAsks)).sum ∧
      (orderClosedLoop id bs c).2.dummyCash + (bs.map (fun e => e.2.dummyCash)).sum =
        c.dummyCash + ((orderClosedLoop id bs c).1.map (fun e => e.2.dummyCash)).sum := by
  intro bs
  induction bs with
  | nil => intro c; simp [orderClosedLoop]
  | cons e rest ih =>
    intro c
    cases hr : (e.2.orderClosed id).1 with
    | none =>
      obtain ⟨h1, h2, h3, h4⟩ := ih c
      have hnone : e.2.findOrder id = none := by rw [← Book.orderClosed_fst]; exact hr
      have hsame : (e.2.orderClosed id).2 = e.2 := by
        rw [Book.orderClosed_unknown e.2 id hnone]
      simp only [orderClosedLoop, hr, List.map_cons, List.sum_cons, hsame]
      refine ⟨by linarith, by linarith, by linarith, by linarith⟩
    | some order =>
      obtain ⟨h1, h2, h3, h4⟩ := ih (applyClose c order)
      obtain ⟨g1, g2, g3, g4⟩ := applyClose_matches_book c e.2 id order hr
      simp only [orderClosedLoop, hr, List.map_cons, List.sum_cons]
      refine ⟨by linarith, by linarith, by linarith, by linarith⟩

theorem aggInv_orderFilled (c : BooksContainer) (m : TradeMatcher) (now : ℚ) (id : Nat)
    (price v : Int) (hv0 : 0 ≤ v) (hv1 : v < (two63 : Int)) (hp0 : 0 ≤ price)
    (hp1 : price < (two63 : Int)) (h : c.AggInv) : (c.orderFilled m now id price v).1.AggInv := by
  obtain ⟨h1, h2, h3, h4⟩ := h
  obtain ⟨g1, g2, g3, g4⟩ := orderFilledLoop_sums now id price v hv0 hv1 hp0 hp1 c.books c m
  simp only [sumInt, sumRat] at h1 h2 h3 h4
  simp only [AggInv, orderFilled, sumInt, sumRat]
  refine ⟨by linarith, by linarith, by linarith, by linarith⟩

theorem aggInv_orderClosed (c : BooksContainer) (id : Nat) (h : c.AggInv) :
    (c.orderClosed id).AggInv := by
  obtain ⟨h1, h2, h3, h4⟩ := h
  obtain ⟨g1, g2, g3, g4⟩ := orderClosedLoop_sums id c.books c
  simp only [sumInt, sumRat] at h1 h2 h3 h4
  simp only [AggInv, orderClosed, sumInt, sumRat]
  refine ⟨by linarith, by linarith, by linarith, by linarith⟩

theorem cancelOrder_fields (b : Book) (id : Nat) :
    (b.cancelOrder id).exposure = b.exposure ∧
    (b.cancelOrder id).submittedBids = b.submittedBids ∧
    (b.cancelOrder id).submittedAsks = b.submittedAsks ∧
    (b.cancelOrder id).dummyCash = b.dummyCash := by
  unfold Book.cancelOrder
  split <;> exact ⟨rfl, rfl, rfl, rfl⟩

theorem aggInv_cancelOrder (c : BooksContainer) (id : Nat) (h : c.AggInv) :
    (c.cancelOrder id).AggInv := by
  obtain ⟨h1, h2, h3, h4⟩ := h
  simp only [AggInv, cancelOrder, sumInt, sumRat, List.map_map, Function.comp_def,
    (cancelOrder_fields _ id).1, (cancelOrder_fields _ id).2.1, (cancelOrder_fields _ id).2.2.1,
    (cancelOrder_fields _ id).2.2.2]
  exact ⟨h1, h2, h3, h4⟩

theorem aggInv_sendOrder (c : BooksContainer) (g : OrderIDGenerator) (now : ℚ) (name : String)
    (instrument : Instrument) (side : Side) (size price : Int) (hwf : Map.WF c.books)
    (h : c.AggInv) : (c.sendOrder g now name instrument side size price).1.AggInv := by
  cases hfind : Map.find c.books name with
  | none =>
    rw [sendOrder_unknown c g now name instrument side size price hfind]
    exact h
  | some book =>
    obtain ⟨h1, h2, h3, h4⟩ := h
    simp only [sumInt, sumRat] at h1 h2 h3 h4
    have s1 := fun b1 => Map.sum_assign (fun b : Book => b.exposure) c.books name book b1 hwf hfind
    have s2 := fun b1 =>
      Map.sum_assign (fun b : Book => b.submittedBids) c.books name book b1 hwf hfind
    have s3 := fun b1 =>
      Map.sum_assign (fun b : Book => b.submittedAsks) c.books name book b1 hwf hfind
    have s4 := fun b1 =>
      Map.sum_assign (fun b : Book => b.dummyCash) c.books name book b1 hwf hfind
    cases side with
    | BUY =>
      have t1 := s1 (book.sendOrder g now instrument Side.BUY size price 0).2.1
      have t2 := s2 (book.sendOrder g now instrument Side.BUY size price 0).2.1
      have t3 := s3 (book.sendOrder g now instrument Side.BUY size price 0).2.1
      have t4 := s4 (book.sendOrder g now instrument Side.BUY size price 0).2.1
      rw [Book.sendOrder_buy] at t1 t2 t3 t4
      simp only [] at t1 t2 t3 t4
      simp only [AggInv, sendOrder, hfind, sumInt, sumRat, Book.sendOrder_buy]
      refine ⟨by linarith, by linarith, by linarith, by linarith⟩
    | SELL =>
      have t1 := s1 (book.sendOrder g now instrument Side.SELL size price 0).2.1
      have t2 := s2 (book.sendOrder g now instrument Side.SELL size price 0).2.1
      have t3 := s3 (book.sendOrder g now instrument Side.SELL size price 0).2.1
      have t4 := s4 (book.sendOrder g now instrument Side.SELL size price 0).2.1
      rw [Book.sendOrder_sell] at t1 t2 t3 t4
      simp only [] at t1 t2 t3 t4
      simp only [AggInv, sendOrder, hfind, sumInt, sumRat, Book.sendOrder_sell]
      refine ⟨by linarith, by linarith, by linarith, by linarith⟩

theorem aggInv_new (namesIn : List String) (inst : Instrument) :
    (BooksContainer.new namesIn inst).AggInv := by
  obtain ⟨hwf, hall⟩ := new_books namesIn inst
  have hzero : ∀ (bs : List (String × Book)), (∀ e ∈ bs, e.2 = ({ instrument := inst } : Book)) →
      (bs.map (fun e => e.2.exposure)).sum = 0 ∧ (bs.map (fun e => e.2.submittedBids)).sum = 0 ∧
      (bs.map (fun e => e.2.submittedAsks)).sum = 0 ∧
      (bs.map (fun e => e.2.dummyCash)).sum = 0 := by
    intro bs
    induction bs with
    | nil => intro _; simp
    | cons e rest ih =>
      intro hall
      obtain ⟨i1, i2, i3, i4⟩ := ih (fun x hx => hall x (List.mem_cons_of_mem _ hx))
      have he := hall e (List.mem_cons_self _ _)
      simp only [List.map_cons, List.sum_cons, i1, i2, i3, i4, he, add_zero, and_self]
  obtain ⟨z1, z2, z3, z4⟩ := hzero (new namesIn inst).books
    (fun e he => hall e.1 e.2 (Map.find_of_mem _ hwf e he))
  simp only [AggInv, sumInt, sumRat, z1, z2, z3, z4]
  exact ⟨rfl, rfl, rfl, rfl⟩

end BooksContainer


namespace BooksContainer

theorem insertAll_find_some (l : OrderList) :
    ∀ (acc : OrderList) (id : Nat) (o : Order), Map.find acc id = some o →
      Map.find (l.foldl (fun a x => if (Map.find a x.1).isSome then a else Map.assign a x.1 x.2)
        acc) id = some o := by
  induction l with
  | nil => intro acc id o h; exact h
  | cons x rest ih =>
    intro acc id o h
    simp only [List.foldl_cons]
    apply ih
    split
    · exact h
    · rename_i hnone
      rw [Map.find_assign]
      have hne : ¬ id = x.1 := by
        intro heq
        rw [heq] at h
        rw [h] at hnone
        exact hnone rfl
      rw [if_neg hne]
      exact h

theorem insertAll_find_none (l : OrderList) :
    ∀ (acc : OrderList) (id : Nat), Map.find acc id = none →
      Map.find (l.foldl (fun a x => if (Map.find a x.1).isSome then a else Map.assign a x.1 x.2)
        acc) id = Map.find l id := by
  induction l with
  | nil => intro acc id h; exact h
  | cons x rest ih =>
    intro acc id h
    simp only [List.foldl_cons]
    by_cases hx : x.1 = id
    · have hnone : ¬ (Map.find acc x.1).isSome = true := by rw [hx, h]; simp
      rw [if_neg hnone]
      have hfound : Map.find (Map.assign acc x.1 x.2) id = some x.2 := by
        rw [Map.find_assign, if_pos hx.symm]
      rw [insertAll_find_some rest _ id x.2 hfound]
      simp only [Map.find, if_pos hx]
    · have hstill : Map.find (if (Map.find acc x.1).isSome then acc else Map.assign acc x.1 x.2)
          id = none := by
        split
        · exact h
        · rw [Map.find_assign, if_neg (fun heq => hx heq.symm)]
          exact h
      rw [ih _ id hstill]
      simp only [Map.find, if_neg hx]

theorem insertAll_wf (l : OrderList) :
    ∀ (acc : OrderList), Map.WF acc →
      Map.WF (l.foldl (fun a x => if (Map.find a x.1).isSome then a else Map.assign a x.1 x.2)
        acc) := by
  induction l with
  | nil => intro acc h; exact h
  | cons x rest ih =>
    intro acc h
    simp only [List.foldl_cons]
    apply ih
    split
    · exact h
    · exact Map.wf_assign _ _ _ h

/-- The map merged from the maps `proj` of the books: an id is looked up in the
accumulator first, then in the books in order. -/
theorem mergeAll_find (proj : Book → OrderList) :
    ∀ (bs : List (String × Book)) (acc : OrderList) (id : Nat),
      Map.find (bs.foldl (fun acc e => (proj e.2).foldl
        (fun a x => if (Map.find a x.1).isSome then a else Map.assign a x.1 x.2) acc) acc) id =
      (match Map.find acc id with
        | some o => some o
        | none => firstStored proj id bs) := by
  intro bs
  induction bs with
  | nil =>
    intro acc id
    simp only [List.foldl_nil, firstStored]
    cases Map.find acc id <;> rfl
  | cons e rest ih =>
    intro acc id
    simp only [List.foldl_cons]
    rw [ih]
    cases hacc : Map.find acc id with
    | some o =>
      rw [insertAll_find_some (proj e.2) acc id o hacc]
    | none =>
      rw [insertAll_find_none (proj e.2) acc id hacc]
      simp only [firstStored]

theorem mergeAll_wf (proj : Book → OrderList) :
    ∀ (bs : List (String × Book)) (acc : OrderList), Map.WF acc →
      Map.WF (bs.foldl (fun acc e => (proj e.2).foldl
        (fun a x => if (Map.find a x.1).isSome then a else Map.assign a x.1 x.2) acc) acc) := by
  intro bs
  induction bs with
  | nil => intro acc h; exact h
  | cons e rest ih =>
    intro acc h
    simp only [List.foldl_cons]
    exact ih _ (insertAll_wf (proj e.2) acc h)

theorem firstStored_iff (proj : Book → OrderList)
    (hknow : ∀ (b : Book) (id : Nat) (o : Order), Map.find (proj b) id = some o →
      b.findOrder id ≠ none) (id : Nat) (o : Order) :
    ∀ bs : List (String × Book), bs.Pairwise (fun x y => Book.Apart x.2 y.2) →
      (firstStored proj id bs = some o ↔ ∃ e ∈ bs, Map.find (proj e.2) id = some o) := by
  intro bs
  induction bs with
  | nil => intro _; simp [firstStored]
  | cons e rest ih =>
    intro hp
    rw [List.pairwise_cons] at hp
    cases hf : Map.find (proj e.2) id with
    | some o1 =>
      simp only [firstStored, hf, Option.some.injEq]
      constructor
      · intro h
        exact ⟨e, List.mem_cons_self _ _, by rw [hf, h]⟩
      · rintro ⟨e1, he1, hfe1⟩
        rcases List.mem_cons.1 he1 with h | h
        · rw [h, hf] at hfe1
          exact Option.some.inj hfe1
        · exfalso
          rcases hp.1 e1 h id with hn | hn
          · exact hknow e.2 id o1 hf hn
          · exact hknow e1.2 id o hfe1 hn
    | none =>
      simp only [firstStored, hf]
      rw [ih hp.2]
      constructor
      · rintro ⟨e1, he1, hfe1⟩
        exact ⟨e1, List.mem_cons_of_mem _ he1, hfe1⟩
      · rintro ⟨e1, he1, hfe1⟩
        rcases List.mem_cons.1 he1 with h | h
        · rw [h, hf] at hfe1
          cases hfe1
        · exact ⟨e1, h, hfe1⟩

theorem knows_of_bid (b : Book) (id : Nat) (o : Order) (h : Map.find b.bids id = some o) :
    b.findOrder id ≠ none := by
  rw [Book.findOrder_of_bid b id o h]
  exact Option.some_ne_none _

theorem knows_of_ask (b : Book) (id : Nat) (o : Order) (h : Map.find b.asks id = some o) :
    b.findOrder id ≠ none := by
  cases hb : Map.find b.bids id with
  | some o1 =>
    rw [Book.findOrder_of_bid b id o1 hb]
    exact Option.some_ne_none _
  | none =>
    rw [Book.findOrder_of_not_bid b id hb, h]
    exact Option.some_ne_none _

/-- Under the container's invariant `getBids` and `getAsks` hold exactly the resting bids
and asks of the books. -/
theorem getBids_getAsks_union (c : BooksContainer) (n : Nat) (h : c.Inv n) :
    (∀ id o, Map.find c.getBids id = some o ↔ ∃ e ∈ c.books, Map.find e.2.bids id = some o) ∧
    (∀ id o, Map.find c.getAsks id = some o ↔ ∃ e ∈ c.books, Map.find e.2.asks id = some o) ∧
    Map.WF c.getBids ∧ Map.WF c.getAsks := by
  have hp := pairwise_apart c n h
  refine ⟨?_, ?_, mergeAll_wf (fun b => b.bids) c.books [] Map.wf_nil,
    mergeAll_wf (fun b => b.asks) c.books [] Map.wf_nil⟩
  · intro id o
    have hm := mergeAll_find (fun b => b.bids) c.books [] id
    simp only [Map.find] at hm
    unfold getBids
    rw [hm]
    exact firstStored_iff (fun b => b.bids) knows_of_bid id o c.books hp
  · intro id o
    have hm := mergeAll_find (fun b => b.asks) c.books [] id
    simp only [Map.find] at hm
    unfold getAsks
    rw [hm]
    exact firstStored_iff (fun b => b.asks) knows_of_ask id o c.books hp

end BooksContainer


namespace BooksContainer

theorem container_reachable_inv (c : BooksContainer) (g : OrderIDGenerator) (h : Reachable c g) :
    c.Inv g.currClientOrderID ∧ c.AggInv := by
  induction h with
  | new namesIn inst g => exact ⟨container_inv_new namesIn inst _, aggInv_new namesIn inst⟩
  | idsTaken c g g1 _ hle ih => exact ⟨container_inv_mono c _ _ ih.1 hle, ih.2⟩
  | sendOrder c g now name instrument side size price _ ih =>
    exact ⟨container_inv_sendOrder c g now name instrument side size price ih.1,
      aggInv_sendOrder c g now name instrument side size price ih.1.1 ih.2⟩
  | orderFilled c g m now id price v _ hv0 hv1 hp0 hp1 ih =>
    exact ⟨container_inv_orderFilled c _ m now id price v ih.1,
      aggInv_orderFilled c m now id price v hv0 hv1 hp0 hp1 ih.2⟩
  | orderClosed c g id _ ih =>
    exact ⟨container_inv_orderClosed c _ id ih.1, aggInv_orderClosed c id ih.2⟩
  | cancelOrder c g id _ ih =>
    exact ⟨container_inv_cancelOrder c _ id ih.1, aggInv_cancelOrder c id ih.2⟩

end BooksContainer


/-! ## Theorems: rate limiter -/

namespace MessageFrequencyLimiter

theorem popExpired_of_all_fresh (time : ℚ) (w : List ℚ) (h : ∀ s ∈ w, time - s ≤ 1) :
    popExpired time w = w := by
  cases w with
  | nil => rfl
  | cons s rest =>
    have hs : ¬ (time - s > 1) := not_lt.mpr (h s (List.mem_cons_self _ _))
    simp [popExpired, hs]

theorem popExpired_eq_filter (time : ℚ) (w : List ℚ) (hw : w.Pairwise (· ≤ ·)) :
    popExpired time w = w.filter (fun s => decide (time - s ≤ 1)) := by
  induction w with
  | nil => rfl
  | cons s rest ih =>
    rw [List.pairwise_cons] at hw
    by_cases hs : time - s > 1
    · have hs2 : decide (time - s ≤ 1) = false := decide_eq_false (not_le.mpr hs)
      simp only [List.filter_cons, hs2, popExpired, if_pos hs]
      exact ih hw.2
    · have hs2 : decide (time - s ≤ 1) = true := decide_eq_true (not_lt.mp hs)
      have hall : ∀ r ∈ rest, decide (time - r ≤ 1) = true := by
        intro r hr
        have h1 := hw.1 r hr
        have h2 : time - s ≤ 1 := not_lt.mp hs
        exact decide_eq_true (by linarith)
      simp only [List.filter_cons, hs2, popExpired, if_neg hs, if_true,
        List.filter_eq_self.mpr hall]

theorem sendMessages_append (l : MessageFrequencyLimiter) (ts us : List ℚ) :
    sendMessages l (ts ++ us) =
      ((sendMessages l ts).1 ++ (sendMessages (sendMessages l ts).2 us).1,
        (sendMessages (sendMessages l ts).2 us).2) := by
  induction ts generalizing l with
  | nil => simp [sendMessages]
  | cons t ts ih => simp [sendMessages, ih]

/-- While every recorded and every new reading lies within one window of each other and
the capacity is not exhausted, every call is accepted and recorded. -/
theorem sendMessages_all_accepted (C : Nat) (hC : C < two64) :
    ∀ (ts : List ℚ) (l : MessageFrequencyLimiter), l.messagesPerSecond = (C : Int) →
      l.messageTimes.length + ts.length ≤ C →
      (∀ s ∈ l.messageTimes ++ ts, ∀ t ∈ ts, t - s ≤ 1) →
      sendMessages l ts =
        (List.replicate ts.length true, { l with messageTimes := l.messageTimes ++ ts }) := by
  intro ts
  induction ts with
  | nil => intro l _ _ _; simp [sendMessages]
  | cons t ts ih =>
    intro l hl hlen hwin
    have hfresh : popExpired t l.messageTimes = l.messageTimes :=
      popExpired_of_all_fresh t _ (fun s hs =>
        hwin s (List.mem_append_left _ hs) t (List.mem_cons_self _ _))
    simp only [List.length_cons] at hlen
    have hlt : toULong (l.messageTimes.length : Int) < toULong l.messagesPerSecond := by
      rw [hl, toULong_natCast _ (by omega), toULong_natCast _ hC]; omega
    have hstep : sendMessage l t = (true, { l with messageTimes := l.messageTimes ++ [t] }) := by
      simp only [sendMessage, hfresh, if_pos hlt]
    have hrest := ih { l with messageTimes := l.messageTimes ++ [t] } hl
      (by simp only [List.length_append, List.length_singleton]; omega)
      (by
        intro s hs u hu
        apply hwin s _ u (List.mem_cons_of_mem _ hu)
        simp only [List.mem_append, List.mem_singleton, List.mem_cons] at hs ⊢
        tauto)
    simp only [sendMessages, hstep, hrest, List.length_cons, List.replicate_succ,
      List.append_assoc, List.singleton_append]

theorem pairwise_le_head_le {ts : List ℚ} (h : ts.Pairwise (· ≤ ·)) (hne : ts ≠ []) :
    ∀ s ∈ ts, ts.head hne ≤ s := by
  cases ts with
  | nil => exact absurd rfl hne
  | cons a rest =>
    intro s hs
    rw [List.pairwise_cons] at h
    rcases List.mem_cons.mp hs with rfl | hs
    · exact le_refl _
    · exact h.1 s hs

theorem pairwise_le_le_getLast {ts : List ℚ} (h : ts.Pairwise (· ≤ ·)) (hne : ts ≠ []) :
    ∀ s ∈ ts, s ≤ ts.getLast hne := by
  intro s hs
  have hsplit := List.dropLast_append_getLast hne
  rw [← hsplit] at h hs
  rw [List.pairwise_append] at h
  rcases List.mem_append.mp hs with hs | hs
  · exact h.2.2 s hs _ (List.mem_singleton_self _)
  · rw [List.mem_singleton] at hs; rw [hs]

/-- C9: starting from an empty window with capacity `C = messagesPerSecond`, any `C + 1`
consecutive `sendMessage` calls with nondecreasing clock readings that all lie within
one window (last minus first at most 1) return `true` for the first `C` calls and
`false` for call number `C + 1`. -/
theorem sendMessage_capacity_within_window (l : MessageFrequencyLimiter) (C : Nat)
    (ts : List ℚ) (hcap : l.messagesPerSecond = (C : Int)) (hlong : C < two63)
    (hempty : l.messageTimes = []) (hlen : ts.length = C + 1)
    (hmono : ts.Pairwise (· ≤ ·))
    (hwin : ∀ hne : ts ≠ [], ts.getLast hne - ts.head hne ≤ 1) :
    (sendMessages l ts).1 = List.replicate C true ++ [false] := by
  have hne : ts ≠ [] := by intro h; rw [h] at hlen; simp at hlen
  have hC : C < two64 := by unfold two63 at hlong; unfold two64; omega
  have hall : ∀ s ∈ ts, ∀ t ∈ ts, t - s ≤ 1 := by
    intro s hs t ht
    have h1 := pairwise_le_head_le hmono hne s hs
    have h2 := pairwise_le_le_getLast hmono hne t ht
    have h3 := hwin hne
    linarith
  have hsplit := List.dropLast_append_getLast hne
  have hdl : ts.dropLast.length = C := by simp [List.length_dropLast, hlen]
  have hmem : ∀ s ∈ ts.dropLast, s ∈ ts := fun s hs => List.mem_of_mem_dropLast hs
  have hfirst := sendMessages_all_accepted C hC ts.dropLast l hcap
    (by rw [hempty, hdl]; simp)
    (by
      intro s hs t ht
      rw [hempty, List.nil_append] at hs
      exact hall s (hmem s hs) t (hmem t ht))
  rw [← hsplit, sendMessages_append, hfirst, hdl]
  simp only [sendMessages, hempty, List.nil_append]
  have hfresh : popExpired (ts.getLast hne) ts.dropLast = ts.dropLast :=
    popExpired_of_all_fresh _ _ (fun s hs => hall s (hmem s hs) _ (List.getLast_mem hne))
  have hnlt : ¬ toULong (ts.dropLast.length : Int) < toULong l.messagesPerSecond := by
    rw [hcap, hdl, toULong_natCast _ hC]; omega
  simp only [sendMessage, hfresh, if_neg hnlt]

/-- Witness for C9: capacity 2 and three calls at readings 0, 1/2 and 1. -/
theorem sendMessage_capacity_within_window_witness :
    (sendMessages { messageTimes := [], messagesPerSecond := 2 } [0, 1/2, 1]).1
      = List.replicate 2 true ++ [false] :=
  sendMessage_capacity_within_window { messageTimes := [], messagesPerSecond := 2 } 2
    [0, 1/2, 1] rfl (by decide) rfl rfl (by decide!) (fun _ => by norm_num [List.getLast])

theorem filter_fresh_of_le (u t : ℚ) (hut : u ≤ t) (w : List ℚ) :
    (w.filter (fun s => decide (u - s ≤ 1))).filter (fun s => decide (t - s ≤ 1)) =
      w.filter (fun s => decide (t - s ≤ 1)) := by
  rw [List.filter_filter]
  apply List.filter_congr
  intro s _
  by_cases h : t - s ≤ 1
  · have h2 : u - s ≤ 1 := by linarith
    simp only [h, h2, decide_True, Bool.and_self]
  · simp only [h, decide_False, Bool.false_and]

/-- Window invariant along a run with nondecreasing clock readings, relative to a later
reading `t`: the window stays sorted, never exceeds the capacity, and its entries that
are still fresh at `t` are exactly the accepted readings that are fresh at `t`. -/
theorem sendMessages_window (C : Nat) (hC : C < two64) (t : ℚ) :
    ∀ (ts : List ℚ) (l : MessageFrequencyLimiter) (acc : List ℚ),
      l.messagesPerSecond = (C : Int) →
      l.messageTimes.length ≤ C →
      l.messageTimes.Pairwise (· ≤ ·) →
      (∀ s ∈ l.messageTimes, ∀ u ∈ ts, s ≤ u) →
      ts.Pairwise (· ≤ ·) →
      (∀ u ∈ ts, u ≤ t) →
      l.messageTimes.filter (fun s => decide (t - s ≤ 1)) =
        acc.filter (fun s => decide (t - s ≤ 1)) →
      (sendMessages l ts).2.messagesPerSecond = (C : Int) ∧
      (sendMessages l ts).2.messageTimes.length ≤ C ∧
      (sendMessages l ts).2.messageTimes.Pairwise (· ≤ ·) ∧
      (sendMessages l ts).2.messageTimes.filter (fun s => decide (t - s ≤ 1)) =
        (acc ++ accepted ts (sendMessages l ts).1).filter (fun s => decide (t - s ≤ 1)) := by
  intro ts
  induction ts with
  | nil =>
    intro l acc hl hlen hs _ _ _ hf
    simp only [sendMessages, accepted, List.append_nil]
    exact ⟨hl, hlen, hs, hf⟩
  | cons u ts ih =>
    intro l acc hl hlen hs hle hmono hub hf
    rw [List.pairwise_cons] at hmono
    have hut : u ≤ t := hub u (List.mem_cons_self _ _)
    have hpop := popExpired_eq_filter u l.messageTimes hs
    have hsub : ∀ s ∈ popExpired u l.messageTimes, s ∈ l.messageTimes := by
      intro s hs'; rw [hpop] at hs'; exact (List.mem_filter.mp hs').1
    have hpopsorted : (popExpired u l.messageTimes).Pairwise (· ≤ ·) := by
      rw [hpop]; exact hs.filter _
    have hpoplen : (popExpired u l.messageTimes).length ≤ l.messageTimes.length := by
      rw [hpop]; exact List.length_filter_le _ _
    have hpopf : (popExpired u l.messageTimes).filter (fun s => decide (t - s ≤ 1)) =
        acc.filter (fun s => decide (t - s ≤ 1)) := by
      rw [hpop, filter_fresh_of_le u t hut, hf]
    by_cases hlt : toULong ((popExpired u l.messageTimes).length : Int) < toULong l.messagesPerSecond
    · have hstep : sendMessage l u =
          (true, { l with messageTimes := popExpired u l.messageTimes ++ [u] }) := by
        simp only [sendMessage, if_pos hlt]
      have hlt2 : (popExpired u l.messageTimes).length < C := by
        rw [hl, toULong_natCast _ (by omega), toULong_natCast _ hC] at hlt; exact hlt
      have h := ih { l with messageTimes := popExpired u l.messageTimes ++ [u] } (acc ++ [u]) hl
        (by simp only [List.length_append, List.length_singleton]; omega)
        (by
          rw [List.pairwise_append]
          refine ⟨hpopsorted, List.pairwise_singleton _ _, ?_⟩
          intro a ha b hb
          rw [List.mem_singleton] at hb
          rw [hb]
          exact hle a (hsub a ha) u (List.mem_cons_self _ _))
        (by
          intro a ha b hb
          rcases List.mem_append.mp ha with ha | ha
          · exact hle a (hsub a ha) b (List.mem_cons_of_mem _ hb)
          · rw [List.mem_singleton] at ha; rw [ha]; exact hmono.1 b hb)
        hmono.2 (fun b hb => hub b (List.mem_cons_of_mem _ hb))
        (by rw [List.filter_append, List.filter_append, hpopf])
      simp only [sendMessages, hstep, accepted, if_true]
      simpa only [List.append_assoc, List.singleton_append] using h
    · have hstep : sendMessage l u = (false, { l with messageTimes := popExpired u l.messageTimes }) := by
        simp only [sendMessage, if_neg hlt]
      have h := ih { l with messageTimes := popExpired u l.messageTimes } acc hl
        (by show (popExpired u l.messageTimes).length ≤ C; omega)
        hpopsorted
        (fun a ha b hb => hle a (hsub a ha) b (List.mem_cons_of_mem _ hb))
        hmono.2 (fun b hb => hub b (List.mem_cons_of_mem _ hb)) hpopf
      simp only [sendMessages, hstep, accepted]
      exact h

/-- C10: along any run from an empty window with nondecreasing clock readings, a
`sendMessage` call at reading `t` leaves in the window exactly the recorded readings `s`
with `t - s ≤ 1` (it removes those with `t - s > 1` and no others); these are the accepted
readings that are fresh at `t`; the call returns `true` and records `t` at the back if
and only if fewer than `C` of them remain, and a denied call records nothing. -/
theorem sendMessage_sliding_window (l : MessageFrequencyLimiter) (C : Nat) (ts : List ℚ)
    (t : ℚ) (hcap : l.messagesPerSecond = (C : Int)) (hlong : C < two63)
    (hempty : l.messageTimes = []) (hmono : (ts ++ [t]).Pairwise (· ≤ ·)) :
    (sendMessages l ts).2.messageTimes.filter (fun s => decide (t - s ≤ 1)) =
        (accepted ts (sendMessages l ts).1).filter (fun s => decide (t - s ≤ 1)) ∧
    sendMessage (sendMessages l ts).2 t =
      (if ((accepted ts (sendMessages l ts).1).filter (fun s => decide (t - s ≤ 1))).length < C
       then (true, { (sendMessages l ts).2 with
          messageTimes :=
            (sendMessages l ts).2.messageTimes.filter (fun s => decide (t - s ≤ 1)) ++ [t] })
       else (false, { (sendMessages l ts).2 with
          messageTimes :=
            (sendMessages l ts).2.messageTimes.filter (fun s => decide (t - s ≤ 1)) })) := by
  have hC : C < two64 := by unfold two63 at hlong; unfold two64; omega
  rw [List.pairwise_append] at hmono
  obtain ⟨hcap2, hlen, hsorted, hfilt⟩ := sendMessages_window C hC t ts l [] hcap
    (by rw [hempty]; simp) (by rw [hempty]; exact List.Pairwise.nil)
    (by rw [hempty]; intro s hs; cases hs) hmono.1
    (fun u hu => hmono.2.2 u hu t (List.mem_singleton_self _))
    (by rw [hempty])
  rw [List.nil_append] at hfilt
  refine ⟨hfilt, ?_⟩
  have hpop := popExpired_eq_filter t _ hsorted
  have hlen2 : ((sendMessages l ts).2.messageTimes.filter
      (fun s => decide (t - s ≤ 1))).length ≤ C :=
    le_trans (List.length_filter_le _ _) hlen
  simp only [sendMessage, hpop, hcap2]
  rw [toULong_natCast _ (by omega), toULong_natCast _ hC, hfilt]

/-- Witness for C10: capacity 2, earlier calls at readings 0, 1/2 and 1, then a call
at reading 3/2. -/
theorem sendMessage_sliding_window_witness :
    (sendMessages { messageTimes := [], messagesPerSecond := 2 } [0, 1/2, 1]).2.messageTimes.filter
        (fun s => decide ((3/2 : ℚ) - s ≤ 1)) =
      (accepted [0, 1/2, 1]
        (sendMessages { messageTimes := [], messagesPerSecond := 2 } [0, 1/2, 1]).1).filter
        (fun s => decide ((3/2 : ℚ) - s ≤ 1)) :=
  (sendMessage_sliding_window { messageTimes := [], messagesPerSecond := 2 } 2 [0, 1/2, 1]
    (3/2) rfl (by decide) rfl (by decide!)).1

end MessageFrequencyLimiter

/-! ## Theorems: AutoTrader::sendOrder -/

namespace AutoTrader

/-- What an accepted `AutoTrader::sendOrder` has checked and done: the limiter allowed the
message, the price is within the exchange bounds, the clamped size is positive, and the
instrument's container received `BooksContainer::sendOrder` with the clamped size and the
tick-rounded price. -/
theorem sendOrder_accepted (k : Constants) (a : AutoTrader) (clock : ℚ)
    (name : String) (instrument : Instrument) (side : Side) (size price : Int)
    (hacc : (sendOrder k a clock name instrument side size price).1 = true) :
    (a.frequencyLimiter.sendMessage clock).1 = true ∧
    k.MINIMUM_BID ≤ price ∧ price ≤ k.MAXIMUM_ASK ∧
    0 < clampedSize k a instrument side size ∧
    (sendOrder k a clock name instrument side size price).2.container instrument =
      ((a.container instrument).sendOrder a.idGen a.time.time name instrument side
        (clampedSize k a instrument side size)
        (Int.tdiv (price + Int.tdiv 100 2) 100 * 100)).1 := by
  by_cases h1 : (a.frequencyLimiter.sendMessage clock).1 = false
  · simp only [sendOrder, if_pos h1] at hacc; cases hacc
  by_cases h2 : price > k.MAXIMUM_ASK ∨ price < k.MINIMUM_BID
  · simp only [sendOrder, if_neg h1, if_pos h2] at hacc; cases hacc
  by_cases h3 : clampedSize k a instrument side size ≤ 0
  · have h3' : clampedSize k
        { a with frequencyLimiter := (a.frequencyLimiter.sendMessage clock).2 }
        instrument side size ≤ 0 := h3
    simp only [sendOrder, if_neg h1, if_neg h2, if_pos h3'] at hacc; cases hacc
  have h3' : ¬ clampedSize k
      { a with frequencyLimiter := (a.frequencyLimiter.sendMessage clock).2 }
      instrument side size ≤ 0 := h3
  refine ⟨by simpa using h1, by omega, by omega, by omega, ?_⟩
  cases instrument
  · simp only [sendOrder, if_neg h1, if_neg h2, if_neg h3', container]
    simp; rfl
  · simp only [sendOrder, if_neg h1, if_neg h2, if_neg h3', container]
    simp; rfl

/-- C1: whenever `AutoTrader::sendOrder` accepts an order (returns `true`), the send
leaves the instrument's exposure unchanged, and afterwards: for a BUY the instrument's
exposure plus its submitted bid volume is at most `positionLimit`, for a SELL its
submitted ask volume minus its exposure is at most `positionLimit`.  The submitted
volume includes the new order: when `name` is a book of the instrument's container the
same-side submitted volume has grown by the dispatched (clamped) size. -/
theorem sendOrder_respects_positionLimit (k : Constants) (a : AutoTrader) (clock : ℚ)
    (name : String) (instrument : Instrument) (side : Side) (size price : Int)
    (hacc : (sendOrder k a clock name instrument side size price).1 = true) :
    ((sendOrder k a clock name instrument side size price).2.container instrument).exposure
      = (a.container instrument).exposure ∧
    (side = Side.BUY →
      ((sendOrder k a clock name instrument side size price).2.container instrument).exposure +
        ((sendOrder k a clock name instrument side size price).2.container
          instrument).submittedBids ≤ k.positionLimit ∧
      ((Map.find (a.container instrument).books name).isSome →
        ((sendOrder k a clock name instrument side size price).2.container
          instrument).submittedBids =
          (a.container instrument).submittedBids + clampedSize k a instrument side size)) ∧
    (side = Side.SELL →
      ((sendOrder k a clock name instrument side size price).2.container
          instrument).submittedAsks -
        ((sendOrder k a clock name instrument side size price).2.container instrument).exposure
          ≤ k.positionLimit ∧
      ((Map.find (a.container instrument).books name).isSome →
        ((sendOrder k a clock name instrument side size price).2.container
          instrument).submittedAsks =
          (a.container instrument).submittedAsks + clampedSize k a instrument side size)) := by
  obtain ⟨_, _, _, hpos, hcont⟩ :=
    sendOrder_accepted k a clock name instrument side size price hacc
  obtain ⟨he, hb, hs⟩ := BooksContainer.sendOrder_fields (a.container instrument) a.idGen
    a.time.time name instrument side (clampedSize k a instrument side size)
    (Int.tdiv (price + Int.tdiv 100 2) 100 * 100)
  rw [hcont, he, hb, hs]
  refine ⟨rfl, ?_, ?_⟩
  · intro hside
    subst hside
    constructor
    · simp only [clampedSize, BooksContainer.getExposure, BooksContainer.getSubmittedBids]
        at hpos ⊢
      split <;> omega
    · intro hk
      simp [hk]
  · intro hside
    subst hside
    constructor
    · simp only [clampedSize, BooksContainer.getExposure, BooksContainer.getSubmitedAsks]
        at hpos ⊢
      split <;> omega
    · intro hk
      simp [hk]

/-- Witness for C1: from the initial trader, a BUY of 150 lots at 1234 in book "ETF" is
accepted with 100 lots (the position limit of the sample constants). -/
theorem sendOrder_respects_positionLimit_witness :
    ((sendOrder Constants.sample AutoTrader.new 0 "ETF" Instrument.ETF Side.BUY 150
        1234).2.container Instrument.ETF).exposure +
      ((sendOrder Constants.sample AutoTrader.new 0 "ETF" Instrument.ETF Side.BUY 150
        1234).2.container Instrument.ETF).submittedBids ≤ Constants.sample.positionLimit :=
  ((sendOrder_respects_positionLimit Constants.sample AutoTrader.new 0 "ETF" Instrument.ETF
    Side.BUY 150 1234 (by decide!)).2.1 rfl).1

end AutoTrader

/-! ## Theorems: the size dispatched by AutoTrader::sendOrder -/

namespace AutoTrader

/-- C23 (amended): the size that an accepted `AutoTrader::sendOrder` dispatches, to the
exchange and to the ledger, is `min(requested size, capacity)`, where for a buy
`capacity = positionLimit - exposure - submitted bid volume` and for a sell
`capacity = exposure - submitted ask volume + positionLimit`, each read from the
instrument's container: the sell capacity uses the volume submitted on the same side. -/
theorem sendOrder_dispatches_min_size_capacity (k : Constants) (a : AutoTrader) (clock : ℚ)
    (name : String) (instrument : Instrument) (side : Side) (size price : Int)
    (hacc : (sendOrder k a clock name instrument side size price).1 = true) :
    (side = Side.BUY →
      0 < min size (k.positionLimit - (a.container instrument).exposure -
        (a.container instrument).submittedBids) ∧
      (sendOrder k a clock name instrument side size price).2.container instrument =
        ((a.container instrument).sendOrder a.idGen a.time.time name instrument side
          (min size (k.positionLimit - (a.container instrument).exposure -
            (a.container instrument).submittedBids)) (roundToTick price)).1 ∧
      ∃ id p, (sendOrder k a clock name instrument side size price).2.outbox = a.outbox ++
        [if instrument = Instrument.ETF then
          ExchangeCall.insertOrder id side p
            (toULong (min size (k.positionLimit - (a.container instrument).exposure -
              (a.container instrument).submittedBids))) Lifespan.GOOD_FOR_DAY
         else
          ExchangeCall.hedgeOrder id side p
            (toULong (min size (k.positionLimit - (a.container instrument).exposure -
              (a.container instrument).submittedBids)))]) ∧
    (side = Side.SELL →
      0 < min size ((a.container instrument).exposure - (a.container instrument).submittedAsks +
        k.positionLimit) ∧
      (sendOrder k a clock name instrument side size price).2.container instrument =
        ((a.container instrument).sendOrder a.idGen a.time.time name instrument side
          (min size ((a.container instrument).exposure - (a.container instrument).submittedAsks +
            k.positionLimit)) (roundToTick price)).1 ∧
      ∃ id p, (sendOrder k a clock name instrument side size price).2.outbox = a.outbox ++
        [if instrument = Instrument.ETF then
          ExchangeCall.insertOrder id side p
            (toULong (min size ((a.container instrument).exposure -
              (a.container instrument).submittedAsks + k.positionLimit))) Lifespan.GOOD_FOR_DAY
         else
          ExchangeCall.hedgeOrder id side p
            (toULong (min size ((a.container instrument).exposure -
              (a.container instrument).submittedAsks + k.positionLimit)))]) := by
  obtain ⟨hlim, hlo, hhi, hpos, hcont⟩ :=
    sendOrder_accepted k a clock name instrument side size price hacc
  have h1 : ¬ (a.frequencyLimiter.sendMessage clock).1 = false := by simp [hlim]
  have h2 : ¬ (price > k.MAXIMUM_ASK ∨ price < k.MINIMUM_BID) := by omega
  have h3 : ¬ clampedSize k
      { a with frequencyLimiter := (a.frequencyLimiter.sendMessage clock).2 }
      instrument side size ≤ 0 := by
    have h3' : 0 < clampedSize k
      { a with frequencyLimiter := (a.frequencyLimiter.sendMessage clock).2 }
      instrument side size := hpos
    omega
  have hout : ∃ id p, (sendOrder k a clock name instrument side size price).2.outbox = a.outbox ++
      [if instrument = Instrument.ETF then
        ExchangeCall.insertOrder id side p (toULong (clampedSize k a instrument side size))
          Lifespan.GOOD_FOR_DAY
       else
        ExchangeCall.hedgeOrder id side p (toULong (clampedSize k a instrument side size))] := by
    cases instrument
    · exact ⟨_, _, by simp only [sendOrder, if_neg h1, if_neg h2, if_neg h3]; rfl⟩
    · exact ⟨_, _, by simp only [sendOrder, if_neg h1, if_neg h2, if_neg h3]; rfl⟩
  constructor
  · intro hs
    subst hs
    exact ⟨hpos, hcont, hout⟩
  · intro hs
    subst hs
    exact ⟨hpos, hcont, hout⟩

/-- C23 (counterexample): on `AutoTrader.sampleRestingBid` the ETF container has
exposure 0, submitted bid volume 50 and submitted ask volume 0, and `positionLimit` is
100.  A SELL request of 100 lots is dispatched for 100 lots, not for
`min(100, 0 - 50 + 100) = 50`. -/
theorem sendOrder_sell_capacity_ignores_bids :
    AutoTrader.sampleRestingBid.allEtfBooks.exposure = 0 ∧
    AutoTrader.sampleRestingBid.allEtfBooks.submittedBids = 50 ∧
    AutoTrader.sampleRestingBid.allEtfBooks.submittedAsks = 0 ∧
    (sendOrder Constants.sample AutoTrader.sampleRestingBid 0 "ETF" Instrument.ETF Side.SELL 100
      10300).2.outbox =
      [ExchangeCall.insertOrder 1 Side.BUY 10100 50 Lifespan.GOOD_FOR_DAY,
       ExchangeCall.insertOrder 2 Side.SELL 10300 100 Lifespan.GOOD_FOR_DAY] ∧
    min (100 : Int) (0 - 50 + Constants.sample.positionLimit) = 50 := by
  decide!

/-- Witness for C23: the SELL of 100 lots on `AutoTrader.sampleRestingBid`. -/
theorem sendOrder_dispatches_min_size_capacity_witness :
    0 < min (100 : Int) ((AutoTrader.sampleRestingBid.container Instrument.ETF).exposure -
      (AutoTrader.sampleRestingBid.container Instrument.ETF).submittedAsks +
      Constants.sample.positionLimit) :=
  ((sendOrder_dispatches_min_size_capacity Constants.sample AutoTrader.sampleRestingBid 0 "ETF"
    Instrument.ETF Side.SELL 100 10300 (by decide!)).2 rfl).1

end AutoTrader


/-! ## Theorems: MarketStream::getBackNth -/

namespace MarketStream

/-- C40: `getBackNth(n)` for `n ≥ 0`.  On a non-empty stream it returns the value pushed
`n` positions before the most recent one when `n < size` and the empty optional
otherwise.  On an empty stream `data.size() - 1` wraps to `2 ^ 64 - 1`, the guard does
not fire and the vector is indexed at `2 ^ 64 - 1 - n`, outside its bounds: the call has
no defined result, in particular it does not return the empty optional. -/
theorem getBackNth_nonempty_and_empty (s : MarketStream) (n : Int) (h0 : 0 ≤ n)
    (hn : n < (two63 : Int)) (hlen : s.data.length < two63) :
    (s.data ≠ [] → getBackNth s n = some (s.data.reverse[n.toNat]?)) ∧
    (s.data = [] → getBackNth s n = none ∧
      toULong ((s.data.length : Int) - 1) = two64 - 1 ∧
      ¬ toULong n > toULong ((s.data.length : Int) - 1) ∧
      toULong ((s.data.length : Int) - 1 - n) = two64 - 1 - n.toNat ∧
      ¬ toULong ((s.data.length : Int) - 1 - n) < s.data.length) := by
  obtain ⟨m, rfl⟩ := Int.eq_ofNat_of_zero_le h0
  have hm : m < two63 := by exact_mod_cast hn
  have hmU : toULong (m : Int) = m := toULong_natCast m (by unfold two63 two64 at *; omega)
  constructor
  · intro hne
    have hpos : 0 < s.data.length := List.length_pos.2 hne
    have hL : toULong ((s.data.length : Int) - 1) = s.data.length - 1 := by
      have : ((s.data.length : Int) - 1) = ((s.data.length - 1 : Nat) : Int) := by omega
      rw [this]
      exact toULong_natCast _ (by unfold two63 two64 at *; omega)
    simp only [getBackNth, hmU, hL, Int.toNat_ofNat]
    by_cases hgt : m > s.data.length - 1
    · rw [if_pos hgt]
      have : s.data.reverse[m]? = none := by
        apply List.getElem?_eq_none
        rw [List.length_reverse]; omega
      rw [this]
    · rw [if_neg hgt]
      have hidx : toULong ((s.data.length : Int) - 1 - (m : Int)) = s.data.length - 1 - m := by
        have : ((s.data.length : Int) - 1 - (m : Int)) = ((s.data.length - 1 - m : Nat) : Int) := by
          omega
        rw [this]
        exact toULong_natCast _ (by unfold two63 two64 at *; omega)
      rw [hidx]
      have hlt : m < s.data.length := by omega
      rw [List.getElem?_reverse hlt]
      have hlt2 : s.data.length - 1 - m < s.data.length := by omega
      rw [List.getElem?_eq_getElem hlt2]
  · intro he
    have hOne : toULong ((0 : Int) - 1) = two64 - 1 := by decide
    have hidx : toULong ((0 : Int) - 1 - (m : Int)) = two64 - 1 - m := by
      unfold toULong
      have h1 : ((0 : Int) - 1 - (m : Int)) % (two64 : Int) = (two64 : Int) - 1 - (m : Int) := by
        unfold two63 two64 at *
        omega
      rw [h1]
      unfold two63 two64 at *
      omega
    simp only [getBackNth, he, List.length_nil, Nat.cast_zero, hmU, hOne, hidx, Int.toNat_ofNat]
    refine ⟨?_, trivial, ?_, trivial, ?_⟩
    · have hng : ¬ m > two64 - 1 := by unfold two63 two64 at *; omega
      rw [if_neg hng]
      simp
    · unfold two63 two64 at *; omega
    · omega

/-- Witness for C40: the third-last value of a stream of three values, and the empty
stream. -/
theorem getBackNth_nonempty_and_empty_witness :
    getBackNth { data := [1, 2, 3] } 2 = some (some 1) ∧
    getBackNth { data := [1, 2, 3] } 3 = some none ∧
    getBackNth { data := [] } 0 = none :=
  ⟨((getBackNth_nonempty_and_empty { data := [1, 2, 3] } 2 (by decide) (by decide)
      (by decide)).1 (by decide)).trans (by decide),
   ((getBackNth_nonempty_and_empty { data := [1, 2, 3] } 3 (by decide) (by decide)
      (by decide)).1 (by decide)).trans (by decide),
   ((getBackNth_nonempty_and_empty { data := [] } 0 (by decide) (by decide)
      (by decide)).2 rfl).1⟩

end MarketStream


/-! ## Theorems: termination of the trade matcher -/

namespace TradeMatcher

theorem settleIterations_cons (bid ask : Order) (bs as : List Order) :
    settleIterations (bid :: bs) (ask :: as) =
      settleIterations
        (if bid.size - min bid.size ask.size ≠ 0 then
          { bid with size := bid.size - min bid.size ask.size } :: bs else bs)
        (if ask.size - min bid.size ask.size ≠ 0 then
          { ask with size := ask.size - min bid.size ask.size } :: as else as) + 1 := by
  rw [settleIterations]

theorem settleQueues_one_side_empty :
    ∀ (n : Nat) (bids asks : List Order), bids.length + asks.length ≤ n →
      ((settleQueues bids asks).1 = [] ∨ (settleQueues bids asks).2 = []) ∧
      settleIterations bids asks ≤ bids.length + asks.length := by
  intro n
  induction n with
  | zero =>
    intro bids asks h
    have hb : bids = [] := List.length_eq_zero.1 (by omega)
    subst hb
    rw [settleQueues_nil_left, settleIterations]
    exact ⟨Or.inl rfl, Nat.zero_le _⟩
  | succ n ih =>
    intro bids asks h
    cases bids with
    | nil =>
      rw [settleQueues_nil_left, settleIterations]
      exact ⟨Or.inl rfl, Nat.zero_le _⟩
    | cons bid bs =>
      cases asks with
      | nil =>
        rw [settleQueues_nil_right, settleIterations]
        · exact ⟨Or.inr rfl, Nat.zero_le _⟩
        · intro hcontra
          cases hcontra
      | cons ask as =>
        rw [settleQueues_cons, settleIterations_cons]
        simp only [List.length_cons] at h ⊢
        by_cases hle : bid.size ≤ ask.size
        · have hb : bid.size - min bid.size ask.size = 0 := by
            rw [Nat.min_eq_left hle]; omega
          simp only [hb, ne_eq, not_true_eq_false, if_false]
          by_cases ha : ask.size - min bid.size ask.size = 0
          · simp only [ha, ne_eq, not_true_eq_false, if_false]
            obtain ⟨h1, h2⟩ := ih bs as (by omega)
            exact ⟨h1, by omega⟩
          · simp only [ha, ne_eq, not_false_eq_true, if_true]
            obtain ⟨h1, h2⟩ := ih bs
              ({ ask with size := ask.size - min bid.size ask.size } :: as)
              (by simp only [List.length_cons]; omega)
            simp only [List.length_cons] at h2
            exact ⟨h1, by omega⟩
        · have ha : ask.size - min bid.size ask.size = 0 := by
            rw [Nat.min_eq_right (by omega)]; omega
          have hb : ¬ bid.size - min bid.size ask.size = 0 := by
            rw [Nat.min_eq_right (by omega)]; omega
          simp only [ha, hb, ne_eq, not_true_eq_false, not_false_eq_true, if_false, if_true]
          obtain ⟨h1, h2⟩ := ih
            ({ bid with size := bid.size - min bid.size ask.size } :: bs) as
            (by simp only [List.length_cons]; omega)
          simp only [List.length_cons] at h2
          exact ⟨h1, by omega⟩

/-- C32: for every content of the two unmatched queues, entries of size 0 included, the
loop of `settleFilledOrders` ends after at most as many iterations as the two queues
have entries, and when it has ended at least one of the two queues is empty; hence after
every `push` at most one side has unmatched fills. -/
theorem settleFilledOrders_terminates_one_side_empty :
    (∀ bids asks : List Order,
      settleIterations bids asks ≤ bids.length + asks.length ∧
      ((settleQueues bids asks).1 = [] ∨ (settleQueues bids asks).2 = [])) ∧
    (∀ m : TradeMatcher,
      (settleFilledOrders m).unmatchedBids = [] ∨ (settleFilledOrders m).unmatchedAsks = []) ∧
    (∀ (m : TradeMatcher) (order : Order),
      (push m order).unmatchedBids = [] ∨ (push m order).unmatchedAsks = []) := by
  refine ⟨?_, ?_, ?_⟩
  · intro bids asks
    obtain ⟨h1, h2⟩ := settleQueues_one_side_empty _ bids asks (Nat.le_refl _)
    exact ⟨h2, h1⟩
  · intro m
    exact (settleQueues_one_side_empty _ m.unmatchedBids m.unmatchedAsks (Nat.le_refl _)).1
  · intro m order
    simp only [push]
    cases order.side
    · exact (settleQueues_one_side_empty _ _ _ (Nat.le_refl _)).1
    · exact (settleQueues_one_side_empty _ _ _ (Nat.le_refl _)).1

end TradeMatcher


/-! ## Theorems: a cancel leaves the order resting -/

namespace Book

theorem cancelOrder_eq (b : Book) (id : Nat) :
    b.cancelOrder id =
      { b with ordersCancelled :=
          b.ordersCancelled + (if (b.findOrder id).isSome then 1 else 0) } := by
  unfold cancelOrder
  cases h : b.findOrder id with
  | none => simp
  | some o => simp

end Book

namespace BooksContainer

theorem cancelOrder_getBids (c : BooksContainer) (id : Nat) :
    (c.cancelOrder id).getBids = c.getBids ∧ (c.cancelOrder id).getAsks = c.getAsks := by
  simp only [getBids, getAsks, cancelOrder, List.foldl_map, (Book.cancelOrder_maps _ id).1,
    (Book.cancelOrder_maps _ id).2.1, and_self]

theorem cancelOrder_findOrder (c : BooksContainer) (id id1 : Nat) :
    (c.cancelOrder id).findOrder id1 = c.findOrder id1 := by
  simp only [findOrder, cancelOrder]
  induction c.books with
  | nil => rfl
  | cons e rest ih =>
    simp only [List.map_cons, findOrderIn, Book.findOrder_cancelOrder, ih]

end BooksContainer

namespace AutoTrader

/-- C37: a ledger cancel never removes an order.  `Book::cancelOrder` changes nothing but
`ordersCancelled`, which grows by one when the book holds the id and stays as it is
otherwise.  `BooksContainer::cancelOrder` applies this to every book and leaves the
aggregated exposure, submitted volumes and cash, the merged resting bids and asks and
every lookup unchanged; in a container that satisfies its invariant at most one book
holds the id.  `AutoTrader::cancelOrder` does this on both containers when the limiter
permits and leaves them unchanged otherwise.  So a cancelled order stays resting and
counted in the submitted volume; `orderClosed` is what removes it. -/
theorem cancel_leaves_order_resting :
    (∀ (b : Book) (id : Nat),
      b.cancelOrder id =
        { b with ordersCancelled :=
            b.ordersCancelled + (if (b.findOrder id).isSome then 1 else 0) } ∧
      (b.cancelOrder id).bids = b.bids ∧ (b.cancelOrder id).asks = b.asks ∧
      (b.cancelOrder id).exposure = b.exposure ∧
      (b.cancelOrder id).submittedBids = b.submittedBids ∧
      (b.cancelOrder id).submittedAsks = b.submittedAsks ∧
      (b.cancelOrder id).dummyCash = b.dummyCash ∧
      (∀ id1, (b.cancelOrder id).findOrder id1 = b.findOrder id1)) ∧
    (∀ (c : BooksContainer) (id : Nat),
      (c.cancelOrder id).books = c.books.map (fun e => (e.1, e.2.cancelOrder id)) ∧
      (c.cancelOrder id).getExposure = c.getExposure ∧
      (c.cancelOrder id).getSubmittedBids = c.getSubmittedBids ∧
      (c.cancelOrder id).getSubmitedAsks = c.getSubmitedAsks ∧
      (c.cancelOrder id).getDummyCash = c.getDummyCash ∧
      (c.cancelOrder id).getBids = c.getBids ∧ (c.cancelOrder id).getAsks = c.getAsks ∧
      (∀ id1, (c.cancelOrder id).findOrder id1 = c.findOrder id1)) ∧
    (∀ (c : BooksContainer) (n id : Nat) (name1 name2 : String) (b1 b2 : Book), c.Inv n →
      name1 ≠ name2 → Map.find c.books name1 = some b1 → Map.find c.books name2 = some b2 →
      b1.findOrder id ≠ none → b2.cancelOrder id = b2) ∧
    (∀ (a : AutoTrader) (clock : ℚ) (id : Nat),
      ((cancelOrder a clock id).1 = true →
        (cancelOrder a clock id).2.allEtfBooks = a.allEtfBooks.cancelOrder id ∧
        (cancelOrder a clock id).2.allFutureBooks = a.allFutureBooks.cancelOrder id) ∧
      ((cancelOrder a clock id).1 = false →
        (cancelOrder a clock id).2.allEtfBooks = a.allEtfBooks ∧
        (cancelOrder a clock id).2.allFutureBooks = a.allFutureBooks) ∧
      (cancelOrder a clock id).2.matchingEngine = a.matchingEngine ∧
      (cancelOrder a clock id).2.idGen = a.idGen) ∧
    (∀ (b : Book) (id : Nat) (o : Order), b.findOrder id = some o →
      (b.cancelOrder id).findOrder id = some o ∧
      ((b.cancelOrder id).orderClosed id).2.findOrder id =
        (b.orderClosed id).2.findOrder id) := by
  refine ⟨?_, ?_, ?_, ?_, ?_⟩
  · intro b id
    obtain ⟨h1, h2, h3, h4, h5⟩ := Book.cancelOrder_maps b id
    exact ⟨Book.cancelOrder_eq b id, h1, h2, h5, h3, h4, (BooksContainer.cancelOrder_fields b id).2.2.2,
      fun id1 => Book.findOrder_cancelOrder b id id1⟩
  · intro c id
    exact ⟨rfl, rfl, rfl, rfl, rfl, (BooksContainer.cancelOrder_getBids c id).1,
      (BooksContainer.cancelOrder_getBids c id).2,
      fun id1 => BooksContainer.cancelOrder_findOrder c id id1⟩
  · intro c n id name1 name2 b1 b2 hinv hne h1 h2 hk
    rcases hinv.2.2 name1 name2 b1 b2 hne h1 h2 id with h | h
    · exact absurd h hk
    · exact Book.cancelOrder_unknown b2 id h
  · intro a clock id
    by_cases hl : (a.frequencyLimiter.sendMessage clock).1 = false
    · simp [cancelOrder, hl]
    · simp [cancelOrder, hl]
  · intro b id o h
    refine ⟨by rw [Book.findOrder_cancelOrder]; exact h, ?_⟩
    rw [Book.cancelOrder_eq]
    have hfo : ∀ x, Book.findOrder { b with ordersCancelled := x } id = b.findOrder id :=
      fun _ => rfl
    simp only [Book.orderClosed, hfo, h]
    cases o.side <;> rfl

end AutoTrader


/-! ## Theorems: the outlier filter of the fair-value estimator -/

namespace InverseVWAP

theorem filteredAskVolumes_getD (depth i : Nat) (askPricesIn askVolumesIn : List Nat)
    (hi : i < depth) :
    (filteredAskVolumes depth askPricesIn askVolumesIn).getD i 0 =
      if toULong ((askPricesIn.getD i 0 : Int) - (askPricesIn.getD 0 0 : Int))
          > toULong ticksForOutlier
      then 0 else askVolumesIn.getD i 0 := by
  simp only [filteredAskVolumes, List.getD_eq_getElem?_getD, List.getElem?_map,
    List.getElem?_range hi, Option.map_some', Option.getD_some]

theorem filteredBidVolumes_getD (depth i : Nat) (bidPricesIn bidVolumesIn : List Nat)
    (hi : i < depth) :
    (filteredBidVolumes depth bidPricesIn bidVolumesIn).getD i 0 =
      if toULong ((bidPricesIn.getD 0 0 : Int) - (bidPricesIn.getD i 0 : Int))
          > toULong ticksForOutlier
      then 0 else bidVolumesIn.getD i 0 := by
  simp only [filteredBidVolumes, List.getD_eq_getElem?_getD, List.getElem?_map,
    List.getElem?_range hi, Option.map_some', Option.getD_some]

/-- The test `(p - q) > ticksForOutlier` on two `unsigned long` prices below `2 ^ 63`: it
holds when `p` exceeds `q` by more than 1000 and, because the difference wraps, whenever
`p` is below `q`. -/
theorem outlier_test (p q : Nat) (hp : p < two63) (hq : q < two63) :
    toULong ((p : Int) - (q : Int)) > toULong ticksForOutlier ↔ p < q ∨ q + 1000 < p := by
  have h1000 : toULong ticksForOutlier = 1000 := by decide
  rw [h1000]
  by_cases hlt : p < q
  · have hw : toULong ((p : Int) - (q : Int)) = two64 - (q - p) := by
      unfold toULong
      have h1 : ((p : Int) - (q : Int)) % (two64 : Int) = (two64 : Int) - ((q : Int) - (p : Int)) := by
        unfold two63 two64 at *
        omega
      rw [h1]
      unfold two63 two64 at *
      omega
    rw [hw]
    unfold two63 two64 at *
    omega
  · have hw : toULong ((p : Int) - (q : Int)) = p - q := by
      have : ((p : Int) - (q : Int)) = ((p - q : Nat) : Int) := by omega
      rw [this]
      exact toULong_natCast _ (by unfold two63 two64 at *; omega)
    rw [hw]
    omega

/-- C31: the volume that the estimator uses for level `i` of a side, in a snapshot whose
level 0 holds the best price of the side among the levels that carry volume (prices are
below `2 ^ 63`): it is 0 if the price of the level deviates from the price of level 0 by
more than 1000, and the input volume otherwise.  The filtered volumes are new arrays of
the same depth; the function receives the input arrays as values and returns only the
estimate. -/
theorem outlier_volume_by_deviation (depth : Nat)
    (askPricesIn askVolumesIn bidPricesIn bidVolumesIn : List Nat)
    (hap : ∀ i, askPricesIn.getD i 0 < two63) (hbp : ∀ i, bidPricesIn.getD i 0 < two63)
    (hask : ∀ i, i < depth →
      askPricesIn.getD 0 0 ≤ askPricesIn.getD i 0 ∨ askVolumesIn.getD i 0 = 0)
    (hbid : ∀ i, i < depth →
      bidPricesIn.getD i 0 ≤ bidPricesIn.getD 0 0 ∨ bidVolumesIn.getD i 0 = 0) :
    (filteredAskVolumes depth askPricesIn askVolumesIn).length = depth ∧
    (filteredBidVolumes depth bidPricesIn bidVolumesIn).length = depth ∧
    (∀ i, i < depth →
      (filteredAskVolumes depth askPricesIn askVolumesIn).getD i 0 =
        if |(askPricesIn.getD i 0 : Int) - (askPricesIn.getD 0 0 : Int)| > 1000 then 0
        else askVolumesIn.getD i 0) ∧
    (∀ i, i < depth →
      (filteredBidVolumes depth bidPricesIn bidVolumesIn).getD i 0 =
        if |(bidPricesIn.getD i 0 : Int) - (bidPricesIn.getD 0 0 : Int)| > 1000 then 0
        else bidVolumesIn.getD i 0) := by
  refine ⟨by simp [filteredAskVolumes], by simp [filteredBidVolumes], ?_, ?_⟩
  · intro i hi
    rw [filteredAskVolumes_getD depth i _ _ hi]
    have ht := outlier_test (askPricesIn.getD i 0) (askPricesIn.getD 0 0) (hap i) (hap 0)
    rcases hask i hi with hle | hz
    · have habs : |(askPricesIn.getD i 0 : Int) - (askPricesIn.getD 0 0 : Int)| =
          (askPricesIn.getD i 0 : Int) - (askPricesIn.getD 0 0 : Int) :=
        abs_of_nonneg (by omega)
      rw [habs]
      by_cases hc : toULong ((askPricesIn.getD i 0 : Int) - (askPricesIn.getD 0 0 : Int))
          > toULong ticksForOutlier
      · rw [if_pos hc, if_pos (by have := ht.1 hc; omega)]
      · rw [if_neg hc, if_neg (by intro hgt; exact hc (ht.2 (Or.inr (by omega))))]
    · rw [hz]
      simp
  · intro i hi
    rw [filteredBidVolumes_getD depth i _ _ hi]
    have ht := outlier_test (bidPricesIn.getD 0 0) (bidPricesIn.getD i 0) (hbp 0) (hbp i)
    rcases hbid i hi with hle | hz
    · have habs : |(bidPricesIn.getD i 0 : Int) - (bidPricesIn.getD 0 0 : Int)| =
          (bidPricesIn.getD 0 0 : Int) - (bidPricesIn.getD i 0 : Int) := by
        rw [abs_of_nonpos (by omega)]
        omega
      rw [habs]
      by_cases hc : toULong ((bidPricesIn.getD 0 0 : Int) - (bidPricesIn.getD i 0 : Int))
          > toULong ticksForOutlier
      · rw [if_pos hc, if_pos (by have := ht.1 hc; omega)]
      · rw [if_neg hc, if_neg (by intro hgt; exact hc (ht.2 (Or.inr (by omega))))]
    · rw [hz]
      simp

/-- Witness for C31: asks `[10000, 10500, 11100, 0, 0]` and bids `[9900, 9800, 8800, 0, 0]`
with 10 lots on each of the three priced levels; the third level of each side deviates
by 1100 and is dropped. -/
theorem outlier_volume_by_deviation_witness :
    (filteredAskVolumes 5 [10000, 10500, 11100, 0, 0] [10, 10, 10, 0, 0]).getD 2 0 =
      (if |(((([10000, 10500, 11100, 0, 0] : List Nat).getD 2 0 : Nat) : Int)) -
          (((([10000, 10500, 11100, 0, 0] : List Nat).getD 0 0 : Nat) : Int))| > 1000 then 0
        else ([10, 10, 10, 0, 0] : List Nat).getD 2 0) ∧
    filteredAskVolumes 5 [10000, 10500, 11100, 0, 0] [10, 10, 10, 0, 0] = [10, 10, 0, 0, 0] ∧
    filteredBidVolumes 5 [9900, 9800, 8800, 0, 0] [10, 10, 10, 0, 0] = [10, 10, 0, 0, 0] :=
  ⟨(outlier_volume_by_deviation 5 [10000, 10500, 11100, 0, 0] [10, 10, 10, 0, 0]
      [9900, 9800, 8800, 0, 0] [10, 10, 10, 0, 0]
      (by intro i; rcases i with _ | _ | _ | _ | _ | i <;> simp [two63])
      (by intro i; rcases i with _ | _ | _ | _ | _ | i <;> simp [two63])
      (by intro i hi; rcases i with _ | _ | _ | _ | _ | i <;> simp at hi ⊢)
      (by intro i hi; rcases i with _ | _ | _ | _ | _ | i <;> simp at hi ⊢)).2.2.1 2
      (by decide),
    by decide, by decide⟩

end InverseVWAP


/-! ## Theorems: the price dispatched by AutoTrader::sendOrder -/

namespace AutoTrader

theorem roundToTick_of_nonneg (price : Int) (h : 0 ≤ price) :
    roundToTick price = (price + 50) / 100 * 100 := by
  have h50 : Int.tdiv 100 2 = 50 := by decide
  unfold roundToTick
  rw [h50, Int.tdiv_eq_ediv (by omega) (by omega)]

theorem sendOrder_accepted_outbox (k : Constants) (a : AutoTrader) (clock : ℚ)
    (name : String) (instrument : Instrument) (side : Side) (size price : Int)
    (hacc : (sendOrder k a clock name instrument side size price).1 = true) :
    (sendOrder k a clock name instrument side size price).2.outbox = a.outbox ++
      [if instrument = Instrument.ETF then
        ExchangeCall.insertOrder
          ((a.container instrument).sendOrder a.idGen a.time.time name instrument side
            (clampedSize k a instrument side size) (roundToTick price)).2.getCurrent side
          (toULong (roundToTick price)) (toULong (clampedSize k a instrument side size))
          Lifespan.GOOD_FOR_DAY
       else
        ExchangeCall.hedgeOrder
          ((a.container instrument).sendOrder a.idGen a.time.time name instrument side
            (clampedSize k a instrument side size) (roundToTick price)).2.getCurrent side
          (toULong (roundToTick price)) (toULong (clampedSize k a instrument side size))] ∧
    (sendOrder k a clock name instrument side size price).2.idGen =
      ((a.container instrument).sendOrder a.idGen a.time.time name instrument side
        (clampedSize k a instrument side size) (roundToTick price)).2 := by
  by_cases h1 : (a.frequencyLimiter.sendMessage clock).1 = false
  · simp only [sendOrder, if_pos h1] at hacc; cases hacc
  by_cases h2 : price > k.MAXIMUM_ASK ∨ price < k.MINIMUM_BID
  · simp only [sendOrder, if_neg h1, if_pos h2] at hacc; cases hacc
  by_cases h3 : clampedSize k a instrument side size ≤ 0
  · have h3' : clampedSize k
        { a with frequencyLimiter := (a.frequencyLimiter.sendMessage clock).2 }
        instrument side size ≤ 0 := h3
    simp only [sendOrder, if_neg h1, if_neg h2, if_pos h3'] at hacc; cases hacc
  have h3' : ¬ clampedSize k
      { a with frequencyLimiter := (a.frequencyLimiter.sendMessage clock).2 }
      instrument side size ≤ 0 := h3
  cases instrument
  · simp only [sendOrder, if_neg h1, if_neg h2, if_neg h3', container, roundToTick]
    simp
    exact ⟨⟨rfl, rfl⟩, rfl⟩
  · simp only [sendOrder, if_neg h1, if_neg h2, if_neg h3', container, roundToTick]
    simp
    exact ⟨⟨rfl, rfl⟩, rfl⟩

/-- C38 (amended): with the exchange bounds `MINIMUM_BID = 1` and
`MAXIMUM_ASK = 2147483647`, for every order that `AutoTrader::sendOrder` dispatches the
price sent to the exchange and stored in the ledger is the tick-rounded price: a multiple
of 100, the multiple of 100 nearest to the requested price (ties rounded up), and within
`[0, MAXIMUM_ASK]`.  It is within `[MINIMUM_BID, MAXIMUM_ASK]` exactly when the requested
price is at least 50: the range check precedes the rounding, and a requested price from
1 to 49 is rounded to 0. -/
theorem sendOrder_dispatches_rounded_price (k : Constants) (a : AutoTrader) (clock : ℚ)
    (name : String) (instrument : Instrument) (side : Side) (size price : Int)
    (hmin : k.MINIMUM_BID = 1) (hmax : k.MAXIMUM_ASK = 2147483647)
    (hacc : (sendOrder k a clock name instrument side size price).1 = true) :
    (∃ id volume, (sendOrder k a clock name instrument side size price).2.outbox =
      a.outbox ++
        [if instrument = Instrument.ETF then
          ExchangeCall.insertOrder id side (toULong (roundToTick price)) volume
            Lifespan.GOOD_FOR_DAY
         else ExchangeCall.hedgeOrder id side (toULong (roundToTick price)) volume]) ∧
    (sendOrder k a clock name instrument side size price).2.container instrument =
      ((a.container instrument).sendOrder a.idGen a.time.time name instrument side
        (clampedSize k a instrument side size) (roundToTick price)).1 ∧
    ((toULong (roundToTick price) : Nat) : Int) = roundToTick price ∧
    (Order.new (a.idGen.currClientOrderID + 1) (clampedSize k a instrument side size)
      (roundToTick price) side a.time.time instrument).price = toULong (roundToTick price) ∧
    (100 : Int) ∣ roundToTick price ∧
    roundToTick price - 50 ≤ price ∧ price < roundToTick price + 50 ∧
    (∀ q : Int, (100 : Int) ∣ q → |price - roundToTick price| ≤ |price - q|) ∧
    0 ≤ roundToTick price ∧ roundToTick price ≤ k.MAXIMUM_ASK ∧
    (k.MINIMUM_BID ≤ roundToTick price ↔ 50 ≤ price) := by
  obtain ⟨_, hlo, hhi, _, hcont⟩ := sendOrder_accepted k a clock name instrument side size price hacc
  obtain ⟨hout, _⟩ := sendOrder_accepted_outbox k a clock name instrument side size price hacc
  rw [hmin] at hlo ⊢
  rw [hmax] at hhi ⊢
  have hr := roundToTick_of_nonneg price (by omega)
  have hnn : 0 ≤ roundToTick price := by rw [hr]; omega
  refine ⟨?_, hcont, ?_, rfl, ?_, ?_, ?_, ?_, hnn, ?_, ?_⟩
  · refine ⟨((a.container instrument).sendOrder a.idGen a.time.time name instrument side
        (clampedSize k a instrument side size) (roundToTick price)).2.getCurrent,
      toULong (clampedSize k a instrument side size), ?_⟩
    rw [hout]
  · exact toULong_of_range _ hnn (by rw [hr]; unfold two64; omega)
  · rw [hr]; exact Dvd.intro_left _ rfl
  · rw [hr]; omega
  · rw [hr]; omega
  · rintro q ⟨c, rfl⟩
    rw [hr]
    rw [abs_le]
    constructor
    · have := neg_abs_le (price - 100 * c)
      rcases abs_cases (price - 100 * c) with ⟨h1, _⟩ | ⟨h1, _⟩ <;> omega
    · rcases abs_cases (price - 100 * c) with ⟨h1, _⟩ | ⟨h1, _⟩ <;> omega
  · rw [hr]; omega
  · rw [hr]; omega

/-- C38 (counterexample): from the constructed trader, a BUY of 10 lots at the requested
price 40 passes the range check `1 ≤ 40 ≤ 2147483647` and is dispatched; the price sent
to the exchange and stored in the ledger is 0, below `MINIMUM_BID = 1`. -/
theorem sendOrder_rounds_low_price_to_zero :
    Constants.sample.MINIMUM_BID = 1 ∧
    (sendOrder Constants.sample AutoTrader.new 0 "ETF" Instrument.ETF Side.BUY 10 40).1 = true ∧
    (sendOrder Constants.sample AutoTrader.new 0 "ETF" Instrument.ETF Side.BUY 10 40).2.outbox =
      [ExchangeCall.insertOrder 1 Side.BUY 0 10 Lifespan.GOOD_FOR_DAY] ∧
    ((sendOrder Constants.sample AutoTrader.new 0 "ETF" Instrument.ETF Side.BUY 10
      40).2.allEtfBooks.findOrder 1).map (fun o => o.price) = some 0 := by
  decide!

/-- Witness for C38: a BUY of 10 lots at the requested price 1250 is dispatched at
1300. -/
theorem sendOrder_dispatches_rounded_price_witness :
    roundToTick 1250 - 50 ≤ (1250 : Int) ∧ (100 : Int) ∣ roundToTick 1250 ∧
    roundToTick 1250 = 1300 :=
  ⟨(sendOrder_dispatches_rounded_price Constants.sample AutoTrader.new 0 "ETF" Instrument.ETF
      Side.BUY 10 1250 rfl rfl (by decide!)).2.2.2.2.2.1,
   (sendOrder_dispatches_rounded_price Constants.sample AutoTrader.new 0 "ETF" Instrument.ETF
      Side.BUY 10 1250 rfl rfl (by decide!)).2.2.2.2.1,
   by decide⟩

end AutoTrader


/-! ## Theorems: properties kept by the trading functions -/

namespace AutoTrader

/-- The effect of `sendOrder` on the ledger: either nothing, or one `sendOrder` of the
instrument's container with the clamped size and the tick-rounded price. -/
theorem sendOrder_ledger (k : Constants) (a : AutoTrader) (clock : ℚ) (name : String)
    (instrument : Instrument) (side : Side) (size price : Int) :
    (sendOrder k a clock name instrument side size price).2.matchingEngine = a.matchingEngine ∧
    (((sendOrder k a clock name instrument side size price).1 = false ∧
        (sendOrder k a clock name instrument side size price).2.allEtfBooks = a.allEtfBooks ∧
        (sendOrder k a clock name instrument side size price).2.allFutureBooks =
          a.allFutureBooks ∧
        (sendOrder k a clock name instrument side size price).2.idGen = a.idGen) ∨
      ((sendOrder k a clock name instrument side size price).1 = true ∧
        instrument = Instrument.ETF ∧ 0 < clampedSize k a instrument side size ∧
        (sendOrder k a clock name instrument side size price).2.allEtfBooks =
          (a.allEtfBooks.sendOrder a.idGen a.time.time name Instrument.ETF side
            (clampedSize k a instrument side size) (roundToTick price)).1 ∧
        (sendOrder k a clock name instrument side size price).2.idGen =
          (a.allEtfBooks.sendOrder a.idGen a.time.time name Instrument.ETF side
            (clampedSize k a instrument side size) (roundToTick price)).2 ∧
        (sendOrder k a clock name instrument side size price).2.allFutureBooks =
          a.allFutureBooks) ∨
      ((sendOrder k a clock name instrument side size price).1 = true ∧
        instrument = Instrument.FUTURE ∧ 0 < clampedSize k a instrument side size ∧
        (sendOrder k a clock name instrument side size price).2.allFutureBooks =
          (a.allFutureBooks.sendOrder a.idGen a.time.time name Instrument.FUTURE side
            (clampedSize k a instrument side size) (roundToTick price)).1 ∧
        (sendOrder k a clock name instrument side size price).2.idGen =
          (a.allFutureBooks.sendOrder a.idGen a.time.time name Instrument.FUTURE side
            (clampedSize k a instrument side size) (roundToTick price)).2 ∧
        (sendOrder k a clock name instrument side size price).2.allEtfBooks =
          a.allEtfBooks)) := by
  refine ⟨(sendOrder_log k a clock name instrument side size price).1, ?_⟩
  by_cases h1 : (a.frequencyLimiter.sendMessage clock).1 = false
  · left
    simp only [sendOrder, if_pos h1, and_self]
  by_cases h2 : price > k.MAXIMUM_ASK ∨ price < k.MINIMUM_BID
  · left
    simp only [sendOrder, if_neg h1, if_pos h2, and_self]
  by_cases h3 : clampedSize k a instrument side size ≤ 0
  · have h3' : clampedSize k
        { a with frequencyLimiter := (a.frequencyLimiter.sendMessage clock).2 }
        instrument side size ≤ 0 := h3
    left
    simp only [sendOrder, if_neg h1, if_neg h2, if_pos h3', and_self]
  have h3' : ¬ clampedSize k
      { a with frequencyLimiter := (a.frequencyLimiter.sendMessage clock).2 }
      instrument side size ≤ 0 := h3
  right
  cases instrument
  · right
    simp only [sendOrder, if_neg h1, if_neg h2, if_neg h3', roundToTick]
    simp
    exact ⟨by omega, rfl, rfl⟩
  · left
    simp only [sendOrder, if_neg h1, if_neg h2, if_neg h3', roundToTick]
    simp
    exact ⟨by omega, rfl, rfl⟩

/-- The effect of `cancelOrder` on the ledger: either nothing, or the cancel applied to
both containers. -/
theorem cancelOrder_ledger (a : AutoTrader) (clock : ℚ) (id : Nat) :
    (cancelOrder a clock id).2.matchingEngine = a.matchingEngine ∧
    (cancelOrder a clock id).2.idGen = a.idGen ∧
    (((cancelOrder a clock id).1 = false ∧
        (cancelOrder a clock id).2.allEtfBooks = a.allEtfBooks ∧
        (cancelOrder a clock id).2.allFutureBooks = a.allFutureBooks) ∨
      ((cancelOrder a clock id).1 = true ∧
        (cancelOrder a clock id).2.allEtfBooks = a.allEtfBooks.cancelOrder id ∧
        (cancelOrder a clock id).2.allFutureBooks = a.allFutureBooks.cancelOrder id)) := by
  by_cases hl : (a.frequencyLimiter.sendMessage clock).1 = false
  · simp [cancelOrder, hl]
  · simp [cancelOrder, hl]

theorem hedge_keeps (k : Constants) (P : AutoTrader → Prop)
    (hsend : ∀ (a : AutoTrader) (clock : ℚ) (name : String) (instrument : Instrument)
      (side : Side) (size price : Int), P a →
      P (sendOrder k a clock name instrument side size price).2)
    (a : AutoTrader) (clock : ℚ) (h : P a) : P (hedge k a clock) := by
  unfold hedge
  simp only []
  split
  · split
    · exact hsend a clock _ _ _ _ _ h
    · exact h
  · exact h

theorem cancelStale_keeps (P : AutoTrader → Prop)
    (hcancel : ∀ (a : AutoTrader) (clock : ℚ) (id : Nat), P a → P (cancelOrder a clock id).2)
    (isStale : Order → Bool) :
    ∀ (l : List (Nat × Order)) (a : AutoTrader) (clocks : Nat → ℚ) (n : Int), P a →
      P (cancelStale isStale l a clocks n).2.1 := by
  intro l
  induction l with
  | nil => intro a clocks n h; exact h
  | cons e rest ih =>
    intro a clocks n h
    simp only [cancelStale]
    split
    · exact ih _ _ _ (hcancel a (clocks 0) e.2.clientOrderID h)
    · exact ih a clocks n h

theorem detectStaleOrders_keeps (P : AutoTrader → Prop)
    (hcancel : ∀ (a : AutoTrader) (clock : ℚ) (id : Nat), P a → P (cancelOrder a clock id).2)
    (a : AutoTrader) (clocks : Nat → ℚ) (mid bidPrice askPrice : Int) (h : P a) :
    P (detectStaleOrders a clocks mid bidPrice askPrice).2.1 := by
  simp only [detectStaleOrders]
  by_cases hb : bidPrice ≠ 0 <;> by_cases ha : askPrice ≠ 0
  · simp only [if_pos hb, if_pos ha]
    exact cancelStale_keeps P hcancel _ _ _ _ _ (cancelStale_keeps P hcancel _ _ _ _ _ h)
  · simp only [if_pos hb, if_neg ha]
    exact cancelStale_keeps P hcancel _ _ _ _ _ h
  · simp only [if_neg hb, if_pos ha]
    exact cancelStale_keeps P hcancel _ _ _ _ _ h
  · simp only [if_neg hb, if_neg ha]
    exact h

theorem makeMarket_keeps (k : Constants) (P : AutoTrader → Prop)
    (hsend : ∀ (a : AutoTrader) (clock : ℚ) (name : String) (instrument : Instrument)
      (side : Side) (size price : Int), P a →
      P (sendOrder k a clock name instrument side size price).2)
    (hcancel : ∀ (a : AutoTrader) (clock : ℚ) (id : Nat), P a → P (cancelOrder a clock id).2)
    (hext : ∀ a b : AutoTrader, a.SameLedger b → P a → P b)
    (a : AutoTrader) (clocks : Nat → ℚ) (mid : Int)
    (askPrices askVolumes bidPrices bidVolumes : List Nat) (h : P a) :
    P (makeMarket k a clocks mid askPrices askVolumes bidPrices bidVolumes).1 := by
  simp only [makeMarket]
  apply hsend
  apply hsend
  apply detectStaleOrders_keeps P hcancel
  exact hext a _ ⟨rfl, rfl, rfl, rfl⟩ h

theorem handler_keeps (k : Constants) (P : AutoTrader → Prop)
    (hsend : ∀ (a : AutoTrader) (clock : ℚ) (name : String) (instrument : Instrument)
      (side : Side) (size price : Int), P a →
      P (sendOrder k a clock name instrument side size price).2)
    (hcancel : ∀ (a : AutoTrader) (clock : ℚ) (id : Nat), P a → P (cancelOrder a clock id).2)
    (hext : ∀ a b : AutoTrader, a.SameLedger b → P a → P b)
    (a a1 : AutoTrader) (clocks clocks1 : Nat → ℚ)
    (instrument : Instrument) (seq : Nat) (askPrices askVolumes bidPrices bidVolumes : List Nat)
    (hr : OrderBookMessageHandler k a clocks instrument seq askPrices askVolumes bidPrices
      bidVolumes = some (a1, clocks1)) (h : P a) : P a1 := by
  simp only [OrderBookMessageHandler] at hr
  split at hr
  · cases hr
  · split at hr
    · simp only [Option.some.injEq, Prod.mk.injEq] at hr
      rw [← hr.1]
      refine hext a _ ?_ h
      split <;> split <;> exact ⟨rfl, rfl, rfl, rfl⟩
    · split at hr
      · simp only [Option.some.injEq, Prod.mk.injEq] at hr
        rw [← hr.1]
        refine hext a _ ?_ h
        split <;> split <;> exact ⟨rfl, rfl, rfl, rfl⟩
      · split at hr
        · cases hr
        · simp only [Option.some.injEq, Prod.mk.injEq] at hr
          rw [← hr.1]
          have key : ∀ (s : AutoTrader) (cl : Nat → ℚ) (fm : Int) (nw : ℚ), P s →
              P { (makeMarket k s cl fm askPrices askVolumes bidPrices bidVolumes).1 with
                networthHistory :=
                  (makeMarket k s cl fm askPrices askVolumes bidPrices
                    bidVolumes).1.networthHistory.push nw } :=
            fun s cl fm nw hs =>
              hext (makeMarket k s cl fm askPrices askVolumes bidPrices bidVolumes).1 _
                ⟨rfl, rfl, rfl, rfl⟩
                (makeMarket_keeps k P hsend hcancel hext s cl fm _ _ _ _ hs)
          apply key
          refine hext a _ ?_ h
          split <;> split <;> exact ⟨rfl, rfl, rfl, rfl⟩

end AutoTrader


/-! ## Theorems: the ledger invariant in every reachable trader -/

namespace BooksContainer

theorem find_sendOrder_isSome (c : BooksContainer) (g : OrderIDGenerator) (now : ℚ)
    (name : String) (instrument : Instrument) (side : Side) (size price : Int) (nm : String) :
    (Map.find (c.sendOrder g now name instrument side size price).1.books nm).isSome =
      (Map.find c.books nm).isSome := by
  cases hfind : Map.find c.books name with
  | none => rw [sendOrder_unknown c g now name instrument side size price hfind]
  | some book =>
    rw [(sendOrder_known c g now name instrument side size price book hfind).1,
      Map.find_assign]
    by_cases h : nm = name
    · rw [if_pos h, h, hfind]
      rfl
    · rw [if_neg h]

theorem find_map_isSome (bs : List (String × Book)) (f : Book → Book) (nm : String) :
    (Map.find (bs.map (fun e => (e.1, f e.2))) nm).isSome = (Map.find bs nm).isSome := by
  rw [Map.find_map_snd]
  cases Map.find bs nm <;> rfl

end BooksContainer

namespace AutoTrader

theorem ledgerOk_ext (a b : AutoTrader) (hab : a.SameLedger b) (h : a.LedgerOk) : b.LedgerOk := by
  obtain ⟨h1, h2, h3, _⟩ := hab
  unfold LedgerOk LedgerInv at *
  rw [← h1, ← h2, ← h3]
  exact h

theorem ledgerOk_new : AutoTrader.new.LedgerOk := ⟨ledgerInv_new, by decide!, by decide!⟩

theorem sendOrder_ledgerOk (k : Constants) (a : AutoTrader) (clock : ℚ) (name : String)
    (instrument : Instrument) (side : Side) (size price : Int) (h : a.LedgerOk) :
    (sendOrder k a clock name instrument side size price).2.LedgerOk := by
  obtain ⟨hinv, hn1, hn2⟩ := h
  obtain ⟨_, hcase⟩ := sendOrder_ledger k a clock name instrument side size price
  unfold LedgerOk LedgerInv at *
  rcases hcase with ⟨_, h1, h2, h3⟩ | ⟨_, _, _, h1, h3, h2⟩ | ⟨_, _, _, h2, h3, h1⟩
  · rw [h1, h2, h3]
    exact ⟨hinv, hn1, hn2⟩
  · rw [h1, h2, h3]
    exact ⟨BooksContainer.pairInv_sendOrder _ _ _ _ _ _ _ _ _ hinv,
      by rw [BooksContainer.find_sendOrder_isSome]; exact hn1, hn2⟩
  · rw [h1, h2, h3]
    exact ⟨BooksContainer.pairInv_symm _ _ _
        (BooksContainer.pairInv_sendOrder _ _ _ _ _ _ _ _ _
          (BooksContainer.pairInv_symm _ _ _ hinv)),
      hn1, by rw [BooksContainer.find_sendOrder_isSome]; exact hn2⟩

theorem cancelOrder_ledgerOk (a : AutoTrader) (clock : ℚ) (id : Nat) (h : a.LedgerOk) :
    (cancelOrder a clock id).2.LedgerOk := by
  obtain ⟨hinv, hn1, hn2⟩ := h
  obtain ⟨_, hg, hcase⟩ := cancelOrder_ledger a clock id
  unfold LedgerOk LedgerInv at *
  rcases hcase with ⟨_, h1, h2⟩ | ⟨_, h1, h2⟩
  · rw [h1, h2, hg]
    exact ⟨hinv, hn1, hn2⟩
  · rw [h1, h2, hg]
    refine ⟨BooksContainer.pairInv_symm _ _ _ (BooksContainer.pairInv_cancelOrder _ _ _ id
      (BooksContainer.pairInv_symm _ _ _ (BooksContainer.pairInv_cancelOrder _ _ _ id hinv))),
      ?_, ?_⟩
    · exact (BooksContainer.find_map_isSome a.allEtfBooks.books (fun b => b.cancelOrder id)
        "ETF").trans hn1
    · exact (BooksContainer.find_map_isSome a.allFutureBooks.books (fun b => b.cancelOrder id)
        "Future").trans hn2

theorem orderClosed_ledgerOk (a : AutoTrader) (id : Nat) (h : a.LedgerOk) :
    (orderClosed a id).LedgerOk := by
  obtain ⟨hinv, hn1, hn2⟩ := h
  unfold LedgerOk LedgerInv at *
  simp only [orderClosed]
  refine ⟨BooksContainer.pairInv_symm _ _ _ (BooksContainer.pairInv_orderClosed _ _ _ id
    (BooksContainer.pairInv_symm _ _ _ (BooksContainer.pairInv_orderClosed _ _ _ id hinv))),
    ?_, ?_⟩
  · rw [BooksContainer.container_orderClosed_books]
    exact (BooksContainer.find_map_isSome a.allEtfBooks.books (fun b => (b.orderClosed id).2)
      "ETF").trans hn1
  · rw [BooksContainer.container_orderClosed_books]
    exact (BooksContainer.find_map_isSome a.allFutureBooks.books
      (fun b => (b.orderClosed id).2) "Future").trans hn2

/-- The trader after the two container fills of `AutoTrader::orderFilled`, before the
hedge. -/
theorem orderFilled_cases (k : Constants) (a : AutoTrader) (clock : ℚ) (id : Nat)
    (price v : Int) :
    orderFilled k a clock id price v =
        { a with
          allEtfBooks := (a.allEtfBooks.orderFilled a.matchingEngine a.time.time id price v).1
          allFutureBooks := (a.allFutureBooks.orderFilled
            (a.allEtfBooks.orderFilled a.matchingEngine a.time.time id price v).2
            a.time.time id price v).1
          matchingEngine := (a.allFutureBooks.orderFilled
            (a.allEtfBooks.orderFilled a.matchingEngine a.time.time id price v).2
            a.time.time id price v).2 } ∨
    orderFilled k a clock id price v =
      hedge k
        { a with
          allEtfBooks := (a.allEtfBooks.orderFilled a.matchingEngine a.time.time id price v).1
          allFutureBooks := (a.allFutureBooks.orderFilled
            (a.allEtfBooks.orderFilled a.matchingEngine a.time.time id price v).2
            a.time.time id price v).1
          matchingEngine := (a.allFutureBooks.orderFilled
            (a.allEtfBooks.orderFilled a.matchingEngine a.time.time id price v).2
            a.time.time id price v).2 } clock := by
  simp only [orderFilled]
  split
  · left; rfl
  · split
    · left; rfl
    · right; rfl
  · split
    · left; rfl
    · right; rfl

theorem fills_ledgerOk (a : AutoTrader) (m : TradeMatcher) (now : ℚ) (id : Nat) (price v : Int)
    (h : a.LedgerOk) :
    ({ a with
      allEtfBooks := (a.allEtfBooks.orderFilled a.matchingEngine now id price v).1
      allFutureBooks := (a.allFutureBooks.orderFilled
        (a.allEtfBooks.orderFilled a.matchingEngine now id price v).2 now id price v).1
      matchingEngine := m } : AutoTrader).LedgerOk := by
  obtain ⟨hinv, hn1, hn2⟩ := h
  unfold LedgerOk LedgerInv at *
  refine ⟨BooksContainer.pairInv_symm _ _ _ (BooksContainer.pairInv_orderFilled _ _ _ _ _ _ _ _
    (BooksContainer.pairInv_symm _ _ _ (BooksContainer.pairInv_orderFilled _ _ _ _ _ _ _ _ hinv))),
    ?_, ?_⟩
  · simp only []
    rw [BooksContainer.container_orderFilled_books]
    exact (BooksContainer.find_map_isSome a.allEtfBooks.books
      (fun b => (b.orderFilled now id price v).2) "ETF").trans hn1
  · simp only []
    rw [BooksContainer.container_orderFilled_books]
    exact (BooksContainer.find_map_isSome a.allFutureBooks.books
      (fun b => (b.orderFilled now id price v).2) "Future").trans hn2

theorem orderFilled_ledgerOk (k : Constants) (a : AutoTrader) (clock : ℚ) (id : Nat)
    (price v : Int) (h : a.LedgerOk) : (orderFilled k a clock id price v).LedgerOk := by
  rcases orderFilled_cases k a clock id price v with hc | hc
  · rw [hc]
    exact fills_ledgerOk a _ _ id price v h
  · rw [hc]
    exact hedge_keeps k LedgerOk (sendOrder_ledgerOk k) _ clock
      (fills_ledgerOk a _ _ id price v h)

/-- Every trader that the member functions produce from the constructed one satisfies
the ledger invariant and has the books "ETF" and "Future". -/
theorem reachable_ledgerOk (k : Constants) (a : AutoTrader) (h : AutoTrader.Reachable k a) :
    a.LedgerOk := by
  induction h with
  | new => exact ledgerOk_new
  | sendOrder a clock name instrument side size price _ ih =>
    exact sendOrder_ledgerOk k a clock name instrument side size price ih
  | cancelOrder a clock id _ ih => exact cancelOrder_ledgerOk a clock id ih
  | orderFilled a clock id price v _ ih => exact orderFilled_ledgerOk k a clock id price v ih
  | orderClosed a id _ ih => exact orderClosed_ledgerOk a id ih
  | hedge a clock _ ih => exact hedge_keeps k LedgerOk (sendOrder_ledgerOk k) a clock ih
  | orderBookMessage a a1 clocks clocks1 instrument seq ap av bp bv _ hr ih =>
    exact handler_keeps k LedgerOk (sendOrder_ledgerOk k) cancelOrder_ledgerOk ledgerOk_ext
      a a1 clocks clocks1 instrument seq ap av bp bv hr ih

end AutoTrader


/-! ## Theorems: the id sent to the exchange is the id stored in the ledger -/

namespace BooksContainer

theorem findOrderIn_of_known (id : Nat) (o : Order) :
    ∀ (bs : List (String × Book)), bs.Pairwise (fun x y => Book.Apart x.2 y.2) →
      ∀ e ∈ bs, e.2.findOrder id = some o → findOrderIn id bs = some o := by
  intro bs
  induction bs with
  | nil => intro _ e he; cases he
  | cons e0 rest ih =>
    intro hp e he hf
    rw [List.pairwise_cons] at hp
    rcases List.mem_cons.1 he with h | h
    · subst h
      simp only [findOrderIn, hf]
    · cases h0 : e0.2.findOrder id with
      | none =>
        simp only [findOrderIn, h0]
        exact ih hp.2 e h hf
      | some o0 =>
        exfalso
        rcases hp.1 e h id with hn | hn
        · rw [h0] at hn; cases hn
        · rw [hf] at hn; cases hn

/-- In a container that satisfies its invariant, a send through an existing book stores
the new order under the generator's next id, and the container's lookup of that id
returns the new order. -/
theorem findOrder_after_sendOrder (c : BooksContainer) (g : OrderIDGenerator) (now : ℚ)
    (name : String) (instrument : Instrument) (side : Side) (size price : Int)
    (hinv : c.Inv g.currClientOrderID) (hname : (Map.find c.books name).isSome = true) :
    (c.sendOrder g now name instrument side size price).2.currClientOrderID =
      g.currClientOrderID + 1 ∧
    c.findOrder (g.currClientOrderID + 1) = none ∧
    (c.sendOrder g now name instrument side size price).1.findOrder (g.currClientOrderID + 1) =
      some (Order.new (g.currClientOrderID + 1) size price side now instrument) := by
  cases hfind : Map.find c.books name with
  | none => rw [hfind] at hname; cases hname
  | some book =>
    obtain ⟨hbooks, hgen⟩ := sendOrder_known c g now name instrument side size price book hfind
    have hbinv : book.Inv g.currClientOrderID := hinv.2.1 name book hfind
    refine ⟨hgen, ?_, ?_⟩
    · exact findOrderIn_unknown _ _
        (unknown_of_fresh c _ hinv (g.currClientOrderID + 1) (Nat.lt_succ_self _))
    · have hinv1 := container_inv_sendOrder c g now name instrument side size price hinv
      have hp := pairwise_apart _ _ hinv1
      have hmem : (name, (book.sendOrder g now instrument side size price 0).2.1) ∈
          (c.sendOrder g now name instrument side size price).1.books := by
        rw [hbooks]
        apply Map.mem_of_find
        rw [Map.find_assign, if_pos rfl]
      have hnew := Book.findOrder_sendOrder book g now instrument side size price
        (g.currClientOrderID + 1) hbinv
      rw [if_pos rfl] at hnew
      exact findOrderIn_of_known _ _ _ hp _ hmem hnew

end BooksContainer

namespace AutoTrader

/-- C39: in every reachable trader, whenever `AutoTrader::sendOrder` dispatches an order
through the book "ETF" of the ETF container or the book "Future" of the future
container, the client order id passed to the exchange call, `idGen.getCurrent()`, is
the generator's next id, under which no order was stored before, and after the call the
lookup of this id in the instrument's container returns the new order (with this id,
the dispatched size and price); the other container does not know the id.  So a fill or
status notification carrying the id finds exactly this order. -/
theorem sendOrder_id_matches_ledger (k : Constants) (a : AutoTrader)
    (hreach : AutoTrader.Reachable k a) (clock : ℚ) (name : String) (instrument : Instrument)
    (side : Side) (size price : Int)
    (hbook : (name = "ETF" ∧ instrument = Instrument.ETF) ∨
      (name = "Future" ∧ instrument = Instrument.FUTURE))
    (hacc : (sendOrder k a clock name instrument side size price).1 = true) :
    (sendOrder k a clock name instrument side size price).2.idGen.getCurrent =
      a.idGen.currClientOrderID + 1 ∧
    (sendOrder k a clock name instrument side size price).2.outbox = a.outbox ++
      [if instrument = Instrument.ETF then
        ExchangeCall.insertOrder (a.idGen.currClientOrderID + 1) side
          (toULong (roundToTick price)) (toULong (clampedSize k a instrument side size))
          Lifespan.GOOD_FOR_DAY
       else
        ExchangeCall.hedgeOrder (a.idGen.currClientOrderID + 1) side
          (toULong (roundToTick price)) (toULong (clampedSize k a instrument side size))] ∧
    (a.container instrument).findOrder (a.idGen.currClientOrderID + 1) = none ∧
    ((sendOrder k a clock name instrument side size price).2.container instrument).findOrder
        (a.idGen.currClientOrderID + 1) =
      some (Order.new (a.idGen.currClientOrderID + 1) (clampedSize k a instrument side size)
        (roundToTick price) side a.time.time instrument) ∧
    (Order.new (a.idGen.currClientOrderID + 1) (clampedSize k a instrument side size)
        (roundToTick price) side a.time.time instrument).clientOrderID =
      a.idGen.currClientOrderID + 1 ∧
    (a.allEtfBooks.Unknown (a.idGen.currClientOrderID + 1) ∧
      a.allFutureBooks.Unknown (a.idGen.currClientOrderID + 1)) := by
  obtain ⟨hinv, hn1, hn2⟩ := reachable_ledgerOk k a hreach
  obtain ⟨_, _, _, _, hcont⟩ := sendOrder_accepted k a clock name instrument side size price hacc
  obtain ⟨hout, hgen⟩ := sendOrder_accepted_outbox k a clock name instrument side size price hacc
  have hcinv : (a.container instrument).Inv a.idGen.currClientOrderID := by
    unfold container
    split
    · exact hinv.1
    · exact hinv.2.1
  have hname : (Map.find (a.container instrument).books name).isSome = true := by
    rcases hbook with ⟨h1, h2⟩ | ⟨h1, h2⟩
    · subst h1; subst h2
      exact hn1
    · subst h1; subst h2
      exact hn2
  obtain ⟨hid, hnone, hfound⟩ := BooksContainer.findOrder_after_sendOrder (a.container instrument)
    a.idGen a.time.time name instrument side (clampedSize k a instrument side size)
    (roundToTick price) hcinv hname
  refine ⟨?_, ?_, hnone, ?_, rfl,
    BooksContainer.unknown_of_fresh _ _ hinv.1 _ (Nat.lt_succ_self _),
    BooksContainer.unknown_of_fresh _ _ hinv.2.1 _ (Nat.lt_succ_self _)⟩
  · rw [hgen]
    exact hid
  · rw [hout]
    simp only [OrderIDGenerator.getCurrent, hid]
  · rw [hcont]
    exact hfound

/-- Witness for C39: the first BUY sent from the constructed trader has id 1. -/
theorem sendOrder_id_matches_ledger_witness :
    (sendOrder Constants.sample AutoTrader.new 0 "ETF" Instrument.ETF Side.BUY 50
      10000).2.idGen.getCurrent = AutoTrader.new.idGen.currClientOrderID + 1 :=
  (sendOrder_id_matches_ledger Constants.sample AutoTrader.new (AutoTrader.Reachable.new) 0
    "ETF" Instrument.ETF Side.BUY 50 10000 (Or.inl ⟨rfl, rfl⟩) (by decide!)).1

end AutoTrader


/-! ## Theorems: the orders that detectStaleOrders cancels -/

namespace BooksContainer

/-- In a container that satisfies its invariant two entries of the books that both know
an id are the same entry. -/
theorem same_book_of_known (c : BooksContainer) (n : Nat) (hinv : c.Inv n) (id : Nat)
    (x y : String × Book) (hx : x ∈ c.books) (hy : y ∈ c.books)
    (hkx : x.2.findOrder id ≠ none) (hky : y.2.findOrder id ≠ none) : x = y := by
  have fx := Map.find_of_mem c.books hinv.1 x hx
  have fy := Map.find_of_mem c.books hinv.1 y hy
  by_cases hname : x.1 = y.1
  · rw [hname, fy] at fx
    exact Prod.ext hname (Option.some.inj fx).symm
  · exfalso
    rcases hinv.2.2 x.1 y.1 x.2 y.2 hname fx fy id with h | h
    · exact hkx h
    · exact hky h

/-- The entries of the merged bids and asks of a container whose stored orders carry
their keys: the key of an entry is the id of its order, an id has one entry, and no id
is both among the bids and among the asks. -/
theorem merged_entries (c : BooksContainer) (n : Nat) (hinv : c.Inv n)
    (hk : ∀ e ∈ c.books, e.2.KeysMatch) :
    (∀ e ∈ c.getBids, e.2.clientOrderID = e.1 ∧ Map.find c.getBids e.1 = some e.2) ∧
    (∀ e ∈ c.getAsks, e.2.clientOrderID = e.1 ∧ Map.find c.getAsks e.1 = some e.2) ∧
    (∀ e1 ∈ c.getBids, ∀ e2 ∈ c.getAsks, e1.1 ≠ e2.1) := by
  obtain ⟨hb, ha, wb, wa⟩ := getBids_getAsks_union c n hinv
  refine ⟨?_, ?_, ?_⟩
  · intro e he
    have hf := Map.find_of_mem c.getBids wb e he
    obtain ⟨x, hx, hfx⟩ := (hb e.1 e.2).1 hf
    exact ⟨(hk x hx).1 e.1 e.2 hfx, hf⟩
  · intro e he
    have hf := Map.find_of_mem c.getAsks wa e he
    obtain ⟨x, hx, hfx⟩ := (ha e.1 e.2).1 hf
    exact ⟨(hk x hx).2 e.1 e.2 hfx, hf⟩
  · intro e1 he1 e2 he2 heq
    obtain ⟨x, hx, hfx⟩ := (hb e1.1 e1.2).1 (Map.find_of_mem c.getBids wb e1 he1)
    obtain ⟨y, hy, hfy⟩ := (ha e2.1 e2.2).1 (Map.find_of_mem c.getAsks wa e2 he2)
    rw [← heq] at hfy
    have hxy := same_book_of_known c n hinv e1.1 x y hx hy (knows_of_bid _ _ _ hfx)
      (knows_of_ask _ _ _ hfy)
    subst hxy
    have := (book_inv_of_mem c n hinv x hx).2.2.2.2 e1.1 e1.2 hfx
    rw [this] at hfy
    cases hfy

end BooksContainer

namespace AutoTrader

theorem toULong_of_neg (d : Int) (h0 : d < 0) (h1 : -(two64 : Int) < d) :
    ((toULong d : Nat) : Int) = d + (two64 : Int) := by
  unfold toULong
  have h : d % (two64 : Int) = d + (two64 : Int) := by
    unfold two64 at *
    omega
  rw [h]
  unfold two64 at *
  omega

/-- A bid whose price is at least `bidPrice`, at most 100 above it, and at least 50 below
`mid` is not stale. -/
theorem staleBid_false (mid bidPrice : Int) (o : Order) (hmid : mid < (two63 : Int))
    (h1 : 0 ≤ (o.price : Int) - bidPrice) (h2 : (o.price : Int) - bidPrice ≤ 100)
    (h3 : 50 ≤ mid - (o.price : Int)) : staleBid mid bidPrice o = false := by
  have hd := toULong_of_range ((o.price : Int) - bidPrice) h1 (by unfold two64; omega)
  have he := toULong_of_range (mid - (o.price : Int)) (by omega)
    (by unfold two63 two64 at *; omega)
  have h100 : toULong allowedUncompetitiveSlippage = 100 := by decide
  have h50 : toULong staleMinSpread = 50 := by decide
  simp only [staleBid, h100, h50, Bool.or_eq_false_iff, decide_eq_false_iff_not]
  omega

/-- A bid priced below `bidPrice` is stale: the difference `order.price - bidPrice` wraps
in `unsigned long`. -/
theorem staleBid_of_below (mid bidPrice : Int) (o : Order) (hb : bidPrice < (two63 : Int))
    (h : (o.price : Int) < bidPrice) : staleBid mid bidPrice o = true := by
  have hd := toULong_of_neg ((o.price : Int) - bidPrice) (by omega)
    (by unfold two63 two64 at *; omega)
  have h100 : toULong allowedUncompetitiveSlippage = 100 := by decide
  simp only [staleBid, h100, Bool.or_eq_true, decide_eq_true_eq]
  left
  unfold two63 two64 at *
  omega

/-- An ask whose price is at most `askPrice`, at most 100 below it, and at least 50 above
`mid` is not stale. -/
theorem staleAsk_false (mid askPrice : Int) (o : Order) (hmid : -(two63 : Int) ≤ mid)
    (hp : o.price < two63)
    (h1 : 0 ≤ askPrice - (o.price : Int)) (h2 : askPrice - (o.price : Int) ≤ 100)
    (h3 : 50 ≤ (o.price : Int) - mid) : staleAsk mid askPrice o = false := by
  have hd := toULong_of_range (askPrice - (o.price : Int)) h1 (by unfold two64; omega)
  have he := toULong_of_range ((o.price : Int) - mid) (by omega)
    (by unfold two63 two64 at *; omega)
  have h100 : toULong allowedUncompetitiveSlippage = 100 := by decide
  have h50 : toULong staleMinSpread = 50 := by decide
  simp only [staleAsk, h100, h50, Bool.or_eq_false_iff, decide_eq_false_iff_not]
  omega

/-- An ask priced above a nonnegative `askPrice` is stale: the difference
`askPrice - order.price` wraps in `unsigned long`. -/
theorem staleAsk_of_above (mid askPrice : Int) (o : Order) (ha : 0 ≤ askPrice)
    (hp : o.price < two63) (h : askPrice < (o.price : Int)) :
    staleAsk mid askPrice o = true := by
  have hd := toULong_of_neg (askPrice - (o.price : Int)) (by omega)
    (by unfold two63 two64 at *; omega)
  have h100 : toULong allowedUncompetitiveSlippage = 100 := by decide
  simp only [staleAsk, h100, Bool.or_eq_true, decide_eq_true_eq]
  left
  unfold two63 two64 at *
  omega

theorem cancelOrder_merged (a : AutoTrader) (clock : ℚ) (id : Nat) :
    (cancelOrder a clock id).2.allEtfBooks.getBids = a.allEtfBooks.getBids ∧
    (cancelOrder a clock id).2.allEtfBooks.getAsks = a.allEtfBooks.getAsks := by
  obtain ⟨_, _, hcase⟩ := cancelOrder_ledger a clock id
  rcases hcase with ⟨_, h1, _⟩ | ⟨_, h1, _⟩
  · rw [h1]; exact ⟨rfl, rfl⟩
  · rw [h1]; exact BooksContainer.cancelOrder_getBids _ id

/-- One loop of `detectStaleOrders`: the cancel messages are sent, in order, for some of
the entries that the test marks stale, the counter grows by their number, and the
merged bids and asks of the ETF container are unchanged. -/
theorem cancelStale_sent (isStale : Order → Bool) :
    ∀ (l : List (Nat × Order)) (a : AutoTrader) (clocks : Nat → ℚ) (n : Int),
      ∃ sent : List (Nat × Order),
        sent.Sublist (l.filter (fun e => isStale e.2)) ∧
        (cancelStale isStale l a clocks n).2.1.outbox =
          a.outbox ++ sent.map (fun e => ExchangeCall.cancelOrder e.2.clientOrderID) ∧
        (cancelStale isStale l a clocks n).1 = n + (sent.length : Int) ∧
        (cancelStale isStale l a clocks n).2.1.allEtfBooks.getBids = a.allEtfBooks.getBids ∧
        (cancelStale isStale l a clocks n).2.1.allEtfBooks.getAsks = a.allEtfBooks.getAsks := by
  intro l
  induction l with
  | nil =>
    intro a clocks n
    exact ⟨[], by simp, by simp [cancelStale], by simp [cancelStale], rfl, rfl⟩
  | cons e rest ih =>
    intro a clocks n
    by_cases hs : isStale e.2 = true
    · obtain ⟨hout, _, _⟩ := cancelOrder_effect a (clocks 0) e.2.clientOrderID
      obtain ⟨hgb, hga⟩ := cancelOrder_merged a (clocks 0) e.2.clientOrderID
      obtain ⟨sent, h1, h2, h3, h4, h5⟩ := ih (cancelOrder a (clocks 0) e.2.clientOrderID).2
        (fun i => clocks (i + 1))
        (if (cancelOrder a (clocks 0) e.2.clientOrderID).1 then n + 1 else n)
      simp only [cancelStale, if_pos hs, List.filter_cons, hs, if_true]
      by_cases hc : (cancelOrder a (clocks 0) e.2.clientOrderID).1 = true
      · refine ⟨e :: sent, List.Sublist.cons₂ e h1, ?_, ?_, h4.trans hgb, h5.trans hga⟩
        · rw [h2, hout, if_pos hc, List.append_assoc]
          rfl
        · rw [h3, if_pos hc, List.length_cons]
          push_cast
          ring
      · refine ⟨sent, List.Sublist.cons e h1, ?_, ?_, h4.trans hgb, h5.trans hga⟩
        · rw [h2, hout, if_neg hc, List.append_nil]
        · rw [h3, if_neg hc]
    · obtain ⟨sent, h1, h2, h3, h4, h5⟩ := ih a clocks n
      simp only [cancelStale, if_neg hs, List.filter_cons, hs]
      exact ⟨sent, h1, h2, h3, h4, h5⟩

/-- The cancel messages of `detectStaleOrders`: first for some of the stale bids, then
for some of the stale asks of the ETF container, and the returned pair counts them. -/
theorem detectStaleOrders_sent (a : AutoTrader) (clocks : Nat → ℚ)
    (mid bidPrice askPrice : Int) :
    ∃ sentBids sentAsks : List (Nat × Order),
      sentBids.Sublist (a.allEtfBooks.getBids.filter (fun e => staleBid mid bidPrice e.2)) ∧
      sentAsks.Sublist (a.allEtfBooks.getAsks.filter (fun e => staleAsk mid askPrice e.2)) ∧
      (detectStaleOrders a clocks mid bidPrice askPrice).2.1.outbox =
        a.outbox ++
          (sentBids ++ sentAsks).map (fun e => ExchangeCall.cancelOrder e.2.clientOrderID) ∧
      (detectStaleOrders a clocks mid bidPrice askPrice).1 =
        ((sentBids.length : Int), (sentAsks.length : Int)) := by
  simp only [detectStaleOrders]
  by_cases hb : bidPrice ≠ 0 <;> by_cases ha : askPrice ≠ 0
  · simp only [if_pos hb, if_pos ha]
    obtain ⟨sb, b1, b2, b3, b4, b5⟩ :=
      cancelStale_sent (staleBid mid bidPrice) a.allEtfBooks.getBids a clocks 0
    obtain ⟨sa, a1, a2, a3, _, _⟩ := cancelStale_sent (staleAsk mid askPrice)
      (cancelStale (staleBid mid bidPrice) a.allEtfBooks.getBids a clocks 0).2.1.allEtfBooks.getAsks
      (cancelStale (staleBid mid bidPrice) a.allEtfBooks.getBids a clocks 0).2.1
      (cancelStale (staleBid mid bidPrice) a.allEtfBooks.getBids a clocks 0).2.2 0
    rw [b5] at a1
    refine ⟨sb, sa, b1, a1, ?_, ?_⟩
    · rw [a2, b2, List.map_append, List.append_assoc]
    · rw [a3, b3]; simp
  · simp only [if_pos hb, if_neg ha]
    obtain ⟨sb, b1, b2, b3, _, _⟩ :=
      cancelStale_sent (staleBid mid bidPrice) a.allEtfBooks.getBids a clocks 0
    refine ⟨sb, [], b1, List.nil_sublist _, ?_, ?_⟩
    · rw [b2, List.append_nil]
    · rw [b3]; simp
  · simp only [if_neg hb, if_pos ha]
    obtain ⟨sa, a1, a2, a3, _, _⟩ :=
      cancelStale_sent (staleAsk mid askPrice) a.allEtfBooks.getAsks a clocks 0
    refine ⟨[], sa, List.nil_sublist _, a1, ?_, ?_⟩
    · rw [a2, List.nil_append]
    · rw [a3]; simp
  · simp only [if_neg hb, if_neg ha]
    exact ⟨[], [], List.nil_sublist _, List.nil_sublist _, by simp, by simp⟩

/-- C36: the cancellations of `detectStaleOrders`.  In a trader that satisfies the ledger
invariant, for every `mid` (a `long`), `bidPrice` and `askPrice`, `detectStaleOrders`
sends cancel messages only for resting ETF orders that its test marks stale, bids first,
and returns the numbers of bids and of asks for which it sent one.  No cancel is sent for
a resting bid with `0 ≤ price - bidPrice ≤ 100` and `mid - price ≥ 50`, nor for a resting
ask with `0 ≤ askPrice - price ≤ 100` and `price - mid ≥ 50`.  The test marks every bid
priced below `bidPrice` and every ask priced above a nonnegative `askPrice` as stale,
although `price - bidPrice` and `askPrice - price` are negative: the code evaluates the
two differences in `unsigned long`, where they wrap to a value above the allowance of
100. -/
theorem detectStaleOrders_cancels_only_stale (a : AutoTrader) (clocks : Nat → ℚ)
    (mid bidPrice askPrice : Int) (hinv : a.LedgerInv)
    (hmid : -(two63 : Int) ≤ mid ∧ mid < (two63 : Int)) :
    (∃ sentBids sentAsks : List (Nat × Order),
      sentBids.Sublist (a.allEtfBooks.getBids.filter (fun e => staleBid mid bidPrice e.2)) ∧
      sentAsks.Sublist (a.allEtfBooks.getAsks.filter (fun e => staleAsk mid askPrice e.2)) ∧
      (detectStaleOrders a clocks mid bidPrice askPrice).2.1.outbox =
        a.outbox ++
          (sentBids ++ sentAsks).map (fun e => ExchangeCall.cancelOrder e.2.clientOrderID) ∧
      (detectStaleOrders a clocks mid bidPrice askPrice).1 =
        ((sentBids.length : Int), (sentAsks.length : Int)) ∧
      (∀ e ∈ a.allEtfBooks.getBids, 0 ≤ (e.2.price : Int) - bidPrice →
        (e.2.price : Int) - bidPrice ≤ 100 → 50 ≤ mid - (e.2.price : Int) →
        ExchangeCall.cancelOrder e.2.clientOrderID ∉
          (sentBids ++ sentAsks).map (fun e => ExchangeCall.cancelOrder e.2.clientOrderID)) ∧
      (∀ e ∈ a.allEtfBooks.getAsks, e.2.price < two63 → 0 ≤ askPrice - (e.2.price : Int) →
        askPrice - (e.2.price : Int) ≤ 100 → 50 ≤ (e.2.price : Int) - mid →
        ExchangeCall.cancelOrder e.2.clientOrderID ∉
          (sentBids ++ sentAsks).map (fun e => ExchangeCall.cancelOrder e.2.clientOrderID))) ∧
    (∀ o : Order, bidPrice < (two63 : Int) → (o.price : Int) < bidPrice →
      staleBid mid bidPrice o = true) ∧
    (∀ o : Order, 0 ≤ askPrice → o.price < two63 → askPrice < (o.price : Int) →
      staleAsk mid askPrice o = true) := by
  refine ⟨?_, fun o hb h => staleBid_of_below mid bidPrice o hb h,
    fun o ha hp h => staleAsk_of_above mid askPrice o ha hp h⟩
  obtain ⟨sb, sa, h1, h2, h3, h4⟩ := detectStaleOrders_sent a clocks mid bidPrice askPrice
  obtain ⟨mb, ma, mba⟩ := BooksContainer.merged_entries a.allEtfBooks _ hinv.1 hinv.2.2.2.1
  refine ⟨sb, sa, h1, h2, h3, h4, ?_, ?_⟩
  · intro e he p1 p2 p3 hmem
    have hns := staleBid_false mid bidPrice e.2 hmid.2 p1 p2 p3
    obtain ⟨e1, he1, heq⟩ := List.mem_map.1 hmem
    have hid : e1.2.clientOrderID = e.2.clientOrderID := by
      injection heq
    rcases List.mem_append.1 he1 with hin | hin
    · have hf := List.mem_filter.1 (h1.subset hin)
      have hkey : e1.1 = e.1 := by rw [← (mb e1 hf.1).1, ← (mb e he).1, hid]
      have h5 := (mb e1 hf.1).2
      rw [hkey, (mb e he).2] at h5
      have h6 : e.2 = e1.2 := Option.some.inj h5
      have h7 := hf.2
      rw [← h6] at h7
      simp only [hns] at h7
      cases h7
    · have hf := List.mem_filter.1 (h2.subset hin)
      apply mba e he e1 hf.1
      rw [← (mb e he).1, ← (ma e1 hf.1).1, hid]
  · intro e he hp p1 p2 p3 hmem
    have hns := staleAsk_false mid askPrice e.2 hmid.1 hp p1 p2 p3
    obtain ⟨e1, he1, heq⟩ := List.mem_map.1 hmem
    have hid : e1.2.clientOrderID = e.2.clientOrderID := by
      injection heq
    rcases List.mem_append.1 he1 with hin | hin
    · have hf := List.mem_filter.1 (h1.subset hin)
      apply mba e1 hf.1 e he
      rw [← (mb e1 hf.1).1, ← (ma e he).1, hid]
    · have hf := List.mem_filter.1 (h2.subset hin)
      have hkey : e1.1 = e.1 := by rw [← (ma e1 hf.1).1, ← (ma e he).1, hid]
      have h5 := (ma e1 hf.1).2
      rw [hkey, (ma e he).2] at h5
      have h6 : e.2 = e1.2 := Option.some.inj h5
      have h7 := hf.2
      rw [← h6] at h7
      simp only [hns] at h7
      cases h7

/-- C36 (failing input): two ticks with the same snapshots, futures mid 10000 and the ETF
snapshot `sampleEtfDeep`.  After tick 1 the trader's SELL with id 2 rests at 10200, the
tick-rounded target 10150, and tick 2 computes the same targets 9850 and 10150.  The ask
has `askPrice - price = -50 ≤ 100` and `price - mid = 200 ≥ 50` as signed integers, and
`detectStaleOrders` sends the cancel for id 2 and returns `(0, 1)`: in an unchanged market
tick 2 cancels the trader's own ask and sends a SELL of 1 lot at 10200 in its place. -/
theorem detectStaleOrders_cancels_own_rounded_ask :
    AutoTrader.sampleFirstTick.map (fun t =>
      (t.1.outbox,
        t.1.allEtfBooks.getBids.map (fun e => (e.1, e.2.price)),
        t.1.allEtfBooks.getAsks.map (fun e => (e.1, e.2.price)),
        (getOrderPrices Constants.sample t.1 10000 ExchangeOrderBookData.sampleEtfDeep.askPrices
          ExchangeOrderBookData.sampleEtfDeep.askVolumes
          ExchangeOrderBookData.sampleEtfDeep.bidPrices
          ExchangeOrderBookData.sampleEtfDeep.bidVolumes).1)) =
      some ([ExchangeCall.insertOrder 1 Side.BUY 9900 50 Lifespan.GOOD_FOR_DAY,
          ExchangeCall.insertOrder 2 Side.SELL 10200 50 Lifespan.GOOD_FOR_DAY],
        [(1, 9900)], [(2, 10200)], (9850, 10150)) ∧
    ((10150 : Int) - 10200 ≤ 100 ∧ (50 : Int) ≤ 10200 - 10000) ∧
    AutoTrader.sampleFirstTick.map (fun t =>
      ((detectStaleOrders t.1 t.2 10000 9850 10150).1,
        (detectStaleOrders t.1 t.2 10000 9850 10150).2.1.outbox.drop 2)) =
      some ((0, 1), [ExchangeCall.cancelOrder 2]) ∧
    (AutoTrader.sampleFirstTick.bind
      (tick Constants.sample ExchangeOrderBookData.sampleFuture
        ExchangeOrderBookData.sampleEtfDeep 2)).map (fun t => t.1.outbox.drop 2) =
      some [ExchangeCall.cancelOrder 2,
        ExchangeCall.insertOrder 3 Side.SELL 10200 1 Lifespan.GOOD_FOR_DAY] := by
  refine ⟨?_, ?_, ?_, ?_⟩
  · decide!
  · decide!
  · decide!
  · decide!

/-- Witness for C36: on `AutoTrader.sampleRestingBid`, for mid 10500, bidPrice 10100 and
askPrice 10800; a bid at price 100, below `bidPrice`, is stale. -/
theorem detectStaleOrders_cancels_only_stale_witness :
    staleBid 10500 10100 Order.sampleBuyFill = true :=
  (detectStaleOrders_cancels_only_stale AutoTrader.sampleRestingBid (fun _ => 0) 10500 10100
    10800
    (reachable_ledgerOk Constants.sample _
      (AutoTrader.Reachable.sendOrder AutoTrader.new 0 "ETF" Instrument.ETF Side.BUY 50 10100
        AutoTrader.Reachable.new)).1
    (by decide)).2.1 Order.sampleBuyFill (by decide) (by decide)

end AutoTrader


/-! ## Theorems: the volume that hedge adds -/

namespace AutoTrader

theorem hedge_cases (k : Constants) (a : AutoTrader) (clock : ℚ) :
    hedge k a clock = a ∨
    ∃ hedgePrice : Int, hedge k a clock =
      (sendOrder k a clock "Future" Instrument.FUTURE
        (if a.allEtfBooks.getExposure + a.allFutureBooks.getExposure > 0 then Side.SELL
          else Side.BUY)
        |a.allEtfBooks.getExposure + a.allFutureBooks.getExposure| hedgePrice).2 := by
  unfold hedge
  simp only []
  split
  · split
    · right
      exact ⟨_, rfl⟩
    · left; rfl
  · left; rfl

/-- C35 (amended): a `hedge()` call that dispatches an order without position-limit
clamping dispatches the whole total net exposure `|E|`, `E` = ETF exposure + future
exposure, on the side opposite to `E`, whatever hedge volume is already resting.  It
leaves the exposures unchanged and adds `|E|` to the submitted future volume of that
side, so afterwards ETF exposure + future exposure + future submittedBids − future
submittedAsks equals the net resting future volume (submittedBids − submittedAsks) of
before the call: it is zero exactly when that volume was zero. -/
theorem hedge_adds_total_exposure (k : Constants) (a : AutoTrader) (clock : ℚ)
    (hbook : (Map.find a.allFutureBooks.books "Future").isSome = true)
    (hdispatch : (hedge k a clock).outbox ≠ a.outbox)
    (hsell : 0 < a.allEtfBooks.getExposure + a.allFutureBooks.getExposure →
      a.allEtfBooks.getExposure + a.allFutureBooks.getExposure ≤
        a.allFutureBooks.getExposure - a.allFutureBooks.getSubmitedAsks + k.positionLimit)
    (hbuy : a.allEtfBooks.getExposure + a.allFutureBooks.getExposure < 0 →
      -(a.allEtfBooks.getExposure + a.allFutureBooks.getExposure) ≤
        k.positionLimit - a.allFutureBooks.getExposure - a.allFutureBooks.getSubmittedBids) :
    a.allEtfBooks.getExposure + a.allFutureBooks.getExposure ≠ 0 ∧
    (hedge k a clock).allEtfBooks = a.allEtfBooks ∧
    (hedge k a clock).allFutureBooks.getExposure = a.allFutureBooks.getExposure ∧
    (0 < a.allEtfBooks.getExposure + a.allFutureBooks.getExposure →
      (hedge k a clock).allFutureBooks.getSubmitedAsks =
        a.allFutureBooks.getSubmitedAsks +
          (a.allEtfBooks.getExposure + a.allFutureBooks.getExposure) ∧
      (hedge k a clock).allFutureBooks.getSubmittedBids = a.allFutureBooks.getSubmittedBids) ∧
    (a.allEtfBooks.getExposure + a.allFutureBooks.getExposure < 0 →
      (hedge k a clock).allFutureBooks.getSubmittedBids =
        a.allFutureBooks.getSubmittedBids -
          (a.allEtfBooks.getExposure + a.allFutureBooks.getExposure) ∧
      (hedge k a clock).allFutureBooks.getSubmitedAsks = a.allFutureBooks.getSubmitedAsks) ∧
    (hedge k a clock).allEtfBooks.getExposure + (hedge k a clock).allFutureBooks.getExposure +
        (hedge k a clock).allFutureBooks.getSubmittedBids -
        (hedge k a clock).allFutureBooks.getSubmitedAsks =
      a.allFutureBooks.getSubmittedBids - a.allFutureBooks.getSubmitedAsks := by
  rcases hedge_cases k a clock with hc | ⟨hedgePrice, hc⟩
  · rw [hc] at hdispatch
    exact absurd rfl hdispatch
  · rw [hc] at hdispatch ⊢
    obtain ⟨_, hcase⟩ := sendOrder_ledger k a clock "Future" Instrument.FUTURE
      (if a.allEtfBooks.getExposure + a.allFutureBooks.getExposure > 0 then Side.SELL
        else Side.BUY)
      |a.allEtfBooks.getExposure + a.allFutureBooks.getExposure| hedgePrice
    rcases hcase with ⟨hrej, _, _, _⟩ | ⟨_, hetf, _⟩ | ⟨_, _, hpos, hfut, _, hetf⟩
    · exfalso
      apply hdispatch
      rw [sendOrder_rejected k a clock _ _ _ _ _ hrej]
    · cases hetf
    · obtain ⟨f1, f2, f3⟩ := BooksContainer.sendOrder_fields a.allFutureBooks a.idGen
        a.time.time "Future" Instrument.FUTURE
        (if a.allEtfBooks.getExposure + a.allFutureBooks.getExposure > 0 then Side.SELL
          else Side.BUY)
        (clampedSize k a Instrument.FUTURE
          (if a.allEtfBooks.getExposure + a.allFutureBooks.getExposure > 0 then Side.SELL
            else Side.BUY)
          |a.allEtfBooks.getExposure + a.allFutureBooks.getExposure|) (roundToTick hedgePrice)
      rw [hfut, hetf]
      simp only [BooksContainer.getExposure, BooksContainer.getSubmittedBids,
        BooksContainer.getSubmitedAsks] at *
      rw [f1, f2, f3]
      by_cases hE : a.allEtfBooks.exposure + a.allFutureBooks.exposure > 0
      · have hcl : clampedSize k a Instrument.FUTURE Side.SELL
            |a.allEtfBooks.exposure + a.allFutureBooks.exposure| =
            a.allEtfBooks.exposure + a.allFutureBooks.exposure := by
          simp only [clampedSize, container, BooksContainer.getExposure,
            BooksContainer.getSubmittedBids, BooksContainer.getSubmitedAsks]
          rw [abs_of_pos hE]
          have := hsell hE
          simp
          omega
        simp only [if_pos hE, hcl, hbook, true_and, if_true] at hpos ⊢
        simp
        refine ⟨by omega, ?_, ?_⟩
        · intro h; omega
        · omega
      · have hcl : clampedSize k a Instrument.FUTURE Side.BUY
            |a.allEtfBooks.exposure + a.allFutureBooks.exposure| =
            -(a.allEtfBooks.exposure + a.allFutureBooks.exposure) := by
          simp only [clampedSize, container, BooksContainer.getExposure,
            BooksContainer.getSubmittedBids, BooksContainer.getSubmitedAsks]
          rw [abs_of_nonpos (by omega)]
          rcases lt_or_eq_of_le (not_lt.1 hE) with hlt | heq
          · have := hbuy hlt
            simp
            omega
          · exfalso
            simp only [if_neg hE, clampedSize, container, BooksContainer.getExposure,
              BooksContainer.getSubmittedBids, BooksContainer.getSubmitedAsks, heq,
              abs_zero] at hpos
            simp at hpos
        simp only [if_neg hE, hcl, hbook, true_and, if_true] at hpos ⊢
        simp
        refine ⟨by omega, ?_, ?_, ?_⟩
        · intro h; omega
        · intro h; omega
        · omega

/-- C35 (counterexample): in `AutoTrader.sampleFirstHedge` the total exposure is 10 and
the hedge SELL of 10 future lots (id 3) rests unfilled.  A second fill of 10 lots of the
BUY with id 1 raises the total exposure to 20; `hedge` dispatches a SELL of 20 future
lots (id 4), not clamped (the capacity is 0 − 10 + 100 = 90), and afterwards the total
exposure plus the net resting future volume is 20 − 30 = −10. -/
theorem hedge_ignores_resting_hedge_order :
    AutoTrader.sampleFirstHedge.map (fun s =>
      (decide (s.time.time > 1), s.allEtfBooks.getExposure + s.allFutureBooks.getExposure,
        s.allFutureBooks.getSubmittedBids, s.allFutureBooks.getSubmitedAsks,
        s.outbox.drop 2)) =
      some (true, 10, 0, 10, [ExchangeCall.hedgeOrder 3 Side.SELL 10400 10]) ∧
    AutoTrader.sampleFirstHedge.map (fun s =>
      ((orderFilled Constants.sample s 0 1 9500 10).outbox.drop s.outbox.length,
        s.allFutureBooks.getExposure - s.allFutureBooks.getSubmitedAsks +
          Constants.sample.positionLimit)) =
      some ([ExchangeCall.hedgeOrder 4 Side.SELL 10400 20], 90) ∧
    AutoTrader.sampleFirstHedge.map (fun s =>
      ((orderFilled Constants.sample s 0 1 9500 10).allEtfBooks.getExposure,
        (orderFilled Constants.sample s 0 1 9500 10).allFutureBooks.getExposure,
        (orderFilled Constants.sample s 0 1 9500 10).allFutureBooks.getSubmittedBids,
        (orderFilled Constants.sample s 0 1 9500 10).allFutureBooks.getSubmitedAsks)) =
      some (20, 0, 0, 30) ∧
    (20 : Int) + 0 + 0 - 30 ≠ 0 := by
  decide!

/-- Witness for C35: a further `hedge()` call on `AutoTrader.sampleFirstHedgeState`,
where 10 future lots rest on the ask side. -/
theorem hedge_adds_total_exposure_witness :
    (hedge Constants.sample AutoTrader.sampleFirstHedgeState 0).allEtfBooks.getExposure +
        (hedge Constants.sample AutoTrader.sampleFirstHedgeState 0).allFutureBooks.getExposure +
        (hedge Constants.sample AutoTrader.sampleFirstHedgeState 0).allFutureBooks.getSubmittedBids -
        (hedge Constants.sample AutoTrader.sampleFirstHedgeState 0).allFutureBooks.getSubmitedAsks =
      AutoTrader.sampleFirstHedgeState.allFutureBooks.getSubmittedBids -
        AutoTrader.sampleFirstHedgeState.allFutureBooks.getSubmitedAsks :=
  (hedge_adds_total_exposure Constants.sample AutoTrader.sampleFirstHedgeState 0 (by decide!)
    (by decide!) (by decide!) (by decide!)).2.2.2.2.2

end AutoTrader


/-! ## Theorems: the trade matcher holds the net position -/

namespace TradeMatcher

theorem queueVolume_cons (o : Order) (q : List Order) :
    queueVolume (o :: q) = (o.size : Int) + queueVolume q := by
  simp [queueVolume]

theorem queueVolume_append (q : List Order) (o : Order) :
    queueVolume (q ++ [o]) = queueVolume q + (o.size : Int) := by
  simp [queueVolume]

theorem settleQueues_net :
    ∀ (n : Nat) (bids asks : List Order), bids.length + asks.length ≤ n →
      queueVolume (settleQueues bids asks).1 - queueVolume (settleQueues bids asks).2 =
        queueVolume bids - queueVolume asks := by
  intro n
  induction n with
  | zero =>
    intro bids asks h
    have hb : bids = [] := List.length_eq_zero.1 (by omega)
    subst hb
    rw [settleQueues_nil_left]
  | succ n ih =>
    intro bids asks h
    cases bids with
    | nil => rw [settleQueues_nil_left]
    | cons bid bs =>
      cases asks with
      | nil => rw [settleQueues_nil_right]
      | cons ask as =>
        rw [settleQueues_cons]
        simp only [List.length_cons] at h
        by_cases hle : bid.size ≤ ask.size
        · have hb : bid.size - min bid.size ask.size = 0 := by
            rw [Nat.min_eq_left hle]; omega
          simp only [hb, ne_eq, not_true_eq_false, if_false]
          by_cases ha : ask.size - min bid.size ask.size = 0
          · simp only [ha, ne_eq, not_true_eq_false, if_false]
            rw [ih bs as (by omega), queueVolume_cons, queueVolume_cons]
            rw [Nat.min_eq_left hle] at ha
            omega
          · simp only [ha, ne_eq, not_false_eq_true, if_true]
            rw [ih bs _ (by simp only [List.length_cons]; omega), queueVolume_cons,
              queueVolume_cons, queueVolume_cons]
            simp only [Nat.min_eq_left hle]
            omega
        · have ha : ask.size - min bid.size ask.size = 0 := by
            rw [Nat.min_eq_right (by omega)]; omega
          have hb : ¬ bid.size - min bid.size ask.size = 0 := by
            rw [Nat.min_eq_right (by omega)]; omega
          simp only [ha, hb, ne_eq, not_true_eq_false, not_false_eq_true, if_false, if_true]
          rw [ih _ as (by simp only [List.length_cons]; omega), queueVolume_cons,
            queueVolume_cons, queueVolume_cons]
          simp only [Nat.min_eq_right (show ask.size ≤ bid.size by omega)]
          omega

/-- A push changes the net unmatched volume by the size of the pushed fill, counted
positive for a buy and negative for a sell, and appends the fill to the log. -/
theorem push_net (m : TradeMatcher) (order : Order) :
    (push m order).netUnmatched =
      m.netUnmatched +
        (match order.side with
          | Side.BUY => (order.size : Int)
          | Side.SELL => -(order.size : Int)) := by
  simp only [push, settleFilledOrders, netUnmatched]
  cases order.side
  · simp only []
    rw [settleQueues_net _ _ _ (Nat.le_refl _), queueVolume_append]
    ring
  · simp only []
    rw [settleQueues_net _ _ _ (Nat.le_refl _), queueVolume_append]
    ring

end TradeMatcher

namespace BooksContainer

theorem orderFilledLoop_matcher (now : ℚ) (id : Nat) (price v : Int) :
    ∀ (bs : List (String × Book)) (c : BooksContainer) (m : TradeMatcher),
      bs.Pairwise (fun x y => Book.Apart x.2 y.2) →
      (orderFilledLoop now id price v bs c m).2.2 =
        (match findOrderIn id bs with
          | none => m
          | some o => m.push (o.fillRecord now price v)) := by
  intro bs
  induction bs with
  | nil => intro c m _; simp [orderFilledLoop, findOrderIn]
  | cons e rest ih =>
    intro c m hp
    rw [List.pairwise_cons] at hp
    cases hf : e.2.findOrder id with
    | none =>
      unfold orderFilledLoop
      rw [Book.orderFilled_unknown e.2 now id price v hf]
      simp only [findOrderIn, hf]
      exact ih c m hp.2
    | some o =>
      have hrest : ∀ x ∈ rest, x.2.findOrder id = none := by
        intro x hx
        rcases hp.1 x hx id with h | h
        · rw [hf] at h; cases h
        · exact h
      have hfst := Book.orderFilled_fst e.2 now id price v
      rw [hf] at hfst
      unfold orderFilledLoop
      simp only [hfst, Option.map_some', findOrderIn, hf]
      rw [orderFilledLoop_unknown now id price v rest _ _ hrest]
      rfl

/-- In a container that satisfies its invariant, `orderFilled` pushes one record to the
matcher when the container knows the id, and none otherwise. -/
theorem container_orderFilled_matcher (c : BooksContainer) (n : Nat) (m : TradeMatcher)
    (now : ℚ) (id : Nat) (price v : Int) (hinv : c.Inv n) :
    (c.orderFilled m now id price v).2 =
      (match c.findOrder id with
        | none => m
        | some o => m.push (o.fillRecord now price v)) := by
  simp only [orderFilled, findOrder]
  exact orderFilledLoop_matcher now id price v c.books c m (pairwise_apart c n hinv)

theorem findOrder_none_of_unknown (c : BooksContainer) (id : Nat) (h : c.Unknown id) :
    c.findOrder id = none := findOrderIn_unknown id c.books h

theorem findOrderIn_mem (id : Nat) (o : Order) :
    ∀ bs : List (String × Book), findOrderIn id bs = some o →
      ∃ e ∈ bs, e.2.findOrder id = some o := by
  intro bs
  induction bs with
  | nil => intro h; simp [findOrderIn] at h
  | cons e rest ih =>
    intro h
    cases hf : e.2.findOrder id with
    | none =>
      simp only [findOrderIn, hf] at h
      obtain ⟨e1, he1, h1⟩ := ih h
      exact ⟨e1, List.mem_cons_of_mem _ he1, h1⟩
    | some o1 =>
      simp only [findOrderIn, hf, Option.some.injEq] at h
      subst h
      exact ⟨e, List.mem_cons_self _ _, hf⟩

theorem findOrder_side (c : BooksContainer) (id : Nat) (o : Order)
    (h : c.findOrder id = some o) : ∃ e ∈ c.books, e.2.findOrder id = some o :=
  findOrderIn_mem id o c.books h

end BooksContainer

namespace AutoTrader

/-- The fill log and the net unmatched volume after the two container fills of
`AutoTrader::orderFilled`. -/
theorem fills_matcher (a : AutoTrader) (id : Nat) (price v : Int) (hinv : a.LedgerInv)
    (hv0 : 0 ≤ v) (hv1 : v < (two63 : Int)) :
    (a.allFutureBooks.orderFilled
      (a.allEtfBooks.orderFilled a.matchingEngine a.time.time id price v).2
      a.time.time id price v).2.filledOrders =
        a.matchingEngine.filledOrders ++ a.fillRecords id price v ∧
    (a.allFutureBooks.orderFilled
      (a.allEtfBooks.orderFilled a.matchingEngine a.time.time id price v).2
      a.time.time id price v).2.netUnmatched -
        ((a.allEtfBooks.orderFilled a.matchingEngine a.time.time id price v).1.exposure +
          (a.allFutureBooks.orderFilled
            (a.allEtfBooks.orderFilled a.matchingEngine a.time.time id price v).2
            a.time.time id price v).1.exposure) =
      a.matchingEngine.netUnmatched - (a.allEtfBooks.exposure + a.allFutureBooks.exposure) := by
  have hlong : IsLong v := ⟨by unfold two63; omega, hv1⟩
  have hvU : ((toULong v : Nat) : Int) = v :=
    toULong_of_range v hv0 (by unfold two63 two64 at *; omega)
  rw [BooksContainer.container_orderFilled_matcher a.allFutureBooks _ _ _ _ _ _ hinv.2.1,
    BooksContainer.container_orderFilled_matcher a.allEtfBooks _ _ _ _ _ _ hinv.1,
    BooksContainer.container_orderFilled_exposure a.allEtfBooks _ _ _ _ _ _ hinv.1 hlong,
    BooksContainer.container_orderFilled_exposure a.allFutureBooks _ _ _ _ _ _ hinv.2.1 hlong]
  cases he : a.allEtfBooks.findOrder id with
  | some o =>
    have hfn : a.allFutureBooks.findOrder id = none := by
      rcases hinv.2.2.1 id with hu | hu
      · rw [BooksContainer.findOrder_none_of_unknown _ _ hu] at he; cases he
      · exact BooksContainer.findOrder_none_of_unknown _ _ hu
    simp only [hfn, fillRecords, he, TradeMatcher.push_filledOrders, TradeMatcher.push_net,
      signedFill, Order.fillRecord, hvU]
    refine ⟨trivial, ?_⟩
    cases o.side <;> simp only [] <;> ring
  | none =>
    cases hf : a.allFutureBooks.findOrder id with
    | some o =>
      simp only [fillRecords, he, hf, TradeMatcher.push_filledOrders, TradeMatcher.push_net,
        signedFill, Order.fillRecord, hvU]
      refine ⟨trivial, ?_⟩
      cases o.side <;> simp only [] <;> ring
    | none =>
      simp only [fillRecords, he, hf, signedFill, List.append_nil, add_zero, and_self]

end AutoTrader

namespace AutoTrader

theorem session_reachable (k : Constants) (a : AutoTrader) (applied : List Order)
    (h : AutoTrader.Session k a applied) : AutoTrader.Reachable k a := by
  induction h with
  | new => exact AutoTrader.Reachable.new
  | sendOrder a applied clock name instrument side size price _ ih =>
    exact AutoTrader.Reachable.sendOrder a clock name instrument side size price ih
  | cancelOrder a applied clock id _ ih => exact AutoTrader.Reachable.cancelOrder a clock id ih
  | orderFilled a applied clock id price v _ _ _ _ _ _ ih =>
    exact AutoTrader.Reachable.orderFilled a clock id price v ih
  | orderClosed a applied id _ ih => exact AutoTrader.Reachable.orderClosed a id ih
  | hedge a applied clock _ ih => exact AutoTrader.Reachable.hedge a clock ih
  | orderBookMessage a a1 applied clocks clocks1 instrument seq ap av bp bv _ hr ih =>
    exact AutoTrader.Reachable.orderBookMessage a a1 clocks clocks1 instrument seq ap av bp bv
      ih hr

theorem netMatched_ext (a b : AutoTrader) (hab : a.SameLedger b) (h : a.NetMatched) :
    b.NetMatched := by
  obtain ⟨h1, h2, _, h4⟩ := hab
  unfold NetMatched at *
  rw [← h1, ← h2, ← h4]
  exact h

theorem sendOrder_netMatched (k : Constants) (a : AutoTrader) (clock : ℚ) (name : String)
    (instrument : Instrument) (side : Side) (size price : Int) (h : a.NetMatched) :
    (sendOrder k a clock name instrument side size price).2.NetMatched := by
  obtain ⟨hm, hcase⟩ := sendOrder_ledger k a clock name instrument side size price
  unfold NetMatched at *
  rcases hcase with ⟨_, h1, h2, _⟩ | ⟨_, _, _, h1, _, h2⟩ | ⟨_, _, _, h2, _, h1⟩
  · rw [hm, h1, h2]; exact h
  · rw [hm, h1, h2, (BooksContainer.sendOrder_fields _ _ _ _ _ _ _ _).1]; exact h
  · rw [hm, h1, h2, (BooksContainer.sendOrder_fields _ _ _ _ _ _ _ _).1]; exact h

theorem cancelOrder_netMatched (a : AutoTrader) (clock : ℚ) (id : Nat) (h : a.NetMatched) :
    (cancelOrder a clock id).2.NetMatched := by
  obtain ⟨hm, _, hcase⟩ := cancelOrder_ledger a clock id
  unfold NetMatched at *
  rcases hcase with ⟨_, h1, h2⟩ | ⟨_, h1, h2⟩
  · rw [hm, h1, h2]; exact h
  · rw [hm, h1, h2]; exact h

theorem session_net (k : Constants) (a : AutoTrader) (applied : List Order)
    (h : AutoTrader.Session k a applied) :
    a.NetMatched ∧ a.matchingEngine.filledOrders = applied := by
  induction h with
  | new => exact ⟨by unfold NetMatched; decide!, rfl⟩
  | sendOrder a applied clock name instrument side size price _ ih =>
    exact ⟨sendOrder_netMatched k a clock name instrument side size price ih.1,
      by rw [(sendOrder_log k a clock name instrument side size price).1]; exact ih.2⟩
  | cancelOrder a applied clock id _ ih =>
    exact ⟨cancelOrder_netMatched a clock id ih.1,
      by rw [(cancelOrder_log a clock id).1]; exact ih.2⟩
  | orderFilled a applied clock id price v hs hv0 hv1 _ _ _ ih =>
    have hinv := (reachable_ledgerOk k a (session_reachable k a applied hs)).1
    obtain ⟨hlog, hnet⟩ := fills_matcher a id price v hinv hv0 hv1
    have hbase : ({ a with
        allEtfBooks := (a.allEtfBooks.orderFilled a.matchingEngine a.time.time id price v).1
        allFutureBooks := (a.allFutureBooks.orderFilled
          (a.allEtfBooks.orderFilled a.matchingEngine a.time.time id price v).2
          a.time.time id price v).1
        matchingEngine := (a.allFutureBooks.orderFilled
          (a.allEtfBooks.orderFilled a.matchingEngine a.time.time id price v).2
          a.time.time id price v).2 } : AutoTrader).NetMatched := by
      have h0 := ih.1
      unfold NetMatched at h0 ⊢
      simp only []
      omega
    rcases orderFilled_cases k a clock id price v with hc | hc
    · rw [hc]
      exact ⟨hbase, by simp only []; rw [hlog, ih.2]⟩
    · rw [hc]
      refine ⟨hedge_keeps k NetMatched (sendOrder_netMatched k) _ clock hbase, ?_⟩
      rw [(hedge_log k _ clock).1]
      simp only []
      rw [hlog, ih.2]
  | orderClosed a applied id _ ih =>
    refine ⟨?_, ih.2⟩
    have h0 := ih.1
    unfold NetMatched at h0 ⊢
    simp only [orderClosed, BooksContainer.container_orderClosed_exposure]
    exact h0
  | hedge a applied clock _ ih =>
    exact ⟨hedge_keeps k NetMatched (sendOrder_netMatched k) a clock ih.1,
      by rw [(hedge_log k a clock).1]; exact ih.2⟩
  | orderBookMessage a a1 applied clocks clocks1 instrument seq ap av bp bv _ hr ih =>
    exact ⟨handler_keeps k NetMatched (sendOrder_netMatched k) cancelOrder_netMatched
        netMatched_ext a a1 clocks clocks1 instrument seq ap av bp bv hr ih.1,
      by rw [(handler_log k a a1 clocks clocks1 instrument seq ap av bp bv hr).1]; exact ih.2⟩

/-- C34: in every session of the trader (fill volumes nonnegative and at most the
remaining size of the order), the net unmatched volume of the trade matcher, the sum of
the sizes in the unmatched-bid queue minus the sum of the sizes in the unmatched-ask
queue, equals ETF exposure + future exposure, and the fill log is the list of the
applied fills in arrival order: each fill for an id that a book knows has added one
record (the order found, with the filled volume and the fill price), a fill for an
unknown id none, and nothing else writes to the log. -/
theorem matcher_holds_net_position (k : Constants) (a : AutoTrader) (applied : List Order)
    (h : AutoTrader.Session k a applied) :
    TradeMatcher.queueVolume a.matchingEngine.unmatchedBids -
        TradeMatcher.queueVolume a.matchingEngine.unmatchedAsks =
      a.allEtfBooks.getExposure + a.allFutureBooks.getExposure ∧
    a.matchingEngine.filledOrders = applied ∧
    (∀ (id : Nat) (price v : Int),
      (a.fillRecords id price v).length =
        if (a.allEtfBooks.findOrder id).isSome = true ∨
            (a.allFutureBooks.findOrder id).isSome = true then 1 else 0) := by
  obtain ⟨h1, h2⟩ := session_net k a applied h
  refine ⟨h1, h2, ?_⟩
  intro id price v
  simp only [fillRecords]
  cases a.allEtfBooks.findOrder id <;> cases a.allFutureBooks.findOrder id <;> simp

/-- Witness for C34: the session `AutoTrader.sampleFilledBid`, one send and one fill of 10
lots. -/
theorem matcher_holds_net_position_witness :
    TradeMatcher.queueVolume AutoTrader.sampleFilledBid.matchingEngine.unmatchedBids -
        TradeMatcher.queueVolume AutoTrader.sampleFilledBid.matchingEngine.unmatchedAsks =
      AutoTrader.sampleFilledBid.allEtfBooks.getExposure +
        AutoTrader.sampleFilledBid.allFutureBooks.getExposure ∧
    AutoTrader.sampleFilledBid.matchingEngine.filledOrders =
      [] ++ AutoTrader.sampleRestingBid.fillRecords 1 10100 10 :=
  ⟨(matcher_holds_net_position Constants.sample AutoTrader.sampleFilledBid _
      (AutoTrader.Session.orderFilled AutoTrader.sampleRestingBid [] 0 1 10100 10
        (AutoTrader.Session.sendOrder AutoTrader.new [] 0 "ETF" Instrument.ETF Side.BUY 50 10100
          AutoTrader.Session.new)
        (by decide) (by decide) (by decide) (by decide) (by decide!))).1,
   (matcher_holds_net_position Constants.sample AutoTrader.sampleFilledBid _
      (AutoTrader.Session.orderFilled AutoTrader.sampleRestingBid [] 0 1 10100 10
        (AutoTrader.Session.sendOrder AutoTrader.new [] 0 "ETF" Instrument.ETF Side.BUY 50 10100
          AutoTrader.Session.new)
        (by decide) (by decide) (by decide) (by decide) (by decide!))).2.1⟩

end AutoTrader


/-! ## Theorems: the position limit in every session -/

namespace Book

theorem fill_mono (b : Book) (n : Nat) (now : ℚ) (id : Nat) (price v : Int) (hinv : b.Inv n)
    (hv0 : 0 ≤ v) :
    (b.orderFilled now id price v).2.exposure + (b.orderFilled now id price v).2.submittedBids ≤
      b.exposure + b.submittedBids ∧
    (b.orderFilled now id price v).2.submittedAsks - (b.orderFilled now id price v).2.exposure ≤
      b.submittedAsks - b.exposure := by
  rcases findOrder_cases b n hinv id with ⟨o, _, _, hf, hs⟩ | ⟨o, _, _, hf, hs⟩ | ⟨_, _, hf⟩
  · rw [orderFilled_bid b now id price v o hf hs]
    simp only []
    omega
  · rw [orderFilled_ask b now id price v o hf hs]
    simp only []
    omega
  · rw [orderFilled_unknown b now id price v hf]
    exact ⟨le_refl _, le_refl _⟩

theorem close_mono (b : Book) (n : Nat) (id : Nat) (hinv : b.Inv n) (hsum : b.SumInv) :
    (b.orderClosed id).2.exposure + (b.orderClosed id).2.submittedBids ≤
      b.exposure + b.submittedBids ∧
    (b.orderClosed id).2.submittedAsks - (b.orderClosed id).2.exposure ≤
      b.submittedAsks - b.exposure := by
  obtain ⟨s1, s2, _, _⟩ := hsum
  rcases findOrder_cases b n hinv id with ⟨o, hb, _, hf, hs⟩ | ⟨o, _, ha, hf, hs⟩ | ⟨_, _, hf⟩
  · rw [orderClosed_bid b id o hf hs]
    simp only []
    rw [toLong_of_lt _ (s1 id o hb)]
    omega
  · rw [orderClosed_ask b id o hf hs]
    simp only []
    rw [toLong_of_lt _ (s2 id o ha)]
    omega
  · rw [orderClosed_unknown b id hf]
    exact ⟨le_refl _, le_refl _⟩

theorem size_lt_of_sumInv (b : Book) (hsum : b.SumInv) (id : Nat) (o : Order)
    (h : b.findOrder id = some o) : o.size < two63 := by
  cases hb : Map.find b.bids id with
  | some o1 =>
    rw [findOrder_of_bid b id o1 hb] at h
    have heq := Option.some.inj h
    subst heq
    exact hsum.1 id o1 hb
  | none =>
    rw [findOrder_of_not_bid b id hb] at h
    exact hsum.2.1 id o h

end Book

namespace BooksContainer

theorem totalSize_nonneg (l : OrderList) : 0 ≤ OrderList.totalSize l := by
  unfold OrderList.totalSize
  apply List.sum_nonneg
  intro x hx
  obtain ⟨e, _, rfl⟩ := List.mem_map.1 hx
  exact Int.natCast_nonneg _

theorem submitted_nonneg (c : BooksContainer) (h : c.Summed) :
    0 ≤ c.submittedBids ∧ 0 ≤ c.submittedAsks := by
  obtain ⟨⟨_, h2, h3, _⟩, hsum⟩ := h
  rw [h2, h3]
  unfold sumInt
  constructor
  · apply List.sum_nonneg
    intro x hx
    obtain ⟨e, he, rfl⟩ := List.mem_map.1 hx
    simp only []
    rw [(hsum e he).2.2.1]
    exact totalSize_nonneg _
  · apply List.sum_nonneg
    intro x hx
    obtain ⟨e, he, rfl⟩ := List.mem_map.1 hx
    simp only []
    rw [(hsum e he).2.2.2]
    exact totalSize_nonneg _

theorem sums_mono (f : Book → Book) :
    ∀ bs : List (String × Book),
      (∀ e ∈ bs, (f e.2).exposure + (f e.2).submittedBids ≤ e.2.exposure + e.2.submittedBids ∧
        (f e.2).submittedAsks - (f e.2).exposure ≤ e.2.submittedAsks - e.2.exposure) →
      ((bs.map (fun e => (e.1, f e.2))).map (fun e => e.2.exposure)).sum +
          ((bs.map (fun e => (e.1, f e.2))).map (fun e => e.2.submittedBids)).sum ≤
        (bs.map (fun e => e.2.exposure)).sum + (bs.map (fun e => e.2.submittedBids)).sum ∧
      ((bs.map (fun e => (e.1, f e.2))).map (fun e => e.2.submittedAsks)).sum -
          ((bs.map (fun e => (e.1, f e.2))).map (fun e => e.2.exposure)).sum ≤
        (bs.map (fun e => e.2.submittedAsks)).sum - (bs.map (fun e => e.2.exposure)).sum := by
  intro bs
  induction bs with
  | nil => intro _; simp
  | cons e rest ih =>
    intro h
    obtain ⟨h1, h2⟩ := h e (List.mem_cons_self _ _)
    obtain ⟨i1, i2⟩ := ih (fun x hx => h x (List.mem_cons_of_mem _ hx))
    simp only [List.map_cons, List.sum_cons]
    constructor <;> omega

theorem withinLimit_map (c c1 : BooksContainer) (f : Book → Book) (limit : Int)
    (hbooks : c1.books = c.books.map (fun e => (e.1, f e.2)))
    (hagg : c.AggInv) (hagg1 : c1.AggInv)
    (hmono : ∀ e ∈ c.books,
      (f e.2).exposure + (f e.2).submittedBids ≤ e.2.exposure + e.2.submittedBids ∧
      (f e.2).submittedAsks - (f e.2).exposure ≤ e.2.submittedAsks - e.2.exposure)
    (h : c.WithinLimit limit) : c1.WithinLimit limit := by
  simp only [AggInv, sumInt] at hagg hagg1
  obtain ⟨a1, a2, a3, _⟩ := hagg
  obtain ⟨b1, b2, b3, _⟩ := hagg1
  obtain ⟨m1, m2⟩ := sums_mono f c.books hmono
  rw [hbooks] at b1 b2 b3
  unfold WithinLimit at *
  constructor <;> omega

theorem summed_map (c c1 : BooksContainer) (n : Nat) (f : Book → Book)
    (hbooks : c1.books = c.books.map (fun e => (e.1, f e.2)))
    (hagg1 : c1.AggInv) (hinv : c.Inv n)
    (hf : ∀ b, b.Inv n → b.SumInv → (f b).SumInv) (h : c.Summed) : c1.Summed := by
  refine ⟨hagg1, ?_⟩
  intro e he
  rw [hbooks] at he
  obtain ⟨x, hx, rfl⟩ := List.mem_map.1 he
  exact hf x.2 (book_inv_of_mem c n hinv x hx) (h.2 x hx)

theorem summed_sendOrder (c : BooksContainer) (g : OrderIDGenerator) (now : ℚ) (name : String)
    (instrument : Instrument) (side : Side) (size price : Int)
    (hinv : c.Inv g.currClientOrderID) (h0 : 0 < size) (h1 : size < (two63 : Int))
    (h : c.Summed) : (c.sendOrder g now name instrument side size price).1.Summed := by
  refine ⟨aggInv_sendOrder c g now name instrument side size price hinv.1 h.1, ?_⟩
  cases hfind : Map.find c.books name with
  | none =>
    rw [sendOrder_unknown c g now name instrument side size price hfind]
    exact h.2
  | some book =>
    rw [(sendOrder_known c g now name instrument side size price book hfind).1]
    intro e he
    rcases Map.mem_assign _ _ _ e he with heq | hmem
    · rw [heq]
      exact Book.sumInv_sendOrder book g now instrument side size price
        (hinv.2.1 name book hfind) (h.2 _ (Map.mem_of_find _ _ _ hfind)) h0 h1
    · exact h.2 e hmem

theorem summed_orderFilled (c : BooksContainer) (n : Nat) (m : TradeMatcher) (now : ℚ)
    (id : Nat) (price v : Int) (hinv : c.Inv n)
    (hv0 : 0 ≤ v) (hv1 : v < (two63 : Int)) (hp0 : 0 ≤ price) (hp1 : price < (two63 : Int))
    (hfit : ∀ e ∈ c.books, ∀ o ∈ e.2.findOrder id, v ≤ (o.size : Int))
    (limit : Int) (h : c.Summed) (hl : c.WithinLimit limit) :
    (c.orderFilled m now id price v).1.Summed ∧
    (c.orderFilled m now id price v).1.WithinLimit limit := by
  have hagg1 := aggInv_orderFilled c m now id price v hv0 hv1 hp0 hp1 h.1
  have hbooks := container_orderFilled_books c m now id price v
  constructor
  · refine ⟨hagg1, ?_⟩
    intro e he
    rw [hbooks] at he
    obtain ⟨x, hx, rfl⟩ := List.mem_map.1 he
    apply Book.sumInv_orderFilled x.2 n now id price v (book_inv_of_mem c n hinv x hx) (h.2 x hx)
    intro o ho
    have hsz := Book.size_lt_of_sumInv x.2 (h.2 x hx) id o ho
    have hle := hfit x hx o ho
    unfold FillOk
    unfold two63 at *
    omega
  · exact withinLimit_map c _ (fun b => (b.orderFilled now id price v).2) limit hbooks h.1 hagg1
      (fun e he => Book.fill_mono e.2 n now id price v (book_inv_of_mem c n hinv e he) hv0) hl

theorem summed_orderClosed (c : BooksContainer) (n : Nat) (id : Nat) (hinv : c.Inv n)
    (limit : Int) (h : c.Summed) (hl : c.WithinLimit limit) :
    (c.orderClosed id).Summed ∧ (c.orderClosed id).WithinLimit limit := by
  have hagg1 := aggInv_orderClosed c id h.1
  have hbooks := container_orderClosed_books c id
  constructor
  · exact summed_map c _ n (fun b => (b.orderClosed id).2) hbooks hagg1 hinv
      (fun b hb hs => Book.sumInv_orderClosed b n id hb hs) h
  · exact withinLimit_map c _ (fun b => (b.orderClosed id).2) limit hbooks h.1 hagg1
      (fun e he => Book.close_mono e.2 n id (book_inv_of_mem c n hinv e he) (h.2 e he)) hl

theorem summed_cancelOrder (c : BooksContainer) (n : Nat) (id : Nat) (hinv : c.Inv n)
    (limit : Int) (h : c.Summed) (hl : c.WithinLimit limit) :
    (c.cancelOrder id).Summed ∧ (c.cancelOrder id).WithinLimit limit := by
  have hagg1 := aggInv_cancelOrder c id h.1
  constructor
  · exact summed_map c _ n (fun b => b.cancelOrder id) rfl hagg1 hinv
      (fun b _ hs => Book.sumInv_cancelOrder b id hs) h
  · exact hl

end BooksContainer

namespace BooksContainer

theorem sendOrder_withinLimit (c : BooksContainer) (g : OrderIDGenerator) (now : ℚ)
    (name : String) (instrument : Instrument) (side : Side) (size price limit : Int)
    (hl : c.WithinLimit limit)
    (hbuy : side = Side.BUY → size ≤ limit - c.exposure - c.submittedBids)
    (hsell : side = Side.SELL → size ≤ c.exposure - c.submittedAsks + limit) :
    (c.sendOrder g now name instrument side size price).1.WithinLimit limit := by
  obtain ⟨f1, f2, f3⟩ := sendOrder_fields c g now name instrument side size price
  unfold WithinLimit at *
  rw [f1, f2, f3]
  cases side
  · have := hsell rfl
    simp only [reduceCtorEq, and_false, if_false, and_true]
    split <;> constructor <;> omega
  · have := hbuy rfl
    simp only [reduceCtorEq, and_false, if_false, and_true]
    split <;> constructor <;> omega

end BooksContainer

namespace AutoTrader

theorem limited_ext (k : Constants) (a b : AutoTrader) (hab : a.SameLedger b)
    (h : Limited k a) : Limited k b := by
  have hok := ledgerOk_ext a b hab h.1
  obtain ⟨h1, h2, _, _⟩ := hab
  unfold Limited at *
  rw [← h1, ← h2]
  exact ⟨hok, h.2⟩

theorem limited_new (k : Constants) (hL0 : 0 ≤ k.positionLimit) : Limited k AutoTrader.new := by
  have hnew : ∀ (names : List String) (inst : Instrument),
      (BooksContainer.new names inst).Summed ∧
      (BooksContainer.new names inst).WithinLimit k.positionLimit := by
    intro names inst
    refine ⟨⟨BooksContainer.aggInv_new names inst, ?_⟩, ?_⟩
    · intro e he
      obtain ⟨hwf, hall⟩ := BooksContainer.new_books names inst
      have := hall e.1 e.2 (Map.find_of_mem _ hwf e he)
      rw [this]
      exact ⟨fun _ _ h => by simp [Map.find] at h, fun _ _ h => by simp [Map.find] at h, rfl, rfl⟩
    · unfold BooksContainer.WithinLimit BooksContainer.new
      simp only []
      omega
  exact ⟨ledgerOk_new, (hnew _ _).1, (hnew _ _).1, (hnew _ _).2, (hnew _ _).2⟩

theorem sendOrder_limited (k : Constants) (hL0 : 0 ≤ k.positionLimit)
    (hL1 : k.positionLimit < 4611686018427387904)
    (a : AutoTrader) (clock : ℚ) (name : String)
    (instrument : Instrument) (side : Side) (size price : Int) (h : Limited k a) :
    Limited k (sendOrder k a clock name instrument side size price).2 := by
  have hok1 := sendOrder_ledgerOk k a clock name instrument side size price h.1
  obtain ⟨hok, hse, hsf, hle, hlf⟩ := h
  obtain ⟨_, hcase⟩ := sendOrder_ledger k a clock name instrument side size price
  obtain ⟨nbe, nae⟩ := BooksContainer.submitted_nonneg _ hse
  obtain ⟨nbf, naf⟩ := BooksContainer.submitted_nonneg _ hsf
  refine ⟨hok1, ?_⟩
  rcases hcase with ⟨_, h1, h2, _⟩ | ⟨_, hi, hpos, h1, _, h2⟩ | ⟨_, hi, hpos, h2, _, h1⟩
  · rw [h1, h2]
    exact ⟨hse, hsf, hle, hlf⟩
  · subst hi
    rw [h1, h2]
    have hb : side = Side.BUY → clampedSize k a Instrument.ETF side size ≤
        k.positionLimit - a.allEtfBooks.exposure - a.allEtfBooks.submittedBids := by
      intro hs; subst hs
      exact min_le_right _ _
    have hs : side = Side.SELL → clampedSize k a Instrument.ETF side size ≤
        a.allEtfBooks.exposure - a.allEtfBooks.submittedAsks + k.positionLimit := by
      intro hs; subst hs
      exact min_le_right _ _
    have hlt : clampedSize k a Instrument.ETF side size < (two63 : Int) := by
      unfold BooksContainer.WithinLimit at hle
      unfold two63
      cases side
      · have := hs rfl; omega
      · have := hb rfl; omega
    exact ⟨BooksContainer.summed_sendOrder _ _ _ _ _ _ _ _ hok.1.1 hpos hlt hse, hsf,
      BooksContainer.sendOrder_withinLimit _ _ _ _ _ _ _ _ _ hle hb hs, hlf⟩
  · subst hi
    rw [h1, h2]
    have hb : side = Side.BUY → clampedSize k a Instrument.FUTURE side size ≤
        k.positionLimit - a.allFutureBooks.exposure - a.allFutureBooks.submittedBids := by
      intro hs; subst hs
      exact min_le_right _ _
    have hs : side = Side.SELL → clampedSize k a Instrument.FUTURE side size ≤
        a.allFutureBooks.exposure - a.allFutureBooks.submittedAsks + k.positionLimit := by
      intro hs; subst hs
      exact min_le_right _ _
    have hlt : clampedSize k a Instrument.FUTURE side size < (two63 : Int) := by
      unfold BooksContainer.WithinLimit at hlf
      unfold two63
      cases side
      · have := hs rfl; omega
      · have := hb rfl; omega
    exact ⟨hse, BooksContainer.summed_sendOrder _ _ _ _ _ _ _ _ hok.1.2.1 hpos hlt hsf, hle,
      BooksContainer.sendOrder_withinLimit _ _ _ _ _ _ _ _ _ hlf hb hs⟩

theorem cancelOrder_limited (k : Constants) (a : AutoTrader) (clock : ℚ) (id : Nat)
    (h : Limited k a) : Limited k (cancelOrder a clock id).2 := by
  have hok1 := cancelOrder_ledgerOk a clock id h.1
  obtain ⟨hok, hse, hsf, hle, hlf⟩ := h
  obtain ⟨_, _, hcase⟩ := cancelOrder_ledger a clock id
  refine ⟨hok1, ?_⟩
  rcases hcase with ⟨_, h1, h2⟩ | ⟨_, h1, h2⟩
  · rw [h1, h2]
    exact ⟨hse, hsf, hle, hlf⟩
  · rw [h1, h2]
    obtain ⟨e1, e2⟩ := BooksContainer.summed_cancelOrder _ _ id hok.1.1 _ hse hle
    obtain ⟨f1, f2⟩ := BooksContainer.summed_cancelOrder _ _ id hok.1.2.1 _ hsf hlf
    exact ⟨e1, f1, e2, f2⟩

theorem orderClosed_limited (k : Constants) (a : AutoTrader) (id : Nat)
    (h : Limited k a) : Limited k (orderClosed a id) := by
  have hok1 := orderClosed_ledgerOk a id h.1
  obtain ⟨hok, hse, hsf, hle, hlf⟩ := h
  obtain ⟨e1, e2⟩ := BooksContainer.summed_orderClosed _ _ id hok.1.1 _ hse hle
  obtain ⟨f1, f2⟩ := BooksContainer.summed_orderClosed _ _ id hok.1.2.1 _ hsf hlf
  exact ⟨hok1, e1, f1, e2, f2⟩

theorem fills_limited (k : Constants) (a : AutoTrader) (m : TradeMatcher) (id : Nat)
    (price v : Int) (hv0 : 0 ≤ v) (hv1 : v < (two63 : Int)) (hp0 : 0 ≤ price)
    (hp1 : price < (two63 : Int))
    (hfit : ∀ e ∈ a.allEtfBooks.books ++ a.allFutureBooks.books,
      ∀ o ∈ e.2.findOrder id, v ≤ (o.size : Int))
    (h : Limited k a) :
    Limited k { a with
      allEtfBooks := (a.allEtfBooks.orderFilled a.matchingEngine a.time.time id price v).1
      allFutureBooks := (a.allFutureBooks.orderFilled
        (a.allEtfBooks.orderFilled a.matchingEngine a.time.time id price v).2
        a.time.time id price v).1
      matchingEngine := m } := by
  have hok1 := fills_ledgerOk a m a.time.time id price v h.1
  obtain ⟨hok, hse, hsf, hle, hlf⟩ := h
  obtain ⟨e1, e2⟩ := BooksContainer.summed_orderFilled a.allEtfBooks _ a.matchingEngine
    a.time.time id price v hok.1.1 hv0 hv1 hp0 hp1
    (fun e he => hfit e (List.mem_append_left _ he)) _ hse hle
  obtain ⟨f1, f2⟩ := BooksContainer.summed_orderFilled a.allFutureBooks _
    (a.allEtfBooks.orderFilled a.matchingEngine a.time.time id price v).2
    a.time.time id price v hok.1.2.1 hv0 hv1 hp0 hp1
    (fun e he => hfit e (List.mem_append_right _ he)) _ hsf hlf
  exact ⟨hok1, e1, f1, e2, f2⟩

/-- Every session keeps both containers summed and within the position limit. -/
theorem session_limited (k : Constants) (hL0 : 0 ≤ k.positionLimit)
    (hL1 : k.positionLimit < 4611686018427387904)
    (a : AutoTrader) (applied : List Order) (h : AutoTrader.Session k a applied) :
    Limited k a := by
  induction h with
  | new => exact limited_new k hL0
  | sendOrder a applied clock name instrument side size price _ ih =>
    exact sendOrder_limited k hL0 hL1 a clock name instrument side size price ih
  | cancelOrder a applied clock id _ ih => exact cancelOrder_limited k a clock id ih
  | orderFilled a applied clock id price v _ hv0 hv1 hp0 hp1 hfit ih =>
    rcases orderFilled_cases k a clock id price v with hc | hc
    · rw [hc]
      exact fills_limited k a _ id price v hv0 hv1 hp0 hp1 hfit ih
    · rw [hc]
      exact hedge_keeps k (Limited k) (sendOrder_limited k hL0 hL1) _ clock
        (fills_limited k a _ id price v hv0 hv1 hp0 hp1 hfit ih)
  | orderClosed a applied id _ ih => exact orderClosed_limited k a id ih
  | hedge a applied clock _ ih =>
    exact hedge_keeps k (Limited k) (sendOrder_limited k hL0 hL1) a clock ih
  | orderBookMessage a a1 applied clocks clocks1 instrument seq ap av bp bv _ hr ih =>
    exact handler_keeps k (Limited k) (sendOrder_limited k hL0 hL1) (cancelOrder_limited k)
      (limited_ext k) a a1 clocks clocks1 instrument seq ap av bp bv hr ih

/-- C33: in every session of the trader, that is in every state reached from the
constructed trader by its member functions, where orders are placed through
`AutoTrader::sendOrder` and a fill notification carries a volume that is at most the
remaining size of the order it names, each instrument satisfies
`exposure + submittedBids ≤ positionLimit` and `submittedAsks - exposure ≤ positionLimit`;
the submitted volumes are nonnegative, and therefore
`-positionLimit ≤ exposure ≤ positionLimit`.  The position limit is nonnegative and
below `2 ^ 62`. -/
theorem position_limit_in_every_session (k : Constants) (a : AutoTrader)
    (applied : List Order) (h : AutoTrader.Session k a applied)
    (hL0 : 0 ≤ k.positionLimit) (hL1 : k.positionLimit < 4611686018427387904)
    (instrument : Instrument) :
    (a.container instrument).getExposure + (a.container instrument).getSubmittedBids ≤
      k.positionLimit ∧
    (a.container instrument).getSubmitedAsks - (a.container instrument).getExposure ≤
      k.positionLimit ∧
    0 ≤ (a.container instrument).getSubmittedBids ∧
    0 ≤ (a.container instrument).getSubmitedAsks ∧
    -k.positionLimit ≤ (a.container instrument).getExposure ∧
    (a.container instrument).getExposure ≤ k.positionLimit := by
  obtain ⟨_, hse, hsf, hle, hlf⟩ := session_limited k hL0 hL1 a applied h
  have key : ∀ c : BooksContainer, c.Summed → c.WithinLimit k.positionLimit →
      c.getExposure + c.getSubmittedBids ≤ k.positionLimit ∧
      c.getSubmitedAsks - c.getExposure ≤ k.positionLimit ∧
      0 ≤ c.getSubmittedBids ∧ 0 ≤ c.getSubmitedAsks ∧
      -k.positionLimit ≤ c.getExposure ∧ c.getExposure ≤ k.positionLimit := by
    intro c hs hl
    obtain ⟨n1, n2⟩ := BooksContainer.submitted_nonneg c hs
    unfold BooksContainer.WithinLimit at hl
    simp only [BooksContainer.getExposure, BooksContainer.getSubmittedBids,
      BooksContainer.getSubmitedAsks]
    refine ⟨hl.1, hl.2, n1, n2, ?_, ?_⟩ <;> omega
  unfold container
  split
  · exact key _ hse hle
  · exact key _ hsf hlf

/-- Witness for C33: the session `AutoTrader.sampleFilledBid`, with the position limit
100. -/
theorem position_limit_in_every_session_witness :
    (AutoTrader.sampleFilledBid.container Instrument.ETF).getExposure +
      (AutoTrader.sampleFilledBid.container Instrument.ETF).getSubmittedBids ≤
        Constants.sample.positionLimit ∧
    (AutoTrader.sampleFilledBid.container Instrument.ETF).getExposure = 10 ∧
    (AutoTrader.sampleFilledBid.container Instrument.ETF).getSubmittedBids = 40 :=
  ⟨(position_limit_in_every_session Constants.sample AutoTrader.sampleFilledBid _
      (AutoTrader.Session.orderFilled AutoTrader.sampleRestingBid [] 0 1 10100 10
        (AutoTrader.Session.sendOrder AutoTrader.new [] 0 "ETF" Instrument.ETF Side.BUY 50 10100
          AutoTrader.Session.new)
        (by decide) (by decide) (by decide) (by decide) (by decide!))
      (by decide) (by decide) Instrument.ETF).1,
   by decide!, by decide!⟩

end AutoTrader


/-! ## Theorems: priority prices of a best-first snapshot -/

namespace AutoTrader

theorem volumeUpTo_succ (volumes : List Nat) (i : Nat) :
    volumeUpTo volumes (i + 1) = volumeUpTo volumes i + volumes.getD (i + 1) 0 := by
  simp only [volumeUpTo, List.range_succ (i + 1), List.map_append, List.sum_append,
    List.map_cons, List.map_nil, List.sum_cons, List.sum_nil, add_zero]

theorem cumulativeVolume_eq_volumeUpTo (volumes : List Nat) :
    ∀ i : Nat, volumeUpTo volumes i < two63 →
      cumulativeVolume volumes i = (volumeUpTo volumes i : Int) := by
  intro i
  induction i with
  | zero =>
    intro h
    have h0 : volumeUpTo volumes 0 = volumes.getD 0 0 := by
      simp [volumeUpTo, List.range_succ]
    have hc : cumulativeVolume volumes 0 = toLong (volumes.getD 0 0) := by
      simp [cumulativeVolume, List.range_succ]
    rw [hc, h0, toLong_of_lt _ (by rw [← h0]; exact h)]
  | succ n ih =>
    intro h
    rw [volumeUpTo_succ] at h
    rw [cumulativeVolume_succ, volumeUpTo_succ, ih (by omega), toLong_of_lt _ (by omega)]
    push_cast
    rfl

/-- The first level at which the cumulative volume reaches the threshold carries
volume. -/
theorem volume_at_first_level (volumes : List Nat) (i : Nat)
    (hreach : 100 ≤ volumeUpTo volumes i) (hfirst : ∀ j, j < i → volumeUpTo volumes j < 100) :
    volumes.getD i 0 ≠ 0 := by
  intro h0
  cases i with
  | zero =>
    have : volumeUpTo volumes 0 = volumes.getD 0 0 := by
      simp [volumeUpTo, List.range_succ]
    omega
  | succ n =>
    rw [volumeUpTo_succ, h0] at hreach
    have := hfirst n (Nat.lt_succ_self n)
    omega

theorem priorityAt_of_first_level (depth : Nat) (prices volumes : List Nat)
    (hp : ∀ i, i < depth → prices.getD i 0 < two63)
    (hv : ∀ i, i < depth → volumeUpTo volumes i < two63)
    (hbest : BestFirst depth prices volumes) (i : Nat) (hi : i < depth)
    (hreach : 100 ≤ volumeUpTo volumes i) (hfirst : ∀ j, j < i → volumeUpTo volumes j < 100) :
    PriorityAt prices volumes i ∧ (∀ j, j < i → ¬ PriorityAt prices volumes j) ∧
    toLong (prices.getD (i - 1) 0) = (prices.getD (i - 1) 0 : Int) := by
  have hvol := volume_at_first_level volumes i hreach hfirst
  have hprice := hbest i hi hvol (i - 1) (Nat.sub_le i 1)
  have hlong := toLong_of_lt _ (hp (i - 1) (by omega))
  refine ⟨⟨?_, ?_⟩, ?_, hlong⟩
  · rw [cumulativeVolume_eq_volumeUpTo volumes i (hv i hi)]
    exact_mod_cast hreach
  · rw [hlong]
    exact_mod_cast hprice
  · intro j hj hat
    have h1 := hat.1
    rw [cumulativeVolume_eq_volumeUpTo volumes j (hv j (by omega))] at h1
    have h2 := hfirst j hj
    have h3 : (100 : Int) ≤ (volumeUpTo volumes j : Int) := h1
    omega

theorem not_priorityAt_of_thin (depth : Nat) (prices volumes : List Nat)
    (hv : ∀ i, i < depth → volumeUpTo volumes i < two63)
    (hthin : ∀ j, j < depth → volumeUpTo volumes j < 100) :
    ∀ j, j < depth → ¬ PriorityAt prices volumes j := by
  intro j hj hat
  have h1 := hat.1
  rw [cumulativeVolume_eq_volumeUpTo volumes j (hv j hj)] at h1
  have h2 := hthin j hj
  have h3 : (100 : Int) ≤ (volumeUpTo volumes j : Int) := h1
  omega

end AutoTrader


/-! ## Theorems: IEEE 754 binary64 rounding -/

namespace Double

theorem pow2_eq (k : Int) : pow2 k = (2 : ℚ) ^ k := by
  unfold pow2
  split
  · rename_i h
    obtain ⟨n, rfl⟩ := Int.eq_ofNat_of_zero_le h
    simp
  · rename_i h
    have hk : k = -(((-k).toNat : Nat) : Int) := by omega
    rw [hk]
    simp only [neg_neg, Int.toNat_ofNat, zpow_neg, zpow_natCast]
    push_cast
    rw [one_div]

theorem pow2_pos (k : Int) : 0 < pow2 k := by
  rw [pow2_eq]
  positivity

theorem pow2_add (a b : Int) : pow2 (a + b) = pow2 a * pow2 b := by
  rw [pow2_eq, pow2_eq, pow2_eq, zpow_add₀ (by norm_num)]

theorem pow2_mono (a b : Int) (h : a ≤ b) : pow2 a ≤ pow2 b := by
  rw [pow2_eq, pow2_eq]
  exact zpow_le_zpow_right₀ (by norm_num) h

theorem log2Loop_spec : ∀ fuel n : Nat, n ≤ fuel → n ≠ 0 →
    2 ^ log2Loop fuel n ≤ n ∧ n < 2 ^ (log2Loop fuel n + 1) := by
  intro fuel
  induction fuel with
  | zero => intro n h1 h2; omega
  | succ fuel ih =>
    intro n h1 h2
    unfold log2Loop
    split
    · rename_i h
      obtain ⟨i1, i2⟩ := ih (n / 2) (by omega) (by omega)
      rw [pow_succ] at i2 ⊢
      rw [pow_succ]
      constructor <;> omega
    · have : n = 1 := by omega
      subst this
      simp

theorem log2_spec (n : Nat) (h : n ≠ 0) : 2 ^ log2 n ≤ n ∧ n < 2 ^ (log2 n + 1) :=
  log2Loop_spec n n (Nat.le_refl n) h

theorem abs_eq_div (x : ℚ) : |x| = (x.num.natAbs : ℚ) / (x.den : ℚ) := by
  rw [Rat.abs_def, Rat.divInt_eq_div]
  simp only [Int.cast_natCast]

/-- The binary exponent of a nonzero value. -/
theorem exponent_spec (x : ℚ) (hx : x ≠ 0) :
    pow2 (exponent x) ≤ |x| ∧ |x| < pow2 (exponent x + 1) := by
  have hn : x.num.natAbs ≠ 0 := by
    intro h
    exact hx (Rat.zero_of_num_zero (Int.natAbs_eq_zero.1 h))
  have hd : x.den ≠ 0 := x.den_nz
  obtain ⟨n1, n2⟩ := log2_spec x.num.natAbs hn
  obtain ⟨d1, d2⟩ := log2_spec x.den hd
  have hn1 : ((2 : ℚ) ^ log2 x.num.natAbs) ≤ (x.num.natAbs : ℚ) := by exact_mod_cast n1
  have hn2 : (x.num.natAbs : ℚ) < (2 : ℚ) ^ (log2 x.num.natAbs + 1) := by exact_mod_cast n2
  have hd1 : ((2 : ℚ) ^ log2 x.den) ≤ (x.den : ℚ) := by exact_mod_cast d1
  have hd2 : (x.den : ℚ) < (2 : ℚ) ^ (log2 x.den + 1) := by exact_mod_cast d2
  have hdpos : (0 : ℚ) < (x.den : ℚ) := by exact_mod_cast Nat.pos_of_ne_zero hd
  have habs := abs_eq_div x
  unfold exponent
  simp only []
  split
  · rename_i h
    refine ⟨h, ?_⟩
    rw [habs, pow2_eq, div_lt_iff₀ hdpos]
    have e : ((log2 x.num.natAbs : Int) - (log2 x.den : Int) + 1) =
        ((log2 x.num.natAbs + 1 : Nat) : Int) - ((log2 x.den : Nat) : Int) := by push_cast; ring
    rw [e, zpow_sub₀ (by norm_num), zpow_natCast, zpow_natCast]
    calc (x.num.natAbs : ℚ) < (2 : ℚ) ^ (log2 x.num.natAbs + 1) := hn2
      _ = (2 : ℚ) ^ (log2 x.num.natAbs + 1) / 2 ^ log2 x.den * 2 ^ log2 x.den := by
          field_simp
      _ ≤ (2 : ℚ) ^ (log2 x.num.natAbs + 1) / 2 ^ log2 x.den * (x.den : ℚ) := by
          apply mul_le_mul_of_nonneg_left hd1
          positivity
  · rename_i h
    refine ⟨?_, ?_⟩
    · rw [habs, pow2_eq, le_div_iff₀ hdpos]
      have e : ((log2 x.num.natAbs : Int) - (log2 x.den : Int) - 1) =
          ((log2 x.num.natAbs : Nat) : Int) - ((log2 x.den + 1 : Nat) : Int) := by
        push_cast; ring
      rw [e, zpow_sub₀ (by norm_num), zpow_natCast, zpow_natCast]
      calc (2 : ℚ) ^ log2 x.num.natAbs / 2 ^ (log2 x.den + 1) * (x.den : ℚ)
          ≤ (2 : ℚ) ^ log2 x.num.natAbs / 2 ^ (log2 x.den + 1) * 2 ^ (log2 x.den + 1) := by
            apply mul_le_mul_of_nonneg_left (le_of_lt hd2)
            positivity
        _ = (2 : ℚ) ^ log2 x.num.natAbs := by field_simp
        _ ≤ (x.num.natAbs : ℚ) := hn1
    · have e : ((log2 x.num.natAbs : Int) - (log2 x.den : Int) - 1 + 1) =
          (log2 x.num.natAbs : Int) - (log2 x.den : Int) := by ring
      rw [e]
      exact lt_of_not_le h

theorem roundHalfEven_spec (s : ℚ) : |((roundHalfEven s : Int) : ℚ) - s| ≤ 1 / 2 := by
  have h1 := Int.floor_le s
  have h2 := Int.lt_floor_add_one s
  unfold roundHalfEven
  rw [abs_le]
  split
  · constructor <;> linarith
  · split
    · push_cast
      constructor <;> linarith
    · split
      · constructor <;> linarith
      · push_cast
        constructor <;> linarith

theorem roundHalfEven_intCast (z : Int) : roundHalfEven (z : ℚ) = z := by
  unfold roundHalfEven
  simp

theorem roundHalfEven_nonneg (s : ℚ) (h : 0 ≤ s) : 0 ≤ roundHalfEven s := by
  have h1 : 0 ≤ ⌊s⌋ := Int.floor_nonneg.2 h
  unfold roundHalfEven
  split
  · exact h1
  · split
    · omega
    · split <;> omega

/-- The relative error of a rounding is at most `2 ^ (-53)`. -/
theorem round_rel (x : ℚ) : |round x - x| ≤ |x| / 2 ^ 53 := by
  unfold round
  split
  · rename_i h
    subst h
    simp
  · rename_i h
    obtain ⟨e1, _⟩ := exponent_spec x h
    have hp := pow2_pos (exponent x - 52)
    have hs := roundHalfEven_spec (x / pow2 (exponent x - 52))
    have hsplit : pow2 (exponent x) = pow2 (exponent x - 52) * 2 ^ 52 := by
      have : exponent x = (exponent x - 52) + 52 := by ring
      conv_lhs => rw [this]
      rw [pow2_add]
      congr 1
    have hrew : ((roundHalfEven (x / pow2 (exponent x - 52)) : Int) : ℚ) * pow2 (exponent x - 52)
        - x = (((roundHalfEven (x / pow2 (exponent x - 52)) : Int) : ℚ) -
          x / pow2 (exponent x - 52)) * pow2 (exponent x - 52) := by
      field_simp
    rw [hrew, abs_mul, abs_of_pos hp]
    calc |((roundHalfEven (x / pow2 (exponent x - 52)) : Int) : ℚ) - x / pow2 (exponent x - 52)|
          * pow2 (exponent x - 52)
        ≤ 1 / 2 * pow2 (exponent x - 52) := mul_le_mul_of_nonneg_right hs (le_of_lt hp)
      _ = pow2 (exponent x) / 2 ^ 53 := by rw [hsplit]; ring
      _ ≤ |x| / 2 ^ 53 := by
          apply div_le_div_of_nonneg_right e1
          positivity

theorem round_nonneg (x : ℚ) (h : 0 ≤ x) : 0 ≤ round x := by
  unfold round
  split
  · exact le_refl _
  · have hp := pow2_pos (exponent x - 52)
    have := roundHalfEven_nonneg (x / pow2 (exponent x - 52)) (div_nonneg h (le_of_lt hp))
    have h2 : (0 : ℚ) ≤ ((roundHalfEven (x / pow2 (exponent x - 52)) : Int) : ℚ) := by
      exact_mod_cast this
    exact mul_nonneg h2 (le_of_lt hp)

/-- An integer of less than 54 bits is a `double`. -/
theorem round_intCast (n : Int) (h : |n| < 2 ^ 53) : round (n : ℚ) = (n : ℚ) := by
  unfold round
  split
  · rename_i h0
    rw [h0]
  · rename_i h0
    obtain ⟨e1, _⟩ := exponent_spec (n : ℚ) h0
    have habs : |(n : ℚ)| < 2 ^ 53 := by exact_mod_cast h
    have hlt : exponent (n : ℚ) < 53 := by
      by_contra hge
      have hge1 : (53 : Int) ≤ exponent (n : ℚ) := by omega
      have := pow2_mono 53 (exponent (n : ℚ)) hge1
      have h53 : pow2 53 = 2 ^ 53 := by
        rw [pow2_eq]
        norm_num
      rw [h53] at this
      linarith
    obtain ⟨j, hj⟩ : ∃ j : Nat, exponent (n : ℚ) - 52 = -(j : Int) :=
      ⟨(52 - exponent (n : ℚ)).toNat, by omega⟩
    rw [hj]
    have hpj : pow2 (-(j : Int)) = 1 / (2 : ℚ) ^ j := by
      rw [pow2_eq, zpow_neg, zpow_natCast, one_div]
    have hint : (n : ℚ) / pow2 (-(j : Int)) = ((n * 2 ^ j : Int) : ℚ) := by
      rw [hpj]
      push_cast
      field_simp
    rw [hint, roundHalfEven_intCast, hpj]
    push_cast
    field_simp

theorem round_natCast (n : Nat) (h : n < 2 ^ 53) : round (n : ℚ) = (n : ℚ) := by
  have := round_intCast (n : Int) (by
    rw [abs_of_nonneg (by positivity)]
    exact_mod_cast h)
  exact_mod_cast this

theorem near_refl (x : ℚ) : Near 0 x x := by
  unfold Near
  simp

theorem near_nonneg (k : Nat) (x y : ℚ) (hy : 0 ≤ y) (h : Near k x y) : 0 ≤ x := by
  have : (0 : ℚ) ≤ (1 - 1 / 2 ^ 53) ^ k * y := by
    apply mul_nonneg _ hy
    apply pow_nonneg
    norm_num
  exact le_trans this h.1

theorem near_round (k : Nat) (x y : ℚ) (hy : 0 ≤ y) (h : Near k x y) :
    Near (k + 1) (round x) y := by
  have hx := near_nonneg k x y hy h
  have hr := round_rel x
  rw [abs_of_nonneg hx, abs_le] at hr
  obtain ⟨h1, h2⟩ := h
  have hu : (0 : ℚ) ≤ 1 - 1 / 2 ^ 53 := by norm_num
  have hv : (0 : ℚ) ≤ 1 + 1 / 2 ^ 53 := by norm_num
  unfold Near
  constructor
  · calc (1 - 1 / 2 ^ 53) ^ (k + 1) * y = (1 - 1 / 2 ^ 53) * ((1 - 1 / 2 ^ 53) ^ k * y) := by ring
      _ ≤ (1 - 1 / 2 ^ 53) * x := mul_le_mul_of_nonneg_left h1 hu
      _ ≤ round x := by linarith
  · calc round x ≤ (1 + 1 / 2 ^ 53) * x := by linarith
      _ ≤ (1 + 1 / 2 ^ 53) * ((1 + 1 / 2 ^ 53) ^ k * y) := mul_le_mul_of_nonneg_left h2 hv
      _ = (1 + 1 / 2 ^ 53) ^ (k + 1) * y := by ring

theorem near_mul (k : Nat) (x y c : ℚ) (hc : 0 ≤ c) (h : Near k x y) : Near k (x * c) (y * c) := by
  obtain ⟨h1, h2⟩ := h
  unfold Near
  constructor
  · calc (1 - 1 / 2 ^ 53) ^ k * (y * c) = (1 - 1 / 2 ^ 53) ^ k * y * c := by ring
      _ ≤ x * c := mul_le_mul_of_nonneg_right h1 hc
  · calc x * c ≤ (1 + 1 / 2 ^ 53) ^ k * y * c := mul_le_mul_of_nonneg_right h2 hc
      _ = (1 + 1 / 2 ^ 53) ^ k * (y * c) := by ring

theorem near_div (k : Nat) (x y c : ℚ) (hc : 0 ≤ c) (h : Near k x y) : Near k (x / c) (y / c) := by
  rw [div_eq_mul_inv, div_eq_mul_inv]
  exact near_mul k x y c⁻¹ (inv_nonneg.2 hc) h

theorem near_add (k : Nat) (x1 y1 x2 y2 : ℚ) (h1 : Near k x1 y1) (h2 : Near k x2 y2) :
    Near k (x1 + x2) (y1 + y2) := by
  obtain ⟨a1, a2⟩ := h1
  obtain ⟨b1, b2⟩ := h2
  unfold Near
  constructor
  · rw [mul_add]; linarith
  · rw [mul_add]; linarith

theorem near_add_const (k : Nat) (x y c : ℚ) (hc : 0 ≤ c) (h : Near k x y) :
    Near k (x + c) (y + c) := by
  obtain ⟨h1, h2⟩ := h
  have hlo : (1 - 1 / 2 ^ 53 : ℚ) ^ k ≤ 1 := pow_le_one₀ (by norm_num) (by norm_num)
  have hhi : (1 : ℚ) ≤ (1 + 1 / 2 ^ 53) ^ k := one_le_pow₀ (by norm_num)
  unfold Near
  constructor
  · rw [mul_add]
    have := mul_le_mul_of_nonneg_right hlo hc
    linarith
  · rw [mul_add]
    have := mul_le_mul_of_nonneg_right hhi hc
    linarith

end Double

/-! ## Theorems: the fair-value estimate in double arithmetic -/

namespace InverseVWAP

theorem accumulate_loop (volumes : List Nat) : ∀ init : Nat, init + volumes.sum < two63 →
    volumes.foldl (fun (init : Int) (v : Nat) => toLong (toULong (init + (v : Int)))) (init : Int) =
      ((init + volumes.sum : Nat) : Int) := by
  induction volumes with
  | nil => intro init _; simp
  | cons v vs ih =>
    intro init h
    simp only [List.sum_cons] at h
    simp only [List.foldl_cons, List.sum_cons]
    have hstep : toLong (toULong ((init : Int) + (v : Int))) = ((init + v : Nat) : Int) := by
      rw [toLong_toULong _ (by unfold IsLong; constructor <;> omega)]
      push_cast
      rfl
    rw [hstep, ih (init + v) (by omega)]
    congr 1
    omega

/-- Without wrap-around, `std::accumulate` returns the sum of the volumes. -/
theorem accumulate_of_lt (volumes : List Nat) (h : volumes.sum < two63) :
    accumulate volumes = (volumes.sum : Int) := by
  have := accumulate_loop volumes 0 (by omega)
  simp only [Nat.zero_add] at this
  exact this

theorem priceVolume_succ (n : Nat) (prices volumes : List Nat) :
    priceVolume (n + 1) prices volumes =
      priceVolume n prices volumes + prices.getD n 0 * volumes.getD n 0 := by
  simp only [priceVolume, List.range_succ, List.map_append, List.sum_append, List.map_cons,
    List.map_nil, List.sum_cons, List.sum_nil, add_zero]

theorem innerProduct_succ (n : Nat) (prices volumes : List Nat) :
    innerProduct (n + 1) prices volumes =
      Double.add (innerProduct n prices volumes)
        (Double.ofULong ((prices.getD n 0 * volumes.getD n 0) % two64)) := by
  simp only [innerProduct, List.range_succ, List.foldl_append, List.foldl_cons, List.foldl_nil]

/-- When the sum of price times volume is below `2 ^ 53`, every product and every partial
sum is a `double`, and `std::inner_product` returns the exact sum. -/
theorem innerProduct_exact (prices volumes : List Nat) : ∀ depth : Nat,
    priceVolume depth prices volumes < 2 ^ 53 →
    innerProduct depth prices volumes = (priceVolume depth prices volumes : ℚ) := by
  intro depth
  induction depth with
  | zero => intro _; simp [innerProduct, priceVolume]
  | succ n ih =>
    intro h
    rw [priceVolume_succ] at h
    rw [innerProduct_succ, priceVolume_succ, ih (by omega)]
    have hmod : (prices.getD n 0 * volumes.getD n 0) % two64 =
        prices.getD n 0 * volumes.getD n 0 :=
      Nat.mod_eq_of_lt (by unfold two64; omega)
    rw [hmod]
    unfold Double.ofULong Double.add
    rw [Double.round_natCast _ (by omega)]
    have := Double.round_natCast (priceVolume n prices volumes +
      prices.getD n 0 * volumes.getD n 0) h
    push_cast at this ⊢
    exact this

/-- The scaled price `(price + 50) / 100` of `calculateInverseVWAP` in double arithmetic
is the exact one up to six roundings. -/
theorem scaledPrice_near (sa sb a b : Nat) :
    Double.Near 6
      (Double.div (Double.add (Double.div
        (Double.add (Double.mul (Double.div (sb : ℚ) (b : ℚ)) (a : ℚ))
          (Double.mul (Double.div (sa : ℚ) (a : ℚ)) (b : ℚ)))
        ((b : ℚ) + (a : ℚ))) 50) 100)
      ((((sb : ℚ) / (b : ℚ) * (a : ℚ) + (sa : ℚ) / (a : ℚ) * (b : ℚ)) / ((b : ℚ) + (a : ℚ))
        + 50) / 100) := by
  have ha : (0 : ℚ) ≤ (a : ℚ) := Nat.cast_nonneg a
  have hb : (0 : ℚ) ≤ (b : ℚ) := Nat.cast_nonneg b
  have hsa : (0 : ℚ) ≤ (sa : ℚ) := Nat.cast_nonneg sa
  have hsb : (0 : ℚ) ≤ (sb : ℚ) := Nat.cast_nonneg sb
  have n1 : (0 : ℚ) ≤ (sb : ℚ) / (b : ℚ) := div_nonneg hsb hb
  have n2 : (0 : ℚ) ≤ (sa : ℚ) / (a : ℚ) := div_nonneg hsa ha
  have n3 : (0 : ℚ) ≤ (sb : ℚ) / (b : ℚ) * (a : ℚ) := mul_nonneg n1 ha
  have n4 : (0 : ℚ) ≤ (sa : ℚ) / (a : ℚ) * (b : ℚ) := mul_nonneg n2 hb
  have n5 : (0 : ℚ) ≤ (sb : ℚ) / (b : ℚ) * (a : ℚ) + (sa : ℚ) / (a : ℚ) * (b : ℚ) :=
    add_nonneg n3 n4
  have n6 : (0 : ℚ) ≤ ((sb : ℚ) / (b : ℚ) * (a : ℚ) + (sa : ℚ) / (a : ℚ) * (b : ℚ)) /
      ((b : ℚ) + (a : ℚ)) := div_nonneg n5 (add_nonneg hb ha)
  have n7 : (0 : ℚ) ≤ ((sb : ℚ) / (b : ℚ) * (a : ℚ) + (sa : ℚ) / (a : ℚ) * (b : ℚ)) /
      ((b : ℚ) + (a : ℚ)) + 50 := add_nonneg n6 (by norm_num)
  have a1 : Double.Near 1 (Double.div (sb : ℚ) (b : ℚ)) ((sb : ℚ) / (b : ℚ)) :=
    Double.near_round 0 _ _ n1 (Double.near_refl _)
  have a2 : Double.Near 1 (Double.div (sa : ℚ) (a : ℚ)) ((sa : ℚ) / (a : ℚ)) :=
    Double.near_round 0 _ _ n2 (Double.near_refl _)
  have b1 := Double.near_round 1 _ _ n3 (Double.near_mul 1 _ _ (a : ℚ) ha a1)
  have b2 := Double.near_round 1 _ _ n4 (Double.near_mul 1 _ _ (b : ℚ) hb a2)
  have c := Double.near_round 2 _ _ n5 (Double.near_add 2 _ _ _ _ b1 b2)
  have d := Double.near_round 3 _ _ n6
    (Double.near_div 3 _ _ ((b : ℚ) + (a : ℚ)) (add_nonneg hb ha) c)
  have e := Double.near_round 4 _ _ n7 (Double.near_add_const 4 _ _ 50 (by norm_num) d)
  exact Double.near_round 5 _ _ (div_nonneg n7 (by norm_num))
    (Double.near_div 5 _ _ 100 (by norm_num) e)

end InverseVWAP

namespace InverseVWAP

theorem near_six (x y : ℚ) (hy : 0 ≤ y) (h : Double.Near 6 x y) :
    (1 - 1 / 2 ^ 50) * y ≤ x ∧ x ≤ (1 + 1 / 2 ^ 50) * y := by
  obtain ⟨h1, h2⟩ := h
  have lo : (1 - 1 / 2 ^ 50 : ℚ) ≤ (1 - 1 / 2 ^ 53) ^ 6 := by norm_num
  have hi : ((1 + 1 / 2 ^ 53) ^ 6 : ℚ) ≤ 1 + 1 / 2 ^ 50 := by norm_num
  exact ⟨le_trans (mul_le_mul_of_nonneg_right lo hy) h1,
    le_trans h2 (mul_le_mul_of_nonneg_right hi hy)⟩

/-- The exact price is a weighted mean of values that are at most the larger of the two
sums of price times volume. -/
theorem exactPrice_bound (sa sb a b : Nat) (ha : 0 < a) (hb : 0 < b) (hsa : sa < 2 ^ 52)
    (hsb : sb < 2 ^ 52) :
    0 ≤ ((sb : ℚ) / (b : ℚ) * (a : ℚ) + (sa : ℚ) / (a : ℚ) * (b : ℚ)) / ((b : ℚ) + (a : ℚ)) ∧
    ((sb : ℚ) / (b : ℚ) * (a : ℚ) + (sa : ℚ) / (a : ℚ) * (b : ℚ)) / ((b : ℚ) + (a : ℚ)) ≤
      2 ^ 52 := by
  have ha0 : (0 : ℚ) < (a : ℚ) := by exact_mod_cast ha
  have hb0 : (0 : ℚ) < (b : ℚ) := by exact_mod_cast hb
  have ha1 : (1 : ℚ) ≤ (a : ℚ) := by exact_mod_cast ha
  have hb1 : (1 : ℚ) ≤ (b : ℚ) := by exact_mod_cast hb
  have hsa0 : (0 : ℚ) ≤ (sa : ℚ) := Nat.cast_nonneg sa
  have hsb0 : (0 : ℚ) ≤ (sb : ℚ) := Nat.cast_nonneg sb
  have hsa1 : (sa : ℚ) ≤ 2 ^ 52 := by exact_mod_cast le_of_lt hsa
  have hsb1 : (sb : ℚ) ≤ 2 ^ 52 := by exact_mod_cast le_of_lt hsb
  have q1 : (sb : ℚ) / (b : ℚ) ≤ 2 ^ 52 := le_trans (div_le_self hsb0 hb1) hsb1
  have q2 : (sa : ℚ) / (a : ℚ) ≤ 2 ^ 52 := le_trans (div_le_self hsa0 ha1) hsa1
  have p1 : (0 : ℚ) ≤ (sb : ℚ) / (b : ℚ) := div_nonneg hsb0 (le_of_lt hb0)
  have p2 : (0 : ℚ) ≤ (sa : ℚ) / (a : ℚ) := div_nonneg hsa0 (le_of_lt ha0)
  constructor
  · exact div_nonneg (add_nonneg (mul_nonneg p1 (le_of_lt ha0)) (mul_nonneg p2 (le_of_lt hb0)))
      (le_of_lt (add_pos hb0 ha0))
  · rw [div_le_iff₀ (add_pos hb0 ha0)]
    have m1 := mul_le_mul_of_nonneg_right q1 (le_of_lt ha0)
    have m2 := mul_le_mul_of_nonneg_right q2 (le_of_lt hb0)
    linarith

/-- The estimate for a snapshot with volume on both sides, when the total volume and the
sums of price times volume are below `2 ^ 52`: the scaled price in double arithmetic,
truncated and multiplied by the tick size. -/
theorem calculateInverseVWAP_of_small (depth : Nat)
    (askPricesIn askVolumesIn bidPricesIn bidVolumesIn : List Nat)
    (hB : 0 < (filteredBidVolumes depth bidPricesIn bidVolumesIn).sum)
    (hA : 0 < (filteredAskVolumes depth askPricesIn askVolumesIn).sum)
    (hV : (filteredBidVolumes depth bidPricesIn bidVolumesIn).sum +
      (filteredAskVolumes depth askPricesIn askVolumesIn).sum < 2 ^ 52)
    (hSB : priceVolume depth bidPricesIn (filteredBidVolumes depth bidPricesIn bidVolumesIn)
      < 2 ^ 52)
    (hSA : priceVolume depth askPricesIn (filteredAskVolumes depth askPricesIn askVolumesIn)
      < 2 ^ 52) :
    calculateInverseVWAP depth askPricesIn askVolumesIn bidPricesIn bidVolumesIn =
      some (((⌊Double.div (Double.add (Double.div
        (Double.add
          (Double.mul (Double.div
            ((priceVolume depth bidPricesIn
              (filteredBidVolumes depth bidPricesIn bidVolumesIn) : Nat) : ℚ)
            (((filteredBidVolumes depth bidPricesIn bidVolumesIn).sum : Nat) : ℚ))
            (((filteredAskVolumes depth askPricesIn askVolumesIn).sum : Nat) : ℚ))
          (Double.mul (Double.div
            ((priceVolume depth askPricesIn
              (filteredAskVolumes depth askPricesIn askVolumesIn) : Nat) : ℚ)
            (((filteredAskVolumes depth askPricesIn askVolumesIn).sum : Nat) : ℚ))
            (((filteredBidVolumes depth bidPricesIn bidVolumesIn).sum : Nat) : ℚ)))
        ((((filteredBidVolumes depth bidPricesIn bidVolumesIn).sum : Nat) : ℚ) +
          (((filteredAskVolumes depth askPricesIn askVolumesIn).sum : Nat) : ℚ))) 50) 100⌋
        * 100 : Int) : ℚ)) := by
  have hacb := accumulate_of_lt (filteredBidVolumes depth bidPricesIn bidVolumesIn)
    (by unfold two63; omega)
  have haca := accumulate_of_lt (filteredAskVolumes depth askPricesIn askVolumesIn)
    (by unfold two63; omega)
  have hib := innerProduct_exact bidPricesIn (filteredBidVolumes depth bidPricesIn bidVolumesIn)
    depth (by omega)
  have hia := innerProduct_exact askPricesIn (filteredAskVolumes depth askPricesIn askVolumesIn)
    depth (by omega)
  unfold calculateInverseVWAP
  simp only [hacb, haca, hib, hia]
  generalize (filteredBidVolumes depth bidPricesIn bidVolumesIn).sum = b at *
  generalize (filteredAskVolumes depth askPricesIn askVolumesIn).sum = a at *
  generalize priceVolume depth bidPricesIn
    (filteredBidVolumes depth bidPricesIn bidVolumesIn) = sb at *
  generalize priceVolume depth askPricesIn
    (filteredAskVolumes depth askPricesIn askVolumesIn) = sa at *
  have hoa : Double.ofLong (a : Int) = (a : ℚ) := by
    have := Double.round_intCast (a : Int) (by rw [abs_of_nonneg (by omega)]; omega)
    unfold Double.ofLong
    exact_mod_cast this
  have hob : Double.ofLong (b : Int) = (b : ℚ) := by
    have := Double.round_intCast (b : Int) (by rw [abs_of_nonneg (by omega)]; omega)
    unfold Double.ofLong
    exact_mod_cast this
  have htv : toLong (toULong ((b : Int) + (a : Int))) = ((b : Int) + (a : Int)) :=
    toLong_toULong _ (by unfold IsLong two63; constructor <;> omega)
  have hoba : Double.ofLong ((b : Int) + (a : Int)) = (b : ℚ) + (a : ℚ) := by
    have := Double.round_intCast ((b : Int) + (a : Int))
      (by rw [abs_of_nonneg (by omega)]; omega)
    unfold Double.ofLong
    exact_mod_cast this
  have ho50 : Double.ofLong (Int.tdiv 100 2) = 50 := by
    have h50 : Int.tdiv 100 2 = 50 := by decide
    have := Double.round_intCast 50 (by norm_num)
    rw [h50]
    unfold Double.ofLong
    exact_mod_cast this
  have ho100 : Double.ofLong 100 = 100 := by
    have := Double.round_intCast 100 (by norm_num)
    unfold Double.ofLong
    exact_mod_cast this
  rw [if_neg (by omega), htv, if_neg (by omega)]
  simp only [Option.map_some', hoa, hob, hoba, ho50, ho100]
  have hnear := scaledPrice_near sa sb a b
  obtain ⟨p0, p1⟩ := exactPrice_bound sa sb a b hA hB hSA hSB
  have ht0 : (0 : ℚ) ≤ (((sb : ℚ) / (b : ℚ) * (a : ℚ) + (sa : ℚ) / (a : ℚ) * (b : ℚ)) /
      ((b : ℚ) + (a : ℚ)) + 50) / 100 := by positivity
  obtain ⟨_, r2⟩ := near_six _ _ ht0 hnear
  have hR0 := Double.near_nonneg 6 _ _ ht0 hnear
  generalize Double.div (Double.add (Double.div
    (Double.add (Double.mul (Double.div (sb : ℚ) (b : ℚ)) (a : ℚ))
      (Double.mul (Double.div (sa : ℚ) (a : ℚ)) (b : ℚ)))
    ((b : ℚ) + (a : ℚ))) 50) 100 = R at *
  have hRlt : R < 2 ^ 46 := by
    have : (1 + 1 / 2 ^ 50 : ℚ) * ((((sb : ℚ) / (b : ℚ) * (a : ℚ) + (sa : ℚ) / (a : ℚ) * (b : ℚ)) /
        ((b : ℚ) + (a : ℚ)) + 50) / 100) ≤ (1 + 1 / 2 ^ 50) * ((2 ^ 52 + 50) / 100) := by
      apply mul_le_mul_of_nonneg_left _ (by norm_num)
      linarith
    have h2 : ((1 + 1 / 2 ^ 50) * ((2 ^ 52 + 50) / 100) : ℚ) < 2 ^ 46 := by norm_num
    linarith
  have hfl0 : 0 ≤ ⌊R⌋ := Int.floor_nonneg.2 hR0
  have hfl1 : ⌊R⌋ < 2 ^ 46 := by
    rw [Int.floor_lt]
    exact_mod_cast hRlt
  have hcast : Double.toLong (some R) = ⌊R⌋ := by
    have htr : truncToLong R = ⌊R⌋ := by unfold truncToLong; rw [if_pos hR0]
    unfold Double.toLong
    simp only [htr]
    rw [if_pos (by unfold IsLong two63; constructor <;> omega)]
  have hmul : toLong (toULong (⌊R⌋ * 100)) = ⌊R⌋ * 100 :=
    toLong_toULong _ (by unfold IsLong two63; constructor <;> omega)
  have hmid : Double.ofLong (⌊R⌋ * 100) = ((⌊R⌋ * 100 : Int) : ℚ) := by
    unfold Double.ofLong
    exact Double.round_intCast _ (by rw [abs_of_nonneg (by omega)]; omega)
  rw [hcast, hmul, hmid]

end InverseVWAP
namespace InverseVWAP

/-- C7: for every snapshot whose filtered volumes, both sides together, are below `2 ^ 63`
(so that the `long` totals hold them), `calculateInverseVWAP` returns the empty result
exactly when the total outlier-filtered bid volume is 0 or the total outlier-filtered ask
volume is 0, and `calculateMid` returns the empty result in exactly the same case; in
every other case both return a numeric value. -/
theorem none_iff_filtered_volume_zero (estimates : MarketStream) (depth : Nat)
    (askPricesIn askVolumesIn bidPricesIn bidVolumesIn : List Nat)
    (hvol : (filteredBidVolumes depth bidPricesIn bidVolumesIn).sum +
      (filteredAskVolumes depth askPricesIn askVolumesIn).sum < two63) :
    (calculateInverseVWAP depth askPricesIn askVolumesIn bidPricesIn bidVolumesIn = none ↔
      (filteredBidVolumes depth bidPricesIn bidVolumesIn).sum = 0 ∨
        (filteredAskVolumes depth askPricesIn askVolumesIn).sum = 0) ∧
    ((calculateMid estimates depth askPricesIn askVolumesIn bidPricesIn bidVolumesIn).1 = none ↔
      (filteredBidVolumes depth bidPricesIn bidVolumesIn).sum = 0 ∨
        (filteredAskVolumes depth askPricesIn askVolumesIn).sum = 0) := by
  have hacb := accumulate_of_lt (filteredBidVolumes depth bidPricesIn bidVolumesIn) (by omega)
  have haca := accumulate_of_lt (filteredAskVolumes depth askPricesIn askVolumesIn) (by omega)
  have h1 : calculateInverseVWAP depth askPricesIn askVolumesIn bidPricesIn bidVolumesIn = none ↔
      (filteredBidVolumes depth bidPricesIn bidVolumesIn).sum = 0 ∨
        (filteredAskVolumes depth askPricesIn askVolumesIn).sum = 0 := by
    unfold calculateInverseVWAP
    simp only [hacb, haca]
    split
    · rename_i h
      constructor
      · intro _
        rcases h with h | h
        · left; exact_mod_cast h
        · right; exact_mod_cast h
      · intro _; rfl
    · rename_i h
      constructor
      · intro hc; cases hc
      · intro hc
        exfalso
        apply h
        rcases hc with hc | hc
        · left; exact_mod_cast hc
        · right; exact_mod_cast hc
  refine ⟨h1, ?_⟩
  rw [← h1]
  unfold calculateMid
  cases calculateInverseVWAP depth askPricesIn askVolumesIn bidPricesIn bidVolumesIn with
  | none => simp
  | some mid => simp

/-- Witness for C7: a snapshot with 10 lots at the ask 110 and no volume on the bid side
has no estimate. -/
theorem none_iff_filtered_volume_zero_witness :
    calculateInverseVWAP 5 [110, 0, 0, 0, 0] [10, 0, 0, 0, 0] [100, 0, 0, 0, 0]
      [0, 0, 0, 0, 0] = none :=
  (none_iff_filtered_volume_zero { data := [] } 5 [110, 0, 0, 0, 0] [10, 0, 0, 0, 0]
    [100, 0, 0, 0, 0] [0, 0, 0, 0, 0] (by decide)).1.2 (Or.inl (by decide))

/-- Beyond the range of `long` the totals wrap: two bid levels of `2 ^ 63` lots each have
the total `2 ^ 64`, which `std::accumulate` returns as 0, and the snapshot has no
estimate although both sides carry volume. -/
theorem wrapped_volume_has_no_estimate :
    (filteredBidVolumes 5 [100, 100, 0, 0, 0]
      [9223372036854775808, 9223372036854775808, 0, 0, 0]).sum = two64 ∧
    (filteredAskVolumes 5 [110, 0, 0, 0, 0] [10, 0, 0, 0, 0]).sum = 10 ∧
    calculateInverseVWAP 5 [110, 0, 0, 0, 0] [10, 0, 0, 0, 0] [100, 100, 0, 0, 0]
      [9223372036854775808, 9223372036854775808, 0, 0, 0] = none := by
  refine ⟨by decide, by decide, by decide!⟩

end InverseVWAP

namespace InverseVWAP

/-- C8 (amended): for every snapshot whose filtered total volumes `B` (bids) and `A` (asks)
are both positive, with the total volume and the two sums of price times volume below
`2 ^ 52`, the estimator returns a multiple `m * 100` of the tick size that differs from
`P = (avgBid × A + avgAsk × B) / (A + B)` by at most `50 + (P + 50) / 2 ^ 50`: the price is
computed in `double` arithmetic, six roundings of relative error `2 ^ (-53)` each, and
then rounded half-up.  The result is `P` rounded half-up to the nearest multiple of 100
whenever `(P + 50) / 100` is at least `(P + 50) / 100 / 2 ^ 50` away from the integers
below and above it, that is when `P` is not within that distance (times 100) of a tie
`k * 100 + 50`. -/
theorem estimate_near_exact_price (depth : Nat)
    (askPricesIn askVolumesIn bidPricesIn bidVolumesIn : List Nat)
    (hB : 0 < (filteredBidVolumes depth bidPricesIn bidVolumesIn).sum)
    (hA : 0 < (filteredAskVolumes depth askPricesIn askVolumesIn).sum)
    (hV : (filteredBidVolumes depth bidPricesIn bidVolumesIn).sum +
      (filteredAskVolumes depth askPricesIn askVolumesIn).sum < 2 ^ 52)
    (hSB : priceVolume depth bidPricesIn (filteredBidVolumes depth bidPricesIn bidVolumesIn)
      < 2 ^ 52)
    (hSA : priceVolume depth askPricesIn (filteredAskVolumes depth askPricesIn askVolumesIn)
      < 2 ^ 52) :
    ∃ m : Int,
      calculateInverseVWAP depth askPricesIn askVolumesIn bidPricesIn bidVolumesIn =
        some ((m * 100 : Int) : ℚ) ∧
      |((m * 100 : Int) : ℚ) -
          exactPrice depth askPricesIn askVolumesIn bidPricesIn bidVolumesIn| ≤
        50 + (exactPrice depth askPricesIn askVolumesIn bidPricesIn bidVolumesIn + 50) / 2 ^ 50 ∧
      ((exactPrice depth askPricesIn askVolumesIn bidPricesIn bidVolumesIn + 50) / 100 / 2 ^ 50 ≤
          Int.fract
            ((exactPrice depth askPricesIn askVolumesIn bidPricesIn bidVolumesIn + 50) / 100) →
        Int.fract
            ((exactPrice depth askPricesIn askVolumesIn bidPricesIn bidVolumesIn + 50) / 100) +
          (exactPrice depth askPricesIn askVolumesIn bidPricesIn bidVolumesIn + 50) / 100 / 2 ^ 50
            < 1 →
        m * 100 =
          roundHalfUp (exactPrice depth askPricesIn askVolumesIn bidPricesIn bidVolumesIn)) := by
  have hres := calculateInverseVWAP_of_small depth askPricesIn askVolumesIn bidPricesIn
    bidVolumesIn hB hA hV hSB hSA
  have hnear := scaledPrice_near
    (priceVolume depth askPricesIn (filteredAskVolumes depth askPricesIn askVolumesIn))
    (priceVolume depth bidPricesIn (filteredBidVolumes depth bidPricesIn bidVolumesIn))
    (filteredAskVolumes depth askPricesIn askVolumesIn).sum
    (filteredBidVolumes depth bidPricesIn bidVolumesIn).sum
  obtain ⟨p0, _⟩ := exactPrice_bound
    (priceVolume depth askPricesIn (filteredAskVolumes depth askPricesIn askVolumesIn))
    (priceVolume depth bidPricesIn (filteredBidVolumes depth bidPricesIn bidVolumesIn))
    (filteredAskVolumes depth askPricesIn askVolumesIn).sum
    (filteredBidVolumes depth bidPricesIn bidVolumesIn).sum hA hB hSA hSB
  have hP : exactPrice depth askPricesIn askVolumesIn bidPricesIn bidVolumesIn =
      (((priceVolume depth bidPricesIn (filteredBidVolumes depth bidPricesIn bidVolumesIn) : Nat)
          : ℚ) / (((filteredBidVolumes depth bidPricesIn bidVolumesIn).sum : Nat) : ℚ) *
          (((filteredAskVolumes depth askPricesIn askVolumesIn).sum : Nat) : ℚ) +
        ((priceVolume depth askPricesIn (filteredAskVolumes depth askPricesIn askVolumesIn) : Nat)
          : ℚ) / (((filteredAskVolumes depth askPricesIn askVolumesIn).sum : Nat) : ℚ) *
          (((filteredBidVolumes depth bidPricesIn bidVolumesIn).sum : Nat) : ℚ)) /
        ((((filteredBidVolumes depth bidPricesIn bidVolumesIn).sum : Nat) : ℚ) +
          (((filteredAskVolumes depth askPricesIn askVolumesIn).sum : Nat) : ℚ)) := rfl
  rw [← hP] at hnear p0
  generalize exactPrice depth askPricesIn askVolumesIn bidPricesIn bidVolumesIn = P at *
  have ht0 : (0 : ℚ) ≤ (P + 50) / 100 := by positivity
  obtain ⟨r1, r2⟩ := near_six _ _ ht0 hnear
  generalize Double.div (Double.add (Double.div
    (Double.add
      (Double.mul (Double.div
        ((priceVolume depth bidPricesIn
          (filteredBidVolumes depth bidPricesIn bidVolumesIn) : Nat) : ℚ)
        (((filteredBidVolumes depth bidPricesIn bidVolumesIn).sum : Nat) : ℚ))
        (((filteredAskVolumes depth askPricesIn askVolumesIn).sum : Nat) : ℚ))
      (Double.mul (Double.div
        ((priceVolume depth askPricesIn
          (filteredAskVolumes depth askPricesIn askVolumesIn) : Nat) : ℚ)
        (((filteredAskVolumes depth askPricesIn askVolumesIn).sum : Nat) : ℚ))
        (((filteredBidVolumes depth bidPricesIn bidVolumesIn).sum : Nat) : ℚ)))
    ((((filteredBidVolumes depth bidPricesIn bidVolumesIn).sum : Nat) : ℚ) +
      (((filteredAskVolumes depth askPricesIn askVolumesIn).sum : Nat) : ℚ))) 50) 100 = R at *
  have f1 := Int.floor_le R
  have f2 := Int.lt_floor_add_one R
  refine ⟨⌊R⌋, hres, ?_, ?_⟩
  · rw [abs_le]
    push_cast
    constructor <;> linarith
  · intro h3 h4
    have g1 := Int.floor_le ((P + 50) / 100)
    unfold Int.fract at h3 h4
    have e1 : ⌊(P + 50) / 100⌋ ≤ ⌊R⌋ := by
      rw [Int.le_floor]
      linarith
    have e2 : ⌊R⌋ < ⌊(P + 50) / 100⌋ + 1 := by
      rw [Int.floor_lt]
      push_cast
      linarith
    unfold roundHalfUp
    have : ⌊R⌋ = ⌊(P + 50) / 100⌋ := by omega
    rw [this]

/-- C8 (counterexample): asks 136200 (1 lot) and 136300 (2 lots), bid 136100 (27 lots).
The exact price is `P = 136250`, a tie, which rounds half-up to 136300.  In `double`
arithmetic the average ask `408800 / 3` is rounded down, the price comes out as
`4681514352639999 / 2 ^ 35`, just below 136250, and the estimator returns 136200. -/
theorem estimate_rounds_tie_down :
    filteredAskVolumes 5 [136200, 136300, 0, 0, 0] [1, 2, 0, 0, 0] = [1, 2, 0, 0, 0] ∧
    filteredBidVolumes 5 [136100, 0, 0, 0, 0] [27, 0, 0, 0, 0] = [27, 0, 0, 0, 0] ∧
    exactPrice 5 [136200, 136300, 0, 0, 0] [1, 2, 0, 0, 0] [136100, 0, 0, 0, 0]
      [27, 0, 0, 0, 0] = 136250 ∧
    roundHalfUp 136250 = 136300 ∧
    Double.div 408800 3 = 4682087014946133 / 34359738368 ∧
    Double.div (Double.add (Double.mul (Double.div 3674700 27) 3)
      (Double.mul (Double.div 408800 3) 27)) 30 = 4681514352639999 / 34359738368 ∧
    (4681514352639999 / 34359738368 : ℚ) < 136250 ∧
    calculateInverseVWAP 5 [136200, 136300, 0, 0, 0] [1, 2, 0, 0, 0] [136100, 0, 0, 0, 0]
      [27, 0, 0, 0, 0] = some 136200 := by
  refine ⟨by decide, by decide, by decide!, by decide!, by decide!, by decide!, by decide!,
    by decide!⟩

/-- Witness for C8: the snapshot with the single levels bid 100 (10 lots) and ask 110
(10 lots).  The exact price is 105, not near a tie, and the estimator returns 100. -/
theorem estimate_near_exact_price_witness :
    calculateInverseVWAP 5 [110, 0, 0, 0, 0] [10, 0, 0, 0, 0] [100, 0, 0, 0, 0]
      [10, 0, 0, 0, 0] = some 100 ∧
    exactPrice 5 [110, 0, 0, 0, 0] [10, 0, 0, 0, 0] [100, 0, 0, 0, 0] [10, 0, 0, 0, 0] = 105 ∧
    roundHalfUp 105 = 100 := by
  have hP : exactPrice 5 [110, 0, 0, 0, 0] [10, 0, 0, 0, 0] [100, 0, 0, 0, 0]
      [10, 0, 0, 0, 0] = 105 := by decide!
  have hr : roundHalfUp 105 = 100 := by decide!
  obtain ⟨m, h1, _, h3⟩ := estimate_near_exact_price 5 [110, 0, 0, 0, 0] [10, 0, 0, 0, 0]
    [100, 0, 0, 0, 0] [10, 0, 0, 0, 0] (by decide) (by decide) (by decide) (by decide)
    (by decide)
  rw [hP] at h3
  have hm := h3 (by decide!) (by decide!)
  rw [hr] at hm
  rw [h1, hm]
  exact ⟨rfl, hP, hr⟩

end InverseVWAP

end AlgoMM
